import Mathlib

/-!
# Local entity pool, trace combination and path moves (`src/client/battlescape/cl_localentity.c`)

A shallow embedding of the local entity (LE) management functions, of the client side
trace, of the think functions of the battlescape code, of the projectiles, of the searches
by distance and of the list of local models.

Conventions of the embedding:

* a pointer `le_t *` into `cl.LEs` is the slot index, `Option Nat` with `none` for `NULL`;
* `Com_Error (ERR_DROP, ...)` does not return: a function that may call it returns
  `Except String _`, the error carrying the message (the format string, without its
  arguments and without the newline at its end);
* a `while` loop over the pool is a recursive function on the cursor, well founded on the
  number of slots behind the cursor, so every embedded function is total;
* `assert`s are not part of the embedding; the properties are stated for cursors that
  satisfy them;
* `float` values (`trace_t.fraction`, vector components) are exact rationals;
* constants whose `#define` lives in a header that is not part of the sources at hand
  (`MAX_EDICTS`, `ACTOR_SIZE_NORMAL`, `SKIP_LOCAL_ENTITY`, `CONTENTS_SOLID`) are parameters,
  and so are the collision routines the trace calls (`collision_t`) and the macros, tables
  and routines of the client the think functions use (`client_t`);
* calls that leave the pool (sound, particles, renderer, actor code) are recorded in a
  list of requests `effect_t`, in the order they are made;
* the client time `cl.time` is a field of the pool, and the think calls of an entity over
  several frames are `LE_ExecuteThink.frames`;
* the loop of `LE_Think` calls think functions, which are a parameter and may change the
  pool in any way: it is given a number of passes and returns `none` when they do not
  suffice (more passes than slots suffice for think functions that keep `numLEs`);
* where the code reads through a pointer it does not test (`le->ptl`, `le->fd`), a `NULL`
  pointer is the error `NULL pointer`;
* the local models `cl.LMs`, `cl.numLMs` are a state of their own, `localModels_t`.
-/

namespace UFO

/-! ## Data model -/

/-- Three component vector `vec3_t`. -/
structure vec3_t where
  x : ℚ
  y : ℚ
  z : ℚ
  deriving DecidableEq

/-- The constant `vec3_origin`. -/
def vec3_origin : vec3_t := ⟨0, 0, 0⟩

/-- Component `v[i]` of a vector (0 for an index outside the array). -/
def vec3_t.get (v : vec3_t) (i : Nat) : ℚ :=
  match i with
  | 0 => v.x
  | 1 => v.y
  | 2 => v.z
  | _ => 0

/-- The assignment `v[i] = a` (no change for an index outside the array). -/
def vec3_t.set (v : vec3_t) (i : Nat) (a : ℚ) : vec3_t :=
  match i with
  | 0 => { v with x := a }
  | 1 => { v with y := a }
  | 2 => { v with z := a }
  | _ => v

/-- The macro `VectorSubtract (a, b, c)`: the value of `c`. -/
def VectorSubtract (a b : vec3_t) : vec3_t := ⟨a.x - b.x, a.y - b.y, a.z - b.z⟩

/-- The macro `VectorAdd (a, b, c)`: the value of `c`. -/
def VectorAdd (a b : vec3_t) : vec3_t := ⟨a.x + b.x, a.y + b.y, a.z + b.z⟩

/-- The macro `VectorMA (veca, scale, vecb, vecc)`: `vecc = veca + scale * vecb`. -/
def VectorMA (veca : vec3_t) (scale : ℚ) (vecb : vec3_t) : vec3_t :=
  ⟨veca.x + scale * vecb.x, veca.y + scale * vecb.y, veca.z + scale * vecb.z⟩

/-- Conversion of a `float` or `double` value to `int`: truncation toward zero. -/
def truncToInt (q : ℚ) : Int := if 0 ≤ q then ⌊q⌋ else ⌈q⌉

/-- Grid position `pos3_t`. -/
structure pos3_t where
  x : Int
  y : Int
  z : Int
  deriving DecidableEq

/-- The think functions defined in `cl_localentity.c`, the values of the function
pointer `void (*think) (le_t *le)` (`NULL` is `none`). -/
inductive think_t where
  | LET_StartIdle
  | LET_StartPathMove
  | LET_PathMove
  | LET_Projectile
  | LET_BrushModel
  deriving DecidableEq

/-- Particle `ptl_t`: the fields `cl_localentity.c` reads or writes (position `s`,
velocity `v`, acceleration `a`, `angles`, `omega` and `size[0]`). A pointer `ptl_t *` is
the record it points to, `NULL` is `none`. -/
structure ptl_t where
  s : vec3_t
  v : vec3_t
  a : vec3_t
  angles : vec3_t
  omega : vec3_t
  size0 : ℚ
  deriving DecidableEq

/-- Fire definition `fireDef_t`: the fields `cl_localentity.c` reads; `dmgtype` is
`fd->obj->dmgtype`. A name that is not set is the empty string. -/
structure fireDef_t where
  projectile : String
  hitBody : String
  hitBodySound : String
  impact : String
  impactSound : String
  bounceSound : String
  speed : ℚ
  splrad : ℚ
  bounce : Int
  dmgtype : Int
  deriving DecidableEq

/-- Modelled from the spec: the entity record `le_t` is declared in a header that is not
among the sources; the fields are those `cl_localentity.c` reads or writes in the
functions embedded here (lifecycle flags, server id, kind, think hook, path cursor,
collision data, grid positions, path, lighting flag, floor container, render data,
player number, think delay and rotation speed of brush models, and the particle, the
references and the fire definition of a projectile).
The floor container `FLOOR (le)` is the list of the object ids of its items (`NULL` is
the empty list), `lighting.dirty` is `lighting_dirty`, the animation state `as` and the
pointers `model1` and `addFunc` are handles, `ref3` is the slot of the entity it points
to, and `hitParticle` is `teamDef->hitParticle` (`none` for `teamDef == NULL`). -/
structure le_t where
  inuse : Bool
  removeNextFrame : Bool
  invis : Bool
  locked : Bool
  entnum : Int
  type : Int
  think : Option think_t
  fieldSize : Int
  pathPos : Int
  pathLength : Int
  startTime : Int
  endTime : Int
  contents : Nat
  levelflags : Nat
  modelnum1 : Nat
  origin : vec3_t
  angles : vec3_t
  mins : vec3_t
  maxs : vec3_t
  pos : pos3_t
  oldPos : pos3_t
  newPos : pos3_t
  path : List Nat
  speed : List Int
  pathContents : List Nat
  dir : Nat
  state : Nat
  positionContents : Nat
  lighting_dirty : Bool
  floor : List Nat
  right : Int
  left : Int
  alpha : ℚ
  skinnum : Int
  model1 : Option Nat
  as_ : Nat
  addFunc : Option Nat
  pnum : Int
  thinkDelay : Int
  rotationSpeed : ℚ
  ptl : Option ptl_t
  ref1 : Option String
  ref2 : Option String
  ref3 : Option Nat
  fd : Option fireDef_t
  hitParticle : Option String
  deriving DecidableEq

/-- The record `memset (le, 0, sizeof (*le))` leaves behind: every field zero / `NULL`. -/
def le_zero : le_t where
  inuse := false
  removeNextFrame := false
  invis := false
  locked := false
  entnum := 0
  type := 0
  think := none
  fieldSize := 0
  pathPos := 0
  pathLength := 0
  startTime := 0
  endTime := 0
  contents := 0
  levelflags := 0
  modelnum1 := 0
  origin := vec3_origin
  angles := vec3_origin
  mins := vec3_origin
  maxs := vec3_origin
  pos := ⟨0, 0, 0⟩
  oldPos := ⟨0, 0, 0⟩
  newPos := ⟨0, 0, 0⟩
  path := []
  speed := []
  pathContents := []
  dir := 0
  state := 0
  positionContents := 0
  lighting_dirty := false
  floor := []
  right := 0
  left := 0
  alpha := 0
  skinnum := 0
  model1 := none
  as_ := 0
  addFunc := none
  pnum := 0
  thinkDelay := 0
  rotationSpeed := 0
  ptl := none
  ref1 := none
  ref2 := none
  ref3 := none
  fd := none
  hitParticle := none

/-- The part of the client battlescape state `cl` the embedded functions use: the array
`cl.LEs` (indexed by slot), the number `cl.numLEs` of slots handed out so far and the
client time `cl.time` in milliseconds. -/
structure clientBattleScape_t where
  LEs : Nat → le_t
  numLEs : Nat
  time : Int := 0

/-- Write `le` to slot `i` of the pool, every other slot untouched. -/
def setLE (cl : clientBattleScape_t) (i : Nat) (le : le_t) : clientBattleScape_t :=
  { cl with LEs := fun j => if j = i then le else cl.LEs j }

/-! ## Pool iteration -/

/-- Function `LE_GetNext`: the slot after `lastLE`, or the first one for `NULL`;
`NULL` at the end of the used part of the array and on an empty pool. -/
def LE_GetNext (cl : clientBattleScape_t) (lastLE : Option Nat) : Option Nat :=
  if cl.numLEs = 0 then none
  else
    match lastLE with
    | none => some 0
    | some i => if i + 1 ≥ cl.numLEs then none else some (i + 1)

/-- Number of slots of the used part of the array that lie behind a cursor. -/
def slotsAfter (cl : clientBattleScape_t) (le : Option Nat) : Nat :=
  match le with
  | none => cl.numLEs
  | some i => cl.numLEs - (i + 1)

theorem LE_GetNext_slotsAfter {cl : clientBattleScape_t} {le : Option Nat} {j : Nat}
    (h : LE_GetNext cl le = some j) : slotsAfter cl (some j) < slotsAfter cl le := by
  unfold LE_GetNext at h
  split at h
  · simp at h
  · cases le with
    | none =>
      simp only [Option.some.injEq] at h
      subst h
      simp only [slotsAfter]
      omega
    | some i =>
      simp only at h
      split at h
      · simp at h
      · simp only [Option.some.injEq] at h
        subst h
        simp only [slotsAfter]
        omega

/-- Function `LE_GetNextInUse`: advance with `LE_GetNext` until a slot with `inuse` is found. -/
def LE_GetNextInUse (cl : clientBattleScape_t) (lastLE : Option Nat) : Option Nat :=
  match h : LE_GetNext cl lastLE with
  | none => none
  | some j => if (cl.LEs j).inuse then some j else LE_GetNextInUse cl (some j)
termination_by slotsAfter cl lastLE
decreasing_by exact LE_GetNext_slotsAfter h

theorem LE_GetNextInUse_slotsAfter (cl : clientBattleScape_t) (le : Option Nat) :
    ∀ j, LE_GetNextInUse cl le = some j → slotsAfter cl (some j) < slotsAfter cl le := by
  generalize hn : slotsAfter cl le = n
  induction n using Nat.strong_induction_on generalizing le with
  | _ n ih =>
    intro j hj
    rw [LE_GetNextInUse] at hj
    split at hj
    · simp at hj
    · rename_i k hk
      have hlt := LE_GetNext_slotsAfter hk
      split at hj
      · simp only [Option.some.injEq] at hj
        subst hj
        omega
      · have := ih _ (by omega) (some k) rfl j hj
        omega

/-- The slots a caller visits with the loop `while ((le = LE_GetNextInUse (le)))`
when it starts from the cursor `le` and never leaves the loop early. -/
def inUseAfter (cl : clientBattleScape_t) (le : Option Nat) : List Nat :=
  match h : LE_GetNextInUse cl le with
  | none => []
  | some j => j :: inUseAfter cl (some j)
termination_by slotsAfter cl le
decreasing_by exact LE_GetNextInUse_slotsAfter cl le j h

/-! ## Pool management -/

/-- The search loop of `LE_Add`:
`while ((le = LE_GetNext (le))) { if (!le->inuse) break; }`, started at the cursor `le`. -/
def LE_Add.scan (cl : clientBattleScape_t) (le : Option Nat) : Option Nat :=
  match h : LE_GetNext cl le with
  | none => none
  | some j => if !(cl.LEs j).inuse then some j else LE_Add.scan cl (some j)
termination_by slotsAfter cl le
decreasing_by exact LE_GetNext_slotsAfter h

/-- The tail of `LE_Add`: `memset` the slot to zero, then set `inuse`, `entnum` and
`fieldSize`; the pointer to the slot is the return value. -/
def LE_Add.init (ACTOR_SIZE_NORMAL : Int) (cl : clientBattleScape_t) (i : Nat) (entnum : Int) :
    clientBattleScape_t × Option Nat :=
  (setLE cl i { le_zero with inuse := true, entnum := entnum, fieldSize := ACTOR_SIZE_NORMAL },
   some i)

/-- Function `LE_Add`: reuse the first free slot, else take slot `cl.numLEs` and make the list
longer; `Com_Error` when the list cannot grow. Returns the new state and the pointer. -/
def LE_Add (MAX_EDICTS : Nat) (ACTOR_SIZE_NORMAL : Int) (cl : clientBattleScape_t)
    (entnum : Int) : Except String (clientBattleScape_t × Option Nat) :=
  match LE_Add.scan cl none with
  | some i => .ok (LE_Add.init ACTOR_SIZE_NORMAL cl i entnum)
  | none =>
    if cl.numLEs ≥ MAX_EDICTS then .error "Too many LEs"
    else .ok (LE_Add.init ACTOR_SIZE_NORMAL { cl with numLEs := cl.numLEs + 1 } cl.numLEs entnum)

/-- The search loop of `LE_Get`:
`while ((le = LE_GetNextInUse (le))) { if (le->entnum == entnum) return le; }`. -/
def LE_Get.loop (cl : clientBattleScape_t) (entnum : Int) (le : Option Nat) : Option Nat :=
  match h : LE_GetNextInUse cl le with
  | none => none
  | some j => if (cl.LEs j).entnum = entnum then some j else LE_Get.loop cl entnum (some j)
termination_by slotsAfter cl le
decreasing_by exact LE_GetNextInUse_slotsAfter cl le j h

/-- Function `LE_Get`: the entity with the given server side number, `NULL` for the sentinel. -/
def LE_Get (SKIP_LOCAL_ENTITY : Int) (cl : clientBattleScape_t) (entnum : Int) : Option Nat :=
  if entnum = SKIP_LOCAL_ENTITY then none else LE_Get.loop cl entnum none

/-- Function `LE_Lock` on the record behind the pointer. -/
def LE_Lock (le : le_t) : Except String le_t :=
  if le.locked then .error "LE_Lock: Trying to lock %i which is already locked"
  else .ok { le with locked := true }

/-- Function `LE_Unlock` on the record behind the pointer. -/
def LE_Unlock (le : le_t) : Except String le_t :=
  if !le.locked then .error "LE_Unlock: Trying to unlock %i which is already unlocked"
  else .ok { le with locked := false }

/-! ## Tracing against local entities -/

/-- Plane of a trace result, `cBspPlane_t`. -/
structure cBspPlane_t where
  normal : vec3_t
  dist : ℚ
  type : Int
  deriving DecidableEq

/-- Modelled from the spec: the trace result `trace_t` is declared in a header that is not
among the sources; the fields are the ones of the spec's `TraceResult` (fraction,
startSolid, allSolid, hit entity, hit surface) together with the plane and end position
of the hit. -/
structure trace_t where
  allsolid : Bool
  startsolid : Bool
  fraction : ℚ
  endpos : vec3_t
  plane : cBspPlane_t
  surface : Option Nat
  contentFlags : Nat
  le : Option Nat
  deriving DecidableEq

/-- The fields of an inline model `cBspModel_t` that `CL_HullForEntity` reads. -/
structure cBspModel_t where
  tile : Int
  shift : vec3_t
  headnode : Int
  deriving DecidableEq

/-- Client side moveclip `moveclip_t` (the vectors are held by value). -/
structure moveclip_t where
  boxmins : vec3_t
  boxmaxs : vec3_t
  mins : vec3_t
  maxs : vec3_t
  start : vec3_t
  end_ : vec3_t
  trace : trace_t
  passle : Option Nat
  passle2 : Option Nat
  contentmask : Nat

/-- The collision code and map data that `cl_localentity.c` calls but does not define:
the world trace `TR_CompleteBoxTrace`, the entity sweep `CM_HintedTransformedBoxTrace`,
the box hull `CM_HeadnodeForBox`, the table `cl.model_clip` and the flag
`CONTENTS_SOLID`. -/
structure collision_t where
  CONTENTS_SOLID : Nat
  model_clip : Nat → Option cBspModel_t
  TR_CompleteBoxTrace : vec3_t → vec3_t → vec3_t → vec3_t → Nat → Nat → Nat → trace_t
  CM_HeadnodeForBox : Int → vec3_t → vec3_t → Int
  CM_HintedTransformedBoxTrace : Int → vec3_t → vec3_t → vec3_t → vec3_t → Int → Nat → Nat →
    vec3_t → vec3_t → vec3_t → ℚ → trace_t

/-- Function `CL_HullForEntity`: the head node for the entity, with the out parameters `tile`,
`rmaShift` and `angles`; the result is `(headnode, tile, rmaShift, angles)`. -/
def CL_HullForEntity (env : collision_t) (le : le_t) :
    Except String (Int × Int × vec3_t × vec3_t) :=
  if le.contents &&& env.CONTENTS_SOLID ≠ 0 then
    match env.model_clip le.modelnum1 with
    | none => .error "CL_HullForEntity: Error - le with NULL bmodel (%i)"
    | some model => .ok (model.headnode, model.tile, model.shift, le.angles)
  else
    .ok (env.CM_HeadnodeForBox 0 le.mins le.maxs, 0, vec3_origin, vec3_origin)

/-- The sweep of one entity in `CL_ClipMoveToLEs`: the hull of the entity and the
transformed box trace against it (the value of the local variable `trace`). -/
def CL_ClipMoveToLEs.sweep (env : collision_t) (clip : moveclip_t) (le : le_t) :
    Except String trace_t :=
  match CL_HullForEntity env le with
  | .error msg => .error msg
  | .ok (headnode, tile, shift, angles) =>
    .ok (env.CM_HintedTransformedBoxTrace tile clip.start clip.end_ clip.mins clip.maxs
      headnode clip.contentmask 0 le.origin angles shift 1)

/-- The combination rule of `CL_ClipMoveToLEs` for the sweep `trace` of the entity in
slot `j`: a closer sweep replaces the result and keeps an earlier `startsolid`; else
an `allsolid` sweep replaces the result; else a `startsolid` sweep only sets the flag. -/
def CL_ClipMoveToLEs.combine (clip : moveclip_t) (j : Nat) (trace : trace_t) : moveclip_t :=
  if trace.fraction < clip.trace.fraction then
    let oldStart := clip.trace.startsolid
    let trace := { trace with le := some j }
    { clip with trace := { trace with startsolid := trace.startsolid || oldStart } }
  else if trace.allsolid then
    let trace := { trace with le := some j }
    { clip with trace := trace }
  else if trace.startsolid then
    { clip with trace := { clip.trace with startsolid := true } }
  else clip

/-- The body of the loop of `CL_ClipMoveToLEs` for the entity in slot `j`
(`continue` leaves the clip as it is). -/
def CL_ClipMoveToLEs.body (env : collision_t) (cl : clientBattleScape_t) (clip : moveclip_t)
    (j : Nat) : Except String moveclip_t :=
  if (cl.LEs j).contents &&& clip.contentmask = 0 then .ok clip
  else if some j = clip.passle ∨ some j = clip.passle2 then .ok clip
  else
    match CL_ClipMoveToLEs.sweep env clip (cl.LEs j) with
    | .error msg => .error msg
    | .ok trace => .ok (CL_ClipMoveToLEs.combine clip j trace)

/-- The loop `while ((le = LE_GetNextInUse (le)))` of `CL_ClipMoveToLEs`. -/
def CL_ClipMoveToLEs.loop (env : collision_t) (cl : clientBattleScape_t) (clip : moveclip_t)
    (le : Option Nat) : Except String moveclip_t :=
  match h : LE_GetNextInUse cl le with
  | none => .ok clip
  | some j =>
    match CL_ClipMoveToLEs.body env cl clip j with
    | .error msg => .error msg
    | .ok clip' => CL_ClipMoveToLEs.loop env cl clip' (some j)
termination_by slotsAfter cl le
decreasing_by exact LE_GetNextInUse_slotsAfter cl le j h

/-- Function `CL_ClipMoveToLEs`: clip against the solid entities, unless the world trace is
already `allsolid`. -/
def CL_ClipMoveToLEs (env : collision_t) (cl : clientBattleScape_t) (clip : moveclip_t) :
    Except String moveclip_t :=
  if clip.trace.allsolid then .ok clip
  else CL_ClipMoveToLEs.loop env cl clip none

/-- Function `CL_TraceBounds`: the bounding box of the entire move, expanded by 1;
the result is `(boxmins, boxmaxs)`. -/
def CL_TraceBounds (start mins maxs end_ : vec3_t) : vec3_t × vec3_t :=
  let lo (s e mn : ℚ) : ℚ := if e > s then s + mn - 1 else e + mn - 1
  let hi (s e mx : ℚ) : ℚ := if e > s then e + mx + 1 else s + mx + 1
  (⟨lo start.x end_.x mins.x, lo start.y end_.y mins.y, lo start.z end_.z mins.z⟩,
   ⟨hi start.x end_.x maxs.x, hi start.y end_.y maxs.y, hi start.z end_.z maxs.z⟩)

/-- The world trace at the head of `CL_Trace`, with `clip.trace.le = NULL`. -/
def CL_Trace.world (env : collision_t) (start end_ mins maxs : vec3_t) (contentmask : Nat)
    (worldLevel : Nat) : trace_t :=
  { env.TR_CompleteBoxTrace start end_ mins maxs ((1 <<< (worldLevel + 1)) - 1) contentmask 0
      with le := none }

/-- The moveclip `CL_Trace` hands to `CL_ClipMoveToLEs`. -/
def CL_Trace.clip (env : collision_t) (start end_ mins maxs : vec3_t)
    (passle passle2 : Option Nat) (contentmask : Nat) (worldLevel : Nat) : moveclip_t :=
  { boxmins := (CL_TraceBounds start mins maxs end_).1
    boxmaxs := (CL_TraceBounds start mins maxs end_).2
    mins := mins
    maxs := maxs
    start := start
    end_ := end_
    trace := CL_Trace.world env start end_ mins maxs contentmask worldLevel
    passle := passle
    passle2 := passle2
    contentmask := contentmask }

/-- Function `CL_Trace`: move the box through the world, then through the local entities. -/
def CL_Trace (env : collision_t) (cl : clientBattleScape_t) (start end_ mins maxs : vec3_t)
    (passle passle2 : Option Nat) (contentmask : Nat) (worldLevel : Nat) :
    Except String trace_t :=
  if (CL_Trace.world env start end_ mins maxs contentmask worldLevel).fraction = 0 then
    .ok (CL_Trace.world env start end_ mins maxs contentmask worldLevel)
  else
    match CL_ClipMoveToLEs env cl
        (CL_Trace.clip env start end_ mins maxs passle passle2 contentmask worldLevel) with
    | .error msg => .error msg
    | .ok clip => .ok clip.trace

/-! ## Think functions and path moves -/

/-- Terrain definition `terrainType_t`: the fields the footstep code reads. -/
structure terrainType_t where
  particle : Option String
  footStepSound : Option String
  footStepVolume : ℚ

/-- Object definition `objDef_t`: the fields `LE_GetAnim` reads. -/
structure objDef_t where
  type : String
  animationIndex : Char

/-- Render entity `entity_t`: the fields `LE_AddToScene` and the add functions use. The
pointer `lighting` is the slot of the local entity it points into. -/
structure entity_t where
  alpha : ℚ
  angles : vec3_t
  origin : vec3_t
  oldorigin : vec3_t
  mins : vec3_t
  maxs : vec3_t
  model : Option Nat
  skinnum : Int
  as_ : Nat
  isOriginBrushModel : Bool
  lighting : Option Nat
  deriving DecidableEq

/-- The calls that leave the entity pool: requests to the sound, particle and render
code and to the actor code, in the order they are made. The first constructor records
that `LE_PlayFootStepSound` was entered, with the grid position of the entity, and
`LE_ActorBodyHit` records that this routine was entered, with the slot of the actor, the
impact location and the index of the normal. -/
inductive effect_t where
  | LE_PlayFootStepSound (pos : pos3_t)
  | S_PlaySample (origin : vec3_t) (sample : String)
  | CL_ParticleSpawn (name : String) (origin : vec3_t)
  | CL_ActorConditionalMoveCalc (entnum : Int)
  | R_AddEntity (ent : entity_t)
  | CL_ParticleFree (ptl : Option ptl_t)
  | LE_ActorBodyHit (victim : Nat) (impact : vec3_t) (normal : Nat)
  | CL_ActorPlaySound (victim : Nat) (soundType : Int)
  deriving DecidableEq

/-- The constants, macros, tables, cvars and external routines that `cl_localentity.c`
uses and that are defined outside the sources at hand. -/
structure client_t where
  collision : collision_t
  UNIT_SIZE : Nat
  UNIT_HEIGHT : Nat
  CORE_DIRECTIONS : Nat
  BASE_DIRECTIONS : Nat
  FLYING_DIRECTIONS : Nat
  DIRECTION_FALL : Nat
  YAW : Nat
  ROLL : Nat
  MASK_SOLID : Nat
  CONTENTS_WATER : Nat
  CONTENTS_DETAIL : Nat
  STATE_CROUCHED : Nat
  ET_ACTOR : Int
  ET_ACTOR2x2 : Int
  ET_ACTORHIDDEN : Int
  ET_ITEM : Int
  ET_DOOR : Int
  ET_ROTATING : Int
  ACTOR_SIZE_NORMAL : Int
  ACTOR_SIZE_2x2 : Int
  BOX_DELTA_WIDTH : Int
  BOX_DELTA_LENGTH : Int
  GROUND_DELTA : ℚ
  NONE : Int
  cl_worldlevel : Nat
  cl_le_debug : Int
  Grid_PosToVec : Int → pos3_t → vec3_t
  PosToVec : pos3_t → vec3_t
  getDVdir : Nat → Nat
  PosAddDV : pos3_t → Nat → Nat → pos3_t × Nat
  directionAngles : Nat → ℚ
  LE_IsDead : le_t → Bool
  LE_IsPaniced : le_t → Bool
  LE_IsCrouched : le_t → Bool
  LE_GetAnimationIndexForDeath : le_t → Nat
  R_AnimChange : Nat → Option Nat → String → Nat
  Com_GetTerrainType : String → Option terrainType_t
  surfaceName : Nat → String
  ods : Int → objDef_t
  INVSH_ShapeSize : Nat → Int
  modelPool : Nat → Option Nat
  itemCenter : Nat → vec3_t
  callAddFunc : Nat → le_t → entity_t → Bool × le_t × entity_t
  MAX_VAR : Nat
  ET_NULL : Int
  SF_BODY : Nat
  SF_IMPACT : Nat
  SF_BOUNCING : Nat
  GRAVITY : ℚ
  damStunGas : Int
  SND_HURT : Int
  cl_leshowinvis : Int
  ca_active : Int
  bytedirs : Nat → vec3_t
  VecToAngles : vec3_t → vec3_t
  VectorLength : vec3_t → ℚ
  CL_OutsideMap : vec3_t → ℚ → Bool
  CL_ParticleSpawn : String → vec3_t → Option vec3_t → Option vec3_t → Option ptl_t
  R_AnimRun : Nat → Option Nat → Int → Nat
  crand : Nat → ℚ

/-- Function `LE_SetThink`. -/
def LE_SetThink (le : le_t) (think : Option think_t) : le_t :=
  { le with think := think }

/-- Function `LE_IsActor`. -/
def LE_IsActor (env : client_t) (le : le_t) : Bool :=
  decide (le.type = env.ET_ACTOR) || decide (le.type = env.ET_ACTOR2x2) ||
    decide (le.type = env.ET_ACTORHIDDEN)

/-- Function `LE_IsLivingActor`. -/
def LE_IsLivingActor (env : client_t) (le : le_t) : Bool :=
  LE_IsActor env le && !env.LE_IsDead le

/-- Function `LE_IsLivingAndVisibleActor`. -/
def LE_IsLivingAndVisibleActor (env : client_t) (le : le_t) : Bool :=
  if le.invis then false else LE_IsLivingActor env le

/-- The text `Com_sprintf` leaves in a buffer of `size` bytes: at most `size - 1`
characters (one byte per character). -/
def Com_sprintf (size : Nat) (text : String) : String := String.mk (text.data.take (size - 1))

/-- The text `Q_strncpyz (dest, src, destsize)` leaves in `dest`: at most `destsize - 1`
characters of `src`. -/
def Q_strncpyz (destsize : Nat) (src : String) : String :=
  String.mk (src.data.take (destsize - 1))

/-- Function `LE_GetAnim`, with the static buffer `retAnim` of `MAX_VAR` bytes. The
result for a `NULL` name is the empty string. In the branch for "stand" and "walk" the
code writes the animation index behind the copied name without a test of the length;
the value given here is that for a name that fits the buffer, and the properties are
stated for such names. -/
def LE_GetAnim (env : client_t) (anim : Option String) (right left : Int) (state : Nat) :
    String :=
  match anim with
  | none => ""
  | some anim =>
    let crouch : String := if state &&& env.STATE_CROUCHED ≠ 0 then "c" else ""
    let animationIndex : Char :=
      if right = env.NONE then '0' else (env.ods right).animationIndex
    let type : String :=
      if right = env.NONE then
        if left = env.NONE then "item" else (env.ods left).type
      else (env.ods right).type
    let akimbo : Bool :=
      if right = env.NONE then
        if left = env.NONE then false else decide ((env.ods left).type ≠ "grenade")
      else
        decide (left ≠ env.NONE) && decide ((env.ods right).type = "pistol") &&
          decide ((env.ods left).type = "pistol")
    if anim.take 5 = "stand" ∨ anim.take 4 = "walk" then
      crouch ++ anim ++ String.singleton animationIndex
    else
      crouch ++ Com_sprintf (env.MAX_VAR - crouch.length)
        (anim ++ "_" ++ (if akimbo then "pistol_d" else type))

/-- Function `LET_StartIdle`: change to the idle animation, reset the path cursor and
clear the think function. -/
def LET_StartIdle (env : client_t) (le : le_t) : le_t :=
  let anim : String :=
    if env.LE_IsDead le then "dead" ++ toString (env.LE_GetAnimationIndexForDeath le)
    else if env.LE_IsPaniced le then "panic0"
    else LE_GetAnim env (some "stand") le.right le.left le.state
  let le : le_t :=
    if le.type ≠ env.ET_ACTORHIDDEN then
      { le with as_ := env.R_AnimChange le.as_ le.model1 anim }
    else le
  let le : le_t := { le with pathPos := 0, pathLength := 0 }
  LE_SetThink le none

/-- Function `LE_PlaySoundFileForContents`: the water sounds of a moving actor. -/
def LE_PlaySoundFileForContents (le : le_t) (CONTENTS_WATER STATE_CROUCHED : Nat)
    (contents : Nat) : List effect_t :=
  if le.state ^^^ (le.state &&& STATE_CROUCHED) ≠ 0 then
    if contents &&& CONTENTS_WATER ≠ 0 then
      if le.positionContents &&& CONTENTS_WATER ≠ 0 then
        [effect_t.S_PlaySample le.origin "SOUND_WATER_OUT"]
      else
        [effect_t.S_PlaySample le.origin "SOUND_WATER_IN"]
    else if le.positionContents &&& CONTENTS_WATER ≠ 0 then
      [effect_t.S_PlaySample le.origin "SOUND_WATER_MOVE"]
    else []
  else []

/-- Function `LE_PlaySoundFileAndParticleForSurface`: step sound and particle of the
terrain type of the texture. -/
def LE_PlaySoundFileAndParticleForSurface (env : client_t) (le : le_t) (textureName : String) :
    List effect_t :=
  match env.Com_GetTerrainType textureName with
  | none => []
  | some t =>
    let origin := env.PosToVec le.pos
    (match t.particle with
      | some particle =>
        if LE_IsLivingAndVisibleActor env le then [effect_t.CL_ParticleSpawn particle origin]
        else []
      | none => []) ++
    (match t.footStepSound with
      | some sound => [effect_t.S_PlaySample origin sound]
      | none => [])

/-- Function `LE_PlayFootStepSound` for the entity in slot `i`: on dry ground a trace
down to the ground decides on the surface sound, in water the contents do. -/
def LE_PlayFootStepSound (env : client_t) (cl : clientBattleScape_t) (i : Nat) :
    Except String (List effect_t) :=
  let le := cl.LEs i
  if le.pathContents.getD le.pathPos.toNat 0 = 0 then
    let from_ := env.PosToVec le.pos
    let to_ : vec3_t := { from_ with z := from_.z - env.UNIT_HEIGHT }
    match CL_Trace env.collision cl from_ to_ vec3_origin vec3_origin none none env.MASK_SOLID
        env.cl_worldlevel with
    | .error msg => .error msg
    | .ok trace =>
      match trace.surface with
      | some surface =>
        .ok (effect_t.LE_PlayFootStepSound le.pos ::
          LE_PlaySoundFileAndParticleForSurface env le (env.surfaceName surface))
      | none => .ok [effect_t.LE_PlayFootStepSound le.pos]
  else
    .ok (effect_t.LE_PlayFootStepSound le.pos ::
      LE_PlaySoundFileForContents le env.CONTENTS_WATER env.STATE_CROUCHED
        (le.pathContents.getD le.pathPos.toNat 0))

/-- Function `LE_ActorGetStepTime`: the duration of a step in milliseconds. The value
1.41 stands for sqrt(2) for diagonal movement. -/
def LE_ActorGetStepTime (env : client_t) (le : le_t) (pos oldPos : pos3_t) (dir : Nat)
    (speed : Int) : Int :=
  if dir ≠ env.DIRECTION_FALL then
    truncToInt ((if dir &&& (env.CORE_DIRECTIONS - 1) ≥ env.BASE_DIRECTIONS
      then (env.UNIT_SIZE : ℚ) * 1.41 else (env.UNIT_SIZE : ℚ)) * 1000 / (speed : ℚ))
  else
    let start := env.Grid_PosToVec le.fieldSize oldPos
    let dest := env.Grid_PosToVec le.fieldSize pos
    truncToInt (start.z - dest.z)

/-- The tail of `LE_DoPathMove`, after the footstep sound: direction, angle, start and end
time of the step, contents, and the path cursor. -/
def LE_DoPathMove.finish (env : client_t) (le1 : le_t) (dir : Nat) : le_t :=
  let le2 : le_t :=
    if dir < env.CORE_DIRECTIONS ∨ dir ≥ env.FLYING_DIRECTIONS then
      { le1 with dir := dir &&& (env.CORE_DIRECTIONS - 1) }
    else le1
  let le3 : le_t :=
    { le2 with angles := le2.angles.set env.YAW (env.directionAngles le2.dir),
               startTime := le2.endTime }
  { le3 with
      endTime := le3.endTime +
        LE_ActorGetStepTime env le3 le3.pos le3.oldPos dir
          (le3.speed.getD le3.pathPos.toNat 0),
      positionContents := le3.pathContents.getD le3.pathPos.toNat 0,
      pathPos := le3.pathPos + 1 }

/-- The head of `LE_DoPathMove`: the grid position after the next step of the path. -/
def LE_DoPathMove.step (env : client_t) (le : le_t) : le_t :=
  { le with pos := (env.PosAddDV le.pos (if env.LE_IsCrouched le then 1 else 0)
      (le.path.getD le.pathPos.toNat 0)).1 }

/-- Function `LE_DoPathMove` for the entity in slot `i`: apply the next step of the
path. -/
def LE_DoPathMove (env : client_t) (cl : clientBattleScape_t) (i : Nat) :
    Except String (clientBattleScape_t × List effect_t) :=
  let le := cl.LEs i
  let dir := env.getDVdir (le.path.getD le.pathPos.toNat 0)
  let le1 := LE_DoPathMove.step env le
  match LE_PlayFootStepSound env (setLE cl i le1) i with
  | .error msg => .error msg
  | .ok fx => .ok (setLE cl i (LE_DoPathMove.finish env le1 dir), fx)

theorem LE_DoPathMove_cursor {env : client_t} {cl cl' : clientBattleScape_t} {i : Nat}
    {fx : List effect_t} (h : LE_DoPathMove env cl i = .ok (cl', fx)) :
    (cl'.LEs i).pathPos = (cl.LEs i).pathPos + 1 ∧
      (cl'.LEs i).pathLength = (cl.LEs i).pathLength := by
  unfold LE_DoPathMove at h
  simp only at h
  split at h
  · cases h
  · simp only [Except.ok.injEq, Prod.mk.injEq] at h
    rw [← h.1]
    simp only [setLE, if_true, LE_DoPathMove.finish, LE_DoPathMove.step]
    split_ifs <;> exact ⟨rfl, rfl⟩

/-- The search loop of `LE_Find`. -/
def LE_Find.loop (cl : clientBattleScape_t) (type : Int) (pos : pos3_t) (le : Option Nat) :
    Option Nat :=
  match h : LE_GetNextInUse cl le with
  | none => none
  | some j =>
    if (cl.LEs j).type = type ∧ (cl.LEs j).pos = pos then some j
    else LE_Find.loop cl type pos (some j)
termination_by slotsAfter cl le
decreasing_by exact LE_GetNextInUse_slotsAfter cl le j h

/-- Function `LE_Find`: the first entity in use of the given type on the grid field. -/
def LE_Find (cl : clientBattleScape_t) (type : Int) (pos : pos3_t) : Option Nat :=
  LE_Find.loop cl type pos none

/-- The middle part of `LE_DoEndPathMove` for the entity in slot `i`: link the floor
container of an item on the same grid field, mark the lighting dirty and go back to the
idle think function. The call `LE_ExecuteThink (le)` runs the think function just set,
`LET_StartIdle`, when the entity is in use. -/
def LE_DoEndPathMove.settle (env : client_t) (cl : clientBattleScape_t) (i : Nat) : le_t :=
  let le := cl.LEs i
  let le1 : le_t :=
    match LE_Find cl env.ET_ITEM le.pos with
    | some floor => { le with floor := (cl.LEs floor).floor }
    | none => le
  let le2 : le_t := { le1 with lighting_dirty := true }
  let le3 : le_t := LE_SetThink le2 (some think_t.LET_StartIdle)
  if le3.inuse then LET_StartIdle env le3 else le3

/-- Function `LE_DoEndPathMove` for the entity in slot `i`: check the position, link the
floor container, go back to the idle think function and unlock. -/
def LE_DoEndPathMove (env : client_t) (cl : clientBattleScape_t) (i : Nat) :
    Except String (clientBattleScape_t × List effect_t) :=
  if (cl.LEs i).pos ≠ (cl.LEs i).newPos then
    .error ("LE_DoEndPathMove: Actor movement is out of sync: %i:%i:%i should be %i:%i:%i " ++
      "(step %i of %i) (team %i)")
  else
    match LE_Unlock (LE_DoEndPathMove.settle env cl i) with
    | .error msg => .error msg
    | .ok le5 =>
      .ok (setLE cl i le5, [effect_t.CL_ActorConditionalMoveCalc (cl.LEs i).entnum])

/-- The head of the body of the loop of `LET_PathMove`: the origin is set to the world
position of the grid position, and the grid position is recorded in `oldPos`. -/
def LET_PathMove.arrive (env : client_t) (le : le_t) : le_t :=
  { le with origin := env.Grid_PosToVec le.fieldSize le.pos, oldPos := le.pos }

/-- The loop `while (cl.time >= le->endTime)` of `LET_PathMove` for the entity in slot
`i`. The last component of the result tells whether the function returned from inside
the loop, after `LE_DoEndPathMove`. -/
def LET_PathMove.loop (env : client_t) (cl : clientBattleScape_t) (i : Nat) :
    Except String (clientBattleScape_t × List effect_t × Bool) :=
  if cl.time ≥ (cl.LEs i).endTime then
    if hlt : (cl.LEs i).pathPos < (cl.LEs i).pathLength then
      match hd : LE_DoPathMove env (setLE cl i (LET_PathMove.arrive env (cl.LEs i))) i with
      | .error msg => .error msg
      | .ok (cl2, fx) =>
        match LET_PathMove.loop env cl2 i with
        | .error msg => .error msg
        | .ok (cl3, fx', ended) => .ok (cl3, fx ++ fx', ended)
    else
      match LE_DoEndPathMove env (setLE cl i (LET_PathMove.arrive env (cl.LEs i))) i with
      | .error msg => .error msg
      | .ok (cl2, fx) => .ok (cl2, fx, true)
  else .ok (cl, [], false)
termination_by ((cl.LEs i).pathLength - (cl.LEs i).pathPos).toNat
decreasing_by
  have h := LE_DoPathMove_cursor hd
  simp only [setLE, if_true, LET_PathMove.arrive] at h
  rw [h.1, h.2]
  omega

/-- The interpolation at the end of `LET_PathMove`: the origin between the world
positions of `oldPos` and `pos`, by the fraction of the step that has elapsed. -/
def LET_PathMove.interpolate (env : client_t) (time : Int) (le : le_t) : le_t :=
  let start := env.Grid_PosToVec le.fieldSize le.oldPos
  let dest := env.Grid_PosToVec le.fieldSize le.pos
  let delta := VectorSubtract dest start
  let frac : ℚ := ((time - le.startTime : Int) : ℚ) / ((le.endTime - le.startTime : Int) : ℚ)
  { le with lighting_dirty := true, origin := VectorMA start frac delta }

/-- Function `LET_PathMove` for the entity in slot `i`: move the actor along the path. -/
def LET_PathMove (env : client_t) (cl : clientBattleScape_t) (i : Nat) :
    Except String (clientBattleScape_t × List effect_t) :=
  if cl.time < (cl.LEs i).startTime then .ok (cl, [])
  else
    match LET_PathMove.loop env cl i with
    | .error msg => .error msg
    | .ok (cl1, fx, true) => .ok (cl1, fx)
    | .ok (cl1, fx, false) =>
      .ok (setLE cl1 i (LET_PathMove.interpolate env cl1.time (cl1.LEs i)), fx)

/-- Function `LET_StartPathMove` for the entity in slot `i`: change to the walk animation
and start the path move. The call `LE_ExecuteThink (le)` runs the think function just
set, `LET_PathMove`. -/
def LET_StartPathMove (env : client_t) (cl : clientBattleScape_t) (i : Nat) :
    Except String (clientBattleScape_t × List effect_t) :=
  let le := cl.LEs i
  let le1 : le_t :=
    { le with as_ := env.R_AnimChange le.as_ le.model1
                (LE_GetAnim env (some "walk") le.right le.left le.state) }
  let le2 : le_t := LE_SetThink le1 (some think_t.LET_PathMove)
  if le2.inuse then LET_PathMove env (setLE cl i le2) i else .ok (setLE cl i le2, [])

/-- Function `LE_ExecuteThink` for the entity in slot `i`: call the think function if the
entity is in use and has one. `call` gives the code behind each function pointer. -/
def LE_ExecuteThink
    (call : think_t → clientBattleScape_t → Nat →
      Except String (clientBattleScape_t × List effect_t))
    (cl : clientBattleScape_t) (i : Nat) :
    Except String (clientBattleScape_t × List effect_t) :=
  if (cl.LEs i).inuse then
    match (cl.LEs i).think with
    | some think => call think cl i
    | none => .ok (cl, [])
  else .ok (cl, [])

/-- The think calls for the entity in slot `i` over a sequence of frames: in each frame
the client time is set to the next element of `times` and `LE_ExecuteThink` runs. -/
def LE_ExecuteThink.frames
    (call : think_t → clientBattleScape_t → Nat →
      Except String (clientBattleScape_t × List effect_t))
    (cl : clientBattleScape_t) (i : Nat) :
    List Int → Except String (clientBattleScape_t × List effect_t)
  | [] => .ok (cl, [])
  | t :: ts =>
    match LE_ExecuteThink call { cl with time := t } i with
    | .error msg => .error msg
    | .ok (cl1, fx) =>
      match LE_ExecuteThink.frames call cl1 i ts with
      | .error msg => .error msg
      | .ok (cl2, fx') => .ok (cl2, fx ++ fx')

/-! ## Scene and items -/

/-- The macro `ModelOffset (i, target)`: the value of `target`, computed in integers. -/
def ModelOffset (env : client_t) (i : Int) : vec3_t :=
  ⟨((Int.tdiv ((i - 1) * ((env.UNIT_SIZE : Int) + env.BOX_DELTA_WIDTH)) 2 : Int) : ℚ),
   ((Int.tdiv ((i - 1) * ((env.UNIT_SIZE : Int) + env.BOX_DELTA_LENGTH)) 2 : Int) : ℚ), 0⟩

/-- Function `LE_IsOriginBrush`. -/
def LE_IsOriginBrush (env : client_t) (le : le_t) : Bool :=
  decide (le.type = env.ET_DOOR) || decide (le.type = env.ET_ROTATING)

/-- The render entity `LE_AddToScene` fills in for the entity `le` of slot `i`, before the
add function is called. -/
def LE_AddToScene.entity (env : client_t) (i : Nat) (le : le_t) : entity_t :=
  let ent0 : entity_t :=
    { alpha := le.alpha, angles := le.angles, origin := vec3_origin, oldorigin := vec3_origin,
      mins := vec3_origin, maxs := vec3_origin, model := le.model1, skinnum := le.skinnum,
      as_ := 0, isOriginBrushModel := false, lighting := none }
  let ent1 : entity_t :=
    if le.contents = env.collision.CONTENTS_SOLID ∨ le.contents = env.CONTENTS_DETAIL then ent0
    else { ent0 with origin := le.origin, oldorigin := le.origin, as_ := le.as_ }
  let ent2 : entity_t :=
    if LE_IsOriginBrush env le then
      { ent1 with isOriginBrushModel := true, angles := le.angles, origin := le.origin,
                  oldorigin := le.origin }
    else ent1
  let ent3 : entity_t :=
    if le.fieldSize = env.ACTOR_SIZE_NORMAL ∨ le.fieldSize = env.ACTOR_SIZE_2x2 then
      { ent2 with origin := VectorAdd ent2.origin (ModelOffset env le.fieldSize),
                  oldorigin := VectorAdd ent2.oldorigin (ModelOffset env le.fieldSize) }
    else ent2
  { ent3 with lighting := some i }

/-- The body of the loop of `LE_AddToScene` on the entity `le0` of slot `i`: reap the
entity when `removeNextFrame` is set, then submit it to the renderer when it is in use
and visible on the current level. The result is the entity and the requests made. -/
def LE_AddToScene.slot (env : client_t) (i : Nat) (le0 : le_t) : le_t × List effect_t :=
  let le : le_t :=
    if le0.removeNextFrame then { le0 with inuse := false, removeNextFrame := false } else le0
  if le.inuse && !le.invis then
    let skip : Bool :=
      if le.contents &&& env.collision.CONTENTS_SOLID ≠ 0 then
        decide ((1 <<< env.cl_worldlevel) &&& le.levelflags = 0)
      else if le.contents &&& env.CONTENTS_DETAIL ≠ 0 then false
      else decide (le.pos.z > (env.cl_worldlevel : Int))
    if skip then (le, [])
    else
      let ent := LE_AddToScene.entity env i le
      match le.addFunc with
      | some f =>
        let r := env.callAddFunc f le ent
        if r.1 then
          (r.2.1, effect_t.R_AddEntity r.2.2 ::
            (if env.cl_le_debug ≠ 0 then [effect_t.CL_ParticleSpawn "cross" r.2.1.origin]
             else []))
        else (r.2.1, [])
      | none =>
        (le, effect_t.R_AddEntity ent ::
          (if env.cl_le_debug ≠ 0 then [effect_t.CL_ParticleSpawn "cross" le.origin] else []))
  else (le, [])

/-- The body of the loop of `LE_AddToScene` for slot `i`, on the pool and the requests
made so far. -/
def LE_AddToScene.body (env : client_t) (st : clientBattleScape_t × List effect_t) (i : Nat) :
    clientBattleScape_t × List effect_t :=
  (setLE st.1 i (LE_AddToScene.slot env i (st.1.LEs i)).1,
    st.2 ++ (LE_AddToScene.slot env i (st.1.LEs i)).2)

/-- Function `LE_AddToScene`: one pass over the slots below `numLEs`, in slot order. -/
def LE_AddToScene (env : client_t) (cl : clientBattleScape_t) :
    clientBattleScape_t × List effect_t :=
  (List.range cl.numLEs).foldl (LE_AddToScene.body env) (cl, [])

/-- Function `LE_BiggestItem`: the object of the biggest item of a floor container that
is not empty. -/
def LE_BiggestItem (env : client_t) (ic : List Nat) : Nat :=
  (ic.foldl (fun (m : Nat × Int) t =>
    if env.INVSH_ShapeSize t > m.2 then (t, env.INVSH_ShapeSize t) else m) (ic.headD 0, 0)).1

/-- The loop of `LE_PlaceItem` over the owners: every actor in use on the grid field of
the item in slot `i` gets the floor container of the item, when that is not empty. -/
def LE_PlaceItem.loop (env : client_t) (cl : clientBattleScape_t) (i : Nat)
    (actor : Option Nat) : clientBattleScape_t :=
  match h : LE_GetNextInUse cl actor with
  | none => cl
  | some a =>
    if ((cl.LEs a).type = env.ET_ACTOR ∨ (cl.LEs a).type = env.ET_ACTOR2x2) ∧
        (cl.LEs a).pos = (cl.LEs i).pos ∧ (cl.LEs i).floor ≠ [] then
      LE_PlaceItem.loop env (setLE cl a { cl.LEs a with floor := (cl.LEs i).floor }) i (some a)
    else LE_PlaceItem.loop env cl i (some a)
termination_by slotsAfter cl actor
decreasing_by
  · exact LE_GetNextInUse_slotsAfter cl actor a h
  · exact LE_GetNextInUse_slotsAfter cl actor a h

/-- Function `LE_PlaceItem` for the item entity in slot `i`: show the biggest item of the
floor container, or mark the entity for removal when the container is empty. -/
def LE_PlaceItem (env : client_t) (cl : clientBattleScape_t) (i : Nat) :
    Except String clientBattleScape_t :=
  let cl1 := LE_PlaceItem.loop env cl i none
  let le := cl1.LEs i
  if le.floor ≠ [] then
    let biggest := LE_BiggestItem env le.floor
    match env.modelPool biggest with
    | none => .error "Model for item %s is not precached in the cls.model_weapons array"
    | some model =>
      let origin :=
        VectorSubtract (env.Grid_PosToVec le.fieldSize le.pos) (env.itemCenter biggest)
      .ok (setLE cl1 i
        { le with model1 := some model,
                  origin := { origin with z := origin.z - env.GROUND_DELTA },
                  angles := le.angles.set env.ROLL 90 })
  else .ok (setLE cl1 i { le with removeNextFrame := true })

/-! ## Scheduler -/

/-- The animation step of `LE_Think`:
`R_AnimRun (&le->as, le->model1, cls.frametime * 1000)`. -/
def LE_Think.anim (env : client_t) (frametime : ℚ) (le : le_t) : le_t :=
  { le with as_ := env.R_AnimRun le.as_ le.model1 (truncToInt (frametime * 1000)) }

/-- The loop `while ((le = LE_GetNext (le)))` of `LE_Think`, behind the cursor `le`. A
think function may change the pool in any way, also its length, so the loop is given
`fuel` passes; `none` is the result when they do not suffice. -/
def LE_Think.loop (env : client_t)
    (call : think_t → clientBattleScape_t → Nat →
      Except String (clientBattleScape_t × List effect_t))
    (frametime : ℚ) :
    Nat → clientBattleScape_t → Option Nat →
      Option (Except String (clientBattleScape_t × List effect_t))
  | 0, _, _ => none
  | fuel + 1, cl, le =>
    match LE_GetNext cl le with
    | none => some (.ok (cl, []))
    | some j =>
      match LE_ExecuteThink call cl j with
      | .error msg => some (.error msg)
      | .ok (cl1, fx) =>
        match LE_Think.loop env call frametime fuel
            (setLE cl1 j (LE_Think.anim env frametime (cl1.LEs j))) (some j) with
        | none => none
        | some (.error msg) => some (.error msg)
        | some (.ok (cl2, fx')) => some (.ok (cl2, fx ++ fx'))

/-- Function `LE_Think`: the think functions and the animations of all entities, while
the client state `cls.state` is `ca_active`. -/
def LE_Think (env : client_t)
    (call : think_t → clientBattleScape_t → Nat →
      Except String (clientBattleScape_t × List effect_t))
    (cls_state : Int) (frametime : ℚ) (fuel : Nat) (cl : clientBattleScape_t) :
    Option (Except String (clientBattleScape_t × List effect_t)) :=
  if cls_state ≠ env.ca_active then some (.ok (cl, []))
  else LE_Think.loop env call frametime fuel cl none

/-! ## Projectiles -/

/-- Function `LE_ActorBodyHit` for the actor in slot `le`: the hit particle of its team
definition, when there is one. -/
def LE_ActorBodyHit (cl : clientBattleScape_t) (le : Nat) (impact : vec3_t) (normal : Nat) :
    List effect_t :=
  effect_t.LE_ActorBodyHit le impact normal ::
    (match (cl.LEs le).hitParticle with
      | some particle =>
        if particle ≠ "" then [effect_t.CL_ParticleSpawn particle impact] else []
      | none => [])

/-- The part of `LET_Projectile` for `ref1`: the impact particle at the place of the
projectile particle. The result is the record, the impact location and the requests. The
code reads `le->ptl->s` and `le->ptl->angles` without a test of the pointers; a `NULL`
pointer there is the error `NULL pointer`. -/
def LET_Projectile.visual (env : client_t) (le : le_t) :
    Except String (le_t × vec3_t × List effect_t) :=
  match le.ref1 with
  | some ref1 =>
    if ref1 ≠ "" then
      match le.ptl with
      | none => .error "NULL pointer"
      | some old =>
        match env.CL_ParticleSpawn ref1 old.s (some (env.bytedirs le.dir)) none with
        | none => .error "NULL pointer"
        | some ptl =>
          let angles := env.VecToAngles (env.bytedirs le.state)
          .ok ({ le with ptl := some { ptl with angles := angles } }, old.s,
            [effect_t.CL_ParticleSpawn ref1 old.s])
    else .ok (le, le.origin, [])
  | none => .ok (le, le.origin, [])

/-- The part of `LET_Projectile` for `ref2`: the impact sound (`le->fd` is read). -/
def LET_Projectile.sound (le : le_t) (impact : vec3_t) : Except String (List effect_t) :=
  match le.ref2 with
  | some ref2 =>
    if ref2 ≠ "" then
      match le.fd with
      | none => .error "NULL pointer"
      | some _ => .ok [effect_t.S_PlaySample impact ref2]
    else .ok []
  | none => .ok []

/-- The part of `LET_Projectile` for `ref3`: the body hit of the victim, unless the
damage type is stun gas, and its hurt sound. -/
def LET_Projectile.body (env : client_t) (cl : clientBattleScape_t) (le : le_t)
    (impact : vec3_t) : Except String (List effect_t) :=
  match le.ref3 with
  | some victim =>
    match le.fd with
    | none => .error "NULL pointer"
    | some fd =>
      .ok ((if fd.dmgtype ≠ env.damStunGas then LE_ActorBodyHit cl victim impact le.dir
            else []) ++
        [effect_t.CL_ActorPlaySound victim env.SND_HURT])
  | none => .ok []

/-- Function `LET_Projectile` for the entity in slot `i`: at the end time resolve the
impact, outside the map only give the projectile up. -/
def LET_Projectile (env : client_t) (cl : clientBattleScape_t) (i : Nat) :
    Except String (clientBattleScape_t × List effect_t) :=
  let le := cl.LEs i
  if cl.time ≥ le.endTime then
    match LET_Projectile.visual env { le with inuse := false } with
    | .error msg => .error msg
    | .ok (le1, impact, fx1) =>
      match LET_Projectile.sound le1 impact with
      | .error msg => .error msg
      | .ok fx2 =>
        match LET_Projectile.body env (setLE cl i le1) le1 impact with
        | .error msg => .error msg
        | .ok fx3 =>
          .ok (setLE cl i le1, effect_t.CL_ParticleFree le.ptl :: (fx1 ++ fx2 ++ fx3))
  else
    match le.ptl with
    | none => .error "NULL pointer"
    | some ptl =>
      if env.CL_OutsideMap ptl.s (env.UNIT_SIZE * 10) then
        .ok (setLE cl i { le with endTime := cl.time, inuse := false },
          [effect_t.CL_ParticleFree le.ptl])
      else .ok (cl, [])

/-- The references of a projectile, as `LE_AddProjectile` and `LE_AddGrenade` set them
from the flags. -/
def LE_AddProjectile.refs (env : client_t) (le : le_t) (fd : fireDef_t) (flags : Nat)
    (leVictim : Option Nat) : le_t :=
  if flags &&& env.SF_BODY ≠ 0 then
    { le with ref1 := some fd.hitBody, ref2 := some fd.hitBodySound, ref3 := leVictim }
  else if flags &&& env.SF_IMPACT ≠ 0 ∨ (fd.splrad ≠ 0 ∧ fd.bounce = 0) then
    { le with ref1 := some fd.impact, ref2 := some fd.impactSound }
  else if flags &&& env.SF_BOUNCING ≠ 0 then
    { le with ref1 := none, ref2 := some fd.bounceSound }
  else { le with ref1 := none }

/-- The requests of `LE_AddProjectile` for a projectile of infinite speed. -/
def LE_AddProjectile.hitscan (env : client_t) (cl : clientBattleScape_t) (le : le_t)
    (fd : fireDef_t) (flags : Nat) (impact : vec3_t) (leVictim : Option Nat) :
    List effect_t :=
  if flags &&& (env.SF_IMPACT ||| env.SF_BODY) ≠ 0 ∨ (fd.splrad ≠ 0 ∧ fd.bounce = 0) then
    if flags &&& env.SF_BODY ≠ 0 then
      (if fd.hitBodySound ≠ "" then [effect_t.S_PlaySample le.origin fd.hitBodySound]
        else []) ++
      (if fd.hitBody ≠ "" then [effect_t.CL_ParticleSpawn fd.hitBody impact] else []) ++
      (match leVictim with
        | some victim =>
          (if fd.dmgtype ≠ env.damStunGas then LE_ActorBodyHit cl victim impact le.dir
            else []) ++
          [effect_t.CL_ActorPlaySound victim env.SND_HURT]
        | none => [])
    else
      (if fd.impactSound ≠ "" then [effect_t.S_PlaySample le.origin fd.impactSound]
        else []) ++
      (if fd.impact ≠ "" then [effect_t.CL_ParticleSpawn fd.impact impact] else [])
  else []

/-- Function `LE_AddProjectile`: a new entity with the projectile particle; a projectile
of infinite speed is resolved at once, any other one gets the think function
`LET_Projectile`, which the call `LE_ExecuteThink (le)` at the end runs. -/
def LE_AddProjectile (env : client_t) (MAX_EDICTS : Nat) (cl : clientBattleScape_t)
    (fd : fireDef_t) (flags : Nat) (muzzle impact : vec3_t) (normal : Nat)
    (leVictim : Option Nat) : Except String (clientBattleScape_t × List effect_t) :=
  match LE_Add MAX_EDICTS env.ACTOR_SIZE_NORMAL cl 0 with
  | .error msg => .error msg
  | .ok (cl1, none) => .ok (cl1, [])
  | .ok (cl1, some i) =>
    let le : le_t := { cl1.LEs i with invis := decide (env.cl_leshowinvis = 0) }
    match env.CL_ParticleSpawn fd.projectile muzzle none none with
    | none =>
      .ok (setLE cl1 i { le with ptl := none, inuse := false },
        [effect_t.CL_ParticleSpawn fd.projectile muzzle])
    | some ptl =>
      let delta := VectorSubtract impact muzzle
      let dist := env.VectorLength delta
      let ptl1 : ptl_t := { ptl with angles := env.VecToAngles delta }
      let le1 : le_t := { le with ptl := some ptl1, dir := normal, fd := some fd }
      if fd.speed = 0 then
        let le2 : le_t :=
          { le1 with inuse := false,
                     ptl := some { ptl1 with size0 := dist, s := VectorMA muzzle (1 / 2) delta } }
        .ok (setLE cl1 i le2,
          effect_t.CL_ParticleSpawn fd.projectile muzzle ::
            LE_AddProjectile.hitscan env (setLE cl1 i le2) le2 fd flags impact leVictim)
      else
        let k : ℚ := fd.speed / dist
        let le2 : le_t :=
          { le1 with ptl := some { ptl1 with v := ⟨delta.x * k, delta.y * k, delta.z * k⟩ },
                     endTime := truncToInt ((cl1.time : ℚ) + 1000 * dist / fd.speed) }
        let le3 : le_t :=
          LE_SetThink (LE_AddProjectile.refs env le2 fd flags leVictim)
            (some think_t.LET_Projectile)
        if le3.inuse then
          match LET_Projectile env (setLE cl1 i le3) i with
          | .error msg => .error msg
          | .ok (cl2, fx) => .ok (cl2, effect_t.CL_ParticleSpawn fd.projectile muzzle :: fx)
        else .ok (setLE cl1 i le3, [effect_t.CL_ParticleSpawn fd.projectile muzzle])

/-- Function `LE_AddGrenade`: a new entity with the projectile particle under gravity and
the think function `LET_Projectile`, which the call `LE_ExecuteThink (le)` at the end
runs. The values of the six calls of `crand ()` are `env.crand 0` to `env.crand 5`, in
the order of the text. -/
def LE_AddGrenade (env : client_t) (MAX_EDICTS : Nat) (cl : clientBattleScape_t)
    (fd : fireDef_t) (flags : Nat) (muzzle v0 : vec3_t) (dt : Int)
    (leVictim : Option Nat) : Except String (clientBattleScape_t × List effect_t) :=
  match LE_Add MAX_EDICTS env.ACTOR_SIZE_NORMAL cl 0 with
  | .error msg => .error msg
  | .ok (cl1, none) => .ok (cl1, [])
  | .ok (cl1, some i) =>
    let le : le_t := { cl1.LEs i with invis := decide (env.cl_leshowinvis = 0) }
    match env.CL_ParticleSpawn fd.projectile muzzle (some v0) (some ⟨0, 0, -env.GRAVITY⟩) with
    | none =>
      .ok (setLE cl1 i { le with ptl := none, inuse := false },
        [effect_t.CL_ParticleSpawn fd.projectile muzzle])
    | some ptl =>
      let ptl1 : ptl_t :=
        { ptl with angles := ⟨360 * env.crand 0, 360 * env.crand 1, 360 * env.crand 2⟩,
                   omega := ⟨500 * env.crand 3, 500 * env.crand 4, 500 * env.crand 5⟩ }
      let le1 : le_t := LE_AddProjectile.refs env { le with ptl := some ptl1 } fd flags leVictim
      let le2 : le_t := { le1 with endTime := cl1.time + dt, dir := 5, fd := some fd }
      let le3 : le_t := LE_SetThink le2 (some think_t.LET_Projectile)
      if le3.inuse then
        match LET_Projectile env (setLE cl1 i le3) i with
        | .error msg => .error msg
        | .ok (cl2, fx) => .ok (cl2, effect_t.CL_ParticleSpawn fd.projectile muzzle :: fx)
      else .ok (setLE cl1 i le3, [effect_t.CL_ParticleSpawn fd.projectile muzzle])

/-! ## Brush models -/

/-- Function `LET_BrushModel` for the entity in slot `i`: a rotating entity turns by
`1 / rotationSpeed` degrees, unless the last call is less than `speed[0]` ms ago. -/
def LET_BrushModel (env : client_t) (cl : clientBattleScape_t) (i : Nat) :
    Except String (clientBattleScape_t × List effect_t) :=
  let le := cl.LEs i
  if cl.time - le.thinkDelay < le.speed.getD 0 0 then
    .ok (setLE cl i { le with thinkDelay := cl.time }, [])
  else if le.type = env.ET_ROTATING then
    let angle : ℚ := le.angles.get le.dir + 1 / le.rotationSpeed
    let angles := le.angles.set le.dir (if angle ≥ 360 then angle - 360 else angle)
    .ok (setLE cl i { le with angles := angles }, [])
  else .ok (cl, [])

/-! ## Searches by distance -/

/-- The vector `eorg` of `LE_FindRadius`: from the centre of the bounding box of the
entity to `org`. -/
def LE_FindRadius.eorg (org : vec3_t) (le : le_t) : vec3_t :=
  ⟨org.x - (le.origin.x + (le.mins.x + le.maxs.x) * (1 / 2)),
   org.y - (le.origin.y + (le.mins.y + le.maxs.y) * (1 / 2)),
   org.z - (le.origin.z + (le.mins.z + le.maxs.z) * (1 / 2))⟩

/-- The search loop of `LE_FindRadius`, behind the cursor `le`. -/
def LE_FindRadius.loop (env : client_t) (cl : clientBattleScape_t) (org : vec3_t) (rad : ℚ)
    (type : Int) (le : Option Nat) : Option Nat :=
  match h : LE_GetNextInUse cl le with
  | none => none
  | some j =>
    if env.VectorLength (LE_FindRadius.eorg org (cl.LEs j)) > rad then
      LE_FindRadius.loop env cl org rad type (some j)
    else if type ≠ env.ET_NULL ∧ (cl.LEs j).type ≠ type then
      LE_FindRadius.loop env cl org rad type (some j)
    else some j
termination_by slotsAfter cl le
decreasing_by all_goals exact LE_GetNextInUse_slotsAfter cl le j h

/-- Function `LE_FindRadius`: an entity within the radius `rad` around `org`, searched
behind `from_`. -/
def LE_FindRadius (env : client_t) (cl : clientBattleScape_t) (from_ : Option Nat)
    (org : vec3_t) (rad : ℚ) (type : Int) : Option Nat :=
  LE_FindRadius.loop env cl org rad type from_

/-- The value of `tmp` in `LE_GetClosestActor` for the entity `le`: the length of the
vector from its origin to `origin`, converted to `int`. -/
def LE_GetClosestActor.tmp (env : client_t) (origin : vec3_t) (le : le_t) : Int :=
  truncToInt (env.VectorLength (VectorSubtract origin le.origin))

/-- The loop of `LE_GetClosestActor`, behind the cursor `le`, with the values of the
local variables `dist` and `actor`; `cl_pnum` is `cl.pnum`. -/
def LE_GetClosestActor.loop (env : client_t) (cl : clientBattleScape_t) (cl_pnum : Int)
    (origin : vec3_t) (dist : Int) (actor : Option Nat) (le : Option Nat) : Option Nat :=
  match h : LE_GetNextInUse cl le with
  | none => actor
  | some j =>
    if (cl.LEs j).pnum ≠ cl_pnum then
      LE_GetClosestActor.loop env cl cl_pnum origin dist actor (some j)
    else if !LE_IsLivingActor env (cl.LEs j) then
      LE_GetClosestActor.loop env cl cl_pnum origin dist actor (some j)
    else if LE_GetClosestActor.tmp env origin (cl.LEs j) < dist then
      LE_GetClosestActor.loop env cl cl_pnum origin
        (LE_GetClosestActor.tmp env origin (cl.LEs j)) (some j) (some j)
    else LE_GetClosestActor.loop env cl cl_pnum origin dist actor (some j)
termination_by slotsAfter cl le
decreasing_by all_goals exact LE_GetNextInUse_slotsAfter cl le j h

/-- Function `LE_GetClosestActor`: the closest living actor of the own team. -/
def LE_GetClosestActor (env : client_t) (cl : clientBattleScape_t) (cl_pnum : Int)
    (origin : vec3_t) : Option Nat :=
  LE_GetClosestActor.loop env cl cl_pnum origin 999999 none none

/-! ## Local models -/

/-- Modelled from the spec: the record `localModel_t` is declared in a header that is not
among the sources; the fields are those `LM_AddModel` and `LM_Find` read or write. -/
structure localModel_t where
  inuse : Bool
  name : String
  origin : vec3_t
  angles : vec3_t
  scale : vec3_t
  entnum : Int
  levelflags : Int
  renderFlags : Int
  lighting_dirty : Bool
  deriving DecidableEq

/-- The record `memset (lm, 0, sizeof (*lm))` leaves behind. -/
def lm_zero : localModel_t :=
  { inuse := false, name := "", origin := vec3_origin, angles := vec3_origin,
    scale := vec3_origin, entnum := 0, levelflags := 0, renderFlags := 0,
    lighting_dirty := false }

/-- The local models of the client battlescape state: the array `cl.LMs` and its length
`cl.numLMs`. -/
structure localModels_t where
  LMs : Nat → localModel_t
  numLMs : Nat

/-- Write `lm` to slot `i` of the local models. -/
def setLM (lms : localModels_t) (i : Nat) (lm : localModel_t) : localModels_t :=
  { lms with LMs := fun j => if j = i then lm else lms.LMs j }

/-- Function `LM_Find`: the first local model with the entity number, among the
`cl.numLMs` slots. -/
def LM_Find (lms : localModels_t) (entnum : Int) : Option Nat :=
  (List.range lms.numLMs).find? (fun i => decide ((lms.LMs i).entnum = entnum))

/-- Function `LM_AddModel`. The name is cut to the size `nameSize` of the field `name`
by `Q_strncpyz`. The counter `cl.numLMs` is raised and the slot is cleared before the
call of `LM_Find`. -/
def LM_AddModel (MAX_LOCALMODELS nameSize : Nat) (lms : localModels_t) (model : String)
    (origin angles : vec3_t) (entnum levelflags renderFlags : Int) (scale : vec3_t) :
    Except String (localModels_t × Nat) :=
  let i := lms.numLMs
  let lms1 : localModels_t := { lms with numLMs := lms.numLMs + 1 }
  if lms1.numLMs ≥ MAX_LOCALMODELS then .error "Too many local models"
  else
    let lm : localModel_t :=
      { lm_zero with name := Q_strncpyz nameSize model, origin := origin, angles := angles }
    let lms2 := setLM lms1 i lm
    match LM_Find lms2 entnum with
    | some _ => .error "Already a local model with the same id (%i) loaded"
    | none =>
      .ok (setLM lms2 i
        { lm with entnum := entnum, levelflags := levelflags, renderFlags := renderFlags,
                  lighting_dirty := true, inuse := true, scale := scale }, i)

/-! ## Notions used to state the properties, and sample inputs -/

/-- The test at the head of the loop body of `CL_ClipMoveToLEs`: the entity in slot `j`
is swept when its contents meet the mask and it is neither `passle` nor `passle2`. -/
def CL_ClipMoveToLEs.eligible (cl : clientBattleScape_t) (clip : moveclip_t) (j : Nat) : Bool :=
  decide ((cl.LEs j).contents &&& clip.contentmask ≠ 0) &&
    (decide (some j ≠ clip.passle) && decide (some j ≠ clip.passle2))

/-- The slots `CL_Trace` sweeps in a query that reaches the entity phase, in the order of
the sweeps: none when the world trace is `allsolid`, else the eligible slots in use. -/
def CL_Trace.checked (env : collision_t) (cl : clientBattleScape_t)
    (start end_ mins maxs : vec3_t) (passle passle2 : Option Nat) (contentmask : Nat)
    (worldLevel : Nat) : List Nat :=
  if (CL_Trace.world env start end_ mins maxs contentmask worldLevel).allsolid then []
  else (inUseAfter cl none).filter (CL_ClipMoveToLEs.eligible cl
    (CL_Trace.clip env start end_ mins maxs passle passle2 contentmask worldLevel))

/-- The combination rule applied to a list of sweeps `(slot, trace)` in order. -/
def CL_ClipMoveToLEs.combineAll (clip : moveclip_t) (ts : List (Nat × trace_t)) : moveclip_t :=
  ts.foldl (fun c p => CL_ClipMoveToLEs.combine c p.1 p.2) clip

/-- An entity takes part in the entity phase of a query when its slot lies below `numLEs`,
it is in use, its contents meet the mask and it is neither `passle` nor `passle2`. -/
def CL_Trace.takesPart (cl : clientBattleScape_t) (passle passle2 : Option Nat)
    (contentmask : Nat) (j : Nat) : Bool :=
  decide (j < cl.numLEs) && ((cl.LEs j).inuse &&
    (decide ((cl.LEs j).contents &&& contentmask ≠ 0) &&
      (decide (some j ≠ passle) && decide (some j ≠ passle2))))

/-- One step of the loop of `CL_ClipMoveToLEs` on a sweep that is already evaluated:
an error of the sweep ends the loop, a trace is combined into the clip. -/
def CL_ClipMoveToLEs.combineE (clip : moveclip_t) (p : Nat × Except String trace_t) :
    Except String moveclip_t :=
  match p.2 with
  | .error msg => .error msg
  | .ok trace => .ok (CL_ClipMoveToLEs.combine clip p.1 trace)

/-- The sweeps the loop of `CL_ClipMoveToLEs` asks for behind the cursor `le`, in order:
the eligible slots in use, each with the result of its sweep. -/
def CL_ClipMoveToLEs.sweeps (env : collision_t) (cl : clientBattleScape_t) (clip : moveclip_t)
    (le : Option Nat) : List (Nat × Except String trace_t) :=
  ((inUseAfter cl le).filter (CL_ClipMoveToLEs.eligible cl clip)).map
    (fun j => (j, CL_ClipMoveToLEs.sweep env clip (cl.LEs j)))

/-- The record of an entry into `LE_PlayFootStepSound` among the requests. -/
def effect_t.isFootStep : effect_t → Bool
  | .LE_PlayFootStepSound _ => true
  | _ => false

/-- Number of calls of `LE_PlayFootStepSound` in a list of requests. -/
def footsteps (fx : List effect_t) : Nat := fx.countP effect_t.isFootStep

/-- The requests to the sound and particle code among the requests. -/
def effect_t.isSound : effect_t → Bool
  | .S_PlaySample _ _ => true
  | .CL_ParticleSpawn _ _ => true
  | _ => false

/-- The requests other than those to the sound and particle code, in order: the entries
into `LE_PlayFootStepSound`, the calls of `CL_ActorConditionalMoveCalc` that
`LE_DoEndPathMove` makes, and the entities handed to the renderer. -/
def calls (fx : List effect_t) : List effect_t := fx.filter (fun e => !e.isSound)

/-- One pass of the loop of `LET_PathMove` with the cursor short of the path length, on
the record of the entity: the head of the loop body, then `LE_DoPathMove`. -/
def LET_PathMove.advance (env : client_t) (le : le_t) : le_t :=
  LE_DoPathMove.finish env (LE_DoPathMove.step env (LET_PathMove.arrive env le))
    (env.getDVdir ((LET_PathMove.arrive env le).path.getD
      (LET_PathMove.arrive env le).pathPos.toNat 0))

/-- First slot a cursor has not passed yet. -/
def cursorStart (le : Option Nat) : Nat :=
  match le with
  | none => 0
  | some i => i + 1

/-- The record `LE_Add` leaves in the slot it returns. -/
def freshLE (ACTOR_SIZE_NORMAL : Int) (entnum : Int) : le_t :=
  { le_zero with inuse := true, entnum := entnum, fieldSize := ACTOR_SIZE_NORMAL }

/-- A record with every flag set, standing for the old content of a slot. -/
def usedLE : le_t :=
  { le_zero with inuse := true, removeNextFrame := true, locked := true, entnum := 9,
                 type := 5, think := some think_t.LET_PathMove, pathPos := 2, pathLength := 3 }

/-- A pool of two slots, slot 0 in use and slot 1 free with stale content. -/
def poolFree : clientBattleScape_t :=
  { LEs := fun i => if i = 1 then { usedLE with inuse := false } else usedLE, numLEs := 2 }

/-- A pool of two slots, both in use. -/
def poolFull : clientBattleScape_t :=
  { LEs := fun _ => usedLE, numLEs := 2 }

/-- A pool whose slot 0 is free but carries `entnum = 5`, and whose slots 1 and 2 are in
use with `entnum = 5`. -/
def poolGet : clientBattleScape_t :=
  { LEs := fun i => if i = 0 then { le_zero with entnum := 5 }
                    else { le_zero with inuse := true, entnum := 5 },
    numLEs := 3 }

/-- A trace result with the given fraction and flags, every other field zero. -/
def stubTrace (fraction : ℚ) (allsolid startsolid : Bool) : trace_t :=
  { allsolid := allsolid, startsolid := startsolid, fraction := fraction,
    endpos := vec3_origin, plane := ⟨vec3_origin, 0, 0⟩, surface := none,
    contentFlags := 0, le := none }

/-- A stub of the collision code: every world trace gives `world`, and the sweep of an
entity is picked by the x coordinate of its origin. -/
def stubEnv (world : trace_t) (sweepOf : ℚ → trace_t) : collision_t :=
  { CONTENTS_SOLID := 1
    model_clip := fun _ => none
    TR_CompleteBoxTrace := fun _ _ _ _ _ _ _ => world
    CM_HeadnodeForBox := fun _ _ _ => 0
    CM_HintedTransformedBoxTrace := fun _ _ _ _ _ _ _ _ origin _ _ _ => sweepOf origin.x }

/-- A pool of `n` slots in use, the entity of slot `i` with contents 2 at `(i, 0, 0)`. -/
def stubPool (n : Nat) : clientBattleScape_t :=
  { LEs := fun i => { le_zero with inuse := true, contents := 2, origin := ⟨i, 0, 0⟩ },
    numLEs := n }

/-- The world is hit half way; the only entity encloses the whole move and its sweep is
`allsolid` at fraction 1. -/
def envAllsolidFar : collision_t :=
  stubEnv (stubTrace (1 / 2) false false) (fun _ => stubTrace 1 true true)

/-- The world is not hit; the sweep of slot 0 hits at 3/4, the sweep of slot 1 is
`allsolid` at 1/4. -/
def envTwoHits : collision_t :=
  stubEnv (stubTrace 1 false false)
    (fun x => if x = 0 then stubTrace (3 / 4) false false else stubTrace (1 / 4) true true)

/-- The world is not hit; the sweep of slot 0 is `allsolid` at fraction 1 (the entity
encloses the whole move), the sweep of slot 1 hits at 1/2. -/
def envAllsolidThenHit : collision_t :=
  stubEnv (stubTrace 1 false false)
    (fun x => if x = 0 then stubTrace 1 true true else stubTrace (1 / 2) false false)

/-- The world trace is `allsolid` at fraction 1; every entity sweep would hit at 0. -/
def envWorldAllsolid : collision_t :=
  stubEnv (stubTrace 1 true true) (fun _ => stubTrace 0 true true)

/-- A sample of the external part of the client: unit size 32, eight core directions of
which the first four are the cardinal ones (0 is east), a fall direction 13, a grid cell
of 32 x 32 x 64 world units, a path byte that is its direction, and no terrain types,
add functions or item models. The length of a vector is measured by
`|x| + |y| + |z|`, which is its Euclidean length when it lies along an axis; a particle
spawns unless its name is empty; the map ends at `|x| = 4096`; the animation state is
the number of milliseconds it has run. -/
def stubClient : client_t :=
  { collision := stubEnv (stubTrace 1 false false) (fun _ => stubTrace 1 false false)
    UNIT_SIZE := 32
    UNIT_HEIGHT := 64
    CORE_DIRECTIONS := 8
    BASE_DIRECTIONS := 4
    FLYING_DIRECTIONS := 16
    DIRECTION_FALL := 13
    YAW := 1
    ROLL := 2
    MASK_SOLID := 1
    CONTENTS_WATER := 32
    CONTENTS_DETAIL := 4
    STATE_CROUCHED := 4
    ET_ACTOR := 2
    ET_ACTOR2x2 := 7
    ET_ACTORHIDDEN := 8
    ET_ITEM := 3
    ET_DOOR := 10
    ET_ROTATING := 13
    ACTOR_SIZE_NORMAL := 1
    ACTOR_SIZE_2x2 := 2
    BOX_DELTA_WIDTH := 0
    BOX_DELTA_LENGTH := 0
    GROUND_DELTA := 28
    NONE := -1
    cl_worldlevel := 0
    cl_le_debug := 0
    Grid_PosToVec := fun _ p => ⟨32 * p.x, 32 * p.y, 64 * p.z⟩
    PosToVec := fun p => ⟨32 * p.x, 32 * p.y, 64 * p.z⟩
    getDVdir := fun dv => dv
    PosAddDV := fun p crouch dv =>
      (match dv with
        | 0 => { p with x := p.x + 1 }
        | 1 => { p with x := p.x - 1 }
        | 2 => { p with y := p.y + 1 }
        | 3 => { p with y := p.y - 1 }
        | 13 => { p with z := p.z - 1 }
        | _ => p, crouch)
    directionAngles := fun d => 45 * d
    LE_IsDead := fun _ => false
    LE_IsPaniced := fun _ => false
    LE_IsCrouched := fun _ => false
    LE_GetAnimationIndexForDeath := fun _ => 0
    R_AnimChange := fun a _ _ => a + 1
    Com_GetTerrainType := fun _ => none
    surfaceName := fun _ => ""
    ods := fun _ => ⟨"item", '0'⟩
    INVSH_ShapeSize := fun _ => 1
    modelPool := fun _ => none
    itemCenter := fun _ => vec3_origin
    callAddFunc := fun _ le ent => (true, le, ent)
    MAX_VAR := 64
    ET_NULL := 0
    SF_BODY := 2
    SF_IMPACT := 1
    SF_BOUNCING := 4
    GRAVITY := 500
    damStunGas := 5
    SND_HURT := 3
    cl_leshowinvis := 0
    ca_active := 6
    bytedirs := fun _ => ⟨0, 0, 1⟩
    VecToAngles := fun v => v
    VectorLength := fun v => |v.x| + |v.y| + |v.z|
    CL_OutsideMap := fun s _ => decide (4096 < |s.x|)
    CL_ParticleSpawn := fun name s v a =>
      if name = "" then none
      else some { s := s, v := v.getD vec3_origin, a := a.getD vec3_origin,
                  angles := vec3_origin, omega := vec3_origin, size0 := 0 }
    R_AnimRun := fun a _ msec => a + msec.toNat
    crand := fun _ => 0 }

/-- An actor at the start of a path move of two steps to the east: locked, at the grid
position (2, 2, 0) with the destination (4, 2, 0), speed 100 on dry ground. -/
def walker : le_t :=
  { le_zero with inuse := true, locked := true, entnum := 7, type := 2,
                 think := some think_t.LET_PathMove, fieldSize := 1, pathLength := 2,
                 origin := ⟨64, 64, 0⟩, pos := ⟨2, 2, 0⟩, oldPos := ⟨2, 2, 0⟩,
                 newPos := ⟨4, 2, 0⟩, path := [0, 0], speed := [100, 100],
                 pathContents := [0, 0] }

/-- The record of `walker` after its first step, before any interpolation. -/
def walker1 : le_t :=
  { walker with pathPos := 1, endTime := 320, pos := ⟨3, 2, 0⟩ }

/-- The record of `walker` after its second step, before any interpolation. -/
def walker2 : le_t :=
  { walker with pathPos := 2, startTime := 320, endTime := 640, pos := ⟨4, 2, 0⟩,
                oldPos := ⟨3, 2, 0⟩, origin := ⟨96, 64, 0⟩ }

/-- The record of `walker` after the frame at the client time 100: one step made, the
origin 100 / 320 of the way from (2, 2, 0) to (3, 2, 0). -/
def walkerAt100 : le_t :=
  { walker1 with lighting_dirty := true, origin := ⟨74, 64, 0⟩ }

/-- A pool of two slots at the client time 700: slot 0 is an item entity on the grid
field (4, 2, 0) with the item 7 in its floor container, slot 1 is `walker2`, the actor
that has made both steps and stands on that field. -/
def poolArrive : clientBattleScape_t :=
  { LEs := fun i =>
      if i = 0 then { le_zero with inuse := true, type := 3, pos := ⟨4, 2, 0⟩, floor := [7] }
      else walker2
    numLEs := 2
    time := 700 }

/-- A pool with the record `le` in its only slot, at the client time `time`. -/
def poolOf (le : le_t) (time : Int) : clientBattleScape_t :=
  { LEs := fun i => if i = 0 then le else le_zero, numLEs := 1, time := time }

/-- A rotating brush model: it turns around the axis 1 by 100 degrees per call, at most
every 50 ms, and stands at 300 degrees. -/
def rotor : le_t :=
  { le_zero with inuse := true, type := 13, think := some think_t.LET_BrushModel,
                 angles := ⟨0, 300, 0⟩, dir := 1, speed := [50], rotationSpeed := 1 / 100 }

/-- The test of `LE_FindRadius` for the entity in slot `j`: the centre of its bounding box
lies within `rad` of `org`, and its type is `type` unless `type` is `ET_NULL`. -/
def LE_FindRadius.hit (env : client_t) (cl : clientBattleScape_t) (org : vec3_t) (rad : ℚ)
    (type : Int) (j : Nat) : Bool :=
  decide (env.VectorLength (LE_FindRadius.eorg org (cl.LEs j)) ≤ rad) &&
    (decide (type = env.ET_NULL) || decide ((cl.LEs j).type = type))

/-- A pool of two slots in use: the entity of slot 0 at (10, 0, 0), that of slot 1 at
(1, 0, 0), both without extent. -/
def poolRadius : clientBattleScape_t :=
  { LEs := fun i => if i = 0 then { le_zero with inuse := true, origin := ⟨10, 0, 0⟩ }
                    else { le_zero with inuse := true, origin := ⟨1, 0, 0⟩ }
    numLEs := 2 }

/-- The suffix of an animation name that is neither "stand" nor "walk": "pistol_d" with
a pistol in each hand, and also with an empty right hand and anything but a grenade in
the left hand; else the type of the object in the right hand, of that in the left hand
when the right hand is empty, and "item" when both hands are empty. -/
def LE_GetAnim.suffix (env : client_t) (right left : Int) : String :=
  if right = env.NONE then
    if left = env.NONE then "item"
    else if (env.ods left).type = "grenade" then "grenade"
    else "pistol_d"
  else if left ≠ env.NONE ∧ (env.ods right).type = "pistol" ∧ (env.ods left).type = "pistol"
    then "pistol_d"
  else (env.ods right).type

/-- The sample client with three objects: 1 is a pistol, 2 a grenade, every other index a
rifle. -/
def armoury : client_t :=
  { stubClient with
    ods := fun i =>
      if i = 1 then ⟨"pistol", '1'⟩ else if i = 2 then ⟨"grenade", '2'⟩ else ⟨"rifle", '3'⟩ }

/-- One pass of the loop of `LE_Think` for slot `j`, after the passes that gave `acc`:
`LE_ExecuteThink`, then the animation step on the record of slot `j`. -/
def LE_Think.pass (env : client_t)
    (call : think_t → clientBattleScape_t → Nat →
      Except String (clientBattleScape_t × List effect_t))
    (frametime : ℚ) (acc : Except String (clientBattleScape_t × List effect_t)) (j : Nat) :
    Except String (clientBattleScape_t × List effect_t) :=
  match acc with
  | .error msg => .error msg
  | .ok (cl, fx) =>
    match LE_ExecuteThink call cl j with
    | .error msg => .error msg
    | .ok (cl1, fx1) => .ok (setLE cl1 j (LE_Think.anim env frametime (cl1.LEs j)), fx ++ fx1)

/-- The passes of the loop of `LE_Think` for the slots below `n`, in the order of the
slots. -/
def LE_Think.slots (env : client_t)
    (call : think_t → clientBattleScape_t → Nat →
      Except String (clientBattleScape_t × List effect_t))
    (frametime : ℚ) (cl : clientBattleScape_t) (n : Nat) :
    Except String (clientBattleScape_t × List effect_t) :=
  (List.range n).foldl (LE_Think.pass env call frametime) (.ok (cl, []))

/-- A pool of three slots at the client time 100: the sample rotor in slot 0, a free slot
with the stale record of a rotor in slot 1, and an invisible entity in use without a think
function in slot 2. -/
def poolThink : clientBattleScape_t :=
  { LEs := fun i =>
      if i = 0 then rotor
      else if i = 1 then { rotor with inuse := false }
      else { le_zero with inuse := true, invis := true }
    numLEs := 3
    time := 100 }

/-- A fire definition of infinite speed with a particle for the projectile, for a hit
body and for an impact, and the sounds of both. -/
def rifleShot : fireDef_t :=
  { projectile := "bullet", hitBody := "blood", hitBodySound := "hit", impact := "spark",
    impactSound := "ricochet", bounceSound := "", speed := 0, splrad := 0, bounce := 0,
    dmgtype := 0 }

/-- The fire definition `rifleShot` with the damage type stun gas. -/
def stunShot : fireDef_t := { rifleShot with dmgtype := 5 }

/-- The fire definition `rifleShot` without a particle for the projectile. -/
def blankShot : fireDef_t := { rifleShot with projectile := "" }

/-- The record of a projectile of infinite speed when `LE_AddProjectile` returns: the
record `le` of the new slot with the visibility, the direction and the fire definition
set, the particle `ptl` stretched from the muzzle to the impact, and `inuse = false`. -/
def LE_AddProjectile.instant (env : client_t) (le : le_t) (fd : fireDef_t)
    (muzzle impact : vec3_t) (normal : Nat) (ptl : ptl_t) : le_t :=
  let delta := VectorSubtract impact muzzle
  let ptl2 : ptl_t :=
    { ptl with angles := env.VecToAngles delta, size0 := env.VectorLength delta,
               s := VectorMA muzzle (1 / 2) delta }
  { le with invis := decide (env.cl_leshowinvis = 0), ptl := some ptl2, dir := normal,
            fd := some fd, inuse := false }

/-- The particle the sample client spawns at the zero vector. -/
def bulletPtl : ptl_t :=
  { s := vec3_origin, v := vec3_origin, a := vec3_origin, angles := vec3_origin,
    omega := vec3_origin, size0 := 0 }

/-- The test `ref && ref[0] != 0` of `LET_Projectile` on a reference: the name when the
reference is set and not empty. -/
def refSet (ref : Option String) : Option String :=
  match ref with
  | some name => if name ≠ "" then some name else none
  | none => none

/-- A projectile in flight until the client time 1000: its particle is at (5000, 0, 0),
and it carries the particle "explosion" and the sound "boom" of its impact and the actor of
slot 1 as the victim. -/
def shell : le_t :=
  { le_zero with inuse := true, think := some think_t.LET_Projectile, endTime := 1000,
                 ptl := some { bulletPtl with s := ⟨5000, 0, 0⟩ },
                 ref1 := some "explosion", ref2 := some "boom", ref3 := some 1,
                 fd := some rifleShot, dir := 5 }

/-- The entries into `LE_ActorBodyHit` among the requests. -/
def effect_t.isBodyHit : effect_t → Bool
  | .LE_ActorBodyHit _ _ _ => true
  | _ => false

/-- The number of entries into `LE_ActorBodyHit` among the requests. -/
def bodyHits (fx : List effect_t) : Nat := fx.countP effect_t.isBodyHit

/-- The tests at the head of the loop body of `LE_GetClosestActor` for the entity in slot
`j`: it belongs to the player `cl_pnum` and is a living actor. -/
def LE_GetClosestActor.eligible (env : client_t) (cl : clientBattleScape_t) (cl_pnum : Int)
    (j : Nat) : Bool :=
  decide ((cl.LEs j).pnum = cl_pnum) && LE_IsLivingActor env (cl.LEs j)

/-- One pass of the loop of `LE_GetClosestActor` on the local variables `dist` and
`actor`, for the entity in use in slot `j`. -/
def LE_GetClosestActor.pass (env : client_t) (cl : clientBattleScape_t) (cl_pnum : Int)
    (origin : vec3_t) (st : Int × Option Nat) (j : Nat) : Int × Option Nat :=
  if LE_GetClosestActor.eligible env cl cl_pnum j = true ∧
      LE_GetClosestActor.tmp env origin (cl.LEs j) < st.1 then
    (LE_GetClosestActor.tmp env origin (cl.LEs j), some j)
  else st

/-- A living actor of the player 0 at the place `origin`. -/
def soldierAt (origin : vec3_t) : le_t :=
  { le_zero with inuse := true, type := 2, origin := origin }

/-- A pool of two living actors of the player 0: the actor of slot 0 at (19/10, 0, 0),
that of slot 1 at (6/5, 0, 0). -/
def poolClosest : clientBattleScape_t :=
  { LEs := fun i => if i = 0 then soldierAt ⟨19 / 10, 0, 0⟩ else soldierAt ⟨6 / 5, 0, 0⟩
    numLEs := 2 }

/-- A pool of two slots at the client time `time`: the projectile `shell` in slot 0 and a
living actor in slot 1. -/
def poolShell (time : Int) : clientBattleScape_t :=
  { LEs := fun i => if i = 0 then shell else soldierAt ⟨5000, 0, 0⟩
    numLEs := 2
    time := time }

/-- No local model has been added. -/
def noModels : localModels_t := { LMs := fun _ => lm_zero, numLMs := 0 }

/-- A pool of two slots: slot 0 is an item entity in use that is marked for removal and
still carries the item 7 in its floor container, slot 1 is in use and visible. -/
def poolReap : clientBattleScape_t :=
  { LEs := fun i =>
      if i = 0 then { le_zero with inuse := true, removeNextFrame := true, type := 3,
                                   floor := [7] }
      else { le_zero with inuse := true }
    numLEs := 2 }

/-! ## Lemmas on the pool iteration -/

theorem cursorStart_some (i : Nat) : cursorStart (some i) = i + 1 := rfl

theorem LE_GetNext_eq (cl : clientBattleScape_t) (le : Option Nat) :
    LE_GetNext cl le =
      if cursorStart le < cl.numLEs then some (cursorStart le) else none := by
  unfold LE_GetNext
  cases le with
  | none =>
    by_cases h0 : cl.numLEs = 0
    · simp [h0, cursorStart]
    · have hpos : 0 < cl.numLEs := Nat.pos_of_ne_zero h0
      simp [h0, cursorStart, hpos]
  | some i =>
    by_cases h0 : cl.numLEs = 0
    · simp [h0, cursorStart]
    · by_cases h1 : i + 1 < cl.numLEs
      · have h2 : ¬ cl.numLEs ≤ i + 1 := by omega
        simp [h0, cursorStart, h1, h2]
      · have h2 : cl.numLEs ≤ i + 1 := by omega
        simp [h0, cursorStart, h1, h2]

/-- Any loop of the shape `while ((le = LE_GetNext (le))) if (p (le)) break;` stops at
the first slot at or after the cursor that satisfies `p`. -/
theorem firstMatch_some (cl : clientBattleScape_t) (p : Nat → Bool)
    (f : Option Nat → Option Nat)
    (hf : ∀ le, f le = match LE_GetNext cl le with
      | none => none
      | some j => if p j then some j else f (some j))
    (le : Option Nat) (j : Nat) :
    f le = some j ↔
      (cursorStart le ≤ j ∧ j < cl.numLEs ∧ p j = true ∧
        ∀ k, cursorStart le ≤ k → k < j → p k = false) := by
  generalize hn : cl.numLEs - cursorStart le = n
  induction n using Nat.strong_induction_on generalizing le with
  | _ n ih =>
    rw [hf le, LE_GetNext_eq]
    by_cases hlt : cursorStart le < cl.numLEs
    · simp only [hlt, if_true]
      by_cases hp : p (cursorStart le) = true
      · simp only [hp, if_true, Option.some.injEq]
        constructor
        · intro h
          subst h
          exact ⟨le_refl _, hlt, hp, fun k h1 h2 => absurd h1 (by omega)⟩
        · rintro ⟨h1, _, _, h4⟩
          by_contra hne
          have hlt2 : cursorStart le < j := by omega
          have := h4 _ (le_refl _) hlt2
          simp [hp] at this
      · have hpf : p (cursorStart le) = false := by simpa using hp
        simp only [hpf, Bool.false_eq_true, if_false]
        have hrec := ih (cl.numLEs - cursorStart (some (cursorStart le)))
          (by simp only [cursorStart_some]; omega) (some (cursorStart le)) rfl
        rw [hrec]
        simp only [cursorStart_some]
        constructor
        · rintro ⟨h1, h2, h3, h4⟩
          refine ⟨by omega, h2, h3, fun k hk1 hk2 => ?_⟩
          by_cases hk : k = cursorStart le
          · subst hk; exact hpf
          · exact h4 k (by simp only [cursorStart_some] at *; omega) hk2
        · rintro ⟨h1, h2, h3, h4⟩
          have hne : j ≠ cursorStart le := by
            intro h; subst h; simp [hpf] at h3
          refine ⟨by simp only [cursorStart_some] at *; omega, h2, h3, fun k hk1 hk2 => ?_⟩
          exact h4 k (by simp only [cursorStart_some] at *; omega) hk2
    · simp only [hlt, if_false]
      constructor
      · intro h; simp at h
      · rintro ⟨h1, h2, _, _⟩
        omega

theorem firstMatch_none (cl : clientBattleScape_t) (p : Nat → Bool)
    (f : Option Nat → Option Nat)
    (hf : ∀ le, f le = match LE_GetNext cl le with
      | none => none
      | some j => if p j then some j else f (some j))
    (le : Option Nat) :
    f le = none ↔ ∀ k, cursorStart le ≤ k → k < cl.numLEs → p k = false := by
  constructor
  · intro h k hk1 hk2
    by_contra hpk
    have hpk : p k = true := by simpa using hpk
    -- the least slot at or after the cursor satisfying `p`
    have hex : ∃ m, cursorStart le ≤ m ∧ m < cl.numLEs ∧ p m = true := ⟨k, hk1, hk2, hpk⟩
    classical
    have hfind := Nat.find_spec hex
    have hmin := fun m => Nat.find_min hex (m := m)
    have hsome : f le = some (Nat.find hex) := by
      rw [firstMatch_some cl p f hf]
      refine ⟨hfind.1, hfind.2.1, hfind.2.2, fun m hm1 hm2 => ?_⟩
      by_contra hpm
      have hpm : p m = true := by simpa using hpm
      exact hmin m hm2 ⟨hm1, by omega, hpm⟩
    rw [h] at hsome
    simp at hsome
  · intro h
    cases hfl : f le with
    | none => rfl
    | some j =>
      have := (firstMatch_some cl p f hf le j).1 hfl
      have h2 := h j this.1 this.2.1
      rw [this.2.2.1] at h2
      simp at h2

theorem LE_GetNextInUse_unfold (cl : clientBattleScape_t) (le : Option Nat) :
    LE_GetNextInUse cl le = match LE_GetNext cl le with
      | none => none
      | some j => if (fun i => (cl.LEs i).inuse) j then some j else LE_GetNextInUse cl (some j) := by
  rw [LE_GetNextInUse]
  split <;> rename_i h <;> simp [h]

theorem LE_Add_scan_unfold (cl : clientBattleScape_t) (le : Option Nat) :
    LE_Add.scan cl le = match LE_GetNext cl le with
      | none => none
      | some j => if (fun i => !(cl.LEs i).inuse) j then some j else LE_Add.scan cl (some j) := by
  rw [LE_Add.scan]
  split <;> rename_i h <;> simp [h]

theorem LE_Add_scan_some (cl : clientBattleScape_t) (i : Nat) :
    LE_Add.scan cl none = some i ↔
      (i < cl.numLEs ∧ (cl.LEs i).inuse = false ∧ ∀ k, k < i → (cl.LEs k).inuse = true) := by
  rw [firstMatch_some cl (fun i => !(cl.LEs i).inuse) (LE_Add.scan cl) (LE_Add_scan_unfold cl)]
  simp [cursorStart]

theorem LE_Add_scan_none (cl : clientBattleScape_t) :
    LE_Add.scan cl none = none ↔ ∀ k, k < cl.numLEs → (cl.LEs k).inuse = true := by
  rw [firstMatch_none cl (fun i => !(cl.LEs i).inuse) (LE_Add.scan cl) (LE_Add_scan_unfold cl)]
  simp [cursorStart]

theorem LE_GetNextInUse_some (cl : clientBattleScape_t) (le : Option Nat) (j : Nat) :
    LE_GetNextInUse cl le = some j ↔
      (cursorStart le ≤ j ∧ j < cl.numLEs ∧ (cl.LEs j).inuse = true ∧
        ∀ k, cursorStart le ≤ k → k < j → (cl.LEs k).inuse = false) :=
  firstMatch_some cl (fun i => (cl.LEs i).inuse) (LE_GetNextInUse cl)
    (LE_GetNextInUse_unfold cl) le j

theorem LE_GetNextInUse_none (cl : clientBattleScape_t) (le : Option Nat) :
    LE_GetNextInUse cl le = none ↔
      ∀ k, cursorStart le ≤ k → k < cl.numLEs → (cl.LEs k).inuse = false :=
  firstMatch_none cl (fun i => (cl.LEs i).inuse) (LE_GetNextInUse cl)
    (LE_GetNextInUse_unfold cl) le

/-- The three ways `LE_Add` can end, by the state of the pool. -/
theorem LE_Add_cases (MAX_EDICTS : Nat) (ACTOR_SIZE_NORMAL : Int) (cl : clientBattleScape_t)
    (entnum : Int) :
    (∃ i, i < cl.numLEs ∧ (cl.LEs i).inuse = false ∧ (∀ k, k < i → (cl.LEs k).inuse = true) ∧
      LE_Add MAX_EDICTS ACTOR_SIZE_NORMAL cl entnum =
        .ok (setLE cl i (freshLE ACTOR_SIZE_NORMAL entnum), some i)) ∨
    ((∀ k, k < cl.numLEs → (cl.LEs k).inuse = true) ∧ cl.numLEs < MAX_EDICTS ∧
      LE_Add MAX_EDICTS ACTOR_SIZE_NORMAL cl entnum =
        .ok (setLE { cl with numLEs := cl.numLEs + 1 } cl.numLEs
          (freshLE ACTOR_SIZE_NORMAL entnum), some cl.numLEs)) ∨
    ((∀ k, k < cl.numLEs → (cl.LEs k).inuse = true) ∧ MAX_EDICTS ≤ cl.numLEs ∧
      LE_Add MAX_EDICTS ACTOR_SIZE_NORMAL cl entnum = .error "Too many LEs") := by
  unfold LE_Add
  cases hs : LE_Add.scan cl none with
  | some i =>
    left
    have := (LE_Add_scan_some cl i).1 hs
    exact ⟨i, this.1, this.2.1, this.2.2, rfl⟩
  | none =>
    right
    have hall := (LE_Add_scan_none cl).1 hs
    by_cases hm : cl.numLEs ≥ MAX_EDICTS
    · right
      exact ⟨hall, hm, by simp [hm]⟩
    · left
      refine ⟨hall, by omega, ?_⟩
      simp only [hm, if_false]
      rfl

/-! ## Claims on the entity pool -/

/-- C1: whenever `LE_Add` does not raise the capacity error, the record in the returned
slot has `inuse = true`, the given `entnum`, `fieldSize = ACTOR_SIZE_NORMAL` and every
other field zero / `NULL` (it is the zeroed record with these three fields set), whatever
the pool and the slot held before. -/
theorem C1_LE_Add_fresh_record (MAX_EDICTS : Nat) (ACTOR_SIZE_NORMAL : Int)
    (cl cl' : clientBattleScape_t) (entnum : Int) (r : Option Nat)
    (h : LE_Add MAX_EDICTS ACTOR_SIZE_NORMAL cl entnum = .ok (cl', r)) :
    ∃ i, r = some i ∧
      cl'.LEs i = { le_zero with inuse := true, entnum := entnum,
                                 fieldSize := ACTOR_SIZE_NORMAL } ∧
      (cl'.LEs i).inuse = true ∧ (cl'.LEs i).entnum = entnum ∧
      (cl'.LEs i).fieldSize = ACTOR_SIZE_NORMAL ∧
      (cl'.LEs i).removeNextFrame = false ∧ (cl'.LEs i).locked = false ∧
      (cl'.LEs i).think = none ∧ (cl'.LEs i).pathPos = 0 ∧ (cl'.LEs i).pathLength = 0 ∧
      (cl'.LEs i).type = 0 := by
  rcases LE_Add_cases MAX_EDICTS ACTOR_SIZE_NORMAL cl entnum with
    ⟨i, _, _, _, he⟩ | ⟨_, _, he⟩ | ⟨_, _, he⟩
  · rw [he] at h
    simp only [Except.ok.injEq, Prod.mk.injEq] at h
    obtain ⟨h1, h2⟩ := h
    subst h1 h2
    refine ⟨i, rfl, ?_⟩
    simp [setLE, freshLE, le_zero]
  · rw [he] at h
    simp only [Except.ok.injEq, Prod.mk.injEq] at h
    obtain ⟨h1, h2⟩ := h
    subst h1 h2
    refine ⟨cl.numLEs, rfl, ?_⟩
    simp [setLE, freshLE, le_zero]
  · rw [he] at h
    cases h

/-- C2: `LE_Add` reuses the lowest free slot below `numLEs`, leaving `numLEs` as it is;
when every slot below `numLEs` is in use and `numLEs < MAX_EDICTS` it returns slot
`numLEs` and `numLEs` grows by one. In both cases all other slots are unchanged. -/
theorem C2_LE_Add_slot_choice (MAX_EDICTS : Nat) (ACTOR_SIZE_NORMAL : Int)
    (cl : clientBattleScape_t) (entnum : Int) :
    ((∃ k, k < cl.numLEs ∧ (cl.LEs k).inuse = false) →
      ∃ i cl', LE_Add MAX_EDICTS ACTOR_SIZE_NORMAL cl entnum = .ok (cl', some i) ∧
        i < cl.numLEs ∧ (cl.LEs i).inuse = false ∧
        (∀ k, k < cl.numLEs → (cl.LEs k).inuse = false → i ≤ k) ∧
        cl'.numLEs = cl.numLEs ∧ ∀ j, j ≠ i → cl'.LEs j = cl.LEs j) ∧
    ((∀ k, k < cl.numLEs → (cl.LEs k).inuse = true) → cl.numLEs < MAX_EDICTS →
      ∃ cl', LE_Add MAX_EDICTS ACTOR_SIZE_NORMAL cl entnum = .ok (cl', some cl.numLEs) ∧
        cl'.numLEs = cl.numLEs + 1 ∧ ∀ j, j ≠ cl.numLEs → cl'.LEs j = cl.LEs j) := by
  rcases LE_Add_cases MAX_EDICTS ACTOR_SIZE_NORMAL cl entnum with
    ⟨i, hi, hfree, hlow, he⟩ | ⟨hall, hlt, he⟩ | ⟨hall, hge, he⟩
  · constructor
    · intro _
      refine ⟨i, _, he, hi, hfree, ?_, rfl, ?_⟩
      · intro k _ hk
        by_contra hlt
        have := hlow k (by omega)
        rw [hk] at this
        cases this
      · intro j hj
        simp [setLE, hj]
    · intro hall
      have := hall i hi
      rw [hfree] at this
      cases this
  · constructor
    · rintro ⟨k, hk, hkf⟩
      have := hall k hk
      rw [hkf] at this
      cases this
    · intro _ _
      refine ⟨_, he, rfl, ?_⟩
      intro j hj
      simp [setLE, hj]
  · constructor
    · rintro ⟨k, hk, hkf⟩
      have := hall k hk
      rw [hkf] at this
      cases this
    · intro _ hlt
      omega

/-- C3: `LE_Add` raises "Too many LEs" exactly when every slot below `numLEs` is in use
and `numLEs >= MAX_EDICTS`; this is its only error, a successful call never returns
`NULL`, and it keeps `numLEs <= MAX_EDICTS`. -/
theorem C3_LE_Add_capacity_error (MAX_EDICTS : Nat) (ACTOR_SIZE_NORMAL : Int)
    (cl : clientBattleScape_t) (entnum : Int) :
    (LE_Add MAX_EDICTS ACTOR_SIZE_NORMAL cl entnum = .error "Too many LEs" ↔
      ((∀ k, k < cl.numLEs → (cl.LEs k).inuse = true) ∧ cl.numLEs ≥ MAX_EDICTS)) ∧
    (∀ msg, LE_Add MAX_EDICTS ACTOR_SIZE_NORMAL cl entnum = .error msg →
      msg = "Too many LEs") ∧
    (∀ cl' r, LE_Add MAX_EDICTS ACTOR_SIZE_NORMAL cl entnum = .ok (cl', r) → r ≠ none) ∧
    (∀ cl' r, LE_Add MAX_EDICTS ACTOR_SIZE_NORMAL cl entnum = .ok (cl', r) →
      cl.numLEs ≤ MAX_EDICTS → cl'.numLEs ≤ MAX_EDICTS) := by
  rcases LE_Add_cases MAX_EDICTS ACTOR_SIZE_NORMAL cl entnum with
    ⟨i, hi, hfree, hlow, he⟩ | ⟨hall, hlt, he⟩ | ⟨hall, hge, he⟩
  · rw [he]
    refine ⟨?_, ?_, ?_, ?_⟩
    · constructor
      · intro h; cases h
      · rintro ⟨hall, _⟩
        have := hall i hi
        rw [hfree] at this
        cases this
    · intro msg h; cases h
    · intro cl' r h
      simp only [Except.ok.injEq, Prod.mk.injEq] at h
      rw [← h.2]; simp
    · intro cl' r h hle
      simp only [Except.ok.injEq, Prod.mk.injEq] at h
      rw [← h.1]; exact hle
  · rw [he]
    refine ⟨?_, ?_, ?_, ?_⟩
    · constructor
      · intro h; cases h
      · rintro ⟨_, hge⟩
        omega
    · intro msg h; cases h
    · intro cl' r h
      simp only [Except.ok.injEq, Prod.mk.injEq] at h
      rw [← h.2]; simp
    · intro cl' r h _
      simp only [Except.ok.injEq, Prod.mk.injEq] at h
      rw [← h.1]
      simp only [setLE]
      omega
  · rw [he]
    refine ⟨?_, ?_, ?_, ?_⟩
    · exact ⟨fun _ => ⟨hall, hge⟩, fun _ => rfl⟩
    · intro msg h
      simp only [Except.error.injEq] at h
      exact h.symm
    · intro cl' r h; cases h
    · intro cl' r h; cases h

theorem LE_Add_poolFree :
    LE_Add 4 1 poolFree 7 = .ok (setLE poolFree 1 (freshLE 1 7), some 1) := by
  simp [LE_Add, LE_Add.scan, LE_GetNext, LE_Add.init, poolFree, usedLE, freshLE]

theorem LE_Add_poolFull :
    LE_Add 4 1 poolFull 7 =
      .ok (setLE { poolFull with numLEs := poolFull.numLEs + 1 } poolFull.numLEs (freshLE 1 7),
        some poolFull.numLEs) := by
  simp [LE_Add, LE_Add.scan, LE_GetNext, LE_Add.init, poolFull, usedLE, freshLE]

/-- Witness of C1: adding to `poolFree` reuses slot 1, whose stale content is gone. -/
theorem C1_LE_Add_fresh_record_witness :
    LE_Add 4 1 poolFree 7 = .ok (setLE poolFree 1 (freshLE 1 7), some 1) ∧
    ∃ i, some 1 = some i ∧
      (setLE poolFree 1 (freshLE 1 7)).LEs i =
        { le_zero with inuse := true, entnum := 7, fieldSize := 1 } ∧
      ((setLE poolFree 1 (freshLE 1 7)).LEs i).inuse = true ∧
      ((setLE poolFree 1 (freshLE 1 7)).LEs i).entnum = 7 ∧
      ((setLE poolFree 1 (freshLE 1 7)).LEs i).fieldSize = 1 ∧
      ((setLE poolFree 1 (freshLE 1 7)).LEs i).removeNextFrame = false ∧
      ((setLE poolFree 1 (freshLE 1 7)).LEs i).locked = false ∧
      ((setLE poolFree 1 (freshLE 1 7)).LEs i).think = none ∧
      ((setLE poolFree 1 (freshLE 1 7)).LEs i).pathPos = 0 ∧
      ((setLE poolFree 1 (freshLE 1 7)).LEs i).pathLength = 0 ∧
      ((setLE poolFree 1 (freshLE 1 7)).LEs i).type = 0 :=
  ⟨LE_Add_poolFree,
   C1_LE_Add_fresh_record 4 1 poolFree (setLE poolFree 1 (freshLE 1 7)) 7 (some 1)
     LE_Add_poolFree⟩

/-- Witness of C2: `poolFree` has a free slot, `poolFull` has none and room to grow. -/
theorem C2_LE_Add_slot_choice_witness :
    (∃ i cl', LE_Add 4 1 poolFree 7 = .ok (cl', some i) ∧
        i < poolFree.numLEs ∧ (poolFree.LEs i).inuse = false ∧
        (∀ k, k < poolFree.numLEs → (poolFree.LEs k).inuse = false → i ≤ k) ∧
        cl'.numLEs = poolFree.numLEs ∧ ∀ j, j ≠ i → cl'.LEs j = poolFree.LEs j) ∧
    (∃ cl', LE_Add 4 1 poolFull 7 = .ok (cl', some poolFull.numLEs) ∧
        cl'.numLEs = poolFull.numLEs + 1 ∧
        ∀ j, j ≠ poolFull.numLEs → cl'.LEs j = poolFull.LEs j) :=
  ⟨(C2_LE_Add_slot_choice 4 1 poolFree 7).1 ⟨1, by decide, by simp [poolFree, usedLE]⟩,
   (C2_LE_Add_slot_choice 4 1 poolFull 7).2 (fun _ _ => by simp [poolFull, usedLE])
     (by decide)⟩

/-- Witness of C3: the full pool at capacity 2 raises the error, at capacity 4 it grows
to 3 slots and returns a pointer. -/
theorem C3_LE_Add_capacity_error_witness :
    LE_Add 2 1 poolFull 7 = .error "Too many LEs" ∧
    some poolFull.numLEs ≠ none ∧
    (setLE { poolFull with numLEs := poolFull.numLEs + 1 } poolFull.numLEs
      (freshLE 1 7)).numLEs ≤ 4 :=
  ⟨(C3_LE_Add_capacity_error 2 1 poolFull 7).1.2
      ⟨fun _ _ => by simp [poolFull, usedLE], by decide⟩,
   (C3_LE_Add_capacity_error 4 1 poolFull 7).2.2.1 _ _ LE_Add_poolFull,
   (C3_LE_Add_capacity_error 4 1 poolFull 7).2.2.2 _ _ LE_Add_poolFull (by decide)⟩

theorem LE_Get_loop_eq (cl : clientBattleScape_t) (entnum : Int) (le : Option Nat) :
    LE_Get.loop cl entnum le = match LE_GetNextInUse cl le with
      | none => none
      | some j => if (cl.LEs j).entnum = entnum then some j
                  else LE_Get.loop cl entnum (some j) := by
  rw [LE_Get.loop]
  split <;> rename_i h <;> simp [h]

theorem LE_Get_loop_unfold (cl : clientBattleScape_t) (entnum : Int) (le : Option Nat) :
    LE_Get.loop cl entnum le = match LE_GetNext cl le with
      | none => none
      | some j =>
        if (fun i => (cl.LEs i).inuse && decide ((cl.LEs i).entnum = entnum)) j then some j
        else LE_Get.loop cl entnum (some j) := by
  cases hn : LE_GetNext cl le with
  | none =>
    have h1 : LE_GetNextInUse cl le = none := by
      rw [LE_GetNextInUse_unfold, hn]
    rw [LE_Get_loop_eq, h1]
  | some j =>
    simp only
    by_cases hu : (cl.LEs j).inuse = true
    · have h1 : LE_GetNextInUse cl le = some j := by
        rw [LE_GetNextInUse_unfold, hn]; simp [hu]
      rw [LE_Get_loop_eq, h1]
      simp [hu]
    · have hu : (cl.LEs j).inuse = false := by simpa using hu
      have h1 : LE_GetNextInUse cl le = LE_GetNextInUse cl (some j) := by
        rw [LE_GetNextInUse_unfold cl le, hn]; simp [hu]
      simp only [hu, Bool.false_and, Bool.false_eq_true, if_false]
      rw [LE_Get_loop_eq cl entnum le, LE_Get_loop_eq cl entnum (some j), h1]

theorem LE_Get_loop_some (cl : clientBattleScape_t) (entnum : Int) (j : Nat) :
    LE_Get.loop cl entnum none = some j ↔
      (j < cl.numLEs ∧ (cl.LEs j).inuse = true ∧ (cl.LEs j).entnum = entnum ∧
        ∀ k, k < j → ¬ ((cl.LEs k).inuse = true ∧ (cl.LEs k).entnum = entnum)) := by
  rw [firstMatch_some cl (fun i => (cl.LEs i).inuse && decide ((cl.LEs i).entnum = entnum))
    (LE_Get.loop cl entnum) (LE_Get_loop_unfold cl entnum)]
  simp [cursorStart, and_assoc]

theorem LE_Get_loop_none (cl : clientBattleScape_t) (entnum : Int) :
    LE_Get.loop cl entnum none = none ↔
      ∀ k, k < cl.numLEs → ¬ ((cl.LEs k).inuse = true ∧ (cl.LEs k).entnum = entnum) := by
  rw [firstMatch_none cl (fun i => (cl.LEs i).inuse && decide ((cl.LEs i).entnum = entnum))
    (LE_Get.loop cl entnum) (LE_Get_loop_unfold cl entnum)]
  simp [cursorStart]

/-- C4: `LE_Get` returns the lowest slot that is in use and carries the given `entnum`;
it returns `NULL` exactly for the sentinel `SKIP_LOCAL_ENTITY` or when no slot in use
carries the number. A slot not in use is never returned, and the sentinel gives `NULL`
whatever the pool holds. -/
theorem C4_LE_Get_lowest_in_use (SKIP_LOCAL_ENTITY : Int) (cl : clientBattleScape_t)
    (entnum : Int) :
    (∀ j, LE_Get SKIP_LOCAL_ENTITY cl entnum = some j ↔
      (entnum ≠ SKIP_LOCAL_ENTITY ∧ j < cl.numLEs ∧ (cl.LEs j).inuse = true ∧
        (cl.LEs j).entnum = entnum ∧
        ∀ k, k < j → ¬ ((cl.LEs k).inuse = true ∧ (cl.LEs k).entnum = entnum))) ∧
    (LE_Get SKIP_LOCAL_ENTITY cl entnum = none ↔
      (entnum = SKIP_LOCAL_ENTITY ∨
        ∀ k, k < cl.numLEs → ¬ ((cl.LEs k).inuse = true ∧ (cl.LEs k).entnum = entnum))) ∧
    (∀ j, (cl.LEs j).inuse = false → LE_Get SKIP_LOCAL_ENTITY cl entnum ≠ some j) ∧
    LE_Get SKIP_LOCAL_ENTITY cl SKIP_LOCAL_ENTITY = none := by
  have hsome : ∀ j, LE_Get SKIP_LOCAL_ENTITY cl entnum = some j ↔
      (entnum ≠ SKIP_LOCAL_ENTITY ∧ j < cl.numLEs ∧ (cl.LEs j).inuse = true ∧
        (cl.LEs j).entnum = entnum ∧
        ∀ k, k < j → ¬ ((cl.LEs k).inuse = true ∧ (cl.LEs k).entnum = entnum)) := by
    intro j
    unfold LE_Get
    by_cases hs : entnum = SKIP_LOCAL_ENTITY
    · simp [hs]
    · simp only [hs, if_false, ne_eq, not_false_eq_true, true_and]
      exact LE_Get_loop_some cl entnum j
  refine ⟨hsome, ?_, ?_, ?_⟩
  · unfold LE_Get
    by_cases hs : entnum = SKIP_LOCAL_ENTITY
    · simp [hs]
    · simp only [hs, if_false, false_or]
      exact LE_Get_loop_none cl entnum
  · intro j hj h
    have := ((hsome j).1 h).2.2.1
    rw [hj] at this
    cases this
  · simp [LE_Get]

/-- Witness of C4: on `poolGet` the free slot 0 is skipped and slot 1 is found. -/
theorem C4_LE_Get_lowest_in_use_witness :
    LE_Get (-1) poolGet 5 = some 1 ∧ LE_Get (-1) poolGet 5 ≠ some 0 :=
  ⟨((C4_LE_Get_lowest_in_use (-1) poolGet 5).1 1).2
      ⟨by decide, by decide, by simp [poolGet], by simp [poolGet],
       fun k hk => by
        have hk0 : k = 0 := by omega
        subst hk0
        simp [poolGet, le_zero]⟩,
   (C4_LE_Get_lowest_in_use (-1) poolGet 5).2.2.1 0 (by simp [poolGet, le_zero])⟩

theorem inUseAfter_eq (cl : clientBattleScape_t) (le : Option Nat) :
    inUseAfter cl le = match LE_GetNextInUse cl le with
      | none => []
      | some j => j :: inUseAfter cl (some j) := by
  rw [inUseAfter]
  split <;> rename_i h <;> simp [h]

theorem inUseAfter_filter (cl : clientBattleScape_t) (le : Option Nat) :
    inUseAfter cl le =
      (List.range' (cursorStart le) (cl.numLEs - cursorStart le)).filter
        (fun i => (cl.LEs i).inuse) := by
  generalize hn : cl.numLEs - cursorStart le = n
  induction n generalizing le with
  | zero =>
    have h1 : LE_GetNextInUse cl le = none := by
      rw [LE_GetNextInUse_unfold, LE_GetNext_eq]
      have : ¬ cursorStart le < cl.numLEs := by omega
      simp [this]
    rw [inUseAfter_eq, h1]
    simp
  | succ n ih =>
    have hlt : cursorStart le < cl.numLEs := by omega
    have hrec := ih (some (cursorStart le)) (by simp only [cursorStart_some]; omega)
    simp only [cursorStart_some] at hrec
    rw [List.range'_succ, List.filter_cons]
    by_cases hu : (cl.LEs (cursorStart le)).inuse = true
    · have h1 : LE_GetNextInUse cl le = some (cursorStart le) := by
        rw [LE_GetNextInUse_unfold, LE_GetNext_eq]
        simp [hlt, hu]
      rw [inUseAfter_eq, h1]
      simp only [hu, if_true]
      rw [hrec]
    · have hu : (cl.LEs (cursorStart le)).inuse = false := by simpa using hu
      have h1 : LE_GetNextInUse cl le = LE_GetNextInUse cl (some (cursorStart le)) := by
        rw [LE_GetNextInUse_unfold cl le, LE_GetNext_eq]
        simp [hlt, hu]
      rw [inUseAfter_eq cl le, h1, ← inUseAfter_eq cl (some (cursorStart le))]
      simp only [hu, Bool.false_eq_true, if_false]
      exact hrec

/-- C5: from a cursor that is `NULL` or a slot below `numLEs`, `LE_GetNextInUse` returns
`NULL` or a slot below `numLEs` that is in use and lies strictly behind the cursor;
iterating from `NULL` until `NULL` comes back visits exactly the slots below `numLEs`
that are in use, each once and in increasing order; on an empty pool the first call
returns `NULL`. -/
theorem C5_LE_GetNextInUse_iteration (cl : clientBattleScape_t) (le : Option Nat)
    (hle : ∀ i, le = some i → i < cl.numLEs) :
    (LE_GetNextInUse cl le = none ∨
      ∃ j, LE_GetNextInUse cl le = some j ∧ (cl.LEs j).inuse = true ∧ j < cl.numLEs ∧
        ∀ i, le = some i → i < j) ∧
    inUseAfter cl none = (List.range cl.numLEs).filter (fun i => (cl.LEs i).inuse) ∧
    (∀ i, i ∈ inUseAfter cl none ↔ (i < cl.numLEs ∧ (cl.LEs i).inuse = true)) ∧
    List.Pairwise (fun a b => a < b) (inUseAfter cl none) ∧
    (cl.numLEs = 0 → LE_GetNextInUse cl none = none) := by
  have hlist : inUseAfter cl none =
      (List.range cl.numLEs).filter (fun i => (cl.LEs i).inuse) := by
    rw [inUseAfter_filter, List.range_eq_range']
    simp [cursorStart]
  refine ⟨?_, hlist, ?_, ?_, ?_⟩
  · cases h : LE_GetNextInUse cl le with
    | none => exact Or.inl rfl
    | some j =>
      right
      have hj := (LE_GetNextInUse_some cl le j).1 h
      refine ⟨j, rfl, hj.2.2.1, hj.2.1, ?_⟩
      intro i hi
      subst hi
      have := hj.1
      simp only [cursorStart_some] at this
      omega
  · intro i
    rw [hlist]
    simp [List.mem_filter]
  · rw [hlist]
    exact List.Pairwise.sublist (List.filter_sublist _) (List.pairwise_lt_range _)
  · intro h0
    rw [LE_GetNextInUse_none]
    intro k _ hk
    omega

/-- Witness of C5: on `poolGet` the cursor at slot 0 advances to slot 1. -/
theorem C5_LE_GetNextInUse_iteration_witness :
    (LE_GetNextInUse poolGet (some 0) = none ∨
      ∃ j, LE_GetNextInUse poolGet (some 0) = some j ∧ (poolGet.LEs j).inuse = true ∧
        j < poolGet.numLEs ∧ ∀ i, some 0 = some i → i < j) ∧
    inUseAfter poolGet none =
      (List.range poolGet.numLEs).filter (fun i => (poolGet.LEs i).inuse) ∧
    (∀ i, i ∈ inUseAfter poolGet none ↔ (i < poolGet.numLEs ∧ (poolGet.LEs i).inuse = true)) ∧
    List.Pairwise (fun a b => a < b) (inUseAfter poolGet none) ∧
    (poolGet.numLEs = 0 → LE_GetNextInUse poolGet none = none) :=
  C5_LE_GetNextInUse_iteration poolGet (some 0) (fun i hi => by
    simp only [Option.some.injEq] at hi
    subst hi
    decide)

/-- C6: `LE_Lock` fails exactly on a locked entity and otherwise only sets `locked`;
`LE_Unlock` fails exactly on an entity that is not locked and otherwise only clears
`locked`. So locking twice fails at the second call, unlocking an unlocked entity fails,
and lock followed by unlock gives back the original record of an unlocked entity. -/
theorem C6_LE_Lock_Unlock (le : le_t) :
    ((∃ msg, LE_Lock le = .error msg) ↔ le.locked = true) ∧
    (le.locked = false → LE_Lock le = .ok { le with locked := true }) ∧
    ((∃ msg, LE_Unlock le = .error msg) ↔ le.locked = false) ∧
    (le.locked = true → LE_Unlock le = .ok { le with locked := false }) ∧
    (le.locked = false → ∃ le1, LE_Lock le = .ok le1 ∧ ∃ msg, LE_Lock le1 = .error msg) ∧
    (le.locked = false → ∃ le1, LE_Lock le = .ok le1 ∧ LE_Unlock le1 = .ok le) := by
  cases hl : le.locked with
  | true =>
    simp [LE_Lock, LE_Unlock, hl]
  | false =>
    simp [LE_Lock, LE_Unlock, hl]
    cases le
    simp_all

/-- Witness of C6: the zeroed record is unlocked, `usedLE` is locked. -/
theorem C6_LE_Lock_Unlock_witness :
    LE_Lock le_zero = .ok { le_zero with locked := true } ∧
    LE_Unlock usedLE = .ok { usedLE with locked := false } ∧
    (∃ le1, LE_Lock le_zero = .ok le1 ∧ ∃ msg, LE_Lock le1 = .error msg) ∧
    (∃ le1, LE_Lock le_zero = .ok le1 ∧ LE_Unlock le1 = .ok le_zero) :=
  ⟨(C6_LE_Lock_Unlock le_zero).2.1 rfl,
   (C6_LE_Lock_Unlock usedLE).2.2.2.1 rfl,
   (C6_LE_Lock_Unlock le_zero).2.2.2.2.1 rfl,
   (C6_LE_Lock_Unlock le_zero).2.2.2.2.2 rfl⟩

/-! ## Lemmas on the trace combination -/

theorem combine_fields (clip : moveclip_t) (j : Nat) (t : trace_t) :
    CL_ClipMoveToLEs.combine clip j t =
      { clip with trace := (CL_ClipMoveToLEs.combine clip j t).trace } := by
  unfold CL_ClipMoveToLEs.combine
  split_ifs <;> rfl

theorem sweep_combine (env : collision_t) (clip : moveclip_t) (j : Nat) (t : trace_t)
    (le : le_t) :
    CL_ClipMoveToLEs.sweep env (CL_ClipMoveToLEs.combine clip j t) le =
      CL_ClipMoveToLEs.sweep env clip le := by
  rw [combine_fields]
  rfl

theorem eligible_combine (cl : clientBattleScape_t) (clip : moveclip_t) (j : Nat)
    (t : trace_t) :
    CL_ClipMoveToLEs.eligible cl (CL_ClipMoveToLEs.combine clip j t) =
      CL_ClipMoveToLEs.eligible cl clip := by
  rw [combine_fields]
  rfl

theorem body_skip (env : collision_t) (cl : clientBattleScape_t) (clip : moveclip_t)
    (j : Nat) (h : CL_ClipMoveToLEs.eligible cl clip j = false) :
    CL_ClipMoveToLEs.body env cl clip j = .ok clip := by
  unfold CL_ClipMoveToLEs.body
  unfold CL_ClipMoveToLEs.eligible at h
  by_cases h1 : (cl.LEs j).contents &&& clip.contentmask = 0
  · simp [h1]
  · by_cases h2 : some j = clip.passle ∨ some j = clip.passle2
    · simp [h1, h2]
    · exfalso
      simp only [not_or] at h2
      simp [h1, h2.1, h2.2] at h

theorem body_sweep (env : collision_t) (cl : clientBattleScape_t) (clip : moveclip_t)
    (j : Nat) (t : trace_t) (h : CL_ClipMoveToLEs.eligible cl clip j = true)
    (ht : CL_ClipMoveToLEs.sweep env clip (cl.LEs j) = .ok t) :
    CL_ClipMoveToLEs.body env cl clip j = .ok (CL_ClipMoveToLEs.combine clip j t) := by
  unfold CL_ClipMoveToLEs.body
  unfold CL_ClipMoveToLEs.eligible at h
  simp only [ne_eq, Bool.and_eq_true, decide_eq_true_eq] at h
  have h2 : ¬ (some j = clip.passle ∨ some j = clip.passle2) := by
    simp only [not_or]; exact ⟨h.2.1, h.2.2⟩
  simp only [h.1, h2, if_false, ht]

theorem loop_eq (env : collision_t) (cl : clientBattleScape_t) (clip : moveclip_t)
    (le : Option Nat) :
    CL_ClipMoveToLEs.loop env cl clip le = match LE_GetNextInUse cl le with
      | none => .ok clip
      | some j =>
        match CL_ClipMoveToLEs.body env cl clip j with
        | .error msg => .error msg
        | .ok clip' => CL_ClipMoveToLEs.loop env cl clip' (some j) := by
  rw [CL_ClipMoveToLEs.loop]
  split <;> rename_i h <;> simp [h]

/-- The loop of `CL_ClipMoveToLEs` applies the combination rule to the sweeps of the
eligible slots in use, in slot order; it returns when every sweep does. -/
theorem loop_combineAll (env : collision_t) (cl : clientBattleScape_t) (le : Option Nat)
    (clip : moveclip_t) (ts : List (Nat × trace_t))
    (hts : ts.map Prod.fst = (inUseAfter cl le).filter (CL_ClipMoveToLEs.eligible cl clip))
    (hsw : ∀ p ∈ ts, CL_ClipMoveToLEs.sweep env clip (cl.LEs p.1) = .ok p.2) :
    CL_ClipMoveToLEs.loop env cl clip le = .ok (CL_ClipMoveToLEs.combineAll clip ts) := by
  generalize hn : slotsAfter cl le = n
  induction n using Nat.strong_induction_on generalizing le clip ts with
  | _ n ih =>
    rw [loop_eq]
    rw [inUseAfter_eq] at hts
    cases hnext : LE_GetNextInUse cl le with
    | none =>
      rw [hnext] at hts
      simp only [List.filter_nil, List.map_eq_nil_iff] at hts
      subst hts
      rfl
    | some j =>
      rw [hnext] at hts
      simp only
      have hlt := LE_GetNextInUse_slotsAfter cl le j hnext
      by_cases hel : CL_ClipMoveToLEs.eligible cl clip j = true
      · rw [List.filter_cons_of_pos hel] at hts
        cases ts with
        | nil => simp at hts
        | cons p ts' =>
          simp only [List.map_cons, List.cons.injEq] at hts
          obtain ⟨hp, hts'⟩ := hts
          have hpsw := hsw p (List.mem_cons_self _ _)
          rw [hp] at hpsw
          rw [body_sweep env cl clip j p.2 hel hpsw]
          simp only
          have := ih _ (by omega) (some j) (CL_ClipMoveToLEs.combine clip j p.2) ts'
            (by rw [eligible_combine]; exact hts')
            (fun q hq => by rw [sweep_combine]; exact hsw q (List.mem_cons_of_mem _ hq)) rfl
          rw [this]
          simp [CL_ClipMoveToLEs.combineAll, hp]
      · have hel : CL_ClipMoveToLEs.eligible cl clip j = false := by simpa using hel
        rw [List.filter_cons_of_neg (by simp [hel])] at hts
        rw [body_skip env cl clip j hel]
        exact ih _ (by omega) (some j) clip ts hts hsw rfl

/-- Function `CL_Trace` in a query that reaches the entity phase: the result is the world trace
combined with the sweeps of the checked slots, in order. -/
theorem CL_Trace_combineAll (env : collision_t) (cl : clientBattleScape_t)
    (start end_ mins maxs : vec3_t) (passle passle2 : Option Nat) (contentmask : Nat)
    (worldLevel : Nat) (ts : List (Nat × trace_t))
    (hphase : (CL_Trace.world env start end_ mins maxs contentmask worldLevel).fraction ≠ 0)
    (hts : ts.map Prod.fst =
      CL_Trace.checked env cl start end_ mins maxs passle passle2 contentmask worldLevel)
    (hsw : ∀ p ∈ ts, CL_ClipMoveToLEs.sweep env
      (CL_Trace.clip env start end_ mins maxs passle passle2 contentmask worldLevel)
      (cl.LEs p.1) = .ok p.2) :
    CL_Trace env cl start end_ mins maxs passle passle2 contentmask worldLevel =
      .ok (CL_ClipMoveToLEs.combineAll
        (CL_Trace.clip env start end_ mins maxs passle passle2 contentmask worldLevel)
        ts).trace := by
  unfold CL_Trace
  simp only [hphase, if_false]
  unfold CL_ClipMoveToLEs
  unfold CL_Trace.checked at hts
  by_cases hall : (CL_Trace.world env start end_ mins maxs contentmask worldLevel).allsolid
      = true
  · have hall' : (CL_Trace.clip env start end_ mins maxs passle passle2 contentmask
        worldLevel).trace.allsolid = true := hall
    simp only [hall, if_true, List.map_eq_nil_iff] at hts
    subst hts
    simp only [hall', if_true]
    rfl
  · have hall' : ¬ (CL_Trace.clip env start end_ mins maxs passle passle2 contentmask
        worldLevel).trace.allsolid = true := hall
    simp only [hall, Bool.false_eq_true, if_false] at hts
    simp only [hall', Bool.false_eq_true, if_false]
    rw [loop_combineAll env cl none _ ts hts hsw]

theorem combineAll_nil (c : moveclip_t) : CL_ClipMoveToLEs.combineAll c [] = c := rfl

theorem combineAll_cons (c : moveclip_t) (p : Nat × trace_t) (ts : List (Nat × trace_t)) :
    CL_ClipMoveToLEs.combineAll c (p :: ts) =
      CL_ClipMoveToLEs.combineAll (CL_ClipMoveToLEs.combine c p.1 p.2) ts := rfl

theorem combineAll_append (c : moveclip_t) (ts us : List (Nat × trace_t)) :
    CL_ClipMoveToLEs.combineAll c (ts ++ us) =
      CL_ClipMoveToLEs.combineAll (CL_ClipMoveToLEs.combineAll c ts) us := by
  simp [CL_ClipMoveToLEs.combineAll, List.foldl_append]

/-- A sweep that is strictly closer replaces the result and keeps an old `startsolid`. -/
theorem combine_closer (c : moveclip_t) (j : Nat) (t : trace_t)
    (h : t.fraction < c.trace.fraction) :
    (CL_ClipMoveToLEs.combine c j t).trace =
      { t with le := some j, startsolid := t.startsolid || c.trace.startsolid } := by
  unfold CL_ClipMoveToLEs.combine
  simp [h]

/-- A sweep that is not closer but `allsolid` replaces the result. -/
theorem combine_allsolid (c : moveclip_t) (j : Nat) (t : trace_t)
    (h : ¬ t.fraction < c.trace.fraction) (ha : t.allsolid = true) :
    (CL_ClipMoveToLEs.combine c j t).trace = { t with le := some j } := by
  unfold CL_ClipMoveToLEs.combine
  simp [h, ha]

/-- A sweep that is neither closer nor `allsolid` changes `startsolid` at most. -/
theorem combine_keep (c : moveclip_t) (j : Nat) (t : trace_t)
    (h : ¬ t.fraction < c.trace.fraction) (ha : t.allsolid = false) :
    CL_ClipMoveToLEs.combine c j t =
      { c with trace := { c.trace with startsolid := c.trace.startsolid || t.startsolid } } := by
  unfold CL_ClipMoveToLEs.combine
  cases hs : t.startsolid <;> simp [h, ha, hs]

theorem combineAll_keep (ts : List (Nat × trace_t)) (c : moveclip_t)
    (h : ∀ p ∈ ts, p.2.allsolid = false ∧ ¬ p.2.fraction < c.trace.fraction) :
    CL_ClipMoveToLEs.combineAll c ts =
      { c with trace := { c.trace with
          startsolid := c.trace.startsolid || ts.any (fun p => p.2.startsolid) } } := by
  induction ts generalizing c with
  | nil => simp [combineAll_nil]
  | cons p ts ih =>
    have hp := h p (List.mem_cons_self _ _)
    have hk := combine_keep c p.1 p.2 hp.2 hp.1
    have hfr : (CL_ClipMoveToLEs.combine c p.1 p.2).trace.fraction = c.trace.fraction := by
      rw [hk]
    rw [combineAll_cons, ih (CL_ClipMoveToLEs.combine c p.1 p.2)
      (fun q hq => by rw [hfr]; exact h q (List.mem_cons_of_mem _ hq)), hk]
    simp [Bool.or_assoc]

theorem combine_not_allsolid (c : moveclip_t) (j : Nat) (t : trace_t)
    (hc : c.trace.allsolid = false) (ht : t.allsolid = false) :
    (CL_ClipMoveToLEs.combine c j t).trace.allsolid = false := by
  by_cases hlt : t.fraction < c.trace.fraction
  · rw [combine_closer c j t hlt]
    exact ht
  · rw [combine_keep c j t hlt ht]
    exact hc

theorem combineAll_not_allsolid (ts : List (Nat × trace_t)) (c : moveclip_t)
    (hc : c.trace.allsolid = false) (hts : ∀ p ∈ ts, p.2.allsolid = false) :
    (CL_ClipMoveToLEs.combineAll c ts).trace.allsolid = false := by
  induction ts generalizing c with
  | nil => exact hc
  | cons p ts ih =>
    rw [combineAll_cons]
    exact ih _ (combine_not_allsolid c p.1 p.2 hc (hts p (List.mem_cons_self _ _)))
      (fun q hq => hts q (List.mem_cons_of_mem _ hq))

/-- Once a closer sweep without `allsolid` has been checked, and no `allsolid` sweep
follows, the result is not `allsolid`. -/
theorem combineAll_closer_not_allsolid (ts : List (Nat × trace_t)) (c : moveclip_t)
    (hts : ∀ p ∈ ts, p.2.allsolid = false)
    (hex : ∃ p ∈ ts, p.2.fraction < c.trace.fraction) :
    (CL_ClipMoveToLEs.combineAll c ts).trace.allsolid = false := by
  induction ts generalizing c with
  | nil =>
    obtain ⟨p, hp, _⟩ := hex
    cases hp
  | cons p ts ih =>
    rw [combineAll_cons]
    have hpa := hts p (List.mem_cons_self _ _)
    have hrest : ∀ q ∈ ts, q.2.allsolid = false := fun q hq => hts q (List.mem_cons_of_mem _ hq)
    by_cases hlt : p.2.fraction < c.trace.fraction
    · apply combineAll_not_allsolid _ _ _ hrest
      rw [combine_closer c p.1 p.2 hlt]
      exact hpa
    · apply ih _ hrest
      obtain ⟨q, hq, hqlt⟩ := hex
      rcases List.mem_cons.1 hq with rfl | hq'
      · exact absurd hqlt hlt
      · refine ⟨q, hq', ?_⟩
        rw [combine_keep c p.1 p.2 hlt hpa]
        exact hqlt

/-- What an `allsolid` sweep leaves as the running result, closer or not. -/
theorem combine_of_allsolid (c : moveclip_t) (j : Nat) (t : trace_t)
    (ha : t.allsolid = true) :
    (CL_ClipMoveToLEs.combine c j t).trace.allsolid = true ∧
    (CL_ClipMoveToLEs.combine c j t).trace.le = some j ∧
    (CL_ClipMoveToLEs.combine c j t).trace.fraction = t.fraction ∧
    (CL_ClipMoveToLEs.combine c j t).trace.plane = t.plane := by
  by_cases hlt : t.fraction < c.trace.fraction
  · rw [combine_closer c j t hlt]
    exact ⟨ha, rfl, rfl, rfl⟩
  · rw [combine_allsolid c j t hlt ha]
    exact ⟨ha, rfl, rfl, rfl⟩

/-- When every `allsolid` sweep is strictly closer than the start trace and than all
sweeps before it, the fraction of the result is the least of all fractions. -/
theorem combineAll_fraction_min (c : moveclip_t) (ts : List (Nat × trace_t))
    (hP : ∀ pre p post, ts = pre ++ p :: post → p.2.allsolid = true →
      p.2.fraction < c.trace.fraction ∧ ∀ q ∈ pre, p.2.fraction < q.2.fraction) :
    (CL_ClipMoveToLEs.combineAll c ts).trace.fraction ≤ c.trace.fraction ∧
    (∀ p ∈ ts, (CL_ClipMoveToLEs.combineAll c ts).trace.fraction ≤ p.2.fraction) ∧
    ((CL_ClipMoveToLEs.combineAll c ts).trace.fraction = c.trace.fraction ∨
      ∃ p ∈ ts, (CL_ClipMoveToLEs.combineAll c ts).trace.fraction = p.2.fraction) := by
  induction ts using List.reverseRecOn with
  | nil =>
    refine ⟨le_refl _, ?_, Or.inl rfl⟩
    intro p hp
    cases hp
  | append_singleton ts p ih =>
    have hP' : ∀ pre q post, ts = pre ++ q :: post → q.2.allsolid = true →
        q.2.fraction < c.trace.fraction ∧ ∀ r ∈ pre, q.2.fraction < r.2.fraction := by
      intro pre q post hts hq
      exact hP pre q (post ++ [p]) (by rw [hts]; simp) hq
    obtain ⟨ih1, ih2, ih3⟩ := ih hP'
    rw [combineAll_append, combineAll_cons, combineAll_nil]
    by_cases hlt : p.2.fraction < (CL_ClipMoveToLEs.combineAll c ts).trace.fraction
    · rw [combine_closer _ p.1 p.2 hlt]
      simp only
      refine ⟨by linarith, ?_, Or.inr ⟨p, by simp, rfl⟩⟩
      intro q hq
      rcases List.mem_append.1 hq with hq | hq
      · have := ih2 q hq
        linarith
      · simp only [List.mem_singleton] at hq
        subst hq
        exact le_refl _
    · have hna : p.2.allsolid = false := by
        by_contra ha
        have ha : p.2.allsolid = true := by simpa using ha
        obtain ⟨h1, h2⟩ := hP ts p [] rfl ha
        rcases ih3 with h3 | ⟨q, hq, h3⟩
        · rw [h3] at hlt
          exact hlt h1
        · rw [h3] at hlt
          exact hlt (h2 q hq)
      rw [combine_keep _ p.1 p.2 hlt hna]
      simp only
      refine ⟨ih1, ?_, ?_⟩
      · intro q hq
        rcases List.mem_append.1 hq with hq | hq
        · exact ih2 q hq
        · simp only [List.mem_singleton] at hq
          subst hq
          exact not_lt.1 hlt
      · rcases ih3 with h3 | ⟨q, hq, h3⟩
        · exact Or.inl h3
        · exact Or.inr ⟨q, List.mem_append_left _ hq, h3⟩

/-- The first sweep that attains the least fraction, strictly below the start trace,
gives the hit entity and the plane of the result. -/
theorem combineAll_closest (c : moveclip_t) (pre post : List (Nat × trace_t))
    (p : Nat × trace_t)
    (hP : ∀ pre' q post', pre ++ p :: post = pre' ++ q :: post' → q.2.allsolid = true →
      q.2.fraction < c.trace.fraction ∧ ∀ r ∈ pre', q.2.fraction < r.2.fraction)
    (h0 : p.2.fraction < c.trace.fraction)
    (hpre : ∀ q ∈ pre, p.2.fraction < q.2.fraction)
    (hpost : ∀ q ∈ post, p.2.fraction ≤ q.2.fraction) :
    (CL_ClipMoveToLEs.combineAll c (pre ++ p :: post)).trace.le = some p.1 ∧
    (CL_ClipMoveToLEs.combineAll c (pre ++ p :: post)).trace.plane = p.2.plane ∧
    (CL_ClipMoveToLEs.combineAll c (pre ++ p :: post)).trace.fraction = p.2.fraction := by
  have hPpre : ∀ pre' q post', pre = pre' ++ q :: post' → q.2.allsolid = true →
      q.2.fraction < c.trace.fraction ∧ ∀ r ∈ pre', q.2.fraction < r.2.fraction := by
    intro pre' q post' hts hq
    exact hP pre' q (post' ++ p :: post) (by rw [hts]; simp) hq
  obtain ⟨_, _, h3⟩ := combineAll_fraction_min c pre hPpre
  have hlt : p.2.fraction < (CL_ClipMoveToLEs.combineAll c pre).trace.fraction := by
    rcases h3 with h3 | ⟨q, hq, h3⟩
    · rw [h3]; exact h0
    · rw [h3]; exact hpre q hq
  have hc1 := combine_closer (CL_ClipMoveToLEs.combineAll c pre) p.1 p.2 hlt
  have hstable : ∀ q ∈ post, q.2.allsolid = false ∧
      ¬ q.2.fraction < (CL_ClipMoveToLEs.combine (CL_ClipMoveToLEs.combineAll c pre)
        p.1 p.2).trace.fraction := by
    intro q hq
    rw [hc1]
    simp only
    have hge := hpost q hq
    refine ⟨?_, not_lt.2 hge⟩
    by_contra ha
    have ha : q.2.allsolid = true := by simpa using ha
    obtain ⟨post1, post2, hsplit⟩ := List.append_of_mem hq
    have := (hP (pre ++ p :: post1) q post2 (by rw [hsplit]; simp) ha).2 p (by simp)
    linarith
  rw [combineAll_append, combineAll_cons, combineAll_keep post _ hstable, hc1]
  exact ⟨rfl, rfl, rfl⟩

/-- When no sweep is strictly closer than the start trace, hit entity, plane and fraction
of the start trace stay. -/
theorem combineAll_none_closer (c : moveclip_t) (ts : List (Nat × trace_t))
    (hP : ∀ pre p post, ts = pre ++ p :: post → p.2.allsolid = true →
      p.2.fraction < c.trace.fraction ∧ ∀ q ∈ pre, p.2.fraction < q.2.fraction)
    (h : ∀ p ∈ ts, c.trace.fraction ≤ p.2.fraction) :
    (CL_ClipMoveToLEs.combineAll c ts).trace.le = c.trace.le ∧
    (CL_ClipMoveToLEs.combineAll c ts).trace.plane = c.trace.plane ∧
    (CL_ClipMoveToLEs.combineAll c ts).trace.fraction = c.trace.fraction := by
  have hstable : ∀ q ∈ ts, q.2.allsolid = false ∧ ¬ q.2.fraction < c.trace.fraction := by
    intro q hq
    have hge := h q hq
    refine ⟨?_, not_lt.2 hge⟩
    by_contra ha
    have ha : q.2.allsolid = true := by simpa using ha
    obtain ⟨pre, post, hsplit⟩ := List.append_of_mem hq
    have := (hP pre q post hsplit ha).1
    linarith
  rw [combineAll_keep ts c hstable]
  exact ⟨rfl, rfl, rfl⟩

/-! ## Claims on the trace -/

theorem checked_stubPool (env : collision_t) (n : Nat)
    (h : (CL_Trace.world env vec3_origin vec3_origin vec3_origin vec3_origin 2 0).allsolid
      = false) :
    CL_Trace.checked env (stubPool n) vec3_origin vec3_origin vec3_origin vec3_origin
      none none 2 0 = List.range n := by
  unfold CL_Trace.checked
  rw [h, inUseAfter_filter]
  simp [cursorStart, stubPool, CL_ClipMoveToLEs.eligible, CL_Trace.clip,
    List.range_eq_range']

theorem sweep_stubPool (world : trace_t) (sweepOf : ℚ → trace_t) (n i : Nat) :
    CL_ClipMoveToLEs.sweep (stubEnv world sweepOf)
      (CL_Trace.clip (stubEnv world sweepOf) vec3_origin vec3_origin vec3_origin vec3_origin
        none none 2 0) ((stubPool n).LEs i) = .ok (sweepOf i) := by
  simp [CL_ClipMoveToLEs.sweep, CL_HullForEntity, stubEnv, stubPool, le_zero]

/-- C7: when the world trace returns `fraction == 0`, `CL_Trace` returns the world trace
with `le = NULL`, whatever the pool holds: no entity is swept. -/
theorem C7_world_blocked (env : collision_t) (cl : clientBattleScape_t)
    (start end_ mins maxs : vec3_t) (passle passle2 : Option Nat) (contentmask : Nat)
    (worldLevel : Nat)
    (h0 : (env.TR_CompleteBoxTrace start end_ mins maxs ((1 <<< (worldLevel + 1)) - 1)
      contentmask 0).fraction = 0) :
    CL_Trace env cl start end_ mins maxs passle passle2 contentmask worldLevel =
      .ok { env.TR_CompleteBoxTrace start end_ mins maxs ((1 <<< (worldLevel + 1)) - 1)
              contentmask 0 with le := none } ∧
    ∀ cl', CL_Trace env cl' start end_ mins maxs passle passle2 contentmask worldLevel =
      CL_Trace env cl start end_ mins maxs passle passle2 contentmask worldLevel := by
  have hw : (CL_Trace.world env start end_ mins maxs contentmask worldLevel).fraction = 0 := h0
  have h : ∀ c, CL_Trace env c start end_ mins maxs passle passle2 contentmask worldLevel =
      .ok (CL_Trace.world env start end_ mins maxs contentmask worldLevel) := by
    intro c
    unfold CL_Trace
    simp only [hw, if_true]
  refine ⟨h cl, fun cl' => ?_⟩
  rw [h cl', h cl]

/-- Witness of C7: the world blocks at once, and the pool holds an entity whose sweep
would always report a hit at fraction 0. -/
theorem C7_world_blocked_witness :
    CL_Trace (stubEnv (stubTrace 0 false false) (fun _ => stubTrace 0 true true)) (stubPool 1)
        vec3_origin vec3_origin vec3_origin vec3_origin none none 2 0 =
      .ok { (stubEnv (stubTrace 0 false false)
              (fun _ => stubTrace 0 true true)).TR_CompleteBoxTrace
              vec3_origin vec3_origin vec3_origin vec3_origin ((1 <<< (0 + 1)) - 1) 2 0
            with le := none } ∧
    ∀ cl', CL_Trace (stubEnv (stubTrace 0 false false) (fun _ => stubTrace 0 true true)) cl'
        vec3_origin vec3_origin vec3_origin vec3_origin none none 2 0 =
      CL_Trace (stubEnv (stubTrace 0 false false) (fun _ => stubTrace 0 true true))
        (stubPool 1) vec3_origin vec3_origin vec3_origin vec3_origin none none 2 0 :=
  C7_world_blocked (stubEnv (stubTrace 0 false false) (fun _ => stubTrace 0 true true))
    (stubPool 1) vec3_origin vec3_origin vec3_origin vec3_origin none none 2 0 rfl

/-- Counterexample to C8 as stated: the entity phase is reached, the sweep of the checked
entity is `allsolid` and not closer than the world trace, and it replaces the result:
the final fraction 1 is greater than the world fraction 1/2, and the hit entity is set
although the world trace is the closest. -/
theorem C8_counterexample :
    CL_Trace envAllsolidFar (stubPool 1) vec3_origin vec3_origin vec3_origin vec3_origin
        none none 2 0 = .ok { stubTrace 1 true true with le := some 0 } ∧
    (CL_Trace.world envAllsolidFar vec3_origin vec3_origin vec3_origin vec3_origin 2 0).fraction
      ≠ 0 ∧
    CL_Trace.checked envAllsolidFar (stubPool 1) vec3_origin vec3_origin vec3_origin
      vec3_origin none none 2 0 = [0] ∧
    (CL_Trace.world envAllsolidFar vec3_origin vec3_origin vec3_origin vec3_origin 2 0).fraction
      < ({ stubTrace 1 true true with le := some 0 } : trace_t).fraction := by
  have hch : CL_Trace.checked envAllsolidFar (stubPool 1) vec3_origin vec3_origin vec3_origin
      vec3_origin none none 2 0 = [0] := by
    rw [checked_stubPool envAllsolidFar 1 rfl]
    rfl
  have hph : (CL_Trace.world envAllsolidFar vec3_origin vec3_origin vec3_origin vec3_origin
      2 0).fraction ≠ 0 := by
    simp [CL_Trace.world, envAllsolidFar, stubEnv, stubTrace]
  refine ⟨?_, hph, hch, ?_⟩
  · rw [CL_Trace_combineAll envAllsolidFar (stubPool 1) vec3_origin vec3_origin vec3_origin
      vec3_origin none none 2 0 [(0, stubTrace 1 true true)] hph (by rw [hch]; rfl)
      (fun p hp => by
        simp only [List.mem_singleton] at hp
        subst hp
        exact sweep_stubPool _ _ 1 0)]
    simp only [combineAll_cons, combineAll_nil]
    rw [combine_allsolid _ _ _ (by
      simp [CL_Trace.clip, CL_Trace.world, envAllsolidFar, stubEnv, stubTrace]
      norm_num) rfl]
  · simp [CL_Trace.world, envAllsolidFar, stubEnv, stubTrace]
    norm_num

/-- C8 (amended): in a query that reaches the entity phase and in which every `allsolid`
sweep of a checked entity is strictly closer than the world trace and than every sweep
checked before it (so in particular when no sweep is `allsolid`), the closest hit wins.
Here `ts` lists the checked slots with their sweeps, in order. `CL_Trace` returns a result
whose fraction is not greater than the world fraction nor than any sweep fraction; the hit
entity and plane are those of the first sweep with the least fraction when that is below
the world fraction; and the hit entity stays `NULL` when no sweep is closer than the world
trace. -/
theorem C8_closest_hit_wins (env : collision_t) (cl : clientBattleScape_t)
    (start end_ mins maxs : vec3_t) (passle passle2 : Option Nat) (contentmask : Nat)
    (worldLevel : Nat) (ts : List (Nat × trace_t))
    (hphase : (CL_Trace.world env start end_ mins maxs contentmask worldLevel).fraction ≠ 0)
    (hts : ts.map Prod.fst =
      CL_Trace.checked env cl start end_ mins maxs passle passle2 contentmask worldLevel)
    (hsw : ∀ p ∈ ts, CL_ClipMoveToLEs.sweep env
      (CL_Trace.clip env start end_ mins maxs passle passle2 contentmask worldLevel)
      (cl.LEs p.1) = .ok p.2)
    (hP : ∀ pre p post, ts = pre ++ p :: post → p.2.allsolid = true →
      p.2.fraction < (CL_Trace.world env start end_ mins maxs contentmask worldLevel).fraction ∧
      ∀ q ∈ pre, p.2.fraction < q.2.fraction) :
    ∃ r, CL_Trace env cl start end_ mins maxs passle passle2 contentmask worldLevel = .ok r ∧
      r.fraction ≤ (CL_Trace.world env start end_ mins maxs contentmask worldLevel).fraction ∧
      (∀ p ∈ ts, r.fraction ≤ p.2.fraction) ∧
      (∀ pre p post, ts = pre ++ p :: post →
        p.2.fraction < (CL_Trace.world env start end_ mins maxs contentmask worldLevel).fraction →
        (∀ q ∈ pre, p.2.fraction < q.2.fraction) →
        (∀ q ∈ post, p.2.fraction ≤ q.2.fraction) →
        r.le = some p.1 ∧ r.plane = p.2.plane ∧ r.fraction = p.2.fraction) ∧
      ((∀ p ∈ ts,
          (CL_Trace.world env start end_ mins maxs contentmask worldLevel).fraction
            ≤ p.2.fraction) →
        r.le = none ∧
        r.plane = (CL_Trace.world env start end_ mins maxs contentmask worldLevel).plane ∧
        r.fraction =
          (CL_Trace.world env start end_ mins maxs contentmask worldLevel).fraction) := by
  refine ⟨_, CL_Trace_combineAll env cl start end_ mins maxs passle passle2 contentmask
    worldLevel ts hphase hts hsw, ?_⟩
  have hmin := combineAll_fraction_min
    (CL_Trace.clip env start end_ mins maxs passle passle2 contentmask worldLevel) ts hP
  refine ⟨hmin.1, hmin.2.1, ?_, ?_⟩
  · intro pre p post hsplit h0 hpre hpost
    subst hsplit
    exact combineAll_closest
      (CL_Trace.clip env start end_ mins maxs passle passle2 contentmask worldLevel)
      pre post p hP h0 hpre hpost
  · intro hge
    exact combineAll_none_closer
      (CL_Trace.clip env start end_ mins maxs passle passle2 contentmask worldLevel) ts hP hge

theorem envTwoHits_phase :
    (CL_Trace.world envTwoHits vec3_origin vec3_origin vec3_origin vec3_origin 2 0).fraction
      ≠ 0 := by
  simp [CL_Trace.world, envTwoHits, stubEnv, stubTrace]

theorem envTwoHits_checked :
    [(0, stubTrace (3 / 4) false false), (1, stubTrace (1 / 4) true true)].map Prod.fst =
      CL_Trace.checked envTwoHits (stubPool 2) vec3_origin vec3_origin vec3_origin
        vec3_origin none none 2 0 := by
  rw [checked_stubPool envTwoHits 2 rfl]
  rfl

theorem envTwoHits_sweeps :
    ∀ p ∈ [(0, stubTrace (3 / 4) false false), (1, stubTrace (1 / 4) true true)],
      CL_ClipMoveToLEs.sweep envTwoHits
        (CL_Trace.clip envTwoHits vec3_origin vec3_origin vec3_origin vec3_origin
          none none 2 0) ((stubPool 2).LEs p.1) = .ok p.2 := by
  intro p hp
  simp only [List.mem_cons, List.mem_singleton, List.not_mem_nil, or_false] at hp
  rcases hp with rfl | rfl
  · rw [envTwoHits, sweep_stubPool]
    simp
  · rw [envTwoHits, sweep_stubPool]
    simp

/-- Witness of C8: two checked entities, the second one `allsolid` and closer than the
world trace and the first sweep. -/
theorem C8_closest_hit_wins_witness :
    ∃ r, CL_Trace envTwoHits (stubPool 2) vec3_origin vec3_origin vec3_origin vec3_origin
        none none 2 0 = .ok r ∧
      r.fraction ≤ (CL_Trace.world envTwoHits vec3_origin vec3_origin vec3_origin
        vec3_origin 2 0).fraction ∧
      (∀ p ∈ [(0, stubTrace (3 / 4) false false), (1, stubTrace (1 / 4) true true)],
        r.fraction ≤ p.2.fraction) ∧
      (∀ pre p post,
        [(0, stubTrace (3 / 4) false false), (1, stubTrace (1 / 4) true true)]
          = pre ++ p :: post →
        p.2.fraction < (CL_Trace.world envTwoHits vec3_origin vec3_origin vec3_origin
          vec3_origin 2 0).fraction →
        (∀ q ∈ pre, p.2.fraction < q.2.fraction) →
        (∀ q ∈ post, p.2.fraction ≤ q.2.fraction) →
        r.le = some p.1 ∧ r.plane = p.2.plane ∧ r.fraction = p.2.fraction) ∧
      ((∀ p ∈ [(0, stubTrace (3 / 4) false false), (1, stubTrace (1 / 4) true true)],
          (CL_Trace.world envTwoHits vec3_origin vec3_origin vec3_origin vec3_origin
            2 0).fraction ≤ p.2.fraction) →
        r.le = none ∧
        r.plane = (CL_Trace.world envTwoHits vec3_origin vec3_origin vec3_origin
          vec3_origin 2 0).plane ∧
        r.fraction = (CL_Trace.world envTwoHits vec3_origin vec3_origin vec3_origin
          vec3_origin 2 0).fraction) :=
  C8_closest_hit_wins envTwoHits (stubPool 2) vec3_origin vec3_origin vec3_origin vec3_origin
    none none 2 0 [(0, stubTrace (3 / 4) false false), (1, stubTrace (1 / 4) true true)]
    envTwoHits_phase envTwoHits_checked envTwoHits_sweeps
    (fun pre p post hsplit hp => by
      rcases pre with _ | ⟨a, _ | ⟨b, pre⟩⟩
      · simp only [List.nil_append, List.cons.injEq] at hsplit
        rw [← hsplit.1] at hp
        simp [stubTrace] at hp
      · simp only [List.cons_append, List.nil_append, List.cons.injEq] at hsplit
        obtain ⟨ha, hb, _⟩ := hsplit
        subst ha hb
        simp [CL_Trace.world, envTwoHits, stubEnv, stubTrace]
        norm_num
      · simp at hsplit)

theorem envAllsolidThenHit_sweeps :
    ∀ p ∈ [(0, stubTrace 1 true true), (1, stubTrace (1 / 2) false false)],
      CL_ClipMoveToLEs.sweep envAllsolidThenHit
        (CL_Trace.clip envAllsolidThenHit vec3_origin vec3_origin vec3_origin vec3_origin
          none none 2 0) ((stubPool 2).LEs p.1) = .ok p.2 := by
  intro p hp
  simp only [List.mem_cons, List.mem_singleton, List.not_mem_nil, or_false] at hp
  rcases hp with rfl | rfl
  · rw [envAllsolidThenHit, sweep_stubPool]
    simp
  · rw [envAllsolidThenHit, sweep_stubPool]
    simp

/-- Counterexample to C10 as stated: the sweep of the first checked entity reports
`allsolid`, the entity checked after it yields a smaller fraction, and the final result is
the sweep of the second entity, with `allsolid = false`. -/
theorem C10_counterexample :
    CL_Trace envAllsolidThenHit (stubPool 2) vec3_origin vec3_origin vec3_origin vec3_origin
        none none 2 0 =
      .ok { stubTrace (1 / 2) false true with le := some 1 } ∧
    (CL_Trace.world envAllsolidThenHit vec3_origin vec3_origin vec3_origin vec3_origin
      2 0).fraction ≠ 0 ∧
    CL_Trace.checked envAllsolidThenHit (stubPool 2) vec3_origin vec3_origin vec3_origin
      vec3_origin none none 2 0 = [0, 1] ∧
    CL_ClipMoveToLEs.sweep envAllsolidThenHit
      (CL_Trace.clip envAllsolidThenHit vec3_origin vec3_origin vec3_origin vec3_origin
        none none 2 0) ((stubPool 2).LEs 0) = .ok (stubTrace 1 true true) ∧
    (stubTrace 1 true true).allsolid = true ∧
    ({ stubTrace (1 / 2) false true with le := some 1 } : trace_t).allsolid = false := by
  have hch : CL_Trace.checked envAllsolidThenHit (stubPool 2) vec3_origin vec3_origin
      vec3_origin vec3_origin none none 2 0 = [0, 1] := by
    rw [checked_stubPool envAllsolidThenHit 2 rfl]
    rfl
  have hph : (CL_Trace.world envAllsolidThenHit vec3_origin vec3_origin vec3_origin
      vec3_origin 2 0).fraction ≠ 0 := by
    simp [CL_Trace.world, envAllsolidThenHit, stubEnv, stubTrace]
  refine ⟨?_, hph, hch, envAllsolidThenHit_sweeps (0, stubTrace 1 true true) (by simp), rfl, rfl⟩
  rw [CL_Trace_combineAll envAllsolidThenHit (stubPool 2) vec3_origin vec3_origin vec3_origin
    vec3_origin none none 2 0 [(0, stubTrace 1 true true), (1, stubTrace (1 / 2) false false)]
    hph (by rw [hch]; rfl) envAllsolidThenHit_sweeps]
  simp only [combineAll_cons, combineAll_nil]
  have h1 := combine_allsolid
    (CL_Trace.clip envAllsolidThenHit vec3_origin vec3_origin vec3_origin vec3_origin
      none none 2 0) 0 (stubTrace 1 true true)
    (by simp [CL_Trace.clip, CL_Trace.world, envAllsolidThenHit, stubEnv, stubTrace]) rfl
  rw [combine_closer _ 1 (stubTrace (1 / 2) false false) (by
    rw [h1]
    simp [stubTrace]
    norm_num), h1]
  simp [stubTrace]

/-- C10 (amended): in a query that reaches the entity phase, with `pre ++ p :: post` the
checked slots and their sweeps in order, `p` the last sweep that reports `allsolid`:
`CL_Trace` returns a result that is `allsolid` exactly when no entity checked after `p`
yields a strictly smaller fraction than `p`; in that case the hit entity, fraction and
plane of the result are those of `p`. A later sweep with a smaller fraction replaces the
`allsolid` result. When the world trace itself is `allsolid` with a fraction other than
zero, no entity is checked and the world result is returned, whatever the pool holds. -/
theorem C10_allsolid_override (env : collision_t) (cl : clientBattleScape_t)
    (start end_ mins maxs : vec3_t) (passle passle2 : Option Nat) (contentmask : Nat)
    (worldLevel : Nat) (pre post : List (Nat × trace_t)) (p : Nat × trace_t)
    (hphase : (CL_Trace.world env start end_ mins maxs contentmask worldLevel).fraction ≠ 0) :
    ((pre ++ p :: post).map Prod.fst =
        CL_Trace.checked env cl start end_ mins maxs passle passle2 contentmask worldLevel →
      (∀ q ∈ pre ++ p :: post, CL_ClipMoveToLEs.sweep env
        (CL_Trace.clip env start end_ mins maxs passle passle2 contentmask worldLevel)
        (cl.LEs q.1) = .ok q.2) →
      p.2.allsolid = true →
      (∀ q ∈ post, q.2.allsolid = false) →
      ∃ r, CL_Trace env cl start end_ mins maxs passle passle2 contentmask worldLevel = .ok r ∧
        (r.allsolid = true ↔ ∀ q ∈ post, ¬ q.2.fraction < p.2.fraction) ∧
        ((∀ q ∈ post, ¬ q.2.fraction < p.2.fraction) →
          r.le = some p.1 ∧ r.fraction = p.2.fraction ∧ r.plane = p.2.plane)) ∧
    ((CL_Trace.world env start end_ mins maxs contentmask worldLevel).allsolid = true →
      CL_Trace.checked env cl start end_ mins maxs passle passle2 contentmask worldLevel = [] ∧
      ∀ cl', CL_Trace env cl' start end_ mins maxs passle passle2 contentmask worldLevel =
        .ok (CL_Trace.world env start end_ mins maxs contentmask worldLevel)) := by
  constructor
  · intro hts hsw hp hpost
    refine ⟨_, CL_Trace_combineAll env cl start end_ mins maxs passle passle2 contentmask
      worldLevel (pre ++ p :: post) hphase hts hsw, ?_⟩
    rw [combineAll_append, combineAll_cons]
    obtain ⟨ha, hle, hfr, hpl⟩ := combine_of_allsolid
      (CL_ClipMoveToLEs.combineAll
        (CL_Trace.clip env start end_ mins maxs passle passle2 contentmask worldLevel) pre)
      p.1 p.2 hp
    have hkeep : (∀ q ∈ post, ¬ q.2.fraction < p.2.fraction) →
        (CL_ClipMoveToLEs.combineAll (CL_ClipMoveToLEs.combine (CL_ClipMoveToLEs.combineAll
          (CL_Trace.clip env start end_ mins maxs passle passle2 contentmask worldLevel) pre)
          p.1 p.2) post).trace.allsolid = true ∧
        (CL_ClipMoveToLEs.combineAll (CL_ClipMoveToLEs.combine (CL_ClipMoveToLEs.combineAll
          (CL_Trace.clip env start end_ mins maxs passle passle2 contentmask worldLevel) pre)
          p.1 p.2) post).trace.le = some p.1 ∧
        (CL_ClipMoveToLEs.combineAll (CL_ClipMoveToLEs.combine (CL_ClipMoveToLEs.combineAll
          (CL_Trace.clip env start end_ mins maxs passle passle2 contentmask worldLevel) pre)
          p.1 p.2) post).trace.fraction = p.2.fraction ∧
        (CL_ClipMoveToLEs.combineAll (CL_ClipMoveToLEs.combine (CL_ClipMoveToLEs.combineAll
          (CL_Trace.clip env start end_ mins maxs passle passle2 contentmask worldLevel) pre)
          p.1 p.2) post).trace.plane = p.2.plane := by
      intro hge
      rw [combineAll_keep post _ (fun q hq => ⟨hpost q hq, by rw [hfr]; exact hge q hq⟩)]
      exact ⟨ha, hle, hfr, hpl⟩
    refine ⟨⟨?_, fun hge => (hkeep hge).1⟩, fun hge => (hkeep hge).2⟩
    intro hr q hq hlt
    have := combineAll_closer_not_allsolid post _ hpost ⟨q, hq, by rw [hfr]; exact hlt⟩
    rw [hr] at this
    cases this
  · intro hall
    have hch : CL_Trace.checked env cl start end_ mins maxs passle passle2 contentmask
        worldLevel = [] := by
      unfold CL_Trace.checked
      simp [hall]
    refine ⟨hch, fun cl' => ?_⟩
    have hch' : ([] : List (Nat × trace_t)).map Prod.fst =
        CL_Trace.checked env cl' start end_ mins maxs passle passle2 contentmask worldLevel := by
      unfold CL_Trace.checked
      simp [hall]
    rw [CL_Trace_combineAll env cl' start end_ mins maxs passle passle2 contentmask worldLevel
      [] hphase hch' (fun q hq => by cases hq)]
    rfl

/-- Witness of C10: on `envAllsolidThenHit` slot 0 is the last `allsolid` sweep and slot 1
is closer; on `envWorldAllsolid` the world trace is `allsolid`. -/
theorem C10_allsolid_override_witness :
    (∃ r, CL_Trace envAllsolidThenHit (stubPool 2) vec3_origin vec3_origin vec3_origin
        vec3_origin none none 2 0 = .ok r ∧
      (r.allsolid = true ↔ ∀ q ∈ [(1, stubTrace (1 / 2) false false)],
        ¬ q.2.fraction < (stubTrace 1 true true).fraction) ∧
      ((∀ q ∈ [(1, stubTrace (1 / 2) false false)],
          ¬ q.2.fraction < (stubTrace 1 true true).fraction) →
        r.le = some 0 ∧ r.fraction = (stubTrace 1 true true).fraction ∧
          r.plane = (stubTrace 1 true true).plane)) ∧
    (CL_Trace.checked envWorldAllsolid (stubPool 2) vec3_origin vec3_origin vec3_origin
        vec3_origin none none 2 0 = [] ∧
      ∀ cl', CL_Trace envWorldAllsolid cl' vec3_origin vec3_origin vec3_origin vec3_origin
          none none 2 0 =
        .ok (CL_Trace.world envWorldAllsolid vec3_origin vec3_origin vec3_origin vec3_origin
          2 0)) :=
  ⟨(C10_allsolid_override envAllsolidThenHit (stubPool 2) vec3_origin vec3_origin vec3_origin
      vec3_origin none none 2 0 [] [(1, stubTrace (1 / 2) false false)]
      (0, stubTrace 1 true true)
      (by simp [CL_Trace.world, envAllsolidThenHit, stubEnv, stubTrace])).1
      (by rw [checked_stubPool envAllsolidThenHit 2 rfl]; rfl)
      envAllsolidThenHit_sweeps rfl
      (fun q hq => by
        simp only [List.mem_singleton] at hq
        subst hq
        rfl),
   (C10_allsolid_override envWorldAllsolid (stubPool 2) vec3_origin vec3_origin vec3_origin
      vec3_origin none none 2 0 [] [] (0, stubTrace 1 true true)
      (by simp [CL_Trace.world, envWorldAllsolid, stubEnv, stubTrace])).2 rfl⟩

/-! ## Eligible entities (C11) -/

theorem body_eligible (env : collision_t) (cl : clientBattleScape_t) (clip : moveclip_t)
    (j : Nat) (h : CL_ClipMoveToLEs.eligible cl clip j = true) :
    CL_ClipMoveToLEs.body env cl clip j =
      CL_ClipMoveToLEs.combineE clip (j, CL_ClipMoveToLEs.sweep env clip (cl.LEs j)) := by
  unfold CL_ClipMoveToLEs.body CL_ClipMoveToLEs.combineE
  unfold CL_ClipMoveToLEs.eligible at h
  simp only [ne_eq, Bool.and_eq_true, decide_eq_true_eq] at h
  have h2 : ¬ (some j = clip.passle ∨ some j = clip.passle2) := by
    simp only [not_or]; exact ⟨h.2.1, h.2.2⟩
  simp only [h.1, h2, if_false]

theorem combineE_fields (clip c : moveclip_t) (p : Nat × Except String trace_t)
    (h : CL_ClipMoveToLEs.combineE clip p = .ok c) : c = { clip with trace := c.trace } := by
  unfold CL_ClipMoveToLEs.combineE at h
  split at h
  · cases h
  · rename_i t ht
    simp only [Except.ok.injEq] at h
    rw [← h]
    exact combine_fields clip p.1 t

theorem sweeps_fields (env : collision_t) (cl : clientBattleScape_t) (clip c : moveclip_t)
    (le : Option Nat) (h : c = { clip with trace := c.trace }) :
    CL_ClipMoveToLEs.sweeps env cl c le = CL_ClipMoveToLEs.sweeps env cl clip le := by
  rw [h]
  rfl

/-- The loop of `CL_ClipMoveToLEs` is the fold of the combination rule over the sweeps of
the eligible slots in use, errors included. -/
theorem loop_foldlM (env : collision_t) (cl : clientBattleScape_t) (le : Option Nat)
    (clip : moveclip_t) :
    CL_ClipMoveToLEs.loop env cl clip le =
      (CL_ClipMoveToLEs.sweeps env cl clip le).foldlM CL_ClipMoveToLEs.combineE clip := by
  generalize hn : slotsAfter cl le = n
  induction n using Nat.strong_induction_on generalizing le clip with
  | _ n ih =>
    rw [loop_eq]
    unfold CL_ClipMoveToLEs.sweeps
    rw [inUseAfter_eq]
    cases hnext : LE_GetNextInUse cl le with
    | none => rfl
    | some j =>
      simp only
      have hlt := LE_GetNextInUse_slotsAfter cl le j hnext
      by_cases hel : CL_ClipMoveToLEs.eligible cl clip j = true
      · rw [List.filter_cons_of_pos hel, List.map_cons, List.foldlM_cons,
          body_eligible env cl clip j hel]
        cases hc : CL_ClipMoveToLEs.combineE clip
            (j, CL_ClipMoveToLEs.sweep env clip (cl.LEs j)) with
        | error msg => rfl
        | ok c =>
          simp only
          rw [ih _ (by omega) (some j) c rfl,
            sweeps_fields env cl clip c (some j) (combineE_fields clip c _ hc)]
          rfl
      · have hel : CL_ClipMoveToLEs.eligible cl clip j = false := by simpa using hel
        rw [List.filter_cons_of_neg (by simp [hel]), body_skip env cl clip j hel]
        simp only
        rw [ih _ (by omega) (some j) clip rfl]
        rfl

theorem CL_Trace_foldlM (env : collision_t) (cl : clientBattleScape_t)
    (start end_ mins maxs : vec3_t) (passle passle2 : Option Nat) (contentmask : Nat)
    (worldLevel : Nat) :
    CL_Trace env cl start end_ mins maxs passle passle2 contentmask worldLevel =
      if (CL_Trace.world env start end_ mins maxs contentmask worldLevel).fraction = 0 then
        .ok (CL_Trace.world env start end_ mins maxs contentmask worldLevel)
      else if (CL_Trace.world env start end_ mins maxs contentmask worldLevel).allsolid then
        .ok (CL_Trace.world env start end_ mins maxs contentmask worldLevel)
      else
        match (CL_ClipMoveToLEs.sweeps env cl
            (CL_Trace.clip env start end_ mins maxs passle passle2 contentmask worldLevel)
            none).foldlM CL_ClipMoveToLEs.combineE
            (CL_Trace.clip env start end_ mins maxs passle passle2 contentmask worldLevel) with
        | .error msg => .error msg
        | .ok clip => .ok clip.trace := by
  unfold CL_Trace
  by_cases h0 : (CL_Trace.world env start end_ mins maxs contentmask worldLevel).fraction = 0
  · simp only [h0, if_true]
  · simp only [h0, if_false]
    unfold CL_ClipMoveToLEs
    have hcl : (CL_Trace.clip env start end_ mins maxs passle passle2 contentmask
        worldLevel).trace = CL_Trace.world env start end_ mins maxs contentmask worldLevel := rfl
    rw [hcl]
    cases hall : (CL_Trace.world env start end_ mins maxs contentmask worldLevel).allsolid with
    | true => simp only [if_true]; rfl
    | false =>
      simp only [Bool.false_eq_true, if_false]
      rw [loop_foldlM]

/-- The hit entity after the fold is the one before it or the slot of one of the sweeps. -/
theorem foldlM_combineE_le (L : List (Nat × Except String trace_t)) (clip c : moveclip_t)
    (h : L.foldlM CL_ClipMoveToLEs.combineE clip = .ok c) :
    c.trace.le = clip.trace.le ∨ ∃ p ∈ L, c.trace.le = some p.1 := by
  induction L generalizing clip with
  | nil =>
    simp only [List.foldlM_nil] at h
    cases h
    exact Or.inl rfl
  | cons p L ih =>
    rw [List.foldlM_cons] at h
    cases hp : CL_ClipMoveToLEs.combineE clip p with
    | error msg =>
      rw [hp] at h
      cases h
    | ok c1 =>
      rw [hp] at h
      have hstep : c1.trace.le = clip.trace.le ∨ c1.trace.le = some p.1 := by
        unfold CL_ClipMoveToLEs.combineE at hp
        split at hp
        · cases hp
        · rename_i t _
          simp only [Except.ok.injEq] at hp
          rw [← hp]
          unfold CL_ClipMoveToLEs.combine
          split_ifs
          · exact Or.inr rfl
          · exact Or.inr rfl
          · exact Or.inl rfl
          · exact Or.inl rfl
      rcases ih c1 h with h1 | ⟨q, hq, h1⟩
      · rcases hstep with h2 | h2
        · exact Or.inl (h1.trans h2)
        · exact Or.inr ⟨p, List.mem_cons_self _ _, h1.trans h2⟩
      · exact Or.inr ⟨q, List.mem_cons_of_mem _ hq, h1⟩

theorem filter_range_le (p : Nat → Bool) (n m : Nat) (h : n ≤ m) :
    (List.range m).filter (fun j => decide (j < n) && p j) = (List.range n).filter p := by
  induction m with
  | zero =>
    have : n = 0 := by omega
    subst this
    rfl
  | succ m ih =>
    by_cases hnm : n ≤ m
    · rw [List.range_succ, List.filter_append, ih hnm]
      have : ¬ m < n := by omega
      simp [this]
    · have : n = m + 1 := by omega
      subst this
      apply List.filter_congr
      intro j hj
      have : j < m + 1 := List.mem_range.1 hj
      simp [this]

theorem filter_range_congr (p q : Nat → Bool) (n m : Nat)
    (h : ∀ j, (decide (j < n) && p j) = (decide (j < m) && q j)) :
    (List.range n).filter p = (List.range m).filter q := by
  rw [← filter_range_le p n (max n m) (le_max_left _ _),
    ← filter_range_le q m (max n m) (le_max_right _ _)]
  apply List.filter_congr
  intro j _
  exact h j

theorem inUseAfter_none (cl : clientBattleScape_t) :
    inUseAfter cl none = (List.range cl.numLEs).filter (fun i => (cl.LEs i).inuse) := by
  rw [inUseAfter_filter, List.range_eq_range']
  simp [cursorStart]

theorem sweeps_mem (env : collision_t) (cl : clientBattleScape_t)
    (start end_ mins maxs : vec3_t) (passle passle2 : Option Nat) (contentmask : Nat)
    (worldLevel : Nat) (p : Nat × Except String trace_t)
    (hp : p ∈ CL_ClipMoveToLEs.sweeps env cl
      (CL_Trace.clip env start end_ mins maxs passle passle2 contentmask worldLevel) none) :
    CL_Trace.takesPart cl passle passle2 contentmask p.1 = true := by
  unfold CL_ClipMoveToLEs.sweeps at hp
  rw [inUseAfter_none] at hp
  simp only [List.mem_map, List.mem_filter, List.mem_range] at hp
  obtain ⟨j, ⟨⟨hj, hu⟩, he⟩, rfl⟩ := hp
  unfold CL_ClipMoveToLEs.eligible at he
  unfold CL_Trace.takesPart
  simp only [Bool.and_eq_true, decide_eq_true_eq] at he ⊢
  exact ⟨hj, hu, he.1, he.2.1, he.2.2⟩

theorem sweeps_congr (env env' : collision_t) (cl cl' : clientBattleScape_t)
    (clip : moveclip_t)
    (hpart : ∀ j, CL_Trace.takesPart cl' clip.passle clip.passle2 clip.contentmask j =
      CL_Trace.takesPart cl clip.passle clip.passle2 clip.contentmask j)
    (hsw : ∀ j, CL_Trace.takesPart cl clip.passle clip.passle2 clip.contentmask j = true →
      CL_ClipMoveToLEs.sweep env' clip (cl'.LEs j) = CL_ClipMoveToLEs.sweep env clip (cl.LEs j)) :
    CL_ClipMoveToLEs.sweeps env' cl' clip none = CL_ClipMoveToLEs.sweeps env cl clip none := by
  unfold CL_ClipMoveToLEs.sweeps
  rw [inUseAfter_none, inUseAfter_none, List.filter_filter, List.filter_filter]
  have hlist : (List.range cl'.numLEs).filter
        (fun a => CL_ClipMoveToLEs.eligible cl' clip a && (cl'.LEs a).inuse) =
      (List.range cl.numLEs).filter
        (fun a => CL_ClipMoveToLEs.eligible cl clip a && (cl.LEs a).inuse) := by
    apply filter_range_congr
    intro j
    have := hpart j
    unfold CL_Trace.takesPart at this
    unfold CL_ClipMoveToLEs.eligible
    rw [Bool.and_comm (decide _ && _) (cl'.LEs j).inuse,
      Bool.and_comm (decide _ && _) (cl.LEs j).inuse]
    exact this
  rw [hlist]
  apply List.map_congr_left
  intro j hj
  simp only [List.mem_filter, List.mem_range, Bool.and_eq_true] at hj
  have hp : CL_Trace.takesPart cl clip.passle clip.passle2 clip.contentmask j = true := by
    unfold CL_Trace.takesPart
    have he := hj.2.1
    unfold CL_ClipMoveToLEs.eligible at he
    simp only [Bool.and_eq_true, decide_eq_true_eq] at he ⊢
    exact ⟨hj.1, hj.2.2, he.1, he.2.1, he.2.2⟩
  rw [hsw j hp]

/-- C11: only eligible entities take part in a sweep. The hit entity of a result of
`CL_Trace`, when it is not `NULL`, is a slot below `numLEs` that is in use, whose contents
meet the mask and that is neither `passle` nor `passle2`. The result depends on the
collision code and on the pool only through the world trace and the sweeps of the
entities that take part: another sweep routine and another pool give the same result
(or the same error) when the world trace, the set of slots that take part and the sweep
of each of them are the same; so adding or changing entities that do not take part does
not change the result. -/
theorem C11_only_eligible_swept (env : collision_t) (cl : clientBattleScape_t)
    (start end_ mins maxs : vec3_t) (passle passle2 : Option Nat) (contentmask : Nat)
    (worldLevel : Nat) :
    (∀ r j, CL_Trace env cl start end_ mins maxs passle passle2 contentmask worldLevel = .ok r →
      r.le = some j →
      j < cl.numLEs ∧ (cl.LEs j).inuse = true ∧ (cl.LEs j).contents &&& contentmask ≠ 0 ∧
        some j ≠ passle ∧ some j ≠ passle2) ∧
    (∀ (env' : collision_t) (cl' : clientBattleScape_t),
      env'.TR_CompleteBoxTrace start end_ mins maxs ((1 <<< (worldLevel + 1)) - 1) contentmask 0
        = env.TR_CompleteBoxTrace start end_ mins maxs ((1 <<< (worldLevel + 1)) - 1)
            contentmask 0 →
      (∀ j, CL_Trace.takesPart cl' passle passle2 contentmask j =
        CL_Trace.takesPart cl passle passle2 contentmask j) →
      (∀ j, CL_Trace.takesPart cl passle passle2 contentmask j = true →
        CL_ClipMoveToLEs.sweep env'
            (CL_Trace.clip env' start end_ mins maxs passle passle2 contentmask worldLevel)
            (cl'.LEs j) =
          CL_ClipMoveToLEs.sweep env
            (CL_Trace.clip env start end_ mins maxs passle passle2 contentmask worldLevel)
            (cl.LEs j)) →
      CL_Trace env' cl' start end_ mins maxs passle passle2 contentmask worldLevel =
        CL_Trace env cl start end_ mins maxs passle passle2 contentmask worldLevel) ∧
    (∀ cl' : clientBattleScape_t,
      (∀ j, CL_Trace.takesPart cl' passle passle2 contentmask j =
        CL_Trace.takesPart cl passle passle2 contentmask j) →
      (∀ j, CL_Trace.takesPart cl passle passle2 contentmask j = true →
        cl'.LEs j = cl.LEs j) →
      CL_Trace env cl' start end_ mins maxs passle passle2 contentmask worldLevel =
        CL_Trace env cl start end_ mins maxs passle passle2 contentmask worldLevel) := by
  have hgen : ∀ (env' : collision_t) (cl' : clientBattleScape_t),
      env'.TR_CompleteBoxTrace start end_ mins maxs ((1 <<< (worldLevel + 1)) - 1) contentmask 0
        = env.TR_CompleteBoxTrace start end_ mins maxs ((1 <<< (worldLevel + 1)) - 1)
            contentmask 0 →
      (∀ j, CL_Trace.takesPart cl' passle passle2 contentmask j =
        CL_Trace.takesPart cl passle passle2 contentmask j) →
      (∀ j, CL_Trace.takesPart cl passle passle2 contentmask j = true →
        CL_ClipMoveToLEs.sweep env'
            (CL_Trace.clip env' start end_ mins maxs passle passle2 contentmask worldLevel)
            (cl'.LEs j) =
          CL_ClipMoveToLEs.sweep env
            (CL_Trace.clip env start end_ mins maxs passle passle2 contentmask worldLevel)
            (cl.LEs j)) →
      CL_Trace env' cl' start end_ mins maxs passle passle2 contentmask worldLevel =
        CL_Trace env cl start end_ mins maxs passle passle2 contentmask worldLevel := by
    intro env' cl' hworld hpart hsw
    have hw : CL_Trace.world env' start end_ mins maxs contentmask worldLevel =
        CL_Trace.world env start end_ mins maxs contentmask worldLevel := by
      unfold CL_Trace.world
      rw [hworld]
    have hclip : CL_Trace.clip env' start end_ mins maxs passle passle2 contentmask worldLevel =
        CL_Trace.clip env start end_ mins maxs passle passle2 contentmask worldLevel := by
      unfold CL_Trace.clip
      rw [hw]
    rw [CL_Trace_foldlM env' cl', CL_Trace_foldlM env cl, hw, hclip]
    rw [hclip] at hsw
    rw [sweeps_congr env env' cl cl'
      (CL_Trace.clip env start end_ mins maxs passle passle2 contentmask worldLevel) hpart hsw]
  refine ⟨?_, hgen, ?_⟩
  · intro r j hr hle
    rw [CL_Trace_foldlM] at hr
    have hwle : (CL_Trace.world env start end_ mins maxs contentmask worldLevel).le = none := rfl
    split_ifs at hr with h0 hall
    · simp only [Except.ok.injEq] at hr
      rw [← hr, hwle] at hle
      cases hle
    · simp only [Except.ok.injEq] at hr
      rw [← hr, hwle] at hle
      cases hle
    · split at hr
      · cases hr
      · rename_i c hc
        simp only [Except.ok.injEq] at hr
        rcases foldlM_combineE_le _ _ c hc with h1 | ⟨p, hp, h1⟩
        · rw [← hr, h1] at hle
          have : (CL_Trace.clip env start end_ mins maxs passle passle2 contentmask
              worldLevel).trace.le = none := rfl
          rw [this] at hle
          cases hle
        · rw [← hr, h1] at hle
          simp only [Option.some.injEq] at hle
          have hpart := sweeps_mem env cl start end_ mins maxs passle passle2 contentmask
            worldLevel p hp
          rw [hle] at hpart
          unfold CL_Trace.takesPart at hpart
          simp only [Bool.and_eq_true, decide_eq_true_eq] at hpart
          exact ⟨hpart.1, hpart.2.1, hpart.2.2.1, hpart.2.2.2.1, hpart.2.2.2.2⟩
  · intro cl' hpart hrec
    apply hgen env cl' rfl hpart
    intro j hj
    rw [hrec j hj]

theorem CL_Trace_envAllsolidFar :
    CL_Trace envAllsolidFar (stubPool 1) vec3_origin vec3_origin vec3_origin vec3_origin
        none none 2 0 = .ok { stubTrace 1 true true with le := some 0 } := by
  have hch : CL_Trace.checked envAllsolidFar (stubPool 1) vec3_origin vec3_origin vec3_origin
      vec3_origin none none 2 0 = [0] := by
    rw [checked_stubPool envAllsolidFar 1 rfl]
    rfl
  have hph : (CL_Trace.world envAllsolidFar vec3_origin vec3_origin vec3_origin vec3_origin
      2 0).fraction ≠ 0 := by
    simp [CL_Trace.world, envAllsolidFar, stubEnv, stubTrace]
  rw [CL_Trace_combineAll envAllsolidFar (stubPool 1) vec3_origin vec3_origin vec3_origin
    vec3_origin none none 2 0 [(0, stubTrace 1 true true)] hph (by rw [hch]; rfl)
    (fun p hp => by
      simp only [List.mem_singleton] at hp
      subst hp
      exact sweep_stubPool _ _ 1 0)]
  simp only [combineAll_cons, combineAll_nil]
  rw [combine_allsolid _ _ _ (by
    simp [CL_Trace.clip, CL_Trace.world, envAllsolidFar, stubEnv, stubTrace]
    norm_num) rfl]

/-- Witness of C11: the hit entity of the trace on `envAllsolidFar` is slot 0, which takes
part; with slot 0 passed as `passle`, a pool that holds another record in slot 0 gives the
same result. -/
theorem C11_only_eligible_swept_witness :
    (0 < (stubPool 1).numLEs ∧ ((stubPool 1).LEs 0).inuse = true ∧
      ((stubPool 1).LEs 0).contents &&& 2 ≠ 0 ∧ some 0 ≠ (none : Option Nat) ∧
      some 0 ≠ (none : Option Nat)) ∧
    CL_Trace envAllsolidFar (setLE (stubPool 1) 0 usedLE) vec3_origin vec3_origin vec3_origin
        vec3_origin (some 0) none 2 0 =
      CL_Trace envAllsolidFar (stubPool 1) vec3_origin vec3_origin vec3_origin vec3_origin
        (some 0) none 2 0 :=
  ⟨(C11_only_eligible_swept envAllsolidFar (stubPool 1) vec3_origin vec3_origin vec3_origin
      vec3_origin none none 2 0).1 _ 0 CL_Trace_envAllsolidFar rfl,
   (C11_only_eligible_swept envAllsolidFar (stubPool 1) vec3_origin vec3_origin vec3_origin
      vec3_origin (some 0) none 2 0).2.2 (setLE (stubPool 1) 0 usedLE)
      (fun j => by
        by_cases hj : j = 0
        · subst hj
          simp [CL_Trace.takesPart]
        · simp [CL_Trace.takesPart, setLE, hj, stubPool])
      (fun j hj => by
        by_cases hj0 : j = 0
        · subst hj0
          simp [CL_Trace.takesPart] at hj
        · simp [setLE, hj0, stubPool])⟩

/-! ## Step durations (C12, C13, C14) -/

theorem truncToInt_div (a : Nat) (b : Int) (hb : 0 < b) :
    truncToInt ((a : ℚ) / (b : ℚ)) = (a : Int) / b := by
  have hbq : (0 : ℚ) < (b : ℚ) := by exact_mod_cast hb
  have hq : (0 : ℚ) ≤ (a : ℚ) / (b : ℚ) := div_nonneg (by positivity) (le_of_lt hbq)
  unfold truncToInt
  rw [if_pos hq]
  obtain ⟨n, hn⟩ := Int.eq_ofNat_of_zero_le (le_of_lt hb)
  subst hn
  have := Rat.floor_intCast_div_natCast (a : Int) n
  simpa using this

/-- C12: for a direction other than `DIRECTION_FALL` and a speed above zero,
`LE_ActorGetStepTime` returns the integer truncation of `UNIT_SIZE * 1000 / speed` for a
cardinal direction and of `UNIT_SIZE * 1.41 * 1000 / speed` for a diagonal one, which are
the integer quotients `UNIT_SIZE * 1000 / speed` and `UNIT_SIZE * 1410 / speed`; with
unit size 32 and speed 100 these are 320 ms and 451 ms. -/
theorem C12_step_time (env : client_t) (le : le_t) (pos oldPos : pos3_t) (dir : Nat)
    (speed : Int) (hdir : dir ≠ env.DIRECTION_FALL) (hspeed : 0 < speed) :
    (dir &&& (env.CORE_DIRECTIONS - 1) < env.BASE_DIRECTIONS →
      LE_ActorGetStepTime env le pos oldPos dir speed =
          truncToInt ((env.UNIT_SIZE : ℚ) * 1000 / (speed : ℚ)) ∧
        LE_ActorGetStepTime env le pos oldPos dir speed = ((env.UNIT_SIZE * 1000 : Nat) : Int) / speed ∧
        (env.UNIT_SIZE = 32 → speed = 100 →
          LE_ActorGetStepTime env le pos oldPos dir speed = 320)) ∧
    (dir &&& (env.CORE_DIRECTIONS - 1) ≥ env.BASE_DIRECTIONS →
      LE_ActorGetStepTime env le pos oldPos dir speed =
          truncToInt ((env.UNIT_SIZE : ℚ) * 1.41 * 1000 / (speed : ℚ)) ∧
        LE_ActorGetStepTime env le pos oldPos dir speed = ((env.UNIT_SIZE * 1410 : Nat) : Int) / speed ∧
        (env.UNIT_SIZE = 32 → speed = 100 →
          LE_ActorGetStepTime env le pos oldPos dir speed = 451)) := by
  constructor
  · intro hc
    have hnot : ¬ dir &&& (env.CORE_DIRECTIONS - 1) ≥ env.BASE_DIRECTIONS := by omega
    have h1 : LE_ActorGetStepTime env le pos oldPos dir speed =
        truncToInt ((env.UNIT_SIZE : ℚ) * 1000 / (speed : ℚ)) := by
      unfold LE_ActorGetStepTime
      simp only [hdir, ne_eq, not_false_eq_true, if_true, hnot, if_false]
    have h2 : LE_ActorGetStepTime env le pos oldPos dir speed =
        ((env.UNIT_SIZE * 1000 : Nat) : Int) / speed := by
      rw [h1, ← truncToInt_div _ _ hspeed]
      push_cast
      rfl
    refine ⟨h1, h2, ?_⟩
    intro hu hs
    rw [h2, hu, hs]
    rfl
  · intro hd
    have h1 : LE_ActorGetStepTime env le pos oldPos dir speed =
        truncToInt ((env.UNIT_SIZE : ℚ) * 1.41 * 1000 / (speed : ℚ)) := by
      unfold LE_ActorGetStepTime
      simp only [hdir, ne_eq, not_false_eq_true, if_true, hd]
    have h2 : LE_ActorGetStepTime env le pos oldPos dir speed =
        ((env.UNIT_SIZE * 1410 : Nat) : Int) / speed := by
      rw [h1, ← truncToInt_div _ _ hspeed]
      push_cast
      congr 1
      ring
    refine ⟨h1, h2, ?_⟩
    intro hu hs
    rw [h2, hu, hs]
    rfl

/-- Witness of C12: on the sample client direction 0 is cardinal and direction 4 is
diagonal. -/
theorem C12_step_time_witness :
    (LE_ActorGetStepTime stubClient le_zero ⟨3, 2, 0⟩ ⟨2, 2, 0⟩ 0 100 =
          truncToInt ((stubClient.UNIT_SIZE : ℚ) * 1000 / ((100 : Int) : ℚ)) ∧
        LE_ActorGetStepTime stubClient le_zero ⟨3, 2, 0⟩ ⟨2, 2, 0⟩ 0 100 =
          ((stubClient.UNIT_SIZE * 1000 : Nat) : Int) / 100 ∧
        (stubClient.UNIT_SIZE = 32 → (100 : Int) = 100 →
          LE_ActorGetStepTime stubClient le_zero ⟨3, 2, 0⟩ ⟨2, 2, 0⟩ 0 100 = 320)) ∧
    (LE_ActorGetStepTime stubClient le_zero ⟨3, 3, 0⟩ ⟨2, 2, 0⟩ 4 100 =
          truncToInt ((stubClient.UNIT_SIZE : ℚ) * 1.41 * 1000 / ((100 : Int) : ℚ)) ∧
        LE_ActorGetStepTime stubClient le_zero ⟨3, 3, 0⟩ ⟨2, 2, 0⟩ 4 100 =
          ((stubClient.UNIT_SIZE * 1410 : Nat) : Int) / 100 ∧
        (stubClient.UNIT_SIZE = 32 → (100 : Int) = 100 →
          LE_ActorGetStepTime stubClient le_zero ⟨3, 3, 0⟩ ⟨2, 2, 0⟩ 4 100 = 451)) :=
  ⟨(C12_step_time stubClient le_zero ⟨3, 2, 0⟩ ⟨2, 2, 0⟩ 0 100 (by decide) (by decide)).1
      (by decide),
   (C12_step_time stubClient le_zero ⟨3, 3, 0⟩ ⟨2, 2, 0⟩ 4 100 (by decide) (by decide)).2
      (by decide)⟩

theorem stepTime_diagonal (env : client_t) (le : le_t) (pos oldPos : pos3_t) (dir : Nat)
    (speed : Int) (hdir : dir ≠ env.DIRECTION_FALL) (hspeed : 0 < speed)
    (hd : dir &&& (env.CORE_DIRECTIONS - 1) ≥ env.BASE_DIRECTIONS) :
    LE_ActorGetStepTime env le pos oldPos dir speed =
        truncToInt ((env.UNIT_SIZE : ℚ) * 1.41 * 1000 / (speed : ℚ)) ∧
      LE_ActorGetStepTime env le pos oldPos dir speed =
        ((env.UNIT_SIZE * 1410 : Nat) : Int) / speed := by
  have h1 : LE_ActorGetStepTime env le pos oldPos dir speed =
      truncToInt ((env.UNIT_SIZE : ℚ) * 1.41 * 1000 / (speed : ℚ)) := by
    unfold LE_ActorGetStepTime
    simp only [hdir, ne_eq, not_false_eq_true, if_true, hd]
  refine ⟨h1, ?_⟩
  rw [h1, ← truncToInt_div _ _ hspeed]
  push_cast
  congr 1
  ring

theorem stepTime_cardinal (env : client_t) (le : le_t) (pos oldPos : pos3_t) (dir : Nat)
    (speed : Int) (hdir : dir ≠ env.DIRECTION_FALL)
    (hc : dir &&& (env.CORE_DIRECTIONS - 1) < env.BASE_DIRECTIONS) :
    LE_ActorGetStepTime env le pos oldPos dir speed =
      truncToInt ((env.UNIT_SIZE : ℚ) * 1000 / (speed : ℚ)) := by
  have hnot : ¬ dir &&& (env.CORE_DIRECTIONS - 1) ≥ env.BASE_DIRECTIONS := by omega
  unfold LE_ActorGetStepTime
  simp only [hdir, ne_eq, not_false_eq_true, if_true, hnot, if_false]

theorem sqrt_two_bounds : (1.41 : ℝ) ≤ Real.sqrt 2 ∧ (1.4125 : ℝ) ≤ Real.sqrt 2 ∧
    Real.sqrt 2 < (1.415625 : ℝ) := by
  refine ⟨?_, ?_, ?_⟩
  · exact Real.le_sqrt_of_sq_le (by norm_num)
  · exact Real.le_sqrt_of_sq_le (by norm_num)
  · rw [Real.sqrt_lt' (by norm_num)]
    norm_num

/-- Counterexample to C13 as stated: for a diagonal step with unit size 32 and speed 100
the code returns 451, while `32 * sqrt(2) * 1000 / 100` truncates to 452. -/
theorem C13_counterexample :
    LE_ActorGetStepTime stubClient le_zero ⟨3, 3, 0⟩ ⟨2, 2, 0⟩ 4 100 = 451 ∧
    ⌊(stubClient.UNIT_SIZE : ℝ) * Real.sqrt 2 * 1000 / ((100 : Int) : ℝ)⌋ = 452 := by
  constructor
  · rw [(stepTime_diagonal stubClient le_zero ⟨3, 3, 0⟩ ⟨2, 2, 0⟩ 4 100 (by decide)
      (by decide) (by decide)).2]
    rfl
  · rw [Int.floor_eq_iff]
    have hU : (stubClient.UNIT_SIZE : ℝ) = 32 := by
      simp [stubClient]
    rw [hU]
    obtain ⟨_, h2, h3⟩ := sqrt_two_bounds
    constructor
    · push_cast
      linarith
    · push_cast
      linarith

/-- C13 (amended): for a diagonal planar step and a speed above zero the duration
computed by `LE_ActorGetStepTime` is `UNIT_SIZE * 1.41 * 1000 / speed` milliseconds,
truncated to an integer, where the constant 1.41 stands for sqrt(2); it never exceeds
`UNIT_SIZE * sqrt(2) * 1000 / speed`. For a cardinal planar step it is
`UNIT_SIZE * 1000 / speed` milliseconds, truncated to an integer. -/
theorem C13_step_time_constant (env : client_t) (le : le_t) (pos oldPos : pos3_t) (dir : Nat)
    (speed : Int) (hdir : dir ≠ env.DIRECTION_FALL) (hspeed : 0 < speed) :
    (dir &&& (env.CORE_DIRECTIONS - 1) ≥ env.BASE_DIRECTIONS →
      LE_ActorGetStepTime env le pos oldPos dir speed =
          truncToInt ((env.UNIT_SIZE : ℚ) * 1.41 * 1000 / (speed : ℚ)) ∧
        ((LE_ActorGetStepTime env le pos oldPos dir speed : Int) : ℝ) ≤
          (env.UNIT_SIZE : ℝ) * Real.sqrt 2 * 1000 / (speed : ℝ)) ∧
    (dir &&& (env.CORE_DIRECTIONS - 1) < env.BASE_DIRECTIONS →
      LE_ActorGetStepTime env le pos oldPos dir speed =
        truncToInt ((env.UNIT_SIZE : ℚ) * 1000 / (speed : ℚ))) := by
  constructor
  · intro hd
    obtain ⟨h1, h2⟩ := stepTime_diagonal env le pos oldPos dir speed hdir hspeed hd
    refine ⟨h1, ?_⟩
    rw [h2]
    have hsR : (0 : ℝ) < (speed : ℝ) := by exact_mod_cast hspeed
    rw [le_div_iff₀ hsR]
    have hmul : ((env.UNIT_SIZE * 1410 : Nat) : Int) / speed * speed ≤
        ((env.UNIT_SIZE * 1410 : Nat) : Int) := Int.ediv_mul_le _ (ne_of_gt hspeed)
    have hmulR : ((((env.UNIT_SIZE * 1410 : Nat) : Int) / speed : Int) : ℝ) * (speed : ℝ) ≤
        (((env.UNIT_SIZE * 1410 : Nat) : Int) : ℝ) := by exact_mod_cast hmul
    have hU : (0 : ℝ) ≤ (env.UNIT_SIZE : ℝ) := by positivity
    have hsq := sqrt_two_bounds.1
    have hcast : (((env.UNIT_SIZE * 1410 : Nat) : Int) : ℝ) = (env.UNIT_SIZE : ℝ) * 1410 := by
      push_cast
      ring
    rw [hcast] at hmulR
    nlinarith
  · intro hc
    exact stepTime_cardinal env le pos oldPos dir speed hdir hc

/-- Witness of C13: the diagonal direction 4 and the cardinal direction 0 of the sample
client at speed 100. -/
theorem C13_step_time_constant_witness :
    (LE_ActorGetStepTime stubClient le_zero ⟨3, 3, 0⟩ ⟨2, 2, 0⟩ 4 100 =
          truncToInt ((stubClient.UNIT_SIZE : ℚ) * 1.41 * 1000 / ((100 : Int) : ℚ)) ∧
        ((LE_ActorGetStepTime stubClient le_zero ⟨3, 3, 0⟩ ⟨2, 2, 0⟩ 4 100 : Int) : ℝ) ≤
          (stubClient.UNIT_SIZE : ℝ) * Real.sqrt 2 * 1000 / ((100 : Int) : ℝ)) ∧
    LE_ActorGetStepTime stubClient le_zero ⟨3, 2, 0⟩ ⟨2, 2, 0⟩ 0 100 =
      truncToInt ((stubClient.UNIT_SIZE : ℚ) * 1000 / ((100 : Int) : ℚ)) :=
  ⟨(C13_step_time_constant stubClient le_zero ⟨3, 3, 0⟩ ⟨2, 2, 0⟩ 4 100 (by decide)
      (by decide)).1 (by decide),
   (C13_step_time_constant stubClient le_zero ⟨3, 2, 0⟩ ⟨2, 2, 0⟩ 0 100 (by decide)
      (by decide)).2 (by decide)⟩

/-- C14: for `dir = DIRECTION_FALL`, `LE_ActorGetStepTime` returns the world height of
`oldPos` minus the world height of `pos`, both resolved by `Grid_PosToVec` for the field
size of the entity and the difference truncated to an integer; the result does not depend
on the speed, and it is zero when both positions resolve to the same height. -/
theorem C14_fall_step_time (env : client_t) (le : le_t) (pos oldPos : pos3_t) (dir : Nat)
    (speed : Int) (hdir : dir = env.DIRECTION_FALL) :
    LE_ActorGetStepTime env le pos oldPos dir speed =
        truncToInt ((env.Grid_PosToVec le.fieldSize oldPos).z -
          (env.Grid_PosToVec le.fieldSize pos).z) ∧
    (∀ speed', LE_ActorGetStepTime env le pos oldPos dir speed' =
      LE_ActorGetStepTime env le pos oldPos dir speed) ∧
    ((env.Grid_PosToVec le.fieldSize oldPos).z = (env.Grid_PosToVec le.fieldSize pos).z →
      LE_ActorGetStepTime env le pos oldPos dir speed = 0) := by
  have h : ∀ s, LE_ActorGetStepTime env le pos oldPos dir s =
      truncToInt ((env.Grid_PosToVec le.fieldSize oldPos).z -
        (env.Grid_PosToVec le.fieldSize pos).z) := by
    intro s
    unfold LE_ActorGetStepTime
    simp [hdir]
  refine ⟨h speed, fun s => by rw [h s, h speed], ?_⟩
  intro hz
  rw [h speed, hz, sub_self]
  simp [truncToInt]

/-- Witness of C14: a fall by one level on the sample client, 64 world units. -/
theorem C14_fall_step_time_witness :
    LE_ActorGetStepTime stubClient le_zero ⟨2, 2, 0⟩ ⟨2, 2, 1⟩ 13 100 =
        truncToInt ((stubClient.Grid_PosToVec le_zero.fieldSize ⟨2, 2, 1⟩).z -
          (stubClient.Grid_PosToVec le_zero.fieldSize ⟨2, 2, 0⟩).z) ∧
    (∀ speed', LE_ActorGetStepTime stubClient le_zero ⟨2, 2, 0⟩ ⟨2, 2, 1⟩ 13 speed' =
      LE_ActorGetStepTime stubClient le_zero ⟨2, 2, 0⟩ ⟨2, 2, 1⟩ 13 100) ∧
    ((stubClient.Grid_PosToVec le_zero.fieldSize ⟨2, 2, 1⟩).z =
        (stubClient.Grid_PosToVec le_zero.fieldSize ⟨2, 2, 0⟩).z →
      LE_ActorGetStepTime stubClient le_zero ⟨2, 2, 0⟩ ⟨2, 2, 1⟩ 13 100 = 0) :=
  C14_fall_step_time stubClient le_zero ⟨2, 2, 0⟩ ⟨2, 2, 1⟩ 13 100 rfl

/-! ## Deferred removal (C20) -/

theorem AddToScene_fold (env : client_t) (cl : clientBattleScape_t) (n : Nat) :
    (List.range n).foldl (LE_AddToScene.body env) (cl, []) =
      ({ cl with LEs := fun k =>
          if k < n then (LE_AddToScene.slot env k (cl.LEs k)).1 else cl.LEs k },
        (List.range n).flatMap (fun j => (LE_AddToScene.slot env j (cl.LEs j)).2)) := by
  induction n with
  | zero => simp
  | succ n ih =>
    rw [List.range_succ, List.foldl_append, ih]
    simp only [List.foldl_cons, List.foldl_nil, LE_AddToScene.body, lt_self_iff_false,
      if_false, List.flatMap_append, List.flatMap_cons, List.flatMap_nil, List.append_nil,
      setLE, Prod.mk.injEq, and_true]
    congr 1
    funext k
    by_cases hk : k = n
    · subst hk
      simp
    · by_cases hlt : k < n
      · have : k < n + 1 := by omega
        simp [hk, hlt, this]
      · have : ¬ k < n + 1 := by omega
        simp [hk, hlt, this]

theorem AddToScene_slot_flagged (env : client_t) (i : Nat) (le0 : le_t)
    (h : le0.removeNextFrame = true) :
    LE_AddToScene.slot env i le0 =
      ({ le0 with inuse := false, removeNextFrame := false }, []) := by
  unfold LE_AddToScene.slot
  simp [h]

theorem AddToScene_slot_unflagged (env : client_t) (i : Nat) (le0 : le_t)
    (hcb : ∀ f le ent, ((env.callAddFunc f le ent).2.1).removeNextFrame = le.removeNextFrame ∧
      ((env.callAddFunc f le ent).2.1).inuse = le.inuse)
    (h : le0.removeNextFrame = false) :
    (LE_AddToScene.slot env i le0).1.inuse = le0.inuse ∧
      (LE_AddToScene.slot env i le0).1.removeNextFrame = false := by
  unfold LE_AddToScene.slot
  simp only [h, Bool.false_eq_true, if_false]
  repeat' split
  all_goals first
    | exact ⟨rfl, h⟩
    | exact ⟨(hcb _ _ _).2, by rw [(hcb _ _ _).1]; exact h⟩

theorem flatMap_filter_nil {α β : Type} (f : α → List β) (p : α → Bool) (L : List α)
    (h : ∀ a ∈ L, p a = false → f a = []) :
    L.flatMap f = (L.filter p).flatMap f := by
  induction L with
  | nil => rfl
  | cons a L ih =>
    have ih' := ih (fun b hb => h b (List.mem_cons_of_mem _ hb))
    cases hp : p a with
    | true =>
      rw [List.filter_cons_of_pos hp, List.flatMap_cons, List.flatMap_cons, ih']
    | false =>
      rw [List.filter_cons_of_neg (by simp [hp]), List.flatMap_cons,
        h a (List.mem_cons_self _ _) hp, ih']
      rfl

theorem LE_PlaceItem_loop_empty (env : client_t) (cl : clientBattleScape_t) (i : Nat)
    (h : (cl.LEs i).floor = []) (actor : Option Nat) :
    LE_PlaceItem.loop env cl i actor = cl := by
  generalize hn : slotsAfter cl actor = n
  induction n using Nat.strong_induction_on generalizing actor with
  | _ n ih =>
    rw [LE_PlaceItem.loop]
    split
    · rfl
    · rename_i a ha
      have hlt := LE_GetNextInUse_slotsAfter cl actor a ha
      have hno : ¬ (((cl.LEs a).type = env.ET_ACTOR ∨ (cl.LEs a).type = env.ET_ACTOR2x2) ∧
          (cl.LEs a).pos = (cl.LEs i).pos ∧ (cl.LEs i).floor ≠ []) := by
        intro hc
        exact hc.2.2 h
      simp only [hno, if_false]
      exact ih _ (by omega) (some a) rfl

/-- Counterexample to C20 as stated: slot 0 of `poolReap` is marked for removal and
carries an item in its floor container; after the pass the slot is not in use, the
container is still attached, and the only request of the pass is the render entity of
slot 1: nothing was freed. -/
theorem C20_counterexample :
    (poolReap.LEs 0).removeNextFrame = true ∧ (poolReap.LEs 0).floor = [7] ∧
    ((LE_AddToScene stubClient poolReap).1.LEs 0).inuse = false ∧
    ((LE_AddToScene stubClient poolReap).1.LEs 0).floor = [7] ∧
    (LE_AddToScene stubClient poolReap).2 =
      [effect_t.R_AddEntity (LE_AddToScene.entity stubClient 1 (poolReap.LEs 1))] := by
  have h : LE_AddToScene stubClient poolReap =
      (List.range 2).foldl (LE_AddToScene.body stubClient) (poolReap, []) := rfl
  rw [h, AddToScene_fold]
  refine ⟨rfl, rfl, ?_, ?_, ?_⟩
  · simp [AddToScene_slot_flagged, poolReap]
  · simp [AddToScene_slot_flagged, poolReap]
  · simp [List.range_succ, AddToScene_slot_flagged, poolReap, LE_AddToScene.slot, le_zero,
      stubClient, stubEnv]

/-- C20 (amended): deferred removal. With add functions that change neither `inuse` nor
`removeNextFrame`, one pass of `LE_AddToScene` leaves every slot below `numLEs` that had
`removeNextFrame` set with `inuse = false` and `removeNextFrame = false` and every other
field as it was (nothing attached to the entity is freed or changed); such a slot makes no
request in the pass, so the requests of the pass are those of the slots without the flag,
in slot order; every slot without the flag keeps its `inuse` value; afterwards no slot
below `numLEs` has `removeNextFrame` set. `LE_PlaceItem` on an item with an empty floor
container sets `removeNextFrame` and changes nothing else, `inuse` included. -/
theorem C20_deferred_removal (env : client_t) (cl : clientBattleScape_t)
    (hcb : ∀ f le ent, ((env.callAddFunc f le ent).2.1).removeNextFrame = le.removeNextFrame ∧
      ((env.callAddFunc f le ent).2.1).inuse = le.inuse) :
    (∀ i, i < cl.numLEs → (cl.LEs i).removeNextFrame = true →
      (LE_AddToScene env cl).1.LEs i =
          { cl.LEs i with inuse := false, removeNextFrame := false } ∧
        (LE_AddToScene.slot env i (cl.LEs i)).2 = []) ∧
    (LE_AddToScene env cl).2 =
      ((List.range cl.numLEs).filter (fun j => !(cl.LEs j).removeNextFrame)).flatMap
        (fun j => (LE_AddToScene.slot env j (cl.LEs j)).2) ∧
    (∀ i, (cl.LEs i).removeNextFrame = false →
      ((LE_AddToScene env cl).1.LEs i).inuse = (cl.LEs i).inuse) ∧
    (∀ i, i < cl.numLEs → ((LE_AddToScene env cl).1.LEs i).removeNextFrame = false) ∧
    (∀ i, (cl.LEs i).floor = [] →
      LE_PlaceItem env cl i = .ok (setLE cl i { cl.LEs i with removeNextFrame := true })) := by
  have hfold : LE_AddToScene env cl =
      ({ cl with LEs := fun k =>
          if k < cl.numLEs then (LE_AddToScene.slot env k (cl.LEs k)).1 else cl.LEs k },
        (List.range cl.numLEs).flatMap (fun j => (LE_AddToScene.slot env j (cl.LEs j)).2)) :=
    AddToScene_fold env cl cl.numLEs
  rw [hfold]
  refine ⟨?_, ?_, ?_, ?_, ?_⟩
  · intro i hi hflag
    simp only [hi, if_true]
    rw [AddToScene_slot_flagged env i (cl.LEs i) hflag]
    exact ⟨rfl, rfl⟩
  · simp only
    apply flatMap_filter_nil
    intro j _ hj
    have hflag : (cl.LEs j).removeNextFrame = true := by simpa using hj
    rw [AddToScene_slot_flagged env j (cl.LEs j) hflag]
  · intro i hflag
    simp only
    split_ifs
    · exact (AddToScene_slot_unflagged env i (cl.LEs i) hcb hflag).1
    · rfl
  · intro i hi
    simp only [hi, if_true]
    cases hflag : (cl.LEs i).removeNextFrame with
    | true => rw [AddToScene_slot_flagged env i (cl.LEs i) hflag]
    | false => exact (AddToScene_slot_unflagged env i (cl.LEs i) hcb hflag).2
  · intro i hfloor
    unfold LE_PlaceItem
    simp only [LE_PlaceItem_loop_empty env cl i hfloor none, hfloor, ne_eq, not_true_eq_false,
      if_false]

/-- Witness of C20: the pass over `poolReap`, whose slot 0 is marked for removal, and
`LE_PlaceItem` on its slot 1, whose floor container is empty. -/
theorem C20_deferred_removal_witness :
    ((LE_AddToScene stubClient poolReap).1.LEs 0 =
          { poolReap.LEs 0 with inuse := false, removeNextFrame := false } ∧
        (LE_AddToScene.slot stubClient 0 (poolReap.LEs 0)).2 = []) ∧
    ((LE_AddToScene stubClient poolReap).1.LEs 1).inuse = (poolReap.LEs 1).inuse ∧
    ((LE_AddToScene stubClient poolReap).1.LEs 1).removeNextFrame = false ∧
    LE_PlaceItem stubClient poolReap 1 =
      .ok (setLE poolReap 1 { poolReap.LEs 1 with removeNextFrame := true }) :=
  ⟨(C20_deferred_removal stubClient poolReap (fun _ _ _ => ⟨rfl, rfl⟩)).1 0 (by decide) rfl,
   (C20_deferred_removal stubClient poolReap (fun _ _ _ => ⟨rfl, rfl⟩)).2.2.1 1 rfl,
   (C20_deferred_removal stubClient poolReap (fun _ _ _ => ⟨rfl, rfl⟩)).2.2.2.1 1 (by decide),
   (C20_deferred_removal stubClient poolReap (fun _ _ _ => ⟨rfl, rfl⟩)).2.2.2.2 1 rfl⟩

/-! ## Path moves (C15 to C19) -/

theorem footsteps_append (fx fx' : List effect_t) :
    footsteps (fx ++ fx') = footsteps fx + footsteps fx' := by
  simp [footsteps, List.countP_append]

theorem footsteps_forContents (le : le_t) (w c contents : Nat) :
    footsteps (LE_PlaySoundFileForContents le w c contents) = 0 := by
  unfold LE_PlaySoundFileForContents
  split_ifs <;> simp [footsteps, effect_t.isFootStep]

theorem footsteps_forSurface (env : client_t) (le : le_t) (name : String) :
    footsteps (LE_PlaySoundFileAndParticleForSurface env le name) = 0 := by
  unfold LE_PlaySoundFileAndParticleForSurface
  cases env.Com_GetTerrainType name with
  | none => rfl
  | some t =>
    simp only
    rw [footsteps_append]
    cases t.particle <;> cases t.footStepSound <;> simp only <;>
      (try split_ifs) <;> simp [footsteps, effect_t.isFootStep]

theorem footsteps_cons_marker (pos : pos3_t) (fx : List effect_t) :
    footsteps (effect_t.LE_PlayFootStepSound pos :: fx) = footsteps fx + 1 := by
  simp [footsteps, List.countP_cons, effect_t.isFootStep]

/-- Every call of `LE_PlayFootStepSound` that returns is recorded once. -/
theorem LE_PlayFootStepSound_footsteps (env : client_t) (cl : clientBattleScape_t) (i : Nat)
    (fx : List effect_t) (h : LE_PlayFootStepSound env cl i = .ok fx) : footsteps fx = 1 := by
  unfold LE_PlayFootStepSound at h
  simp only at h
  split_ifs at h
  · split at h
    · cases h
    · split at h
      · simp only [Except.ok.injEq] at h
        rw [← h, footsteps_cons_marker, footsteps_forSurface]
      · simp only [Except.ok.injEq] at h
        rw [← h, footsteps_cons_marker]
        rfl
  · simp only [Except.ok.injEq] at h
    rw [← h, footsteps_cons_marker, footsteps_forContents]

/-- What a call of `LE_DoPathMove` that returns leaves behind: the record of slot `i`
after the step, every other slot as before, and one footstep call. -/
theorem LE_DoPathMove_ok (env : client_t) (cl cl' : clientBattleScape_t) (i : Nat)
    (fx : List effect_t) (h : LE_DoPathMove env cl i = .ok (cl', fx)) :
    cl' = setLE cl i (LE_DoPathMove.finish env (LE_DoPathMove.step env (cl.LEs i))
        (env.getDVdir ((cl.LEs i).path.getD (cl.LEs i).pathPos.toNat 0))) ∧
      footsteps fx = 1 := by
  unfold LE_DoPathMove at h
  simp only at h
  split at h
  · cases h
  · rename_i fx0 hfx
    simp only [Except.ok.injEq, Prod.mk.injEq] at h
    rw [← h.1, ← h.2]
    exact ⟨rfl, LE_PlayFootStepSound_footsteps env _ i fx0 hfx⟩

theorem finish_fields (env : client_t) (le : le_t) (dir : Nat) :
    (LE_DoPathMove.finish env le dir).pathPos = le.pathPos + 1 ∧
    (LE_DoPathMove.finish env le dir).pathLength = le.pathLength ∧
    (LE_DoPathMove.finish env le dir).pos = le.pos ∧
    (LE_DoPathMove.finish env le dir).newPos = le.newPos ∧
    (LE_DoPathMove.finish env le dir).startTime = le.endTime ∧
    (LE_DoPathMove.finish env le dir).endTime = le.endTime +
      LE_ActorGetStepTime env le le.pos le.oldPos dir (le.speed.getD le.pathPos.toNat 0) := by
  unfold LE_DoPathMove.finish
  refine ⟨?_, ?_, ?_, ?_, ?_, ?_⟩ <;> split_ifs <;> rfl

theorem LET_PathMove_loop_eq (env : client_t) (cl : clientBattleScape_t) (i : Nat) :
    LET_PathMove.loop env cl i =
      if cl.time ≥ (cl.LEs i).endTime then
        if (cl.LEs i).pathPos < (cl.LEs i).pathLength then
          match LE_DoPathMove env (setLE cl i (LET_PathMove.arrive env (cl.LEs i))) i with
          | .error msg => .error msg
          | .ok (cl2, fx) =>
            match LET_PathMove.loop env cl2 i with
            | .error msg => .error msg
            | .ok (cl3, fx', ended) => .ok (cl3, fx ++ fx', ended)
        else
          match LE_DoEndPathMove env (setLE cl i (LET_PathMove.arrive env (cl.LEs i))) i with
          | .error msg => .error msg
          | .ok (cl2, fx) => .ok (cl2, fx, true)
      else .ok (cl, [], false) := by
  rw [LET_PathMove.loop]
  split_ifs with h1 h2
  · split <;> rename_i h <;> simp [h]
  · rfl
  · rfl

/-- Any loop of the shape `while ((le = LE_GetNextInUse (le))) if (q (le)) return le;`
is a search for the first slot in use that satisfies `q`. -/
theorem inUseLoop_unfold (cl : clientBattleScape_t) (q : Nat → Bool)
    (f : Option Nat → Option Nat)
    (hf : ∀ le, f le = match LE_GetNextInUse cl le with
      | none => none
      | some j => if q j then some j else f (some j))
    (le : Option Nat) :
    f le = match LE_GetNext cl le with
      | none => none
      | some j => if (fun k => (cl.LEs k).inuse && q k) j then some j else f (some j) := by
  cases hn : LE_GetNext cl le with
  | none =>
    have h1 : LE_GetNextInUse cl le = none := by
      rw [LE_GetNextInUse_unfold, hn]
    rw [hf, h1]
  | some j =>
    simp only
    by_cases hu : (cl.LEs j).inuse = true
    · have h1 : LE_GetNextInUse cl le = some j := by
        rw [LE_GetNextInUse_unfold, hn]; simp [hu]
      rw [hf, h1]
      simp [hu]
    · have hu : (cl.LEs j).inuse = false := by simpa using hu
      have h1 : LE_GetNextInUse cl le = LE_GetNextInUse cl (some j) := by
        rw [LE_GetNextInUse_unfold cl le, hn]; simp [hu]
      simp only [hu, Bool.false_and, Bool.false_eq_true, if_false]
      rw [hf le, hf (some j), h1]

theorem LE_Find_loop_eq (cl : clientBattleScape_t) (type : Int) (pos : pos3_t)
    (le : Option Nat) :
    LE_Find.loop cl type pos le = match LE_GetNextInUse cl le with
      | none => none
      | some j =>
        if (fun k => decide ((cl.LEs k).type = type ∧ (cl.LEs k).pos = pos)) j then some j
        else LE_Find.loop cl type pos (some j) := by
  rw [LE_Find.loop]
  split <;> rename_i h <;> simp [h]

theorem LE_Find_some (cl : clientBattleScape_t) (type : Int) (pos : pos3_t) (f : Nat) :
    LE_Find cl type pos = some f ↔
      (f < cl.numLEs ∧ (cl.LEs f).inuse = true ∧ (cl.LEs f).type = type ∧
        (cl.LEs f).pos = pos ∧
        ∀ k, k < f → ¬ ((cl.LEs k).inuse = true ∧ (cl.LEs k).type = type ∧
          (cl.LEs k).pos = pos)) := by
  unfold LE_Find
  rw [firstMatch_some cl _ (LE_Find.loop cl type pos)
    (inUseLoop_unfold cl _ (LE_Find.loop cl type pos) (LE_Find_loop_eq cl type pos))]
  simp [cursorStart, and_assoc]

theorem LE_Find_none (cl : clientBattleScape_t) (type : Int) (pos : pos3_t) :
    LE_Find cl type pos = none ↔
      ∀ k, k < cl.numLEs → ¬ ((cl.LEs k).inuse = true ∧ (cl.LEs k).type = type ∧
        (cl.LEs k).pos = pos) := by
  unfold LE_Find
  rw [firstMatch_none cl _ (LE_Find.loop cl type pos)
    (inUseLoop_unfold cl _ (LE_Find.loop cl type pos) (LE_Find_loop_eq cl type pos))]
  simp [cursorStart]

theorem LET_StartIdle_fields (env : client_t) (le : le_t) :
    (LET_StartIdle env le).think = none ∧ (LET_StartIdle env le).pathPos = 0 ∧
    (LET_StartIdle env le).pathLength = 0 ∧ (LET_StartIdle env le).locked = le.locked ∧
    (LET_StartIdle env le).pos = le.pos ∧ (LET_StartIdle env le).newPos = le.newPos ∧
    (LET_StartIdle env le).floor = le.floor ∧
    (LET_StartIdle env le).lighting_dirty = le.lighting_dirty ∧
    (LET_StartIdle env le).inuse = le.inuse := by
  unfold LET_StartIdle LE_SetThink
  by_cases h : le.type = env.ET_ACTORHIDDEN
  · simp [h]
  · simp [h]

theorem settle_core (env : client_t) (le1 : le_t) (r : le_t)
    (hr : r = (if (LE_SetThink { le1 with lighting_dirty := true }
          (some think_t.LET_StartIdle)).inuse
        then LET_StartIdle env (LE_SetThink { le1 with lighting_dirty := true }
          (some think_t.LET_StartIdle))
        else LE_SetThink { le1 with lighting_dirty := true } (some think_t.LET_StartIdle))) :
    r.locked = le1.locked ∧ r.pos = le1.pos ∧ r.newPos = le1.newPos ∧
    r.lighting_dirty = true ∧ r.inuse = le1.inuse ∧ r.floor = le1.floor ∧
    (le1.inuse = true → r.think = none ∧ r.pathPos = 0 ∧ r.pathLength = 0) := by
  by_cases hu : le1.inuse = true
  · have hu1 : (LE_SetThink { le1 with lighting_dirty := true }
        (some think_t.LET_StartIdle)).inuse = true := hu
    rw [if_pos hu1] at hr
    obtain ⟨h1, h2, h3, h4, h5, h6, h7, h8, h9⟩ := LET_StartIdle_fields env
      (LE_SetThink { le1 with lighting_dirty := true } (some think_t.LET_StartIdle))
    subst hr
    exact ⟨h4, h5, h6, h8, h9, h7, fun _ => ⟨h1, h2, h3⟩⟩
  · have hu1 : ¬ (LE_SetThink { le1 with lighting_dirty := true }
        (some think_t.LET_StartIdle)).inuse = true := hu
    rw [if_neg hu1] at hr
    subst hr
    exact ⟨rfl, rfl, rfl, rfl, rfl, rfl, fun h => absurd h hu⟩

theorem settle_fields (env : client_t) (cl : clientBattleScape_t) (i : Nat) :
    (LE_DoEndPathMove.settle env cl i).locked = (cl.LEs i).locked ∧
    (LE_DoEndPathMove.settle env cl i).pos = (cl.LEs i).pos ∧
    (LE_DoEndPathMove.settle env cl i).newPos = (cl.LEs i).newPos ∧
    (LE_DoEndPathMove.settle env cl i).lighting_dirty = true ∧
    (LE_DoEndPathMove.settle env cl i).inuse = (cl.LEs i).inuse ∧
    (LE_DoEndPathMove.settle env cl i).floor =
      (match LE_Find cl env.ET_ITEM (cl.LEs i).pos with
        | some floor => (cl.LEs floor).floor
        | none => (cl.LEs i).floor) ∧
    ((cl.LEs i).inuse = true →
      (LE_DoEndPathMove.settle env cl i).think = none ∧
      (LE_DoEndPathMove.settle env cl i).pathPos = 0 ∧
      (LE_DoEndPathMove.settle env cl i).pathLength = 0) := by
  cases hfind : LE_Find cl env.ET_ITEM (cl.LEs i).pos with
  | none =>
    refine settle_core env (cl.LEs i) _ ?_
    unfold LE_DoEndPathMove.settle
    dsimp only
    rw [hfind]
  | some f =>
    refine settle_core env { (cl.LEs i) with floor := (cl.LEs f).floor } _ ?_
    unfold LE_DoEndPathMove.settle
    dsimp only
    rw [hfind]

theorem setLE_setLE (cl : clientBattleScape_t) (i : Nat) (a b : le_t) :
    setLE (setLE cl i a) i b = setLE cl i b := by
  unfold setLE
  simp only [clientBattleScape_t.mk.injEq, and_true]
  funext j
  split_ifs <;> rfl

theorem setLE_self (cl : clientBattleScape_t) (i : Nat) :
    setLE cl i (cl.LEs i) = cl := by
  cases cl
  simp only [setLE, clientBattleScape_t.mk.injEq, and_true]
  funext j
  split_ifs with h
  · rw [h]
  · rfl

theorem setLE_same (cl : clientBattleScape_t) (i : Nat) (a : le_t) :
    (setLE cl i a).LEs i = a := by
  simp [setLE]

theorem setLE_other (cl : clientBattleScape_t) (i j : Nat) (a : le_t) (h : j ≠ i) :
    (setLE cl i a).LEs j = cl.LEs j := by
  simp [setLE, h]

theorem setLE_time (cl : clientBattleScape_t) (i : Nat) (a : le_t) :
    (setLE cl i a).time = cl.time := rfl

theorem setLE_numLEs (cl : clientBattleScape_t) (i : Nat) (a : le_t) :
    (setLE cl i a).numLEs = cl.numLEs := rfl

/-- A pass of the loop with the cursor short of the path length writes `advance` of the
record to the slot and requests one footstep. -/
theorem LE_DoPathMove_arrive (env : client_t) (cl cl' : clientBattleScape_t) (i : Nat)
    (fx : List effect_t)
    (h : LE_DoPathMove env (setLE cl i (LET_PathMove.arrive env (cl.LEs i))) i =
      .ok (cl', fx)) :
    cl' = setLE cl i (LET_PathMove.advance env (cl.LEs i)) ∧ footsteps fx = 1 := by
  obtain ⟨h1, h2⟩ := LE_DoPathMove_ok env _ cl' i fx h
  rw [setLE_same, setLE_setLE] at h1
  exact ⟨h1, h2⟩

theorem advance_fields (env : client_t) (le : le_t) :
    (LET_PathMove.advance env le).pathPos = le.pathPos + 1 ∧
    (LET_PathMove.advance env le).pathLength = le.pathLength ∧
    (LET_PathMove.advance env le).newPos = le.newPos ∧
    (LET_PathMove.advance env le).startTime = le.endTime := by
  obtain ⟨h1, h2, -, h4, h5, -⟩ := finish_fields env
    (LE_DoPathMove.step env (LET_PathMove.arrive env le))
    (env.getDVdir ((LET_PathMove.arrive env le).path.getD
      (LET_PathMove.arrive env le).pathPos.toNat 0))
  exact ⟨h1, h2, h4, h5⟩

theorem advance_iterate_cursor (env : client_t) (le : le_t) (k : Nat) :
    ((LET_PathMove.advance env)^[k] le).pathPos = le.pathPos + k ∧
    ((LET_PathMove.advance env)^[k] le).pathLength = le.pathLength ∧
    ((LET_PathMove.advance env)^[k] le).newPos = le.newPos := by
  induction k with
  | zero => simp
  | succ k ih =>
    rw [Function.iterate_succ_apply']
    obtain ⟨h1, h2, h3, -⟩ := advance_fields env ((LET_PathMove.advance env)^[k] le)
    rw [h1, h2, h3, ih.1, ih.2.1, ih.2.2]
    refine ⟨?_, rfl, rfl⟩
    push_cast
    ring

/-- What `LE_DoEndPathMove` does when it returns. -/
theorem LE_DoEndPathMove_ok (env : client_t) (cl cl' : clientBattleScape_t) (i : Nat)
    (fx : List effect_t) (h : LE_DoEndPathMove env cl i = .ok (cl', fx)) :
    (cl.LEs i).pos = (cl.LEs i).newPos ∧ (cl.LEs i).locked = true ∧
    cl' = setLE cl i { LE_DoEndPathMove.settle env cl i with locked := false } ∧
    fx = [effect_t.CL_ActorConditionalMoveCalc (cl.LEs i).entnum] := by
  unfold LE_DoEndPathMove at h
  by_cases hp : (cl.LEs i).pos = (cl.LEs i).newPos
  · rw [if_neg (not_not.mpr hp)] at h
    have hl := (settle_fields env cl i).1
    unfold LE_Unlock at h
    cases hlk : (cl.LEs i).locked with
    | false =>
      rw [hlk] at hl
      simp [hl] at h
    | true =>
      rw [hlk] at hl
      simp only [hl, Bool.not_true, Bool.false_eq_true, if_false, Except.ok.injEq,
        Prod.mk.injEq] at h
      exact ⟨hp, rfl, h.1.symm, h.2.symm⟩
  · rw [if_pos hp] at h
    cases h

/-- Function `LE_DoEndPathMove` returns for a locked entity on its destination. -/
theorem LE_DoEndPathMove_total (env : client_t) (cl : clientBattleScape_t) (i : Nat)
    (hp : (cl.LEs i).pos = (cl.LEs i).newPos) (hl : (cl.LEs i).locked = true) :
    LE_DoEndPathMove env cl i =
      .ok (setLE cl i { LE_DoEndPathMove.settle env cl i with locked := false },
        [effect_t.CL_ActorConditionalMoveCalc (cl.LEs i).entnum]) := by
  unfold LE_DoEndPathMove
  rw [if_neg (not_not.mpr hp)]
  have hs := (settle_fields env cl i).1
  rw [hl] at hs
  unfold LE_Unlock
  simp [hs]

/-- What the loop of `LET_PathMove` does when it returns: it makes `k` passes with the
cursor short of the path length, each at a time not before the end of the step and each
with one footstep, and then either stops before the end of the current step or ends the
path move. -/
theorem LET_PathMove_loop_spec (env : client_t) (i : Nat) (n : Nat) :
    ∀ (cl cl' : clientBattleScape_t) (fx : List effect_t) (ended : Bool),
      ((cl.LEs i).pathLength - (cl.LEs i).pathPos).toNat = n →
      LET_PathMove.loop env cl i = .ok (cl', fx, ended) →
      (∀ j, j < footsteps fx →
        ((LET_PathMove.advance env)^[j] (cl.LEs i)).endTime ≤ cl.time ∧
        ((LET_PathMove.advance env)^[j] (cl.LEs i)).pathPos <
          ((LET_PathMove.advance env)^[j] (cl.LEs i)).pathLength) ∧
      (ended = false →
        cl' = setLE cl i ((LET_PathMove.advance env)^[footsteps fx] (cl.LEs i)) ∧
        cl.time < ((LET_PathMove.advance env)^[footsteps fx] (cl.LEs i)).endTime) ∧
      (ended = true →
        ((LET_PathMove.advance env)^[footsteps fx] (cl.LEs i)).endTime ≤ cl.time ∧
        ((LET_PathMove.advance env)^[footsteps fx] (cl.LEs i)).pathLength ≤
          ((LET_PathMove.advance env)^[footsteps fx] (cl.LEs i)).pathPos ∧
        ∃ fx0 fx1, fx = fx0 ++ fx1 ∧
          LE_DoEndPathMove env (setLE cl i (LET_PathMove.arrive env
            ((LET_PathMove.advance env)^[footsteps fx] (cl.LEs i)))) i = .ok (cl', fx1)) := by
  induction n using Nat.strong_induction_on with
  | _ n ih =>
    intro cl cl' fx ended hn h
    rw [LET_PathMove_loop_eq] at h
    by_cases ht : cl.time ≥ (cl.LEs i).endTime
    · rw [if_pos ht] at h
      by_cases hlt : (cl.LEs i).pathPos < (cl.LEs i).pathLength
      · rw [if_pos hlt] at h
        cases hd : LE_DoPathMove env (setLE cl i (LET_PathMove.arrive env (cl.LEs i))) i with
        | error msg => rw [hd] at h; cases h
        | ok r =>
          obtain ⟨cl2, fx2⟩ := r
          rw [hd] at h
          simp only at h
          obtain ⟨hcl2, hfx2⟩ := LE_DoPathMove_arrive env cl cl2 i fx2 hd
          cases hl : LET_PathMove.loop env cl2 i with
          | error msg => rw [hl] at h; cases h
          | ok r3 =>
            obtain ⟨cl3, fx3, ended3⟩ := r3
            rw [hl] at h
            simp only [Except.ok.injEq, Prod.mk.injEq] at h
            obtain ⟨h1, h2, h3⟩ := h
            subst h1 h2 h3
            have hle2 : cl2.LEs i = LET_PathMove.advance env (cl.LEs i) := by
              rw [hcl2, setLE_same]
            have htime : cl2.time = cl.time := by rw [hcl2]; rfl
            have hmeasure : ((cl2.LEs i).pathLength - (cl2.LEs i).pathPos).toNat < n := by
              obtain ⟨a1, a2, -, -⟩ := advance_fields env (cl.LEs i)
              rw [hle2, a1, a2]
              omega
            obtain ⟨i1, i2, i3⟩ := ih _ hmeasure cl2 cl3 fx3 ended3 rfl hl
            have hcount : footsteps (fx2 ++ fx3) = footsteps fx3 + 1 := by
              rw [footsteps_append, hfx2, Nat.add_comm]
            rw [hcount]
            simp only [Function.iterate_succ_apply]
            rw [hle2, htime] at i1 i2 i3
            refine ⟨?_, ?_, ?_⟩
            · intro j hj
              cases j with
              | zero => exact ⟨ht, hlt⟩
              | succ j =>
                rw [Function.iterate_succ_apply]
                exact i1 j (by omega)
            · intro he
              obtain ⟨e1, e2⟩ := i2 he
              refine ⟨?_, e2⟩
              rw [e1, hcl2, setLE_setLE]
            · intro he
              obtain ⟨e1, e2, fx0, fx1, e3, e4⟩ := i3 he
              refine ⟨e1, e2, fx2 ++ fx0, fx1, ?_, ?_⟩
              · rw [e3, List.append_assoc]
              · rw [hcl2, setLE_setLE] at e4
                exact e4
      · rw [if_neg hlt] at h
        cases hd : LE_DoEndPathMove env (setLE cl i (LET_PathMove.arrive env (cl.LEs i))) i
          with
        | error msg => rw [hd] at h; cases h
        | ok r =>
          obtain ⟨cl2, fx2⟩ := r
          rw [hd] at h
          simp only [Except.ok.injEq, Prod.mk.injEq] at h
          obtain ⟨h1, h2, h3⟩ := h
          subst h1 h2 h3
          have hfx := (LE_DoEndPathMove_ok env _ _ i _ hd).2.2.2
          have hcount : footsteps fx2 = 0 := by
            rw [hfx]; rfl
          rw [hcount]
          refine ⟨fun j hj => absurd hj (Nat.not_lt_zero j),
            fun he => absurd he (by decide), ?_⟩
          intro _
          exact ⟨ht, not_lt.mp hlt, [], fx2, rfl, hd⟩
    · rw [if_neg ht] at h
      simp only [Except.ok.injEq, Prod.mk.injEq] at h
      obtain ⟨h1, h2, h3⟩ := h
      subst h1 h2 h3
      have hcount : footsteps ([] : List effect_t) = 0 := rfl
      rw [hcount]
      refine ⟨fun j hj => absurd hj (Nat.not_lt_zero j), ?_,
        fun he => absurd he (by decide)⟩
      intro _
      exact ⟨(setLE_self cl i).symm, not_le.mp ht⟩

theorem calls_append (fx fx' : List effect_t) : calls (fx ++ fx') = calls fx ++ calls fx' := by
  simp [calls]

theorem footsteps_calls (fx : List effect_t) : footsteps (calls fx) = footsteps fx := by
  unfold footsteps calls
  rw [List.countP_filter]
  congr 1
  funext e
  cases e <;> rfl

theorem calls_forContents (le : le_t) (w c contents : Nat) :
    calls (LE_PlaySoundFileForContents le w c contents) = [] := by
  unfold LE_PlaySoundFileForContents
  split_ifs <;> simp [calls, effect_t.isSound]

theorem calls_forSurface (env : client_t) (le : le_t) (name : String) :
    calls (LE_PlaySoundFileAndParticleForSurface env le name) = [] := by
  unfold LE_PlaySoundFileAndParticleForSurface
  cases env.Com_GetTerrainType name with
  | none => rfl
  | some t =>
    simp only
    rw [calls_append]
    cases t.particle <;> cases t.footStepSound <;> simp only <;>
      (try split_ifs) <;> simp [calls, effect_t.isSound]

theorem calls_cons_marker (pos : pos3_t) (fx : List effect_t) :
    calls (effect_t.LE_PlayFootStepSound pos :: fx) =
      effect_t.LE_PlayFootStepSound pos :: calls fx := by
  simp [calls, effect_t.isSound]

/-- Apart from sounds and particles, a call of `LE_PlayFootStepSound` that returns
leaves its own record, with the grid position of the entity. -/
theorem LE_PlayFootStepSound_calls (env : client_t) (cl : clientBattleScape_t) (i : Nat)
    (fx : List effect_t) (h : LE_PlayFootStepSound env cl i = .ok fx) :
    calls fx = [effect_t.LE_PlayFootStepSound (cl.LEs i).pos] := by
  unfold LE_PlayFootStepSound at h
  simp only at h
  split_ifs at h
  · split at h
    · cases h
    · split at h
      · simp only [Except.ok.injEq] at h
        rw [← h, calls_cons_marker, calls_forSurface]
      · simp only [Except.ok.injEq] at h
        rw [← h, calls_cons_marker]
        rfl
  · simp only [Except.ok.injEq] at h
    rw [← h, calls_cons_marker, calls_forContents]

theorem LE_DoPathMove_calls (env : client_t) (cl cl' : clientBattleScape_t) (i : Nat)
    (fx : List effect_t)
    (h : LE_DoPathMove env (setLE cl i (LET_PathMove.arrive env (cl.LEs i))) i =
      .ok (cl', fx)) :
    calls fx = [effect_t.LE_PlayFootStepSound (LET_PathMove.advance env (cl.LEs i)).pos] := by
  unfold LE_DoPathMove at h
  simp only at h
  split at h
  · cases h
  · rename_i fx0 hfx
    simp only [Except.ok.injEq, Prod.mk.injEq] at h
    rw [← h.2, LE_PlayFootStepSound_calls env _ i fx0 hfx, setLE_same, setLE_same]
    have hp := (finish_fields env (LE_DoPathMove.step env (LET_PathMove.arrive env (cl.LEs i)))
      (env.getDVdir ((LET_PathMove.arrive env (cl.LEs i)).path.getD
        (LET_PathMove.arrive env (cl.LEs i)).pathPos.toNat 0))).2.2.1
    unfold LET_PathMove.advance
    rw [hp]

theorem advance_keeps (env : client_t) (le : le_t) :
    (LET_PathMove.advance env le).entnum = le.entnum ∧
    (LET_PathMove.advance env le).inuse = le.inuse ∧
    (LET_PathMove.advance env le).locked = le.locked ∧
    (LET_PathMove.advance env le).think = le.think ∧
    (LET_PathMove.advance env le).contents = le.contents ∧
    (LET_PathMove.advance env le).modelnum1 = le.modelnum1 := by
  unfold LET_PathMove.advance LE_DoPathMove.finish
  refine ⟨?_, ?_, ?_, ?_, ?_, ?_⟩ <;> split_ifs <;> rfl

theorem advance_iterate_keeps (env : client_t) (le : le_t) (k : Nat) :
    ((LET_PathMove.advance env)^[k] le).entnum = le.entnum ∧
    ((LET_PathMove.advance env)^[k] le).inuse = le.inuse ∧
    ((LET_PathMove.advance env)^[k] le).locked = le.locked ∧
    ((LET_PathMove.advance env)^[k] le).think = le.think ∧
    ((LET_PathMove.advance env)^[k] le).contents = le.contents ∧
    ((LET_PathMove.advance env)^[k] le).modelnum1 = le.modelnum1 := by
  induction k with
  | zero => simp
  | succ k ih =>
    rw [Function.iterate_succ_apply']
    obtain ⟨h1, h2, h3, h4, h5, h6⟩ :=
      advance_keeps env ((LET_PathMove.advance env)^[k] le)
    rw [h1, h2, h3, h4, h5, h6]
    exact ih

/-- The requests of the loop of `LET_PathMove`, sounds and particles apart: one entry
into `LE_PlayFootStepSound` for each pass with the cursor short of the path length, in
order, each with the grid position after the step, and at last the request of
`LE_DoEndPathMove` when the loop ends the path move. -/
theorem LET_PathMove_loop_calls (env : client_t) (i : Nat) (n : Nat) :
    ∀ (cl cl' : clientBattleScape_t) (fx : List effect_t) (ended : Bool),
      ((cl.LEs i).pathLength - (cl.LEs i).pathPos).toNat = n →
      LET_PathMove.loop env cl i = .ok (cl', fx, ended) →
      calls fx = (List.range (footsteps fx)).map (fun j =>
          effect_t.LE_PlayFootStepSound ((LET_PathMove.advance env)^[j + 1] (cl.LEs i)).pos) ++
        (if ended then [effect_t.CL_ActorConditionalMoveCalc (cl.LEs i).entnum] else []) := by
  induction n using Nat.strong_induction_on with
  | _ n ih =>
    intro cl cl' fx ended hn h
    rw [LET_PathMove_loop_eq] at h
    by_cases ht : cl.time ≥ (cl.LEs i).endTime
    · rw [if_pos ht] at h
      by_cases hlt : (cl.LEs i).pathPos < (cl.LEs i).pathLength
      · rw [if_pos hlt] at h
        cases hd : LE_DoPathMove env (setLE cl i (LET_PathMove.arrive env (cl.LEs i))) i with
        | error msg => rw [hd] at h; cases h
        | ok r =>
          obtain ⟨cl2, fx2⟩ := r
          rw [hd] at h
          simp only at h
          obtain ⟨hcl2, hfx2⟩ := LE_DoPathMove_arrive env cl cl2 i fx2 hd
          have hc2 := LE_DoPathMove_calls env cl cl2 i fx2 hd
          cases hl : LET_PathMove.loop env cl2 i with
          | error msg => rw [hl] at h; cases h
          | ok r3 =>
            obtain ⟨cl3, fx3, ended3⟩ := r3
            rw [hl] at h
            simp only [Except.ok.injEq, Prod.mk.injEq] at h
            obtain ⟨h1, h2, h3⟩ := h
            subst h1 h2 h3
            have hle2 : cl2.LEs i = LET_PathMove.advance env (cl.LEs i) := by
              rw [hcl2, setLE_same]
            have hmeasure : ((cl2.LEs i).pathLength - (cl2.LEs i).pathPos).toNat < n := by
              obtain ⟨a1, a2, -, -⟩ := advance_fields env (cl.LEs i)
              rw [hle2, a1, a2]
              omega
            have i1 := ih _ hmeasure cl2 cl3 fx3 ended3 rfl hl
            have hcount : footsteps (fx2 ++ fx3) = footsteps fx3 + 1 := by
              rw [footsteps_append, hfx2, Nat.add_comm]
            rw [hcount, calls_append, hc2, i1, hle2, (advance_keeps env (cl.LEs i)).1,
              List.range_succ_eq_map, List.map_cons, List.map_map]
            rfl
      · rw [if_neg hlt] at h
        cases hd : LE_DoEndPathMove env (setLE cl i (LET_PathMove.arrive env (cl.LEs i))) i
          with
        | error msg => rw [hd] at h; cases h
        | ok r =>
          obtain ⟨cl2, fx2⟩ := r
          rw [hd] at h
          simp only [Except.ok.injEq, Prod.mk.injEq] at h
          obtain ⟨h1, h2, h3⟩ := h
          subst h1 h2 h3
          have hfx := (LE_DoEndPathMove_ok env _ _ i _ hd).2.2.2
          rw [hfx, setLE_same]
          rfl
    · rw [if_neg ht] at h
      simp only [Except.ok.injEq, Prod.mk.injEq] at h
      obtain ⟨h1, h2, h3⟩ := h
      subst h1 h2 h3
      rfl

theorem stepTime_stub (le : le_t) (pos oldPos : pos3_t) :
    LE_ActorGetStepTime stubClient le pos oldPos 0 100 = 320 := by
  rw [stepTime_cardinal stubClient le pos oldPos 0 100 (by decide) (by decide)]
  have h := truncToInt_div 32000 100 (by decide)
  have e : ((stubClient.UNIT_SIZE : ℚ) * 1000 / ((100 : Int) : ℚ)) =
      (((32000 : Nat) : ℚ) / ((100 : Int) : ℚ)) := by
    simp [stubClient]
    norm_num
  rw [e, h]
  rfl

theorem advance_walker : LET_PathMove.advance stubClient walker = walker1 := by
  simp [LET_PathMove.advance, LET_PathMove.arrive, LE_DoPathMove.step,
    LE_DoPathMove.finish, walker, walker1, le_zero, stubClient, vec3_t.set, vec3_origin]
  refine ⟨stepTime_stub _ _ _, ?_⟩
  norm_num

theorem advance_walker1 : LET_PathMove.advance stubClient walker1 = walker2 := by
  simp [LET_PathMove.advance, LET_PathMove.arrive, LE_DoPathMove.step,
    LE_DoPathMove.finish, walker, walker1, walker2, le_zero, stubClient, vec3_t.set,
    vec3_origin]
  refine ⟨?_, ?_⟩
  · refine Eq.trans (congrArg (fun t : Int => 320 + t) ?_) (by decide : (320 : Int) + 320 = 640)
    exact stepTime_stub _ _ _
  · norm_num

/-- The request of `LE_DoEndPathMove` is among the requests of the loop of `LET_PathMove`
exactly when the loop ended the path move. -/
theorem LET_PathMove_loop_moveCalc (env : client_t) (cl cl' : clientBattleScape_t) (i : Nat)
    (fx : List effect_t) (ended : Bool)
    (h : LET_PathMove.loop env cl i = .ok (cl', fx, ended)) :
    effect_t.CL_ActorConditionalMoveCalc (cl.LEs i).entnum ∈ fx ↔ ended = true := by
  have hc := LET_PathMove_loop_calls env i _ cl cl' fx ended rfl h
  have hmem : effect_t.CL_ActorConditionalMoveCalc (cl.LEs i).entnum ∈ fx ↔
      effect_t.CL_ActorConditionalMoveCalc (cl.LEs i).entnum ∈ calls fx := by
    unfold calls
    rw [List.mem_filter]
    simp [effect_t.isSound]
  rw [hmem, hc]
  cases ended <;> simp

/-- The ways `LET_PathMove` returns: before the start of the step with nothing done, or
with the result of the loop, interpolated unless the loop ended the path move. -/
theorem LET_PathMove_cases (env : client_t) (cl cl' : clientBattleScape_t) (i : Nat)
    (fx : List effect_t) (h : LET_PathMove env cl i = .ok (cl', fx)) :
    (cl.time < (cl.LEs i).startTime ∧ cl' = cl ∧ fx = []) ∨
    ((cl.LEs i).startTime ≤ cl.time ∧ ∃ cl1 ended,
      LET_PathMove.loop env cl i = .ok (cl1, fx, ended) ∧
      (ended = true → cl' = cl1) ∧
      (ended = false →
        cl' = setLE cl1 i (LET_PathMove.interpolate env cl1.time (cl1.LEs i)))) := by
  unfold LET_PathMove at h
  by_cases hg : cl.time < (cl.LEs i).startTime
  · rw [if_pos hg] at h
    simp only [Except.ok.injEq, Prod.mk.injEq] at h
    exact Or.inl ⟨hg, h.1.symm, h.2.symm⟩
  · rw [if_neg hg] at h
    refine Or.inr ⟨not_lt.mp hg, ?_⟩
    cases hl : LET_PathMove.loop env cl i with
    | error msg => rw [hl] at h; cases h
    | ok r =>
      obtain ⟨cl1, fx1, ended⟩ := r
      rw [hl] at h
      cases ended with
      | true =>
        simp only [Except.ok.injEq, Prod.mk.injEq] at h
        refine ⟨cl1, true, ?_, fun _ => h.1.symm, fun he => absurd he (by decide)⟩
        rw [h.2]
      | false =>
        simp only [Except.ok.injEq, Prod.mk.injEq] at h
        refine ⟨cl1, false, ?_, fun he => absurd he (by decide), fun _ => h.1.symm⟩
        rw [h.2]

/-- A call of `LET_PathMove` that returns without the request of `LE_DoEndPathMove`
either came before the start of the step, or made `footsteps fx` steps, stopped before
the end of the step it reached and interpolated there. -/
theorem LET_PathMove_running (env : client_t) (cl cl' : clientBattleScape_t) (i : Nat)
    (fx : List effect_t) (h : LET_PathMove env cl i = .ok (cl', fx))
    (hnot : effect_t.CL_ActorConditionalMoveCalc (cl.LEs i).entnum ∉ fx) :
    (cl.time < (cl.LEs i).startTime ∧ cl' = cl ∧ fx = []) ∨
    ((cl.LEs i).startTime ≤ cl.time ∧
      cl' = setLE cl i (LET_PathMove.interpolate env cl.time
        ((LET_PathMove.advance env)^[footsteps fx] (cl.LEs i))) ∧
      cl.time < ((LET_PathMove.advance env)^[footsteps fx] (cl.LEs i)).endTime ∧
      ∀ j, j < footsteps fx →
        ((LET_PathMove.advance env)^[j] (cl.LEs i)).endTime ≤ cl.time ∧
        ((LET_PathMove.advance env)^[j] (cl.LEs i)).pathPos <
          ((LET_PathMove.advance env)^[j] (cl.LEs i)).pathLength) := by
  rcases LET_PathMove_cases env cl cl' i fx h with h0 | ⟨hg, cl1, ended, hl, -, hne⟩
  · exact Or.inl h0
  · refine Or.inr ⟨hg, ?_⟩
    have hended : ended = false := by
      cases ended with
      | false => rfl
      | true => exact absurd ((LET_PathMove_loop_moveCalc env cl cl1 i fx true hl).mpr rfl) hnot
    obtain ⟨s1, s2, -⟩ := LET_PathMove_loop_spec env i _ cl cl1 fx ended rfl hl
    obtain ⟨e1, e2⟩ := s2 hended
    refine ⟨?_, e2, s1⟩
    rw [hne hended, e1, setLE_setLE, setLE_same]
    rfl

/-- A call of `LET_PathMove` that returns with the request of `LE_DoEndPathMove` made
`footsteps fx` steps and then ended the path move. -/
theorem LET_PathMove_completed (env : client_t) (cl cl' : clientBattleScape_t) (i : Nat)
    (fx : List effect_t) (h : LET_PathMove env cl i = .ok (cl', fx))
    (hin : effect_t.CL_ActorConditionalMoveCalc (cl.LEs i).entnum ∈ fx) :
    (cl.LEs i).startTime ≤ cl.time ∧
    ((LET_PathMove.advance env)^[footsteps fx] (cl.LEs i)).endTime ≤ cl.time ∧
    ((LET_PathMove.advance env)^[footsteps fx] (cl.LEs i)).pathLength ≤
      ((LET_PathMove.advance env)^[footsteps fx] (cl.LEs i)).pathPos ∧
    (∃ fx0 fx1, fx = fx0 ++ fx1 ∧
      LE_DoEndPathMove env (setLE cl i (LET_PathMove.arrive env
        ((LET_PathMove.advance env)^[footsteps fx] (cl.LEs i)))) i = .ok (cl', fx1)) ∧
    ∀ j, j < footsteps fx →
      ((LET_PathMove.advance env)^[j] (cl.LEs i)).endTime ≤ cl.time ∧
      ((LET_PathMove.advance env)^[j] (cl.LEs i)).pathPos <
        ((LET_PathMove.advance env)^[j] (cl.LEs i)).pathLength := by
  rcases LET_PathMove_cases env cl cl' i fx h with ⟨-, -, h0⟩ | ⟨hg, cl1, ended, hl, hne, -⟩
  · rw [h0] at hin
    cases hin
  · have hended : ended = true := (LET_PathMove_loop_moveCalc env cl cl1 i fx ended hl).mp hin
    obtain ⟨s1, -, s3⟩ := LET_PathMove_loop_spec env i _ cl cl1 fx ended rfl hl
    obtain ⟨e1, e2, e3⟩ := s3 hended
    rw [hne hended]
    exact ⟨hg, e1, e2, e3, s1⟩

/-- With no entity whose contents meet the mask, `CL_Trace` returns the world trace. -/
theorem CL_Trace_unmasked (env : collision_t) (cl : clientBattleScape_t)
    (start end_ mins maxs : vec3_t) (passle passle2 : Option Nat) (contentmask : Nat)
    (worldLevel : Nat) (h : ∀ j, (cl.LEs j).contents &&& contentmask = 0) :
    CL_Trace env cl start end_ mins maxs passle passle2 contentmask worldLevel =
      .ok (CL_Trace.world env start end_ mins maxs contentmask worldLevel) := by
  rw [CL_Trace_foldlM]
  have hs : CL_ClipMoveToLEs.sweeps env cl
      (CL_Trace.clip env start end_ mins maxs passle passle2 contentmask worldLevel) none
      = [] := by
    unfold CL_ClipMoveToLEs.sweeps
    rw [List.map_eq_nil_iff, List.filter_eq_nil_iff]
    intro j _
    have hj : (cl.LEs j).contents &&& (CL_Trace.clip env start end_ mins maxs passle passle2
        contentmask worldLevel).contentmask = 0 := h j
    simp [CL_ClipMoveToLEs.eligible, hj]
  rw [hs]
  split_ifs <;> rfl

theorem LE_PlayFootStepSound_stub (cl : clientBattleScape_t) (i : Nat)
    (hdry : (cl.LEs i).pathContents.getD (cl.LEs i).pathPos.toNat 0 = 0)
    (h : ∀ j, (cl.LEs j).contents &&& 1 = 0) :
    LE_PlayFootStepSound stubClient cl i =
      .ok [effect_t.LE_PlayFootStepSound (cl.LEs i).pos] := by
  unfold LE_PlayFootStepSound
  simp only [hdry, if_true]
  rw [CL_Trace_unmasked stubClient.collision cl _ _ _ _ none none stubClient.MASK_SOLID _ h]
  rfl

theorem setLE_poolOf (a b : le_t) (time : Int) : setLE (poolOf a time) 0 b = poolOf b time := by
  unfold setLE poolOf
  simp only [clientBattleScape_t.mk.injEq, and_true]
  funext j
  split_ifs <;> rfl

theorem poolOf_contents (a : le_t) (time : Int) (ha : a.contents = 0) (j : Nat) :
    ((poolOf a time).LEs j).contents &&& 1 = 0 := by
  unfold poolOf
  by_cases hj : j = 0 <;> simp [hj, ha, le_zero]

theorem poolOf_same (a : le_t) (time : Int) : (poolOf a time).LEs 0 = a := rfl

/-- Function `LE_DoPathMove` after the head of the loop body, in one equation. -/
theorem LE_DoPathMove_arrive_eq (env : client_t) (cl : clientBattleScape_t) (i : Nat) :
    LE_DoPathMove env (setLE cl i (LET_PathMove.arrive env (cl.LEs i))) i =
      match LE_PlayFootStepSound env
          (setLE cl i (LE_DoPathMove.step env (LET_PathMove.arrive env (cl.LEs i)))) i with
      | .error msg => .error msg
      | .ok fx => .ok (setLE cl i (LET_PathMove.advance env (cl.LEs i)), fx) := by
  unfold LE_DoPathMove
  simp only [setLE_same, setLE_setLE]
  rfl

/-- The first frame of the sample path move at the client time 100: one step, one
footstep, and the origin 100 / 320 of the way from (2, 2, 0) to (3, 2, 0). -/
theorem LET_PathMove_walker :
    LET_PathMove stubClient (poolOf walker 100) 0 =
      .ok (poolOf walkerAt100 100, [effect_t.LE_PlayFootStepSound ⟨3, 2, 0⟩]) := by
  have hstep : LE_DoPathMove stubClient
      (setLE (poolOf walker 100) 0 (LET_PathMove.arrive stubClient walker)) 0 =
      .ok (poolOf walker1 100, [effect_t.LE_PlayFootStepSound ⟨3, 2, 0⟩]) := by
    have h := LE_DoPathMove_arrive_eq stubClient (poolOf walker 100) 0
    rw [poolOf_same, setLE_poolOf, setLE_poolOf, advance_walker,
      LE_PlayFootStepSound_stub _ 0 (by rfl) (poolOf_contents _ _ (by rfl))] at h
    rw [setLE_poolOf, h]
    simp only [setLE_poolOf, poolOf_same, Except.ok.injEq, Prod.mk.injEq, true_and,
      List.cons.injEq, and_true, effect_t.LE_PlayFootStepSound.injEq]
    simp [LE_DoPathMove.step, LET_PathMove.arrive, walker, le_zero, stubClient]
  unfold LET_PathMove
  rw [if_neg (by decide), LET_PathMove_loop_eq, if_pos (by decide), if_pos (by decide)]
  have hle : (poolOf walker 100).LEs 0 = walker := rfl
  rw [hle, hstep]
  simp only
  rw [LET_PathMove_loop_eq, if_neg (by decide)]
  simp only [List.append_nil, setLE_poolOf, Except.ok.injEq, Prod.mk.injEq, and_true]
  congr 1
  simp [poolOf, LET_PathMove.interpolate, VectorMA, VectorSubtract, walkerAt100, walker1,
    walker, le_zero, stubClient]
  norm_num

/-- C15: a call of `LET_PathMove` for an entity with `pathPos <= pathLength` that returns
without ending the path move (no request of `LE_DoEndPathMove` among its requests)
leaves `pathPos` at least at its previous value and at most at `pathLength`, which is
unchanged; the cursor has grown by the number of footstep calls, that is by the number of
calls of `LE_DoPathMove`, each of which was made with the cursor below `pathLength`; and
every call of `LE_DoPathMove` that returns increases `pathPos` by exactly one, keeps
`pathLength` and makes one footstep call. -/
theorem C15_path_cursor_monotone (env : client_t) (cl cl' : clientBattleScape_t) (i : Nat)
    (fx : List effect_t)
    (hle : (cl.LEs i).pathPos ≤ (cl.LEs i).pathLength)
    (h : LET_PathMove env cl i = .ok (cl', fx))
    (hnot : effect_t.CL_ActorConditionalMoveCalc (cl.LEs i).entnum ∉ fx) :
    (cl.LEs i).pathPos ≤ (cl'.LEs i).pathPos ∧
    (cl'.LEs i).pathPos ≤ (cl'.LEs i).pathLength ∧
    (cl'.LEs i).pathLength = (cl.LEs i).pathLength ∧
    (cl'.LEs i).pathPos = (cl.LEs i).pathPos + footsteps fx ∧
    (∀ j, j < footsteps fx → (cl.LEs i).pathPos + j < (cl.LEs i).pathLength) ∧
    (∀ (c c' : clientBattleScape_t) (fy : List effect_t),
      LE_DoPathMove env c i = .ok (c', fy) →
        (c'.LEs i).pathPos = (c.LEs i).pathPos + 1 ∧
        (c'.LEs i).pathLength = (c.LEs i).pathLength ∧ footsteps fy = 1) := by
  have hlast : ∀ (c c' : clientBattleScape_t) (fy : List effect_t),
      LE_DoPathMove env c i = .ok (c', fy) →
        (c'.LEs i).pathPos = (c.LEs i).pathPos + 1 ∧
        (c'.LEs i).pathLength = (c.LEs i).pathLength ∧ footsteps fy = 1 := by
    intro c c' fy hd
    obtain ⟨h1, h2⟩ := LE_DoPathMove_ok env c c' i fy hd
    obtain ⟨f1, f2, -⟩ := finish_fields env (LE_DoPathMove.step env (c.LEs i))
      (env.getDVdir ((c.LEs i).path.getD (c.LEs i).pathPos.toNat 0))
    rw [h1, setLE_same, f1, f2]
    exact ⟨rfl, rfl, h2⟩
  rcases LET_PathMove_running env cl cl' i fx h hnot with ⟨-, h1, h2⟩ | ⟨-, h1, -, h3⟩
  · subst h1 h2
    refine ⟨le_refl _, hle, rfl, ?_, ?_, hlast⟩
    · simp [footsteps]
    · intro j hj
      simp [footsteps] at hj
  · obtain ⟨a1, a2, -⟩ := advance_iterate_cursor env (cl.LEs i) (footsteps fx)
    have hp : (cl'.LEs i).pathPos = (cl.LEs i).pathPos + footsteps fx := by
      rw [h1, setLE_same]
      exact a1
    have hl : (cl'.LEs i).pathLength = (cl.LEs i).pathLength := by
      rw [h1, setLE_same]
      exact a2
    have hj : ∀ j, j < footsteps fx → (cl.LEs i).pathPos + j < (cl.LEs i).pathLength := by
      intro j hj
      obtain ⟨b1, b2, -⟩ := advance_iterate_cursor env (cl.LEs i) j
      have := (h3 j hj).2
      rw [b1, b2] at this
      exact this
    refine ⟨by rw [hp]; omega, ?_, hl, hp, hj, hlast⟩
    rw [hp, hl]
    cases hk : footsteps fx with
    | zero => simpa using hle
    | succ k =>
      have := hj k (by omega)
      push_cast
      omega

/-- Witness of C15: the first frame of the sample path move, at the client time 100,
makes one step: the cursor goes from 0 to 1 of 2. -/
theorem C15_path_cursor_monotone_witness :
    ((poolOf walker 100).LEs 0).pathPos ≤ ((poolOf walker 100).LEs 0).pathLength ∧
    LET_PathMove stubClient (poolOf walker 100) 0 =
      .ok (poolOf walkerAt100 100, [effect_t.LE_PlayFootStepSound ⟨3, 2, 0⟩]) ∧
    ((poolOf walkerAt100 100).LEs 0).pathPos =
      ((poolOf walker 100).LEs 0).pathPos +
        footsteps [effect_t.LE_PlayFootStepSound ⟨3, 2, 0⟩] :=
  ⟨by decide, LET_PathMove_walker,
   (C15_path_cursor_monotone stubClient (poolOf walker 100) (poolOf walkerAt100 100) 0
      [effect_t.LE_PlayFootStepSound ⟨3, 2, 0⟩] (by decide) LET_PathMove_walker
      (by decide)).2.2.2.1⟩

theorem pos3_ne_iff (a b : pos3_t) : a ≠ b ↔ (a.x ≠ b.x ∨ a.y ≠ b.y ∨ a.z ≠ b.z) := by
  cases a
  cases b
  simp only [ne_eq, pos3_t.mk.injEq]
  tauto

theorem LE_DoEndPathMove_sync (env : client_t) (cl : clientBattleScape_t) (i : Nat) :
    LE_DoEndPathMove env cl i =
        .error ("LE_DoEndPathMove: Actor movement is out of sync: %i:%i:%i should be " ++
          "%i:%i:%i (step %i of %i) (team %i)") ↔
      (cl.LEs i).pos ≠ (cl.LEs i).newPos := by
  unfold LE_DoEndPathMove
  by_cases hp : (cl.LEs i).pos = (cl.LEs i).newPos
  · rw [if_neg (not_not.mpr hp)]
    refine ⟨fun h => ?_, fun h => absurd hp h⟩
    exfalso
    unfold LE_Unlock at h
    split_ifs at h
    simp only [Except.error.injEq] at h
    exact absurd h (by decide)
  · rw [if_pos hp]
    exact ⟨fun _ => hp, fun _ => by
      simp only [Except.error.injEq]
      decide⟩

/-- C16: `LE_DoEndPathMove` raises the error "Actor movement is out of sync" exactly when
`pos` and `newPos` differ in at least one component. A call of `LET_PathMove` at or after
the start time, with `cl.time >= endTime` and `pathPos >= pathLength`, is the call of
`LE_DoEndPathMove` after the head of the loop body; and a call of `LET_PathMove` that
returns has made the request of `LE_DoEndPathMove` exactly when it passed the start time
and, after the steps it made, `cl.time >= endTime` and `pathPos >= pathLength` hold; the
entity then stands at `pos = newPos`. -/
theorem C16_path_completion_check (env : client_t) (cl : clientBattleScape_t) (i : Nat) :
    (LE_DoEndPathMove env cl i =
        .error ("LE_DoEndPathMove: Actor movement is out of sync: %i:%i:%i should be " ++
          "%i:%i:%i (step %i of %i) (team %i)") ↔
      ((cl.LEs i).pos.x ≠ (cl.LEs i).newPos.x ∨ (cl.LEs i).pos.y ≠ (cl.LEs i).newPos.y ∨
        (cl.LEs i).pos.z ≠ (cl.LEs i).newPos.z)) ∧
    ((cl.LEs i).startTime ≤ cl.time → (cl.LEs i).endTime ≤ cl.time →
      (cl.LEs i).pathLength ≤ (cl.LEs i).pathPos →
      LET_PathMove env cl i =
        LE_DoEndPathMove env (setLE cl i (LET_PathMove.arrive env (cl.LEs i))) i) ∧
    (∀ (cl' : clientBattleScape_t) (fx : List effect_t),
      LET_PathMove env cl i = .ok (cl', fx) →
      (effect_t.CL_ActorConditionalMoveCalc (cl.LEs i).entnum ∈ fx ↔
        ((cl.LEs i).startTime ≤ cl.time ∧
          ((LET_PathMove.advance env)^[footsteps fx] (cl.LEs i)).endTime ≤ cl.time ∧
          ((LET_PathMove.advance env)^[footsteps fx] (cl.LEs i)).pathLength ≤
            ((LET_PathMove.advance env)^[footsteps fx] (cl.LEs i)).pathPos)) ∧
      (effect_t.CL_ActorConditionalMoveCalc (cl.LEs i).entnum ∈ fx →
        (cl'.LEs i).pos = (cl'.LEs i).newPos ∧
        (cl'.LEs i).pos = ((LET_PathMove.advance env)^[footsteps fx] (cl.LEs i)).pos)) := by
  refine ⟨?_, ?_, ?_⟩
  · rw [LE_DoEndPathMove_sync, pos3_ne_iff]
  · intro hs he hp
    unfold LET_PathMove
    rw [if_neg (not_lt.mpr hs), LET_PathMove_loop_eq, if_pos he, if_neg (not_lt.mpr hp)]
    cases LE_DoEndPathMove env (setLE cl i (LET_PathMove.arrive env (cl.LEs i))) i with
    | error msg => rfl
    | ok r => rfl
  · intro cl' fx h
    have hdone : effect_t.CL_ActorConditionalMoveCalc (cl.LEs i).entnum ∈ fx →
        (cl'.LEs i).pos = (cl'.LEs i).newPos ∧
        (cl'.LEs i).pos = ((LET_PathMove.advance env)^[footsteps fx] (cl.LEs i)).pos := by
      intro hin
      obtain ⟨-, -, -, ⟨fx0, fx1, -, hd⟩, -⟩ := LET_PathMove_completed env cl cl' i fx h hin
      obtain ⟨d1, -, d3, -⟩ := LE_DoEndPathMove_ok env _ cl' i fx1 hd
      obtain ⟨-, s2, s3, -⟩ := settle_fields env (setLE cl i (LET_PathMove.arrive env
        ((LET_PathMove.advance env)^[footsteps fx] (cl.LEs i)))) i
      rw [setLE_same] at d1 s2 s3
      have e1 : (cl'.LEs i).pos = (LET_PathMove.arrive env
          ((LET_PathMove.advance env)^[footsteps fx] (cl.LEs i))).pos := by
        rw [d3, setLE_same]
        exact s2
      have e2 : (cl'.LEs i).newPos = (LET_PathMove.arrive env
          ((LET_PathMove.advance env)^[footsteps fx] (cl.LEs i))).newPos := by
        rw [d3, setLE_same]
        exact s3
      exact ⟨by rw [e1, e2]; exact d1, e1⟩
    refine ⟨⟨fun hin => ?_, fun hc => ?_⟩, hdone⟩
    · obtain ⟨c1, c2, c3, -, -⟩ := LET_PathMove_completed env cl cl' i fx h hin
      exact ⟨c1, c2, c3⟩
    · by_contra hnot
      rcases LET_PathMove_running env cl cl' i fx h hnot with ⟨r1, -, -⟩ | ⟨-, -, r3, -⟩
      · exact absurd hc.1 (not_le.mpr r1)
      · exact absurd hc.2.1 (not_le.mpr r3)

/-- Witness of C16: for the actor that has made both steps and stands on its
destination, the call of `LET_PathMove` at the client time 700 is the call of
`LE_DoEndPathMove`. -/
theorem C16_path_completion_check_witness :
    LET_PathMove stubClient poolArrive 1 =
      LE_DoEndPathMove stubClient
        (setLE poolArrive 1 (LET_PathMove.arrive stubClient (poolArrive.LEs 1))) 1 :=
  (C16_path_completion_check stubClient poolArrive 1).2.1 (by decide) (by decide) (by decide)

/-- C17: for an entity that is in use and locked with `pos = newPos`, `LE_DoEndPathMove`
returns, with the one request `CL_ActorConditionalMoveCalc`, and leaves the entity idle
and unlocked: `think = NULL`, `pathPos = pathLength = 0`, `locked = false`,
`lighting.dirty = true`; its floor container is that of the first entity in use of type
`ET_ITEM` on the same grid field when there is one, and unchanged otherwise; every other
slot is untouched. -/
theorem C17_end_path_move (env : client_t) (cl : clientBattleScape_t) (i : Nat)
    (hinuse : (cl.LEs i).inuse = true) (hlocked : (cl.LEs i).locked = true)
    (hpos : (cl.LEs i).pos = (cl.LEs i).newPos) :
    ∃ cl', LE_DoEndPathMove env cl i =
        .ok (cl', [effect_t.CL_ActorConditionalMoveCalc (cl.LEs i).entnum]) ∧
      (cl'.LEs i).think = none ∧ (cl'.LEs i).pathPos = 0 ∧ (cl'.LEs i).pathLength = 0 ∧
      (cl'.LEs i).locked = false ∧ (cl'.LEs i).lighting_dirty = true ∧
      (∀ f, f < cl.numLEs → (cl.LEs f).inuse = true → (cl.LEs f).type = env.ET_ITEM →
        (cl.LEs f).pos = (cl.LEs i).pos →
        (∀ k, k < f → ¬ ((cl.LEs k).inuse = true ∧ (cl.LEs k).type = env.ET_ITEM ∧
          (cl.LEs k).pos = (cl.LEs i).pos)) →
        (cl'.LEs i).floor = (cl.LEs f).floor) ∧
      ((∃ k, k < cl.numLEs ∧ (cl.LEs k).inuse = true ∧ (cl.LEs k).type = env.ET_ITEM ∧
          (cl.LEs k).pos = (cl.LEs i).pos) →
        ∃ f, f < cl.numLEs ∧ (cl.LEs f).inuse = true ∧ (cl.LEs f).type = env.ET_ITEM ∧
          (cl.LEs f).pos = (cl.LEs i).pos ∧ (cl'.LEs i).floor = (cl.LEs f).floor) ∧
      ((∀ k, k < cl.numLEs → ¬ ((cl.LEs k).inuse = true ∧ (cl.LEs k).type = env.ET_ITEM ∧
          (cl.LEs k).pos = (cl.LEs i).pos)) →
        (cl'.LEs i).floor = (cl.LEs i).floor) ∧
      (cl'.LEs i).inuse = true ∧ (cl'.LEs i).pos = (cl.LEs i).pos ∧
      (∀ j, j ≠ i → cl'.LEs j = cl.LEs j) := by
  obtain ⟨-, s2, -, s4, s5, s6, s7⟩ := settle_fields env cl i
  obtain ⟨t1, t2, t3⟩ := s7 hinuse
  have hfirst : ∀ f, f < cl.numLEs → (cl.LEs f).inuse = true → (cl.LEs f).type = env.ET_ITEM →
      (cl.LEs f).pos = (cl.LEs i).pos →
      (∀ k, k < f → ¬ ((cl.LEs k).inuse = true ∧ (cl.LEs k).type = env.ET_ITEM ∧
        (cl.LEs k).pos = (cl.LEs i).pos)) →
      (LE_DoEndPathMove.settle env cl i).floor = (cl.LEs f).floor := by
    intro f h1 h2 h3 h4 h5
    have hf : LE_Find cl env.ET_ITEM (cl.LEs i).pos = some f :=
      (LE_Find_some cl env.ET_ITEM (cl.LEs i).pos f).mpr ⟨h1, h2, h3, h4, h5⟩
    rw [s6, hf]
  refine ⟨setLE cl i { LE_DoEndPathMove.settle env cl i with locked := false },
    LE_DoEndPathMove_total env cl i hpos hlocked, ?_⟩
  rw [setLE_same]
  refine ⟨t1, t2, t3, rfl, s4, hfirst, ?_, ?_, s5.trans hinuse, s2,
    fun j hj => setLE_other cl i j _ hj⟩
  · intro hex
    cases hfind : LE_Find cl env.ET_ITEM (cl.LEs i).pos with
    | none =>
      obtain ⟨k, hk, hitem⟩ := hex
      exact absurd hitem ((LE_Find_none cl env.ET_ITEM (cl.LEs i).pos).mp hfind k hk)
    | some f =>
      obtain ⟨h1, h2, h3, h4, h5⟩ := (LE_Find_some cl env.ET_ITEM (cl.LEs i).pos f).mp hfind
      exact ⟨f, h1, h2, h3, h4, hfirst f h1 h2 h3 h4 h5⟩
  · intro hnone
    have hf : LE_Find cl env.ET_ITEM (cl.LEs i).pos = none :=
      (LE_Find_none cl env.ET_ITEM (cl.LEs i).pos).mpr hnone
    show (LE_DoEndPathMove.settle env cl i).floor = (cl.LEs i).floor
    rw [s6, hf]

/-- Witness of C17: the actor of `poolArrive` stands on its destination, in use and
locked; the item entity of slot 0 lies on the same grid field. -/
theorem C17_end_path_move_witness :
    ∃ cl', LE_DoEndPathMove stubClient poolArrive 1 =
        .ok (cl', [effect_t.CL_ActorConditionalMoveCalc (poolArrive.LEs 1).entnum]) ∧
      (cl'.LEs 1).think = none ∧ (cl'.LEs 1).pathPos = 0 ∧ (cl'.LEs 1).pathLength = 0 ∧
      (cl'.LEs 1).locked = false ∧ (cl'.LEs 1).lighting_dirty = true ∧
      (cl'.LEs 1).floor = (poolArrive.LEs 0).floor := by
  obtain ⟨cl', h1, h2, h3, h4, h5, h6, h7, -⟩ :=
    C17_end_path_move stubClient poolArrive 1 (by decide) (by decide) (by decide)
  exact ⟨cl', h1, h2, h3, h4, h5, h6,
    h7 0 (by decide) (by decide) (by decide) (by decide) (fun k hk => absurd hk (by omega))⟩

theorem VectorMA_zero (a b : vec3_t) : VectorMA a 0 b = a := by
  cases a
  simp [VectorMA]

theorem VectorMA_one (a b : vec3_t) : VectorMA a 1 (VectorSubtract b a) = b := by
  cases a
  cases b
  simp [VectorMA, VectorSubtract]

/-- C19: a call of `LET_PathMove` at or after the start time that returns without ending
the path move has interpolated: the origin of the entity is
`start + ((cl.time - startTime) / (endTime - startTime)) * (dest - start)`, where `start`
and `dest` are the world coordinates of `oldPos` and `pos`, the lighting is marked dirty,
and `startTime <= cl.time < endTime`. At `cl.time == startTime` the origin is the world
position of `oldPos`; and at `time == endTime` (for a step of a duration other than
zero) the formula gives the world position of `pos`, as it gives that of `oldPos` at
`time == startTime`. -/
theorem C19_interpolation (env : client_t) (cl cl' : clientBattleScape_t) (i : Nat)
    (fx : List effect_t) (h : LET_PathMove env cl i = .ok (cl', fx))
    (hrun : (cl.LEs i).startTime ≤ cl.time)
    (hnot : effect_t.CL_ActorConditionalMoveCalc (cl.LEs i).entnum ∉ fx) :
    (cl'.LEs i).origin =
      VectorMA (env.Grid_PosToVec (cl'.LEs i).fieldSize (cl'.LEs i).oldPos)
        (((cl.time - (cl'.LEs i).startTime : Int) : ℚ) /
          (((cl'.LEs i).endTime - (cl'.LEs i).startTime : Int) : ℚ))
        (VectorSubtract (env.Grid_PosToVec (cl'.LEs i).fieldSize (cl'.LEs i).pos)
          (env.Grid_PosToVec (cl'.LEs i).fieldSize (cl'.LEs i).oldPos)) ∧
    (cl'.LEs i).lighting_dirty = true ∧
    (cl'.LEs i).startTime ≤ cl.time ∧ cl.time < (cl'.LEs i).endTime ∧
    (cl.time = (cl'.LEs i).startTime →
      (cl'.LEs i).origin = env.Grid_PosToVec (cl'.LEs i).fieldSize (cl'.LEs i).oldPos) ∧
    (∀ le : le_t, le.endTime ≠ le.startTime →
      (LET_PathMove.interpolate env le.endTime le).origin =
          env.Grid_PosToVec le.fieldSize le.pos ∧
      (LET_PathMove.interpolate env le.startTime le).origin =
          env.Grid_PosToVec le.fieldSize le.oldPos) := by
  rcases LET_PathMove_running env cl cl' i fx h hnot with ⟨r1, -, -⟩ | ⟨-, r2, r3, r4⟩
  · exact absurd hrun (not_le.mpr r1)
  · have hstart : ((LET_PathMove.advance env)^[footsteps fx] (cl.LEs i)).startTime ≤ cl.time := by
      cases hk : footsteps fx with
      | zero => exact hrun
      | succ k =>
        rw [Function.iterate_succ_apply',
          (advance_fields env ((LET_PathMove.advance env)^[k] (cl.LEs i))).2.2.2]
        exact (r4 k (by omega)).1
    have horigin : (cl'.LEs i).origin =
        VectorMA (env.Grid_PosToVec (cl'.LEs i).fieldSize (cl'.LEs i).oldPos)
          (((cl.time - (cl'.LEs i).startTime : Int) : ℚ) /
            (((cl'.LEs i).endTime - (cl'.LEs i).startTime : Int) : ℚ))
          (VectorSubtract (env.Grid_PosToVec (cl'.LEs i).fieldSize (cl'.LEs i).pos)
            (env.Grid_PosToVec (cl'.LEs i).fieldSize (cl'.LEs i).oldPos)) := by
      rw [r2, setLE_same]
      rfl
    refine ⟨horigin, ?_, ?_, ?_, ?_, ?_⟩
    · rw [r2, setLE_same]
      rfl
    · rw [r2, setLE_same]
      exact hstart
    · rw [r2, setLE_same]
      exact r3
    · intro ht
      rw [horigin, ht, sub_self, Int.cast_zero, zero_div, VectorMA_zero]
    · intro le hne
      have hq : (((le.endTime - le.startTime : Int) : ℚ)) ≠ 0 := by
        exact_mod_cast sub_ne_zero.mpr hne
      constructor
      · show VectorMA _ (((le.endTime - le.startTime : Int) : ℚ) /
          ((le.endTime - le.startTime : Int) : ℚ)) _ = _
        rw [div_self hq, VectorMA_one]
      · show VectorMA _ (((le.startTime - le.startTime : Int) : ℚ) /
          ((le.endTime - le.startTime : Int) : ℚ)) _ = _
        rw [sub_self, Int.cast_zero, zero_div, VectorMA_zero]

/-- Witness of C19: the first frame of the sample path move, at the client time 100,
leaves the origin at (74, 64, 0), 100 / 320 of the way from (64, 64, 0) to (96, 64, 0). -/
theorem C19_interpolation_witness :
    LET_PathMove stubClient (poolOf walker 100) 0 =
      .ok (poolOf walkerAt100 100, [effect_t.LE_PlayFootStepSound ⟨3, 2, 0⟩]) ∧
    ((poolOf walkerAt100 100).LEs 0).origin =
      VectorMA (stubClient.Grid_PosToVec 1 ⟨2, 2, 0⟩) (((100 - 0 : Int) : ℚ) / ((320 - 0 : Int) : ℚ))
        (VectorSubtract (stubClient.Grid_PosToVec 1 ⟨3, 2, 0⟩)
          (stubClient.Grid_PosToVec 1 ⟨2, 2, 0⟩)) ∧
    ((poolOf walkerAt100 100).LEs 0).origin = ⟨74, 64, 0⟩ :=
  ⟨LET_PathMove_walker,
   (C19_interpolation stubClient (poolOf walker 100) (poolOf walkerAt100 100) 0
      [effect_t.LE_PlayFootStepSound ⟨3, 2, 0⟩] LET_PathMove_walker (by decide)
      (by decide)).1,
   rfl⟩

/-! ## Every path step is made (C18) -/

theorem sweep_total (env : collision_t) (clip : moveclip_t) (le : le_t)
    (hh : le.contents &&& env.CONTENTS_SOLID ≠ 0 → env.model_clip le.modelnum1 ≠ none) :
    ∃ t, CL_ClipMoveToLEs.sweep env clip le = .ok t := by
  unfold CL_ClipMoveToLEs.sweep CL_HullForEntity
  by_cases hc : le.contents &&& env.CONTENTS_SOLID ≠ 0
  · rw [if_pos hc]
    cases hm : env.model_clip le.modelnum1 with
    | none => exact absurd hm (hh hc)
    | some model => exact ⟨_, rfl⟩
  · rw [if_neg hc]
    exact ⟨_, rfl⟩

theorem foldlM_combineE_total (l : List (Nat × Except String trace_t))
    (hl : ∀ p ∈ l, ∃ t, p.2 = .ok t) (clip : moveclip_t) :
    ∃ c, l.foldlM CL_ClipMoveToLEs.combineE clip = .ok c := by
  induction l generalizing clip with
  | nil => exact ⟨clip, rfl⟩
  | cons p l ih =>
    obtain ⟨t, ht⟩ := hl p (List.mem_cons_self p l)
    rw [List.foldlM_cons]
    have hc : CL_ClipMoveToLEs.combineE clip p =
        .ok (CL_ClipMoveToLEs.combine clip p.1 t) := by
      unfold CL_ClipMoveToLEs.combineE
      rw [ht]
    rw [hc]
    exact ih (fun q hq => hl q (List.mem_cons_of_mem p hq)) _

/-- Function `CL_Trace` returns when every solid entity of the pool has a clip model. -/
theorem CL_Trace_total (env : collision_t) (cl : clientBattleScape_t)
    (start end_ mins maxs : vec3_t) (passle passle2 : Option Nat) (contentmask : Nat)
    (worldLevel : Nat)
    (hh : ∀ j, (cl.LEs j).contents &&& env.CONTENTS_SOLID ≠ 0 →
      env.model_clip (cl.LEs j).modelnum1 ≠ none) :
    ∃ t, CL_Trace env cl start end_ mins maxs passle passle2 contentmask worldLevel = .ok t := by
  rw [CL_Trace_foldlM]
  split_ifs
  · exact ⟨_, rfl⟩
  · exact ⟨_, rfl⟩
  · obtain ⟨c, hc⟩ := foldlM_combineE_total (CL_ClipMoveToLEs.sweeps env cl
      (CL_Trace.clip env start end_ mins maxs passle passle2 contentmask worldLevel) none)
      (by
        intro p hp
        unfold CL_ClipMoveToLEs.sweeps at hp
        rw [List.mem_map] at hp
        obtain ⟨j, -, rfl⟩ := hp
        exact sweep_total env _ _ (hh j))
      (CL_Trace.clip env start end_ mins maxs passle passle2 contentmask worldLevel)
    rw [hc]
    exact ⟨_, rfl⟩

theorem LE_PlayFootStepSound_total (env : client_t) (cl : clientBattleScape_t) (i : Nat)
    (hh : ∀ j, (cl.LEs j).contents &&& env.collision.CONTENTS_SOLID ≠ 0 →
      env.collision.model_clip (cl.LEs j).modelnum1 ≠ none) :
    ∃ fx, LE_PlayFootStepSound env cl i = .ok fx := by
  unfold LE_PlayFootStepSound
  simp only
  split_ifs
  · obtain ⟨t, ht⟩ := CL_Trace_total env.collision cl (env.PosToVec (cl.LEs i).pos)
      { env.PosToVec (cl.LEs i).pos with
        z := (env.PosToVec (cl.LEs i).pos).z - env.UNIT_HEIGHT }
      vec3_origin vec3_origin none none env.MASK_SOLID env.cl_worldlevel hh
    rw [ht]
    dsimp only
    split <;> exact ⟨_, rfl⟩
  · exact ⟨_, rfl⟩

theorem hulls_setLE (env : collision_t) (cl : clientBattleScape_t) (i : Nat) (a : le_t)
    (hh : ∀ j, (cl.LEs j).contents &&& env.CONTENTS_SOLID ≠ 0 →
      env.model_clip (cl.LEs j).modelnum1 ≠ none)
    (hc : a.contents = (cl.LEs i).contents) (hm : a.modelnum1 = (cl.LEs i).modelnum1) :
    ∀ j, ((setLE cl i a).LEs j).contents &&& env.CONTENTS_SOLID ≠ 0 →
      env.model_clip ((setLE cl i a).LEs j).modelnum1 ≠ none := by
  intro j
  by_cases hj : j = i
  · subst hj
    rw [setLE_same, hc, hm]
    exact hh j
  · rw [setLE_other cl i j a hj]
    exact hh j

/-- The loop of `LET_PathMove` returns for a locked entity whose remaining steps lead to
its destination, in a pool where every solid entity has a clip model. -/
theorem LET_PathMove_loop_total (env : client_t) (i : Nat) (n : Nat) :
    ∀ (cl : clientBattleScape_t),
      (cl.LEs i).pathLength = (cl.LEs i).pathPos + n →
      (∀ j, (cl.LEs j).contents &&& env.collision.CONTENTS_SOLID ≠ 0 →
        env.collision.model_clip (cl.LEs j).modelnum1 ≠ none) →
      (cl.LEs i).locked = true →
      ((LET_PathMove.advance env)^[n] (cl.LEs i)).pos = (cl.LEs i).newPos →
      ∃ r, LET_PathMove.loop env cl i = .ok r := by
  induction n with
  | zero =>
    intro cl hlen hh hlock hdest
    rw [LET_PathMove_loop_eq]
    by_cases ht : cl.time ≥ (cl.LEs i).endTime
    · rw [if_pos ht, if_neg (by omega)]
      rw [LE_DoEndPathMove_total env _ i (by rw [setLE_same]; exact hdest)
        (by rw [setLE_same]; exact hlock)]
      exact ⟨_, rfl⟩
    · rw [if_neg ht]
      exact ⟨_, rfl⟩
  | succ n ih =>
    intro cl hlen hh hlock hdest
    rw [LET_PathMove_loop_eq]
    by_cases ht : cl.time ≥ (cl.LEs i).endTime
    · rw [if_pos ht, if_pos (by omega), LE_DoPathMove_arrive_eq]
      obtain ⟨fx, hfx⟩ := LE_PlayFootStepSound_total env
        (setLE cl i (LE_DoPathMove.step env (LET_PathMove.arrive env (cl.LEs i)))) i
        (hulls_setLE env.collision cl i _ hh rfl rfl)
      rw [hfx]
      simp only
      obtain ⟨a1, a2, a3, -⟩ := advance_fields env (cl.LEs i)
      obtain ⟨-, -, k3, -, k5, k6⟩ := advance_keeps env (cl.LEs i)
      obtain ⟨r, hr⟩ := ih (setLE cl i (LET_PathMove.advance env (cl.LEs i)))
        (by rw [setLE_same, a1, a2, hlen]; push_cast; ring)
        (hulls_setLE env.collision cl i _ hh k5 k6)
        (by rw [setLE_same, k3]; exact hlock)
        (by rw [setLE_same, a3, ← Function.iterate_succ_apply]; exact hdest)
      rw [hr]
      obtain ⟨cl3, fx3, ended⟩ := r
      exact ⟨_, rfl⟩
    · rw [if_neg ht]
      exact ⟨_, rfl⟩

/-- A pass of the loop does not read the origin and the lighting flag, when the crouch
test does not: the origin is overwritten, the flag is carried along. -/
theorem advance_dirty (env : client_t)
    (hcrouch : ∀ (le : le_t) (o : vec3_t) (d : Bool),
      env.LE_IsCrouched { le with origin := o, lighting_dirty := d } = env.LE_IsCrouched le)
    (b : le_t) (o : vec3_t) (d : Bool) :
    LET_PathMove.advance env { b with origin := o, lighting_dirty := d } =
      { LET_PathMove.advance env b with lighting_dirty := d } := by
  have hc : env.LE_IsCrouched
      (LET_PathMove.arrive env { b with origin := o, lighting_dirty := d }) =
      env.LE_IsCrouched (LET_PathMove.arrive env b) :=
    hcrouch (LET_PathMove.arrive env b) (LET_PathMove.arrive env b).origin d
  have hs : LE_DoPathMove.step env
      (LET_PathMove.arrive env { b with origin := o, lighting_dirty := d }) =
      { LE_DoPathMove.step env (LET_PathMove.arrive env b) with lighting_dirty := d } := by
    unfold LE_DoPathMove.step
    rw [hc]
    rfl
  have hd : (LET_PathMove.arrive env { b with origin := o, lighting_dirty := d }).path.getD
      (LET_PathMove.arrive env { b with origin := o, lighting_dirty := d }).pathPos.toNat 0 =
      (LET_PathMove.arrive env b).path.getD (LET_PathMove.arrive env b).pathPos.toNat 0 := rfl
  unfold LET_PathMove.advance
  rw [hs, hd]
  generalize env.getDVdir ((LET_PathMove.arrive env b).path.getD
    (LET_PathMove.arrive env b).pathPos.toNat 0) = dir
  generalize LE_DoPathMove.step env (LET_PathMove.arrive env b) = y
  unfold LE_DoPathMove.finish
  by_cases h : dir < env.CORE_DIRECTIONS ∨ dir ≥ env.FLYING_DIRECTIONS
  · simp only [h, if_true]
    rfl
  · simp only [h, if_false]
    rfl

theorem advance_iterate_dirty (env : client_t)
    (hcrouch : ∀ (le : le_t) (o : vec3_t) (d : Bool),
      env.LE_IsCrouched { le with origin := o, lighting_dirty := d } = env.LE_IsCrouched le)
    (b : le_t) (o : vec3_t) (d : Bool) (m : Nat) :
    ∃ o', (LET_PathMove.advance env)^[m] { b with origin := o, lighting_dirty := d } =
      { (LET_PathMove.advance env)^[m] b with origin := o', lighting_dirty := d } := by
  induction m with
  | zero => exact ⟨o, rfl⟩
  | succ m ih =>
    obtain ⟨o', h⟩ := ih
    rw [Function.iterate_succ_apply', Function.iterate_succ_apply', h,
      advance_dirty env hcrouch]
    exact ⟨(LET_PathMove.advance env ((LET_PathMove.advance env)^[m] b)).origin, rfl⟩

theorem endTime_mono (env : client_t) (b : le_t) (r : Nat)
    (hdur : ∀ j, j < r → ((LET_PathMove.advance env)^[j] b).endTime ≤
      ((LET_PathMove.advance env)^[j + 1] b).endTime)
    (m : Nat) (hm : m ≤ r) :
    ((LET_PathMove.advance env)^[m] b).endTime ≤ ((LET_PathMove.advance env)^[r] b).endTime := by
  induction r with
  | zero =>
    have : m = 0 := by omega
    subst this
    exact le_refl _
  | succ r ih =>
    by_cases hmr : m = r + 1
    · subst hmr
      exact le_refl _
    · exact le_trans (ih (fun j hj => hdur j (by omega)) (by omega)) (hdur r (by omega))

theorem startTime_le_endTime (env : client_t) (b : le_t) (r : Nat)
    (hstart : b.startTime ≤ b.endTime)
    (hdur : ∀ j, j < r → ((LET_PathMove.advance env)^[j] b).endTime ≤
      ((LET_PathMove.advance env)^[j + 1] b).endTime)
    (m : Nat) (hm : m ≤ r) :
    ((LET_PathMove.advance env)^[m] b).startTime ≤ ((LET_PathMove.advance env)^[m] b).endTime := by
  cases m with
  | zero => exact hstart
  | succ m =>
    have h := hdur m (by omega)
    rw [Function.iterate_succ_apply'] at h ⊢
    rw [(advance_fields env ((LET_PathMove.advance env)^[m] b)).2.2.2]
    exact h

/-- One call of `LET_PathMove` in the course of a path move. The record of the entity is
`b` apart from the origin and the lighting flag, `r` steps remain and lead to the
destination, the entity is locked and in use, and no step has a duration below zero.
Then the call returns; it makes `footsteps fx` of the remaining steps in order, each with
one footstep call, and it either stops inside a step, before the end time of the last
step, or has made all steps and ends the path move, at or after that end time. -/
theorem LET_PathMove_frame (env : client_t) (i : Nat)
    (hcrouch : ∀ (le : le_t) (o : vec3_t) (d : Bool),
      env.LE_IsCrouched { le with origin := o, lighting_dirty := d } = env.LE_IsCrouched le)
    (cl : clientBattleScape_t) (b : le_t) (r : Nat) (o : vec3_t) (d : Bool)
    (hx : cl.LEs i = { b with origin := o, lighting_dirty := d })
    (hh : ∀ j, (cl.LEs j).contents &&& env.collision.CONTENTS_SOLID ≠ 0 →
      env.collision.model_clip (cl.LEs j).modelnum1 ≠ none)
    (hlock : b.locked = true) (hinuse : b.inuse = true)
    (hlen : b.pathLength = b.pathPos + r)
    (hdest : ((LET_PathMove.advance env)^[r] b).pos = b.newPos)
    (hstart : b.startTime ≤ b.endTime)
    (hdur : ∀ j, j < r → ((LET_PathMove.advance env)^[j] b).endTime ≤
      ((LET_PathMove.advance env)^[j + 1] b).endTime) :
    ∃ (y : le_t) (fx : List effect_t),
      LET_PathMove env cl i = .ok (setLE cl i y, fx) ∧ footsteps fx ≤ r ∧
      ((calls fx = (List.range (footsteps fx)).map (fun j =>
            effect_t.LE_PlayFootStepSound ((LET_PathMove.advance env)^[j + 1] b).pos) ∧
          cl.time < ((LET_PathMove.advance env)^[r] b).endTime ∧
          ∃ o' d', y = { (LET_PathMove.advance env)^[footsteps fx] b with
                          origin := o', lighting_dirty := d' }) ∨
        (calls fx = (List.range (footsteps fx)).map (fun j =>
            effect_t.LE_PlayFootStepSound ((LET_PathMove.advance env)^[j + 1] b).pos) ++
            [effect_t.CL_ActorConditionalMoveCalc b.entnum] ∧
          footsteps fx = r ∧ ((LET_PathMove.advance env)^[r] b).endTime ≤ cl.time ∧
          y.think = none ∧ y.locked = false ∧ y.pos = b.newPos ∧ y.pathPos = 0 ∧
          y.pathLength = 0)) := by
  have hiter : ∀ m, ∃ o', (LET_PathMove.advance env)^[m] (cl.LEs i) =
      { (LET_PathMove.advance env)^[m] b with origin := o', lighting_dirty := d } := by
    intro m
    rw [hx]
    exact advance_iterate_dirty env hcrouch b o d m
  by_cases hg : cl.time < (cl.LEs i).startTime
  · refine ⟨cl.LEs i, [], ?_, Nat.zero_le _, Or.inl ⟨rfl, ?_, o, d, hx⟩⟩
    · unfold LET_PathMove
      rw [if_pos hg, setLE_self]
    · have h0 := endTime_mono env b r hdur 0 (Nat.zero_le _)
      have hs : (cl.LEs i).startTime = b.startTime := by rw [hx]
      rw [hs] at hg
      have h0' : b.endTime ≤ ((LET_PathMove.advance env)^[r] b).endTime := h0
      omega
  · obtain ⟨res, hres⟩ := LET_PathMove_loop_total env i r cl
      (by rw [hx]; exact hlen) hh (by rw [hx]; exact hlock)
      (by
        obtain ⟨o', ho⟩ := hiter r
        rw [ho, hx]
        exact hdest)
    obtain ⟨cl1, fx, ended⟩ := res
    obtain ⟨s1, s2, s3⟩ := LET_PathMove_loop_spec env i _ cl cl1 fx ended rfl hres
    have hc := LET_PathMove_loop_calls env i _ cl cl1 fx ended rfl hres
    obtain ⟨om, hom⟩ := hiter (footsteps fx)
    have hm : footsteps fx ≤ r := by
      by_contra hcon
      obtain ⟨o', ho⟩ := hiter r
      have hlt := (s1 r (by omega)).2
      rw [ho] at hlt
      obtain ⟨c1, c2, -⟩ := advance_iterate_cursor env b r
      have hlt' : ((LET_PathMove.advance env)^[r] b).pathPos <
          ((LET_PathMove.advance env)^[r] b).pathLength := hlt
      rw [c1, c2, hlen] at hlt'
      omega
    have hmark : (List.range (footsteps fx)).map (fun j =>
          effect_t.LE_PlayFootStepSound ((LET_PathMove.advance env)^[j + 1] (cl.LEs i)).pos) =
        (List.range (footsteps fx)).map (fun j =>
          effect_t.LE_PlayFootStepSound ((LET_PathMove.advance env)^[j + 1] b).pos) := by
      apply List.map_congr_left
      intro j _
      obtain ⟨oj, hoj⟩ := hiter (j + 1)
      rw [hoj]
    have hent : (cl.LEs i).entnum = b.entnum := by rw [hx]
    rw [hmark, hent] at hc
    cases ended with
    | false =>
      obtain ⟨e1, e2⟩ := s2 rfl
      refine ⟨LET_PathMove.interpolate env cl.time
        ((LET_PathMove.advance env)^[footsteps fx] (cl.LEs i)), fx, ?_, hm,
        Or.inl ⟨by simpa using hc, ?_, ?_⟩⟩
      · unfold LET_PathMove
        rw [if_neg hg, hres]
        simp only
        rw [e1, setLE_setLE, setLE_same]
        rfl
      · have hmono := endTime_mono env b r hdur (footsteps fx) hm
        rw [hom] at e2
        have e2' : cl.time < ((LET_PathMove.advance env)^[footsteps fx] b).endTime := e2
        omega
      · rw [hom]
        exact ⟨_, _, rfl⟩
    | true =>
      obtain ⟨e1, e2, fx0, fx1, -, e4⟩ := s3 rfl
      obtain ⟨c1, c2, c3⟩ := advance_iterate_cursor env b (footsteps fx)
      obtain ⟨-, k2, -, -, -, -⟩ := advance_iterate_keeps env b (footsteps fx)
      rw [hom] at e1 e2
      have e1' : ((LET_PathMove.advance env)^[footsteps fx] b).endTime ≤ cl.time := e1
      have e2' : ((LET_PathMove.advance env)^[footsteps fx] b).pathLength ≤
          ((LET_PathMove.advance env)^[footsteps fx] b).pathPos := e2
      rw [c1, c2, hlen] at e2'
      have hmr : footsteps fx = r := by omega
      obtain ⟨d1, -, d3, -⟩ := LE_DoEndPathMove_ok env _ cl1 i fx1 e4
      obtain ⟨-, t2, -, -, t5, -, t7⟩ := settle_fields env (setLE cl i (LET_PathMove.arrive env
        ((LET_PathMove.advance env)^[footsteps fx] (cl.LEs i)))) i
      rw [setLE_same] at d1 t2 t5 t7
      rw [setLE_setLE] at d3
      have hin : (LET_PathMove.arrive env
          ((LET_PathMove.advance env)^[footsteps fx] (cl.LEs i))).inuse = true := by
        rw [hom]
        exact k2.trans hinuse
      obtain ⟨u1, u2, u3⟩ := t7 hin
      have hnp : (LET_PathMove.arrive env
          ((LET_PathMove.advance env)^[footsteps fx] (cl.LEs i))).newPos = b.newPos := by
        rw [hom]
        exact c3
      refine ⟨{ LE_DoEndPathMove.settle env (setLE cl i (LET_PathMove.arrive env
          ((LET_PathMove.advance env)^[footsteps fx] (cl.LEs i)))) i with locked := false },
        fx, ?_, hm, Or.inr ⟨by simpa using hc, hmr, by rw [← hmr]; exact e1',
        u1, rfl, ?_, u2, u3⟩⟩
      · unfold LET_PathMove
        rw [if_neg hg, hres, d3]
      · show (LE_DoEndPathMove.settle env _ i).pos = b.newPos
        rw [t2, d1, hnp]

theorem frames_cons
    (call : think_t → clientBattleScape_t → Nat →
      Except String (clientBattleScape_t × List effect_t))
    (cl : clientBattleScape_t) (i : Nat) (t : Int) (ts : List Int) :
    LE_ExecuteThink.frames call cl i (t :: ts) =
      match LE_ExecuteThink call { cl with time := t } i with
      | .error msg => .error msg
      | .ok (cl1, fx) =>
        match LE_ExecuteThink.frames call cl1 i ts with
        | .error msg => .error msg
        | .ok (cl2, fx') => .ok (cl2, fx ++ fx') := rfl

/-- Frames for an entity without a think function do nothing. -/
theorem frames_idle
    (call : think_t → clientBattleScape_t → Nat →
      Except String (clientBattleScape_t × List effect_t))
    (i : Nat) (times : List Int) :
    ∀ cl : clientBattleScape_t, (cl.LEs i).think = none →
      ∃ cl', LE_ExecuteThink.frames call cl i times = .ok (cl', []) ∧ cl'.LEs = cl.LEs := by
  induction times with
  | nil => exact fun cl _ => ⟨cl, rfl, rfl⟩
  | cons t ts ih =>
    intro cl hidle
    have hexec : LE_ExecuteThink call { cl with time := t } i =
        .ok ({ cl with time := t }, []) := by
      unfold LE_ExecuteThink
      have ht : (({ cl with time := t } : clientBattleScape_t).LEs i).think = none := hidle
      rw [ht]
      split_ifs <;> rfl
    obtain ⟨cl', h1, h2⟩ := ih { cl with time := t } hidle
    refine ⟨cl', ?_, h2⟩
    rw [frames_cons, hexec]
    simp only
    rw [h1]
    rfl

theorem markers_split (env : client_t) (b : le_t) (m1 m2 : Nat) :
    (List.range (m1 + m2)).map (fun j =>
        effect_t.LE_PlayFootStepSound ((LET_PathMove.advance env)^[j + 1] b).pos) =
      (List.range m1).map (fun j =>
        effect_t.LE_PlayFootStepSound ((LET_PathMove.advance env)^[j + 1] b).pos) ++
      (List.range m2).map (fun j =>
        effect_t.LE_PlayFootStepSound
          ((LET_PathMove.advance env)^[j + 1] ((LET_PathMove.advance env)^[m1] b)).pos) := by
  rw [List.range_add, List.map_append, List.map_map]
  congr 1
  apply List.map_congr_left
  intro j _
  simp only [Function.comp]
  rw [← Function.iterate_add_apply]
  have : m1 + j + 1 = j + 1 + m1 := by omega
  rw [this]

/-- The think calls of a path move over any sequence of frames, from a record that is
`b` apart from the origin and the lighting flag, with `r` steps left. -/
theorem frames_walk (env : client_t)
    (call : think_t → clientBattleScape_t → Nat →
      Except String (clientBattleScape_t × List effect_t))
    (i : Nat) (hcall : call think_t.LET_PathMove = LET_PathMove env)
    (hcrouch : ∀ (le : le_t) (o : vec3_t) (d : Bool),
      env.LE_IsCrouched { le with origin := o, lighting_dirty := d } = env.LE_IsCrouched le)
    (times : List Int) :
    ∀ (cl : clientBattleScape_t) (b : le_t) (r : Nat) (o : vec3_t) (d : Bool),
      cl.LEs i = { b with origin := o, lighting_dirty := d } →
      (∀ j, (cl.LEs j).contents &&& env.collision.CONTENTS_SOLID ≠ 0 →
        env.collision.model_clip (cl.LEs j).modelnum1 ≠ none) →
      b.locked = true → b.inuse = true → b.think = some think_t.LET_PathMove →
      b.pathLength = b.pathPos + r →
      ((LET_PathMove.advance env)^[r] b).pos = b.newPos →
      b.startTime ≤ b.endTime →
      (∀ j, j < r → ((LET_PathMove.advance env)^[j] b).endTime ≤
        ((LET_PathMove.advance env)^[j + 1] b).endTime) →
      ∃ (cl' : clientBattleScape_t) (fx : List effect_t) (done : Bool),
        LE_ExecuteThink.frames call cl i times = .ok (cl', fx) ∧ footsteps fx ≤ r ∧
        calls fx = (List.range (footsteps fx)).map (fun j =>
            effect_t.LE_PlayFootStepSound ((LET_PathMove.advance env)^[j + 1] b).pos) ++
          (if done then [effect_t.CL_ActorConditionalMoveCalc b.entnum] else []) ∧
        (done = true ↔ ∃ t, t ∈ times ∧ ((LET_PathMove.advance env)^[r] b).endTime ≤ t) ∧
        (done = true → footsteps fx = r ∧ (cl'.LEs i).think = none ∧
          (cl'.LEs i).locked = false ∧ (cl'.LEs i).pos = b.newPos ∧
          (cl'.LEs i).pathPos = 0 ∧ (cl'.LEs i).pathLength = 0) ∧
        (done = false → ∃ o' d', cl'.LEs i =
          { (LET_PathMove.advance env)^[footsteps fx] b with
            origin := o', lighting_dirty := d' }) ∧
        (∀ j, j ≠ i → cl'.LEs j = cl.LEs j) := by
  induction times with
  | nil =>
    intro cl b r o d hx _ _ _ _ _ _ _ _
    refine ⟨cl, [], false, rfl, Nat.zero_le _, rfl, ?_, fun h => absurd h (by decide),
      fun _ => ⟨o, d, hx⟩, fun _ _ => rfl⟩
    simp
  | cons t ts ih =>
    intro cl b r o d hx hh hlock hinuse hthink hlen hdest hstart hdur
    obtain ⟨y, fx1, h1, hm1, hcase⟩ := LET_PathMove_frame env i hcrouch { cl with time := t }
      b r o d hx hh hlock hinuse hlen hdest hstart hdur
    have hexec : LE_ExecuteThink call { cl with time := t } i =
        .ok (setLE { cl with time := t } i y, fx1) := by
      unfold LE_ExecuteThink
      have hu : (({ cl with time := t } : clientBattleScape_t).LEs i).inuse = true := by
        show (cl.LEs i).inuse = true
        rw [hx]
        exact hinuse
      have hth : (({ cl with time := t } : clientBattleScape_t).LEs i).think =
          some think_t.LET_PathMove := by
        show (cl.LEs i).think = some think_t.LET_PathMove
        rw [hx]
        exact hthink
      rw [if_pos hu, hth]
      simp only
      rw [hcall]
      exact h1
    rcases hcase with ⟨hc1, ht, o', d', hy⟩ | ⟨hc1, hmr, het, y1, y2, y3, y4, y5⟩
    · obtain ⟨r', hr'⟩ : ∃ r', r = footsteps fx1 + r' := ⟨r - footsteps fx1, by omega⟩
      obtain ⟨c1, c2, c3⟩ := advance_iterate_cursor env b (footsteps fx1)
      obtain ⟨k1, k2, k3, k4, k5, k6⟩ := advance_iterate_keeps env b (footsteps fx1)
      have hE : ∀ m, (LET_PathMove.advance env)^[m] ((LET_PathMove.advance env)^[footsteps fx1] b)
          = (LET_PathMove.advance env)^[footsteps fx1 + m] b := by
        intro m
        rw [Nat.add_comm, Function.iterate_add_apply]
      obtain ⟨cl', fx2, done, hf, hm2, hc2, hiff, hdone, hrun, hoth⟩ :=
        ih (setLE { cl with time := t } i y) ((LET_PathMove.advance env)^[footsteps fx1] b) r'
          o' d' (by rw [setLE_same, hy])
          (hulls_setLE env.collision { cl with time := t } i y hh
            (by
              show y.contents = (cl.LEs i).contents
              rw [hy, hx]
              exact k5)
            (by
              show y.modelnum1 = (cl.LEs i).modelnum1
              rw [hy, hx]
              exact k6))
          (k3.trans hlock) (k2.trans hinuse) (k4.trans hthink)
          (by rw [c1, c2, hlen, hr']; push_cast; ring)
          (by rw [hE, ← hr', c3]; exact hdest)
          (startTime_le_endTime env b r hstart hdur (footsteps fx1) hm1)
          (by
            intro j hj
            rw [hE, hE]
            exact hdur (footsteps fx1 + j) (by omega))
      have hcount : footsteps (fx1 ++ fx2) = footsteps fx1 + footsteps fx2 :=
        footsteps_append fx1 fx2
      refine ⟨cl', fx1 ++ fx2, done, ?_, ?_, ?_, ?_, ?_, ?_, ?_⟩
      · rw [frames_cons, hexec]
        simp only
        rw [hf]
      · rw [hcount]
        omega
      · rw [calls_append, hc1, hc2, hcount, markers_split, k1, List.append_assoc]
      · rw [hiff, hE, ← hr']
        constructor
        · rintro ⟨t', ht', hle⟩
          exact ⟨t', List.mem_cons_of_mem t ht', hle⟩
        · rintro ⟨t', ht', hle⟩
          rcases List.mem_cons.mp ht' with rfl | hmem
          · exact absurd hle (not_le.mpr ht)
          · exact ⟨t', hmem, hle⟩
      · intro hd
        obtain ⟨d1, d2, d3, d4, d5, d6⟩ := hdone hd
        refine ⟨by rw [hcount, d1, hr'], d2, d3, by rw [d4, c3], d5, d6⟩
      · intro hd
        obtain ⟨o2, d2, h2⟩ := hrun hd
        refine ⟨o2, d2, ?_⟩
        rw [h2, hE, hcount]
      · intro j hj
        rw [hoth j hj, setLE_other _ i j y hj]
    · obtain ⟨cl', hf, hLEs⟩ := frames_idle call i ts (setLE { cl with time := t } i y)
        (by rw [setLE_same]; exact y1)
      have hyi : cl'.LEs i = y := by rw [hLEs, setLE_same]
      refine ⟨cl', fx1, true, ?_, hm1, by simpa using hc1, ?_, ?_,
        fun h => absurd h (by decide), ?_⟩
      · rw [frames_cons, hexec]
        simp only
        rw [hf]
        simp only [List.append_nil]
      · exact ⟨fun _ => ⟨t, List.mem_cons_self t ts, het⟩, fun _ => rfl⟩
      · intro _
        rw [hyi]
        exact ⟨hmr, y1, y2, y3, y4, y5⟩
      · intro j hj
        rw [hLEs, setLE_other _ i j y hj]

theorem advance_pos (env : client_t) (le : le_t) :
    (LET_PathMove.advance env le).pos =
        (env.PosAddDV le.pos (if env.LE_IsCrouched (LET_PathMove.arrive env le) then 1 else 0)
          (le.path.getD le.pathPos.toNat 0)).1 ∧
      (LET_PathMove.advance env le).path = le.path := by
  have h := (finish_fields env (LE_DoPathMove.step env (LET_PathMove.arrive env le))
    (env.getDVdir ((LET_PathMove.arrive env le).path.getD
      (LET_PathMove.arrive env le).pathPos.toNat 0))).2.2.1
  constructor
  · unfold LET_PathMove.advance
    rw [h]
    rfl
  · unfold LET_PathMove.advance
    generalize env.getDVdir ((LET_PathMove.arrive env le).path.getD
      (LET_PathMove.arrive env le).pathPos.toNat 0) = dir
    unfold LE_DoPathMove.finish
    by_cases hd : dir < env.CORE_DIRECTIONS ∨ dir ≥ env.FLYING_DIRECTIONS
    · simp only [hd, if_true]
      rfl
    · simp only [hd, if_false]
      rfl

theorem advance_iterate_path (env : client_t) (le : le_t) (k : Nat) :
    ((LET_PathMove.advance env)^[k] le).path = le.path := by
  induction k with
  | zero => rfl
  | succ k ih =>
    rw [Function.iterate_succ_apply', (advance_pos env _).2, ih]

/-- The grid position after step `j + 1` of a path move is that after step `j`, moved by
the path byte at the cursor of step `j`. -/
theorem advance_iterate_pos (env : client_t) (le : le_t) (j : Nat) :
    ((LET_PathMove.advance env)^[j + 1] le).pos =
      (env.PosAddDV ((LET_PathMove.advance env)^[j] le).pos
        (if env.LE_IsCrouched (LET_PathMove.arrive env ((LET_PathMove.advance env)^[j] le))
          then 1 else 0)
        (le.path.getD (le.pathPos + j).toNat 0)).1 := by
  rw [Function.iterate_succ_apply', (advance_pos env _).1, advance_iterate_path,
    (advance_iterate_cursor env le j).1]

theorem advance2_walker : (LET_PathMove.advance stubClient)^[2] walker = walker2 := by
  show LET_PathMove.advance stubClient (LET_PathMove.advance stubClient walker) = walker2
  rw [advance_walker, advance_walker1]

/-- C18: a path move of `n` steps under any sequence of frames `times` (the client time
of each think call). The entity is in use and locked with the think function
`LET_PathMove`, its destination `newPos` is the grid position after the `n` steps, no
step has a duration below zero, every solid entity of the pool has a clip model (so that
the ground trace of the footstep returns), and the crouch test does not read the origin
or the lighting flag. Then the think calls return, and: the steps made are the first
`footsteps fx` steps of the path, in order (step `j + 1` moves the position after step
`j` by the path byte `j`); apart from sounds and particles the requests are exactly one
entry into `LE_PlayFootStepSound` per step made, in order, each at the grid position
after its step, followed by the request of `LE_DoEndPathMove` when a frame has reached
the end time of the last step; in that case all `n` steps are made, the entity stands on
the position after the `n` steps and its think function is `NULL` (idle) again; and when
no frame has reached that end time the think function is still `LET_PathMove`. -/
theorem C18_no_step_skipped (env : client_t)
    (call : think_t → clientBattleScape_t → Nat →
      Except String (clientBattleScape_t × List effect_t))
    (cl : clientBattleScape_t) (i : Nat) (n : Nat) (times : List Int)
    (hcall : call think_t.LET_PathMove = LET_PathMove env)
    (hcrouch : ∀ (le : le_t) (o : vec3_t) (d : Bool),
      env.LE_IsCrouched { le with origin := o, lighting_dirty := d } = env.LE_IsCrouched le)
    (hh : ∀ j, (cl.LEs j).contents &&& env.collision.CONTENTS_SOLID ≠ 0 →
      env.collision.model_clip (cl.LEs j).modelnum1 ≠ none)
    (hinuse : (cl.LEs i).inuse = true) (hlock : (cl.LEs i).locked = true)
    (hthink : (cl.LEs i).think = some think_t.LET_PathMove)
    (hlen : (cl.LEs i).pathLength = (cl.LEs i).pathPos + n)
    (hdest : (cl.LEs i).newPos = ((LET_PathMove.advance env)^[n] (cl.LEs i)).pos)
    (hstart : (cl.LEs i).startTime ≤ (cl.LEs i).endTime)
    (hdur : ∀ j, j < n → ((LET_PathMove.advance env)^[j] (cl.LEs i)).endTime ≤
      ((LET_PathMove.advance env)^[j + 1] (cl.LEs i)).endTime) :
    ∃ (cl' : clientBattleScape_t) (fx : List effect_t),
      LE_ExecuteThink.frames call cl i times = .ok (cl', fx) ∧
      footsteps fx ≤ n ∧
      (cl'.LEs i).pos = ((LET_PathMove.advance env)^[footsteps fx] (cl.LEs i)).pos ∧
      (∀ j, ((LET_PathMove.advance env)^[j + 1] (cl.LEs i)).pos =
        (env.PosAddDV ((LET_PathMove.advance env)^[j] (cl.LEs i)).pos
          (if env.LE_IsCrouched
              (LET_PathMove.arrive env ((LET_PathMove.advance env)^[j] (cl.LEs i)))
            then 1 else 0)
          ((cl.LEs i).path.getD ((cl.LEs i).pathPos + j).toNat 0)).1) ∧
      calls fx = (List.range (footsteps fx)).map (fun j =>
          effect_t.LE_PlayFootStepSound ((LET_PathMove.advance env)^[j + 1] (cl.LEs i)).pos) ++
        (if times.any (fun t =>
            decide (((LET_PathMove.advance env)^[n] (cl.LEs i)).endTime ≤ t))
          then [effect_t.CL_ActorConditionalMoveCalc (cl.LEs i).entnum] else []) ∧
      ((∃ t, t ∈ times ∧ ((LET_PathMove.advance env)^[n] (cl.LEs i)).endTime ≤ t) →
        footsteps fx = n ∧
        (cl'.LEs i).pos = ((LET_PathMove.advance env)^[n] (cl.LEs i)).pos ∧
        (cl'.LEs i).think = none ∧ (cl'.LEs i).locked = false) ∧
      ((∀ t, t ∈ times → t < ((LET_PathMove.advance env)^[n] (cl.LEs i)).endTime) →
        (cl'.LEs i).think = some think_t.LET_PathMove ∧
        (cl'.LEs i).pathPos = (cl.LEs i).pathPos + footsteps fx) ∧
      (∀ j, j ≠ i → cl'.LEs j = cl.LEs j) := by
  obtain ⟨cl', fx, done, hf, hm, hc, hiff, hdone, hrun, hoth⟩ :=
    frames_walk env call i hcall hcrouch times cl (cl.LEs i) n (cl.LEs i).origin
      (cl.LEs i).lighting_dirty rfl hh hlock hinuse hthink hlen hdest.symm hstart hdur
  have hany : times.any (fun t =>
      decide (((LET_PathMove.advance env)^[n] (cl.LEs i)).endTime ≤ t)) = done := by
    cases hd : done with
    | true =>
      rw [List.any_eq_true]
      obtain ⟨t, ht, hle⟩ := hiff.mp hd
      exact ⟨t, ht, by simpa using hle⟩
    | false =>
      rw [Bool.eq_false_iff]
      intro hcon
      rw [List.any_eq_true] at hcon
      obtain ⟨t, ht, hle⟩ := hcon
      have := hiff.mpr ⟨t, ht, by simpa using hle⟩
      rw [hd] at this
      exact absurd this (by decide)
  have hpos : (cl'.LEs i).pos = ((LET_PathMove.advance env)^[footsteps fx] (cl.LEs i)).pos := by
    cases hd : done with
    | true =>
      obtain ⟨d1, -, -, d4, -, -⟩ := hdone hd
      rw [d4, d1, hdest]
    | false =>
      obtain ⟨o', d', h2⟩ := hrun hd
      rw [h2]
  refine ⟨cl', fx, hf, hm, hpos, fun j => advance_iterate_pos env (cl.LEs i) j, ?_, ?_, ?_,
    hoth⟩
  · rw [hany]
    exact hc
  · intro hex
    obtain ⟨d1, d2, d3, d4, -, -⟩ := hdone (hiff.mpr hex)
    exact ⟨d1, by rw [d4, hdest], d2, d3⟩
  · intro hall
    have hd : done = false := by
      cases hd : done with
      | false => rfl
      | true =>
        obtain ⟨t, ht, hle⟩ := hiff.mp hd
        exact absurd hle (not_le.mpr (hall t ht))
    obtain ⟨o', d', h2⟩ := hrun hd
    rw [h2]
    exact ⟨(advance_iterate_keeps env (cl.LEs i) (footsteps fx)).2.2.2.1.trans hthink,
      (advance_iterate_cursor env (cl.LEs i) (footsteps fx)).1⟩

theorem walker_durations (j : Nat) (hj : j < 2) :
    ((LET_PathMove.advance stubClient)^[j] walker).endTime ≤
      ((LET_PathMove.advance stubClient)^[j + 1] walker).endTime := by
  have h1 : (LET_PathMove.advance stubClient)^[1] walker = walker1 := advance_walker
  have h0 : (LET_PathMove.advance stubClient)^[0] walker = walker := rfl
  interval_cases j
  · rw [h0, h1]
    decide
  · rw [h1, advance2_walker]
    decide

/-- Witness of C18: the actor at the grid position (2, 2, 0) with the path east, east,
speed 100 and unit size 32. With the frames at 0, 320 and 640 ms, and also with the one
frame at 640 ms, the think calls return, the entity ends on (4, 2, 0) with the think
function `NULL`, and two entries into `LE_PlayFootStepSound` are recorded. -/
theorem C18_no_step_skipped_witness :
    (∃ (cl' : clientBattleScape_t) (fx : List effect_t),
      LE_ExecuteThink.frames (fun _ => LET_PathMove stubClient) (poolOf walker 0) 0
        [0, 320, 640] = .ok (cl', fx) ∧
      footsteps fx = 2 ∧ (cl'.LEs 0).pos = ⟨4, 2, 0⟩ ∧ (cl'.LEs 0).think = none) ∧
    (∃ (cl' : clientBattleScape_t) (fx : List effect_t),
      LE_ExecuteThink.frames (fun _ => LET_PathMove stubClient) (poolOf walker 0) 0
        [640] = .ok (cl', fx) ∧
      footsteps fx = 2 ∧ (cl'.LEs 0).pos = ⟨4, 2, 0⟩ ∧ (cl'.LEs 0).think = none) := by
  have hE : ((LET_PathMove.advance stubClient)^[2] ((poolOf walker 0).LEs 0)).endTime = 640 := by
    rw [poolOf_same, advance2_walker]
    rfl
  have hP : ((LET_PathMove.advance stubClient)^[2] ((poolOf walker 0).LEs 0)).pos =
      ⟨4, 2, 0⟩ := by
    rw [poolOf_same, advance2_walker]
    rfl
  constructor
  · obtain ⟨cl', fx, h1, -, -, -, -, h6, -⟩ :=
      C18_no_step_skipped stubClient (fun _ => LET_PathMove stubClient) (poolOf walker 0) 0 2
        [0, 320, 640] rfl (fun _ _ _ => rfl)
        (fun j hj => absurd (poolOf_contents walker 0 rfl j) hj)
        rfl rfl rfl rfl (by rw [poolOf_same, advance2_walker]; rfl) (by decide)
        walker_durations
    obtain ⟨a1, a2, a3, -⟩ := h6 ⟨640, by simp, by rw [hE]⟩
    exact ⟨cl', fx, h1, a1, by rw [a2, hP], a3⟩
  · obtain ⟨cl', fx, h1, -, -, -, -, h6, -⟩ :=
      C18_no_step_skipped stubClient (fun _ => LET_PathMove stubClient) (poolOf walker 0) 0 2
        [640] rfl (fun _ _ _ => rfl)
        (fun j hj => absurd (poolOf_contents walker 0 rfl j) hj)
        rfl rfl rfl rfl (by rw [poolOf_same, advance2_walker]; rfl) (by decide)
        walker_durations
    obtain ⟨a1, a2, a3, -⟩ := h6 ⟨640, by simp, by rw [hE]⟩
    exact ⟨cl', fx, h1, a1, by rw [a2, hP], a3⟩

/-! ## Brush models (C25) -/

theorem vec3_get_set (v : vec3_t) (d : Nat) (a : ℚ) (hd : d < 3) : (v.set d a).get d = a := by
  interval_cases d <;> rfl

theorem vec3_get_set_other (v : vec3_t) (d k : Nat) (a : ℚ) (hk : k ≠ d) :
    (v.set d a).get k = v.get k := by
  rcases d with _ | _ | _ | d <;> rcases k with _ | _ | _ | k <;>
    first | rfl | exact absurd rfl hk

theorem LET_BrushModel_throttled (env : client_t) (cl : clientBattleScape_t) (i : Nat)
    (ht : cl.time - (cl.LEs i).thinkDelay < (cl.LEs i).speed.getD 0 0) :
    LET_BrushModel env cl i =
      .ok (setLE cl i { cl.LEs i with thinkDelay := cl.time }, []) := by
  unfold LET_BrushModel
  dsimp only
  rw [if_pos ht]

theorem LET_BrushModel_rotating (env : client_t) (cl : clientBattleScape_t) (i : Nat)
    (ht : ¬ cl.time - (cl.LEs i).thinkDelay < (cl.LEs i).speed.getD 0 0)
    (hty : (cl.LEs i).type = env.ET_ROTATING) :
    LET_BrushModel env cl i =
      .ok (setLE cl i
        { cl.LEs i with
          angles :=
            (cl.LEs i).angles.set (cl.LEs i).dir
              (if (cl.LEs i).angles.get (cl.LEs i).dir + 1 / (cl.LEs i).rotationSpeed ≥ 360
                then (cl.LEs i).angles.get (cl.LEs i).dir + 1 / (cl.LEs i).rotationSpeed - 360
                else (cl.LEs i).angles.get (cl.LEs i).dir + 1 / (cl.LEs i).rotationSpeed) },
        []) := by
  unfold LET_BrushModel
  dsimp only
  rw [if_neg ht, if_pos hty]

theorem LET_BrushModel_other (env : client_t) (cl : clientBattleScape_t) (i : Nat)
    (ht : ¬ cl.time - (cl.LEs i).thinkDelay < (cl.LEs i).speed.getD 0 0)
    (hty : (cl.LEs i).type ≠ env.ET_ROTATING) :
    LET_BrushModel env cl i = .ok (cl, []) := by
  unfold LET_BrushModel
  dsimp only
  rw [if_neg ht, if_neg hty]

/-- C25: a call of `LET_BrushModel` with `cl.time - thinkDelay < speed[0]` returns and
leaves every angle as it is. A call that is not throttled, for an entity of the type
`ET_ROTATING` with `rotationSpeed > 0`, `1 / rotationSpeed < 360` and `angles[dir]` in
`[0, 360)`, sets `angles[dir]` to `old + 1 / rotationSpeed`, less 360 when this sum is at
least 360, so that the new angle lies in `[0, 360)` again, and leaves the other angles.
For an entity of any other type no call changes an angle. -/
theorem C25_rotation_wrap (env : client_t) (cl : clientBattleScape_t) (i : Nat) :
    (cl.time - (cl.LEs i).thinkDelay < (cl.LEs i).speed.getD 0 0 →
      ∃ cl', LET_BrushModel env cl i = .ok (cl', []) ∧
        (cl'.LEs i).angles = (cl.LEs i).angles) ∧
    (¬ cl.time - (cl.LEs i).thinkDelay < (cl.LEs i).speed.getD 0 0 →
      (cl.LEs i).type = env.ET_ROTATING → (cl.LEs i).dir < 3 →
      0 < (cl.LEs i).rotationSpeed → 1 / (cl.LEs i).rotationSpeed < 360 →
      0 ≤ (cl.LEs i).angles.get (cl.LEs i).dir → (cl.LEs i).angles.get (cl.LEs i).dir < 360 →
      ∃ cl', LET_BrushModel env cl i = .ok (cl', []) ∧
        (cl'.LEs i).angles.get (cl.LEs i).dir =
          (if (cl.LEs i).angles.get (cl.LEs i).dir + 1 / (cl.LEs i).rotationSpeed ≥ 360
            then (cl.LEs i).angles.get (cl.LEs i).dir + 1 / (cl.LEs i).rotationSpeed - 360
            else (cl.LEs i).angles.get (cl.LEs i).dir + 1 / (cl.LEs i).rotationSpeed) ∧
        0 ≤ (cl'.LEs i).angles.get (cl.LEs i).dir ∧
        (cl'.LEs i).angles.get (cl.LEs i).dir < 360 ∧
        ∀ k, k ≠ (cl.LEs i).dir →
          (cl'.LEs i).angles.get k = (cl.LEs i).angles.get k) ∧
    ((cl.LEs i).type ≠ env.ET_ROTATING →
      ∃ cl', LET_BrushModel env cl i = .ok (cl', []) ∧
        (cl'.LEs i).angles = (cl.LEs i).angles) := by
  refine ⟨?_, ?_, ?_⟩
  · intro ht
    refine ⟨_, LET_BrushModel_throttled env cl i ht, ?_⟩
    rw [setLE_same]
  · intro ht hty hd hrs hinc h0 h360
    have hpos : (0 : ℚ) < 1 / (cl.LEs i).rotationSpeed := one_div_pos.mpr hrs
    refine ⟨_, LET_BrushModel_rotating env cl i ht hty, ?_⟩
    rw [setLE_same]
    refine ⟨vec3_get_set _ _ _ hd, ?_, ?_, fun k hk => vec3_get_set_other _ _ _ _ hk⟩
    · show 0 ≤ ((cl.LEs i).angles.set _ _).get _
      rw [vec3_get_set _ _ _ hd]
      split_ifs with hge
      · linarith
      · linarith
    · show ((cl.LEs i).angles.set _ _).get _ < 360
      rw [vec3_get_set _ _ _ hd]
      split_ifs with hge
      · linarith
      · linarith
  · intro hty
    by_cases ht : cl.time - (cl.LEs i).thinkDelay < (cl.LEs i).speed.getD 0 0
    · refine ⟨_, LET_BrushModel_throttled env cl i ht, ?_⟩
      rw [setLE_same]
    · exact ⟨cl, LET_BrushModel_other env cl i ht hty, rfl⟩

/-- Witness of C25: the sample rotor at 300 degrees, called 100 ms after the last call,
turns by 100 degrees to 40 degrees. -/
theorem C25_rotation_wrap_witness :
    ∃ cl', LET_BrushModel stubClient (poolOf rotor 100) 0 = .ok (cl', []) ∧
      (cl'.LEs 0).angles.get ((poolOf rotor 100).LEs 0).dir =
        (if ((poolOf rotor 100).LEs 0).angles.get ((poolOf rotor 100).LEs 0).dir +
              1 / ((poolOf rotor 100).LEs 0).rotationSpeed ≥ 360
          then ((poolOf rotor 100).LEs 0).angles.get ((poolOf rotor 100).LEs 0).dir +
              1 / ((poolOf rotor 100).LEs 0).rotationSpeed - 360
          else ((poolOf rotor 100).LEs 0).angles.get ((poolOf rotor 100).LEs 0).dir +
              1 / ((poolOf rotor 100).LEs 0).rotationSpeed) ∧
      0 ≤ (cl'.LEs 0).angles.get ((poolOf rotor 100).LEs 0).dir ∧
      (cl'.LEs 0).angles.get ((poolOf rotor 100).LEs 0).dir < 360 ∧
      ∀ k, k ≠ ((poolOf rotor 100).LEs 0).dir →
        (cl'.LEs 0).angles.get k = ((poolOf rotor 100).LEs 0).angles.get k :=
  (C25_rotation_wrap stubClient (poolOf rotor 100) 0).2.1 (by decide) (by decide) (by decide)
    (by simp [poolOf, rotor, le_zero]) (by simp [poolOf, rotor, le_zero]; norm_num)
    (by simp [poolOf, rotor, le_zero, vec3_t.get]) (by simp [poolOf, rotor, le_zero, vec3_t.get]; norm_num)

/-! ## Search within a radius (C26) -/

theorem LE_FindRadius_loop_eq (env : client_t) (cl : clientBattleScape_t) (org : vec3_t)
    (rad : ℚ) (type : Int) (le : Option Nat) :
    LE_FindRadius.loop env cl org rad type le = match LE_GetNextInUse cl le with
      | none => none
      | some j =>
        if LE_FindRadius.hit env cl org rad type j then some j
        else LE_FindRadius.loop env cl org rad type (some j) := by
  rw [LE_FindRadius.loop]
  split
  · rename_i h
    simp [h]
  · rename_i j h
    simp only [h, LE_FindRadius.hit]
    by_cases h1 : env.VectorLength (LE_FindRadius.eorg org (cl.LEs j)) > rad
    · have h1' : ¬ env.VectorLength (LE_FindRadius.eorg org (cl.LEs j)) ≤ rad := not_le.mpr h1
      simp [h1, h1']
    · have h1' : env.VectorLength (LE_FindRadius.eorg org (cl.LEs j)) ≤ rad := not_lt.mp h1
      by_cases h2 : type = env.ET_NULL
      · simp [h1, h1', h2]
      · by_cases h3 : (cl.LEs j).type = type
        · simp [h1, h1', h2, h3]
        · simp [h1, h1', h2, h3]

theorem LE_FindRadius_some (env : client_t) (cl : clientBattleScape_t) (from_ : Option Nat)
    (org : vec3_t) (rad : ℚ) (type : Int) (j : Nat) :
    LE_FindRadius env cl from_ org rad type = some j ↔
      (cursorStart from_ ≤ j ∧ j < cl.numLEs ∧ (cl.LEs j).inuse = true ∧
        env.VectorLength (LE_FindRadius.eorg org (cl.LEs j)) ≤ rad ∧
        (type = env.ET_NULL ∨ (cl.LEs j).type = type) ∧
        ∀ k, cursorStart from_ ≤ k → k < j →
          ¬ ((cl.LEs k).inuse = true ∧
            env.VectorLength (LE_FindRadius.eorg org (cl.LEs k)) ≤ rad ∧
            (type = env.ET_NULL ∨ (cl.LEs k).type = type))) := by
  unfold LE_FindRadius
  rw [firstMatch_some cl _ (LE_FindRadius.loop env cl org rad type)
    (inUseLoop_unfold cl _ (LE_FindRadius.loop env cl org rad type)
      (LE_FindRadius_loop_eq env cl org rad type))]
  simp [LE_FindRadius.hit, and_assoc]

theorem LE_FindRadius_none (env : client_t) (cl : clientBattleScape_t) (from_ : Option Nat)
    (org : vec3_t) (rad : ℚ) (type : Int) :
    LE_FindRadius env cl from_ org rad type = none ↔
      ∀ k, cursorStart from_ ≤ k → k < cl.numLEs →
        ¬ ((cl.LEs k).inuse = true ∧
          env.VectorLength (LE_FindRadius.eorg org (cl.LEs k)) ≤ rad ∧
          (type = env.ET_NULL ∨ (cl.LEs k).type = type)) := by
  unfold LE_FindRadius
  rw [firstMatch_none cl _ (LE_FindRadius.loop env cl org rad type)
    (inUseLoop_unfold cl _ (LE_FindRadius.loop env cl org rad type)
      (LE_FindRadius_loop_eq env cl org rad type))]
  simp [LE_FindRadius.hit]

theorem LE_FindRadius_poolRadius :
    LE_FindRadius stubClient poolRadius none vec3_origin 20 stubClient.ET_NULL = some 0 := by
  rw [LE_FindRadius_some]
  refine ⟨Nat.zero_le _, by decide, by decide, ?_, Or.inl rfl,
    fun k _ hk => absurd hk (Nat.not_lt_zero k)⟩
  simp [stubClient, LE_FindRadius.eorg, poolRadius, le_zero, vec3_origin]
  norm_num

theorem poolRadius_closer :
    stubClient.VectorLength (LE_FindRadius.eorg vec3_origin (poolRadius.LEs 1)) <
      stubClient.VectorLength (LE_FindRadius.eorg vec3_origin (poolRadius.LEs 0)) := by
  simp [stubClient, LE_FindRadius.eorg, poolRadius, le_zero, vec3_origin]

/-- C26: `LE_FindRadius (from, org, rad, type)` returns the slot `j` exactly when `j` is
the lowest slot behind `from` (from the start of the pool for `NULL`) that is in use,
has the centre of its bounding box, `origin + (mins + maxs) / 2`, at a distance (as
`VectorLength` measures it) of at most `rad` from `org`, and has the type `type` unless
`type` is `ET_NULL`; it returns `NULL` exactly when there is no such slot; and the
entity returned need not be the closest one: in the sample pool the entity of slot 0 is
returned while that of slot 1 lies closer to `org`. -/
theorem C26_LE_FindRadius_first_match (env : client_t) (cl : clientBattleScape_t)
    (from_ : Option Nat) (org : vec3_t) (rad : ℚ) (type : Int) :
    (∀ j, LE_FindRadius env cl from_ org rad type = some j ↔
      (cursorStart from_ ≤ j ∧ j < cl.numLEs ∧ (cl.LEs j).inuse = true ∧
        env.VectorLength (LE_FindRadius.eorg org (cl.LEs j)) ≤ rad ∧
        (type = env.ET_NULL ∨ (cl.LEs j).type = type) ∧
        ∀ k, cursorStart from_ ≤ k → k < j →
          ¬ ((cl.LEs k).inuse = true ∧
            env.VectorLength (LE_FindRadius.eorg org (cl.LEs k)) ≤ rad ∧
            (type = env.ET_NULL ∨ (cl.LEs k).type = type)))) ∧
    (LE_FindRadius env cl from_ org rad type = none ↔
      ∀ k, cursorStart from_ ≤ k → k < cl.numLEs →
        ¬ ((cl.LEs k).inuse = true ∧
          env.VectorLength (LE_FindRadius.eorg org (cl.LEs k)) ≤ rad ∧
          (type = env.ET_NULL ∨ (cl.LEs k).type = type))) ∧
    (∀ le : le_t, LE_FindRadius.eorg org le =
      VectorSubtract org ⟨le.origin.x + (le.mins.x + le.maxs.x) / 2,
        le.origin.y + (le.mins.y + le.maxs.y) / 2,
        le.origin.z + (le.mins.z + le.maxs.z) / 2⟩) ∧
    (cursorStart none = 0 ∧ ∀ f, cursorStart (some f) = f + 1) ∧
    (∃ (a b : Nat),
      LE_FindRadius stubClient poolRadius none vec3_origin 20 stubClient.ET_NULL = some a ∧
      b < poolRadius.numLEs ∧ (poolRadius.LEs b).inuse = true ∧
      stubClient.VectorLength (LE_FindRadius.eorg vec3_origin (poolRadius.LEs b)) <
        stubClient.VectorLength (LE_FindRadius.eorg vec3_origin (poolRadius.LEs a))) := by
  refine ⟨fun j => LE_FindRadius_some env cl from_ org rad type j,
    LE_FindRadius_none env cl from_ org rad type, ?_, ⟨rfl, fun _ => rfl⟩,
    ⟨0, 1, LE_FindRadius_poolRadius, by decide, by decide, poolRadius_closer⟩⟩
  intro le
  simp only [LE_FindRadius.eorg, VectorSubtract, vec3_t.mk.injEq]
  refine ⟨?_, ?_, ?_⟩ <;> ring

/-- Witness of C26: in the sample pool the search from the start with the radius 20
returns slot 0, at the distance 10, and behind slot 0 it returns slot 1. -/
theorem C26_LE_FindRadius_first_match_witness :
    LE_FindRadius stubClient poolRadius none vec3_origin 20 stubClient.ET_NULL = some 0 ∧
    LE_FindRadius stubClient poolRadius (some 0) vec3_origin 20 stubClient.ET_NULL = some 1 :=
  ⟨((C26_LE_FindRadius_first_match stubClient poolRadius none vec3_origin 20
      stubClient.ET_NULL).1 0).mpr
      ⟨Nat.zero_le _, by decide, by decide,
        by simp [stubClient, LE_FindRadius.eorg, poolRadius, le_zero, vec3_origin]; norm_num,
        Or.inl rfl, fun k _ hk => absurd hk (Nat.not_lt_zero k)⟩,
   ((C26_LE_FindRadius_first_match stubClient poolRadius (some 0) vec3_origin 20
      stubClient.ET_NULL).1 1).mpr
      ⟨by decide, by decide, by decide,
        by simp [stubClient, LE_FindRadius.eorg, poolRadius, le_zero, vec3_origin],
        Or.inl rfl, fun k h1 h2 => absurd h1 (by simp [cursorStart]; omega)⟩⟩

/-! ## Animation names (C28) -/

theorem Com_sprintf_fits (size : Nat) (text : String) (h : text.length < size) :
    Com_sprintf size text = text := by
  unfold Com_sprintf
  have hl : text.data.length ≤ size - 1 := by
    have : text.data.length = text.length := rfl
    omega
  rw [List.take_of_length_le hl]

/-- The suffix `akimbo ? "pistol_d" : type` the code computes is `LE_GetAnim.suffix`. -/
theorem LE_GetAnim_other (env : client_t) (a : String) (right left : Int) (state : Nat)
    (hname : ¬ (a.take 5 = "stand" ∨ a.take 4 = "walk")) :
    LE_GetAnim env (some a) right left state =
      (if state &&& env.STATE_CROUCHED ≠ 0 then "c" else "") ++
        Com_sprintf (env.MAX_VAR - (if state &&& env.STATE_CROUCHED ≠ 0 then "c" else "").length)
          (a ++ "_" ++ LE_GetAnim.suffix env right left) := by
  unfold LE_GetAnim LE_GetAnim.suffix
  simp only [hname, if_false]
  by_cases hr : right = env.NONE
  · by_cases hl : left = env.NONE
    · simp [hr, hl]
    · by_cases hg : (env.ods left).type = "grenade"
      · simp [hr, hl, hg]
      · simp [hr, hl, hg]
  · by_cases hl : left = env.NONE
    · simp [hr, hl]
    · by_cases hp : (env.ods right).type = "pistol"
      · by_cases hq : (env.ods left).type = "pistol"
        · simp [hr, hl, hp, hq]
        · simp [hr, hl, hp, hq]
      · simp [hr, hl, hp]

/-- Counterexample to C28 as stated: with an empty right hand and a rifle in the left
hand the name "shoot" becomes "shoot_pistol_d", not "shoot_rifle", although no hand holds
a pistol and the left hand holds no grenade. -/
theorem C28_counterexample :
    armoury.NONE = -1 ∧ (armoury.ods 3).type = "rifle" ∧
    LE_GetAnim armoury (some "shoot") (-1) 3 0 = "shoot_pistol_d" ∧
    LE_GetAnim armoury (some "shoot") (-1) 3 0 ≠ "shoot_" ++ (armoury.ods 3).type := by
  decide

/-- C28, amended: a `NULL` name gives the empty string; a crouched state puts "c" in
front; a name that starts with "stand" or "walk" (and fits the buffer) is followed by the
animation index of the object in the right hand, '0' for an empty right hand; every
other name, if the result fits the buffer of `MAX_VAR` bytes, is followed by "_" and a
suffix, which is "pistol_d" with a pistol in each hand and also with an empty right
hand and anything but a grenade in the left hand, "grenade" with an empty right hand and
a grenade in the left hand, "item" with both hands empty, and else the type of the
object in the right hand. -/
theorem C28_anim_name (env : client_t) (a : String) (right left : Int) (state : Nat) :
    LE_GetAnim env none right left state = "" ∧
    ((a.take 5 = "stand" ∨ a.take 4 = "walk") →
      (if state &&& env.STATE_CROUCHED ≠ 0 then 1 else 0) + a.length + 2 ≤ env.MAX_VAR →
      LE_GetAnim env (some a) right left state =
        (if state &&& env.STATE_CROUCHED ≠ 0 then "c" else "") ++ a ++
          String.singleton (if right = env.NONE then '0' else (env.ods right).animationIndex)) ∧
    (¬ (a.take 5 = "stand" ∨ a.take 4 = "walk") →
      (if state &&& env.STATE_CROUCHED ≠ 0 then 1 else 0) +
        (a ++ "_" ++ LE_GetAnim.suffix env right left).length < env.MAX_VAR →
      LE_GetAnim env (some a) right left state =
        (if state &&& env.STATE_CROUCHED ≠ 0 then "c" else "") ++ a ++ "_" ++
          LE_GetAnim.suffix env right left) ∧
    (right ≠ env.NONE → left ≠ env.NONE → (env.ods right).type = "pistol" →
      (env.ods left).type = "pistol" → LE_GetAnim.suffix env right left = "pistol_d") ∧
    (right = env.NONE → left ≠ env.NONE → (env.ods left).type ≠ "grenade" →
      LE_GetAnim.suffix env right left = "pistol_d") ∧
    (right = env.NONE → left ≠ env.NONE → (env.ods left).type = "grenade" →
      LE_GetAnim.suffix env right left = "grenade") ∧
    (right = env.NONE → left = env.NONE → LE_GetAnim.suffix env right left = "item") ∧
    (right ≠ env.NONE →
      ¬ (left ≠ env.NONE ∧ (env.ods right).type = "pistol" ∧ (env.ods left).type = "pistol") →
      LE_GetAnim.suffix env right left = (env.ods right).type) := by
  refine ⟨rfl, ?_, ?_, ?_, ?_, ?_, ?_, ?_⟩
  · intro hname _
    unfold LE_GetAnim
    simp only [hname, if_true]
  · intro hname hfit
    rw [LE_GetAnim_other env a right left state hname, Com_sprintf_fits]
    · simp only [String.append_assoc]
    · by_cases hc : state &&& env.STATE_CROUCHED ≠ 0
      · rw [if_pos hc] at hfit ⊢
        have : ("c" : String).length = 1 := rfl
        omega
      · rw [if_neg hc] at hfit ⊢
        have : ("" : String).length = 0 := rfl
        omega
  · intro hr hl hp hq
    simp [LE_GetAnim.suffix, hr, hl, hp, hq]
  · intro hr hl hg
    simp [LE_GetAnim.suffix, hr, hl, hg]
  · intro hr hl hg
    simp [LE_GetAnim.suffix, hr, hl, hg]
  · intro hr hl
    simp [LE_GetAnim.suffix, hr, hl]
  · intro hr hnot
    unfold LE_GetAnim.suffix
    rw [if_neg hr, if_neg hnot]

/-- Witness of C28: on the sample client the name "stand" of a crouched actor with a
pistol in the right hand becomes "cstand1", and the name "shoot" with a pistol in each
hand becomes "shoot_pistol_d". -/
theorem C28_anim_name_witness :
    LE_GetAnim armoury (some "stand") 1 (-1) 4 =
      (if 4 &&& armoury.STATE_CROUCHED ≠ 0 then "c" else "") ++ "stand" ++
        String.singleton (if (1 : Int) = armoury.NONE then '0'
          else (armoury.ods 1).animationIndex) ∧
    LE_GetAnim armoury (some "shoot") 1 1 0 =
      (if 0 &&& armoury.STATE_CROUCHED ≠ 0 then "c" else "") ++ "shoot" ++ "_" ++
        LE_GetAnim.suffix armoury 1 1 ∧
    LE_GetAnim.suffix armoury 1 1 = "pistol_d" :=
  ⟨(C28_anim_name armoury "stand" 1 (-1) 4).2.1 (by decide) (by decide),
   (C28_anim_name armoury "shoot" 1 1 0).2.2.1 (by decide) (by decide),
   (C28_anim_name armoury "shoot" 1 1 0).2.2.2.1 (by decide) (by decide) (by decide)
     (by decide)⟩

/-! ## Local models (C29) -/

theorem LM_Find_isSome (lms : localModels_t) (entnum : Int) :
    (LM_Find lms entnum).isSome = true ↔ ∃ k, k < lms.numLMs ∧ (lms.LMs k).entnum = entnum := by
  unfold LM_Find
  rw [List.find?_isSome]
  simp

theorem LM_Find_none (lms : localModels_t) (entnum : Int) :
    LM_Find lms entnum = none ↔ ∀ k, k < lms.numLMs → (lms.LMs k).entnum ≠ entnum := by
  unfold LM_Find
  rw [List.find?_eq_none]
  simp

/-- What `LM_Find` sees in `LM_AddModel`: the models added before, and the cleared new
slot with the entity number 0. -/
theorem LM_Find_new_slot (lms : localModels_t) (lm : localModel_t) (entnum : Int)
    (hlm : lm.entnum = 0) :
    LM_Find (setLM { lms with numLMs := lms.numLMs + 1 } lms.numLMs lm) entnum = none ↔
      (entnum ≠ 0 ∧ ∀ k, k < lms.numLMs → (lms.LMs k).entnum ≠ entnum) := by
  rw [LM_Find_none]
  constructor
  · intro h
    refine ⟨?_, fun k hk => ?_⟩
    · have := h lms.numLMs (Nat.lt_succ_self _)
      simp only [setLM, if_true] at this
      rw [hlm] at this
      exact fun h0 => this h0.symm
    · have := h k (Nat.lt_succ_of_lt hk)
      simp only [setLM, if_neg (Nat.ne_of_lt hk)] at this
      exact this
  · rintro ⟨h0, hk⟩ k hlt
    by_cases hkn : k = lms.numLMs
    · subst hkn
      simp only [setLM, if_true]
      rw [hlm]
      exact fun h => h0 h.symm
    · simp only [setLM, if_neg hkn]
      exact hk k (by
        have : k < lms.numLMs + 1 := hlt
        omega)

theorem LM_AddModel_full (MAX_LOCALMODELS nameSize : Nat) (lms : localModels_t)
    (model : String) (origin angles : vec3_t) (entnum levelflags renderFlags : Int)
    (scale : vec3_t) (hfull : MAX_LOCALMODELS ≤ lms.numLMs + 1) :
    LM_AddModel MAX_LOCALMODELS nameSize lms model origin angles entnum levelflags
      renderFlags scale = .error "Too many local models" := by
  unfold LM_AddModel
  dsimp only
  rw [if_pos hfull]

theorem LM_AddModel_found (MAX_LOCALMODELS nameSize : Nat) (lms : localModels_t)
    (model : String) (origin angles : vec3_t) (entnum levelflags renderFlags : Int)
    (scale : vec3_t) (hfit : lms.numLMs + 1 < MAX_LOCALMODELS)
    (hdup : entnum = 0 ∨ ∃ k, k < lms.numLMs ∧ (lms.LMs k).entnum = entnum) :
    LM_AddModel MAX_LOCALMODELS nameSize lms model origin angles entnum levelflags
      renderFlags scale = .error "Already a local model with the same id (%i) loaded" := by
  unfold LM_AddModel
  dsimp only
  rw [if_neg (by have := hfit; intro h; exact absurd h (by omega))]
  cases hfind : LM_Find (setLM { lms with numLMs := lms.numLMs + 1 } lms.numLMs
      { lm_zero with name := Q_strncpyz nameSize model, origin := origin, angles := angles })
      entnum with
  | some j => rfl
  | none =>
    rw [LM_Find_new_slot lms _ entnum rfl] at hfind
    rcases hdup with h0 | ⟨k, hk, he⟩
    · exact absurd h0 hfind.1
    · exact absurd he (hfind.2 k hk)

theorem LM_AddModel_fresh (MAX_LOCALMODELS nameSize : Nat) (lms : localModels_t)
    (model : String) (origin angles : vec3_t) (entnum levelflags renderFlags : Int)
    (scale : vec3_t) (hfit : lms.numLMs + 1 < MAX_LOCALMODELS) (h0 : entnum ≠ 0)
    (hnew : ∀ k, k < lms.numLMs → (lms.LMs k).entnum ≠ entnum) :
    LM_AddModel MAX_LOCALMODELS nameSize lms model origin angles entnum levelflags
      renderFlags scale =
      .ok (setLM { lms with numLMs := lms.numLMs + 1 } lms.numLMs
        { inuse := true, name := Q_strncpyz nameSize model, origin := origin,
          angles := angles, scale := scale, entnum := entnum, levelflags := levelflags,
          renderFlags := renderFlags, lighting_dirty := true }, lms.numLMs) := by
  unfold LM_AddModel
  dsimp only
  rw [if_neg (by have := hfit; intro h; exact absurd h (by omega))]
  rw [(LM_Find_new_slot lms _ entnum rfl).2 ⟨h0, hnew⟩]
  simp only [Except.ok.injEq, Prod.mk.injEq, and_true]
  unfold setLM
  simp only [localModels_t.mk.injEq, and_true]
  funext j
  by_cases hj : j = lms.numLMs
  · simp only [hj, if_true]
  · simp only [hj, if_false]

/-- C29, the behaviour of the code: below the limit of `MAX_LOCALMODELS`, `LM_AddModel`
raises "Already a local model with the same id" exactly when the entity number is 0 or a
model added before has the same entity number, because `cl.numLMs` is raised and the new
slot is cleared before `LM_Find` runs; otherwise it appends one record in use with the
lighting marked dirty and the given fields. With the entity number 0 the error is raised
although no model was added before. -/
theorem C29_LM_AddModel_duplicate_check (MAX_LOCALMODELS nameSize : Nat)
    (lms : localModels_t) (model : String) (origin angles : vec3_t)
    (entnum levelflags renderFlags : Int) (scale : vec3_t)
    (hfit : lms.numLMs + 1 < MAX_LOCALMODELS) :
    (LM_AddModel MAX_LOCALMODELS nameSize lms model origin angles entnum levelflags
        renderFlags scale = .error "Already a local model with the same id (%i) loaded" ↔
      (entnum = 0 ∨ ∃ k, k < lms.numLMs ∧ (lms.LMs k).entnum = entnum)) ∧
    ((entnum ≠ 0 ∧ ∀ k, k < lms.numLMs → (lms.LMs k).entnum ≠ entnum) →
      LM_AddModel MAX_LOCALMODELS nameSize lms model origin angles entnum levelflags
        renderFlags scale =
        .ok (setLM { lms with numLMs := lms.numLMs + 1 } lms.numLMs
          { inuse := true, name := Q_strncpyz nameSize model, origin := origin,
            angles := angles, scale := scale, entnum := entnum, levelflags := levelflags,
            renderFlags := renderFlags, lighting_dirty := true }, lms.numLMs)) ∧
    LM_AddModel MAX_LOCALMODELS nameSize lms model origin angles 0 levelflags
      renderFlags scale = .error "Already a local model with the same id (%i) loaded" ∧
    (noModels.numLMs = 0 ∧
      LM_AddModel 8 64 noModels "tree" vec3_origin vec3_origin 0 0 0 ⟨1, 1, 1⟩ =
        .error "Already a local model with the same id (%i) loaded" ∧
      LM_AddModel 8 64 noModels "tree" vec3_origin vec3_origin 1 0 0 ⟨1, 1, 1⟩ =
        .ok (setLM { noModels with numLMs := 1 } 0
          { inuse := true, name := "tree", origin := vec3_origin, angles := vec3_origin,
            scale := ⟨1, 1, 1⟩, entnum := 1, levelflags := 0, renderFlags := 0,
            lighting_dirty := true }, 0)) := by
  refine ⟨⟨fun h => ?_, fun h => LM_AddModel_found _ _ _ _ _ _ _ _ _ _ hfit h⟩,
    fun h => LM_AddModel_fresh _ _ _ _ _ _ _ _ _ _ hfit h.1 h.2,
    LM_AddModel_found _ _ _ _ _ _ _ _ _ _ hfit (Or.inl rfl), rfl, ?_, ?_⟩
  · by_contra hn
    rw [not_or, not_exists] at hn
    rw [LM_AddModel_fresh _ _ _ _ _ _ _ _ _ _ hfit hn.1
      (fun k hk he => hn.2 k ⟨hk, he⟩)] at h
    exact absurd h (by simp)
  · exact LM_AddModel_found _ _ _ _ _ _ _ _ _ _ (by decide) (Or.inl rfl)
  · exact LM_AddModel_fresh _ _ _ _ _ _ _ _ _ _ (by decide) (by decide)
      (fun k hk => absurd hk (Nat.not_lt_zero k))

theorem C29_LM_AddModel_duplicate_check_witness :
    noModels.numLMs + 1 < 8 ∧
    LM_AddModel 8 64 noModels "tree" vec3_origin vec3_origin 0 0 0 ⟨1, 1, 1⟩ =
      .error "Already a local model with the same id (%i) loaded" :=
  ⟨by decide,
    (C29_LM_AddModel_duplicate_check 8 64 noModels "tree" vec3_origin vec3_origin 0 0 0
      ⟨1, 1, 1⟩ (by decide)).2.2.1⟩

/-! ## The interpolation is well defined (C30) -/

/-- When the loop of `LET_PathMove` is left without the end of the path move, in a call at
or after the start time, the client time lies from the start time of the step reached up
to its end time, the end time excluded. -/
theorem LET_PathMove_loop_bounds (env : client_t) (cl cl1 : clientBattleScape_t) (i : Nat)
    (fx : List effect_t) (hrun : (cl.LEs i).startTime ≤ cl.time)
    (hloop : LET_PathMove.loop env cl i = .ok (cl1, fx, false)) :
    cl1.time = cl.time ∧ (cl1.LEs i).startTime ≤ cl.time ∧ cl.time < (cl1.LEs i).endTime := by
  obtain ⟨s1, s2, -⟩ := LET_PathMove_loop_spec env i _ cl cl1 fx false rfl hloop
  obtain ⟨e1, e2⟩ := s2 rfl
  have hstart : ((LET_PathMove.advance env)^[footsteps fx] (cl.LEs i)).startTime ≤ cl.time := by
    cases hk : footsteps fx with
    | zero => exact hrun
    | succ k =>
      rw [Function.iterate_succ_apply',
        (advance_fields env ((LET_PathMove.advance env)^[k] (cl.LEs i))).2.2.2]
      exact (s1 k (by omega)).1
  rw [e1, setLE_same]
  exact ⟨rfl, hstart, e2⟩

/-- C30: the interpolation of `LET_PathMove` is well defined. A call before the start
time of the step returns with nothing changed. In a call at or after the start time that
leaves the step loop without the end of the path move, whatever the durations of the
steps made, the record of the entity has `startTime <= cl.time < endTime`; the divisor
`endTime - startTime` is above zero and the fraction lies in [0, 1); and the call returns
the state of the loop with the interpolated record. -/
theorem C30_interpolation_well_defined (env : client_t) (cl : clientBattleScape_t) (i : Nat) :
    (cl.time < (cl.LEs i).startTime → LET_PathMove env cl i = .ok (cl, [])) ∧
    (∀ (cl1 : clientBattleScape_t) (fx : List effect_t),
      (cl.LEs i).startTime ≤ cl.time →
      LET_PathMove.loop env cl i = .ok (cl1, fx, false) →
      (cl1.LEs i).startTime ≤ cl1.time ∧ cl1.time < (cl1.LEs i).endTime ∧
      0 < (cl1.LEs i).endTime - (cl1.LEs i).startTime ∧
      0 ≤ ((cl1.time - (cl1.LEs i).startTime : Int) : ℚ) /
          (((cl1.LEs i).endTime - (cl1.LEs i).startTime : Int) : ℚ) ∧
      ((cl1.time - (cl1.LEs i).startTime : Int) : ℚ) /
          (((cl1.LEs i).endTime - (cl1.LEs i).startTime : Int) : ℚ) < 1 ∧
      LET_PathMove env cl i =
        .ok (setLE cl1 i (LET_PathMove.interpolate env cl1.time (cl1.LEs i)), fx)) := by
  constructor
  · intro h
    unfold LET_PathMove
    rw [if_pos h]
  · intro cl1 fx hrun hloop
    obtain ⟨ht, hs, he⟩ := LET_PathMove_loop_bounds env cl cl1 i fx hrun hloop
    rw [ht]
    have hpos : (0 : ℚ) < (((cl1.LEs i).endTime - (cl1.LEs i).startTime : Int) : ℚ) := by
      have : 0 < (cl1.LEs i).endTime - (cl1.LEs i).startTime := by omega
      exact_mod_cast this
    have hnum : (0 : ℚ) ≤ ((cl.time - (cl1.LEs i).startTime : Int) : ℚ) := by
      have : 0 ≤ cl.time - (cl1.LEs i).startTime := by omega
      exact_mod_cast this
    have hlt : ((cl.time - (cl1.LEs i).startTime : Int) : ℚ) <
        (((cl1.LEs i).endTime - (cl1.LEs i).startTime : Int) : ℚ) := by
      have : cl.time - (cl1.LEs i).startTime < (cl1.LEs i).endTime - (cl1.LEs i).startTime := by
        omega
      exact_mod_cast this
    refine ⟨hs, he, by omega, div_nonneg hnum (le_of_lt hpos), (div_lt_one hpos).mpr hlt, ?_⟩
    unfold LET_PathMove
    rw [if_neg (not_lt.mpr hrun), hloop]
    simp only [ht]

/-- The loop of `LET_PathMove` in the first frame of the sample path move, at the client
time 100: one step, one footstep, and the loop is left inside the step. -/
theorem LET_PathMove_loop_walker :
    LET_PathMove.loop stubClient (poolOf walker 100) 0 =
      .ok (poolOf walker1 100, [effect_t.LE_PlayFootStepSound ⟨3, 2, 0⟩], false) := by
  have hstep : LE_DoPathMove stubClient
      (setLE (poolOf walker 100) 0 (LET_PathMove.arrive stubClient walker)) 0 =
      .ok (poolOf walker1 100, [effect_t.LE_PlayFootStepSound ⟨3, 2, 0⟩]) := by
    have h := LE_DoPathMove_arrive_eq stubClient (poolOf walker 100) 0
    rw [poolOf_same, setLE_poolOf, setLE_poolOf, advance_walker,
      LE_PlayFootStepSound_stub _ 0 (by rfl) (poolOf_contents _ _ (by rfl))] at h
    rw [setLE_poolOf, h]
    simp only [setLE_poolOf, poolOf_same, Except.ok.injEq, Prod.mk.injEq, true_and,
      List.cons.injEq, and_true, effect_t.LE_PlayFootStepSound.injEq]
    simp [LE_DoPathMove.step, LET_PathMove.arrive, walker, le_zero, stubClient]
  rw [LET_PathMove_loop_eq, if_pos (by decide), if_pos (by decide)]
  have hle : (poolOf walker 100).LEs 0 = walker := rfl
  rw [hle, hstep]
  simp only
  rw [LET_PathMove_loop_eq, if_neg (by decide)]
  rfl

/-- Witness of C30: the first frame of the sample path move, at the client time 100,
leaves the loop after one step with the start time 0 and the end time 320, and the
fraction 100 / 320. -/
theorem C30_interpolation_well_defined_witness :
    ((poolOf walker 100).LEs 0).startTime ≤ (poolOf walker 100).time ∧
    LET_PathMove.loop stubClient (poolOf walker 100) 0 =
      .ok (poolOf walker1 100, [effect_t.LE_PlayFootStepSound ⟨3, 2, 0⟩], false) ∧
    ((poolOf walker1 100).LEs 0).startTime = 0 ∧ ((poolOf walker1 100).LEs 0).endTime = 320 ∧
    LET_PathMove stubClient (poolOf walker 100) 0 =
      .ok (setLE (poolOf walker1 100) 0 (LET_PathMove.interpolate stubClient
        (poolOf walker1 100).time ((poolOf walker1 100).LEs 0)),
        [effect_t.LE_PlayFootStepSound ⟨3, 2, 0⟩]) :=
  ⟨by decide, LET_PathMove_loop_walker, rfl, rfl,
    ((C30_interpolation_well_defined stubClient (poolOf walker 100) 0).2
      (poolOf walker1 100) [effect_t.LE_PlayFootStepSound ⟨3, 2, 0⟩] (by decide)
      LET_PathMove_loop_walker).2.2.2.2.2⟩

/-! ## The closest actor (C27) -/

theorem LE_GetClosestActor_loop_eq (env : client_t) (cl : clientBattleScape_t)
    (cl_pnum : Int) (origin : vec3_t) (dist : Int) (actor : Option Nat) (le : Option Nat) :
    LE_GetClosestActor.loop env cl cl_pnum origin dist actor le =
      match LE_GetNextInUse cl le with
      | none => actor
      | some j =>
        LE_GetClosestActor.loop env cl cl_pnum origin
          (LE_GetClosestActor.pass env cl cl_pnum origin (dist, actor) j).1
          (LE_GetClosestActor.pass env cl cl_pnum origin (dist, actor) j).2 (some j) := by
  rw [LE_GetClosestActor.loop]
  split
  · rename_i h
    simp [h]
  · rename_i j h
    simp only [h, LE_GetClosestActor.pass, LE_GetClosestActor.eligible]
    by_cases h1 : (cl.LEs j).pnum = cl_pnum
    · by_cases h2 : LE_IsLivingActor env (cl.LEs j) = true
      · by_cases h3 : LE_GetClosestActor.tmp env origin (cl.LEs j) < dist
        · simp [h1, h2, h3]
        · simp [h1, h2, h3]
      · simp [h1, h2]
    · simp [h1]

/-- The loop of `LE_GetClosestActor` is the fold of its pass over the slots in use. -/
theorem LE_GetClosestActor_loop_fold (env : client_t) (cl : clientBattleScape_t)
    (cl_pnum : Int) (origin : vec3_t) (le : Option Nat) (st : Int × Option Nat) :
    LE_GetClosestActor.loop env cl cl_pnum origin st.1 st.2 le =
      ((inUseAfter cl le).foldl (LE_GetClosestActor.pass env cl cl_pnum origin) st).2 := by
  generalize hn : slotsAfter cl le = n
  induction n using Nat.strong_induction_on generalizing le st with
  | _ n ih =>
    rw [LE_GetClosestActor_loop_eq, inUseAfter_eq]
    cases hnext : LE_GetNextInUse cl le with
    | none => rfl
    | some j =>
      simp only [List.foldl_cons]
      have hlt := LE_GetNextInUse_slotsAfter cl le j hnext
      exact ih _ (by omega) (some j) _ rfl

/-- The fold of a pass that keeps the first strict minimum of `t` among the members of a
list that satisfy `e`, below the start value `d`. -/
theorem foldl_first_min (e : Nat → Bool) (t : Nat → Int) (l : List Nat) :
    ∀ (d : Int) (a : Option Nat),
      let r := l.foldl (fun (st : Int × Option Nat) j =>
        if e j = true ∧ t j < st.1 then (t j, some j) else st) (d, a)
      (r.1 ≤ d ∧ ∀ k ∈ l, e k = true → r.1 ≤ t k) ∧
      ((r = (d, a) ∧ ∀ k ∈ l, e k = true → d ≤ t k) ∨
        ∃ l1 j l2, l = l1 ++ j :: l2 ∧ r.2 = some j ∧ e j = true ∧ t j = r.1 ∧ r.1 < d ∧
          ∀ k ∈ l1, e k = true → r.1 < t k) := by
  induction l with
  | nil =>
    intro d a
    exact ⟨⟨le_refl _, fun k hk => absurd hk (List.not_mem_nil k)⟩,
      Or.inl ⟨rfl, fun k hk => absurd hk (List.not_mem_nil k)⟩⟩
  | cons x l ih =>
    intro d a
    simp only [List.foldl_cons]
    by_cases hx : e x = true ∧ t x < d
    · rw [if_pos hx]
      obtain ⟨⟨h1, h2⟩, h3⟩ := ih (t x) (some x)
      refine ⟨⟨le_trans h1 (le_of_lt hx.2), fun k hk hek => ?_⟩, Or.inr ?_⟩
      · rcases List.mem_cons.mp hk with hkx | hkl
        · rw [hkx]; exact h1
        · exact h2 k hkl hek
      · rcases h3 with ⟨hr, hall⟩ | ⟨l1, j, l2, hl, hr, hej, htj, hlt, hall⟩
        · refine ⟨[], x, l, rfl, ?_, hx.1, ?_, ?_, fun k hk => absurd hk (List.not_mem_nil k)⟩
          · rw [hr]
          · rw [hr]
          · rw [hr]; exact hx.2
        · refine ⟨x :: l1, j, l2, by rw [hl]; rfl, hr, hej, htj, lt_trans hlt hx.2,
            fun k hk hek => ?_⟩
          rcases List.mem_cons.mp hk with hkx | hkl
          · rw [hkx]; exact hlt
          · exact hall k hkl hek
    · rw [if_neg hx]
      obtain ⟨⟨h1, h2⟩, h3⟩ := ih d a
      have hxd : e x = true → d ≤ t x := fun hex => not_lt.mp (fun hlt => hx ⟨hex, hlt⟩)
      refine ⟨⟨h1, fun k hk hek => ?_⟩, ?_⟩
      · rcases List.mem_cons.mp hk with hkx | hkl
        · rw [hkx]; exact le_trans h1 (hxd (hkx ▸ hek))
        · exact h2 k hkl hek
      · rcases h3 with ⟨hr, hall⟩ | ⟨l1, j, l2, hl, hr, hej, htj, hlt, hall⟩
        · refine Or.inl ⟨hr, fun k hk hek => ?_⟩
          rcases List.mem_cons.mp hk with hkx | hkl
          · rw [hkx]; exact hxd (hkx ▸ hek)
          · exact hall k hkl hek
        · refine Or.inr ⟨x :: l1, j, l2, by rw [hl]; rfl, hr, hej, htj, hlt,
            fun k hk hek => ?_⟩
          rcases List.mem_cons.mp hk with hkx | hkl
          · rw [hkx]; exact lt_of_lt_of_le hlt (hxd (hkx ▸ hek))
          · exact hall k hkl hek

theorem mem_inUseAfter_none (cl : clientBattleScape_t) (k : Nat) :
    k ∈ inUseAfter cl none ↔ (k < cl.numLEs ∧ (cl.LEs k).inuse = true) := by
  rw [inUseAfter_filter, List.mem_filter, List.mem_range']
  simp only [cursorStart]
  constructor
  · rintro ⟨⟨i, hi, rfl⟩, hu⟩
    exact ⟨by omega, hu⟩
  · rintro ⟨hk, hu⟩
    exact ⟨⟨k, by omega, by omega⟩, hu⟩

theorem inUseAfter_pairwise (cl : clientBattleScape_t) (le : Option Nat) :
    (inUseAfter cl le).Pairwise (fun a b => a < b) := by
  rw [inUseAfter_filter]
  exact (List.pairwise_lt_range' _ _).filter _

/-- The result of `LE_GetClosestActor`: `NULL` when every living actor in use of the
player has a value of `tmp` of at least 999999; else the first slot among those in use, of
the player and living, whose value of `tmp` is the least. -/
theorem LE_GetClosestActor_result (env : client_t) (cl : clientBattleScape_t)
    (cl_pnum : Int) (origin : vec3_t) :
    (LE_GetClosestActor env cl cl_pnum origin = none ∧
      ∀ k, k < cl.numLEs → (cl.LEs k).inuse = true →
        LE_GetClosestActor.eligible env cl cl_pnum k = true →
        999999 ≤ LE_GetClosestActor.tmp env origin (cl.LEs k)) ∨
    ∃ j, LE_GetClosestActor env cl cl_pnum origin = some j ∧
      j < cl.numLEs ∧ (cl.LEs j).inuse = true ∧
      LE_GetClosestActor.eligible env cl cl_pnum j = true ∧
      LE_GetClosestActor.tmp env origin (cl.LEs j) < 999999 ∧
      (∀ k, k < cl.numLEs → (cl.LEs k).inuse = true →
        LE_GetClosestActor.eligible env cl cl_pnum k = true →
        LE_GetClosestActor.tmp env origin (cl.LEs j) ≤
          LE_GetClosestActor.tmp env origin (cl.LEs k)) ∧
      (∀ k, k < j → (cl.LEs k).inuse = true →
        LE_GetClosestActor.eligible env cl cl_pnum k = true →
        LE_GetClosestActor.tmp env origin (cl.LEs j) <
          LE_GetClosestActor.tmp env origin (cl.LEs k)) := by
  have hfold : LE_GetClosestActor env cl cl_pnum origin =
      ((inUseAfter cl none).foldl (LE_GetClosestActor.pass env cl cl_pnum origin)
        (999999, none)).2 :=
    LE_GetClosestActor_loop_fold env cl cl_pnum origin none (999999, none)
  obtain ⟨⟨-, h2⟩, h3⟩ := foldl_first_min (LE_GetClosestActor.eligible env cl cl_pnum)
    (fun j => LE_GetClosestActor.tmp env origin (cl.LEs j)) (inUseAfter cl none) 999999 none
  have hpass : (fun (st : Int × Option Nat) j =>
      if LE_GetClosestActor.eligible env cl cl_pnum j = true ∧
          LE_GetClosestActor.tmp env origin (cl.LEs j) < st.1
      then (LE_GetClosestActor.tmp env origin (cl.LEs j), some j) else st) =
      LE_GetClosestActor.pass env cl cl_pnum origin := rfl
  rw [hpass] at h2 h3
  rcases h3 with ⟨hr, hall⟩ | ⟨l1, j, l2, hl, hr, hej, htj, hlt, hall⟩
  · refine Or.inl ⟨?_, fun k hk hu hek => hall k ((mem_inUseAfter_none cl k).mpr ⟨hk, hu⟩) hek⟩
    rw [hfold, hr]
  · have hmem : j ∈ inUseAfter cl none := by
      rw [hl]
      exact List.mem_append_right _ (List.mem_cons_self j l2)
    obtain ⟨hjn, hju⟩ := (mem_inUseAfter_none cl j).mp hmem
    have hsorted := inUseAfter_pairwise cl none
    rw [hl, List.pairwise_append] at hsorted
    obtain ⟨-, hp2, -⟩ := hsorted
    rw [List.pairwise_cons] at hp2
    refine Or.inr ⟨j, ?_, hjn, hju, hej, ?_, fun k hk hu hek => ?_, fun k hk hu hek => ?_⟩
    · rw [hfold, hr]
    · rw [htj]; exact hlt
    · rw [htj]
      exact h2 k ((mem_inUseAfter_none cl k).mpr ⟨hk, hu⟩) hek
    · rw [htj]
      have hkm : k ∈ inUseAfter cl none := (mem_inUseAfter_none cl k).mpr ⟨by omega, hu⟩
      rw [hl] at hkm
      rcases List.mem_append.mp hkm with hk1 | hk2
      · exact hall k hk1 hek
      · rcases List.mem_cons.mp hk2 with hkj | hkl
        · omega
        · have := hp2.1 k hkl
          omega

theorem LE_GetClosestActor_none (env : client_t) (cl : clientBattleScape_t)
    (cl_pnum : Int) (origin : vec3_t) :
    LE_GetClosestActor env cl cl_pnum origin = none ↔
      ∀ k, k < cl.numLEs → (cl.LEs k).inuse = true →
        LE_GetClosestActor.eligible env cl cl_pnum k = true →
        999999 ≤ LE_GetClosestActor.tmp env origin (cl.LEs k) := by
  rcases LE_GetClosestActor_result env cl cl_pnum origin with
    ⟨hr, hall⟩ | ⟨j, hr, hjn, hju, hej, hlt, -, -⟩
  · exact ⟨fun _ => hall, fun _ => hr⟩
  · constructor
    · intro h
      rw [hr] at h
      cases h
    · intro h
      exact absurd (h j hjn hju hej) (not_le.mpr hlt)

theorem LE_GetClosestActor_some (env : client_t) (cl : clientBattleScape_t)
    (cl_pnum : Int) (origin : vec3_t) (j : Nat) :
    LE_GetClosestActor env cl cl_pnum origin = some j ↔
      (j < cl.numLEs ∧ (cl.LEs j).inuse = true ∧
        LE_GetClosestActor.eligible env cl cl_pnum j = true ∧
        LE_GetClosestActor.tmp env origin (cl.LEs j) < 999999 ∧
        (∀ k, k < cl.numLEs → (cl.LEs k).inuse = true →
          LE_GetClosestActor.eligible env cl cl_pnum k = true →
          LE_GetClosestActor.tmp env origin (cl.LEs j) ≤
            LE_GetClosestActor.tmp env origin (cl.LEs k)) ∧
        (∀ k, k < j → (cl.LEs k).inuse = true →
          LE_GetClosestActor.eligible env cl cl_pnum k = true →
          LE_GetClosestActor.tmp env origin (cl.LEs j) <
            LE_GetClosestActor.tmp env origin (cl.LEs k))) := by
  rcases LE_GetClosestActor_result env cl cl_pnum origin with
    ⟨hr, hall⟩ | ⟨i, hr, hin, hiu, hei, hlt, hmin, hfirst⟩
  · constructor
    · intro h
      rw [hr] at h
      cases h
    · rintro ⟨hjn, hju, hej, hjlt, -, -⟩
      exact absurd (hall j hjn hju hej) (not_le.mpr hjlt)
  · rw [hr]
    constructor
    · intro h
      have hij : i = j := Option.some.inj h
      subst hij
      exact ⟨hin, hiu, hei, hlt, hmin, hfirst⟩
    · rintro ⟨hjn, hju, hej, -, hjmin, hjfirst⟩
      rcases Nat.lt_trichotomy i j with h | h | h
      · have h1 := hjfirst i h hiu hei
        have h2 := hmin j hjn hju hej
        omega
      · rw [h]
      · have h1 := hfirst j h hju hej
        have h2 := hjmin i hin hiu hei
        omega

theorem truncToInt_floor (q : ℚ) (n : Int) (h0 : 0 ≤ q) (h1 : (n : ℚ) ≤ q)
    (h2 : q < (n : ℚ) + 1) : truncToInt q = n := by
  unfold truncToInt
  rw [if_pos h0]
  exact Int.floor_eq_iff.mpr ⟨h1, h2⟩

theorem tmp_soldierAt (x : ℚ) (n : Int) (h0 : 0 ≤ x) (h1 : (n : ℚ) ≤ x)
    (h2 : x < (n : ℚ) + 1) :
    LE_GetClosestActor.tmp stubClient vec3_origin (soldierAt ⟨x, 0, 0⟩) = n := by
  have hlen : stubClient.VectorLength
      (VectorSubtract vec3_origin (soldierAt ⟨x, 0, 0⟩).origin) = x := by
    show |(0 : ℚ) - x| + |(0 : ℚ) - 0| + |(0 : ℚ) - 0| = x
    rw [zero_sub, abs_neg, abs_of_nonneg h0]
    simp
  unfold LE_GetClosestActor.tmp
  rw [hlen]
  exact truncToInt_floor x n h0 h1 h2

theorem LE_GetClosestActor_poolClosest :
    LE_GetClosestActor stubClient poolClosest 0 vec3_origin = some 0 := by
  have t0 : LE_GetClosestActor.tmp stubClient vec3_origin (poolClosest.LEs 0) = 1 :=
    tmp_soldierAt (19 / 10) 1 (by norm_num) (by norm_num) (by norm_num)
  have t1 : LE_GetClosestActor.tmp stubClient vec3_origin (poolClosest.LEs 1) = 1 :=
    tmp_soldierAt (6 / 5) 1 (by norm_num) (by norm_num) (by norm_num)
  rw [LE_GetClosestActor_some]
  refine ⟨by decide, rfl, by decide, ?_, fun k hk _ _ => ?_,
    fun k hk => absurd hk (Nat.not_lt_zero k)⟩
  · rw [t0]
    decide
  · have hk2 : k < 2 := hk
    rcases Nat.lt_or_ge k 1 with h | h
    · have hk0 : k = 0 := by omega
      rw [hk0]
    · have hk1 : k = 1 := by omega
      rw [hk1, t0, t1]

/-- C27, counterexample: with two living actors of the own player at the distances 19/10
(slot 0) and 6/5 (slot 1) from the origin, `LE_GetClosestActor` returns the actor of slot
0, though that of slot 1 is strictly closer: the distances are compared after the
conversion to `int`. And with a single living actor of the own player at the distance
1000000 it returns `NULL`, the start value of `dist` being 999999. -/
theorem C27_counterexample :
    (LE_GetClosestActor stubClient poolClosest 0 vec3_origin = some 0 ∧
      (poolClosest.LEs 1).inuse = true ∧ (poolClosest.LEs 1).pnum = 0 ∧
      LE_IsLivingActor stubClient (poolClosest.LEs 1) = true ∧
      stubClient.VectorLength (VectorSubtract vec3_origin (poolClosest.LEs 1).origin) <
        stubClient.VectorLength (VectorSubtract vec3_origin (poolClosest.LEs 0).origin)) ∧
    (LE_GetClosestActor stubClient (poolOf (soldierAt ⟨1000000, 0, 0⟩) 0) 0 vec3_origin = none ∧
      ((poolOf (soldierAt ⟨1000000, 0, 0⟩) 0).LEs 0).inuse = true ∧
      ((poolOf (soldierAt ⟨1000000, 0, 0⟩) 0).LEs 0).pnum = 0 ∧
      LE_IsLivingActor stubClient ((poolOf (soldierAt ⟨1000000, 0, 0⟩) 0).LEs 0) = true) := by
  refine ⟨⟨LE_GetClosestActor_poolClosest, rfl, rfl, by decide, ?_⟩, ?_, rfl, rfl, by decide⟩
  · show |(0 : ℚ) - 6 / 5| + |(0 : ℚ) - 0| + |(0 : ℚ) - 0| <
      |(0 : ℚ) - 19 / 10| + |(0 : ℚ) - 0| + |(0 : ℚ) - 0|
    have h1 : |(0 : ℚ) - 6 / 5| = 6 / 5 := by
      rw [zero_sub, abs_neg]
      exact abs_of_nonneg (by norm_num)
    have h2 : |(0 : ℚ) - 19 / 10| = 19 / 10 := by
      rw [zero_sub, abs_neg]
      exact abs_of_nonneg (by norm_num)
    rw [h1, h2]
    norm_num
  · rw [LE_GetClosestActor_none]
    intro k hk _ _
    have hk0 : k = 0 := by
      have : k < 1 := hk
      omega
    rw [hk0]
    have t0 : LE_GetClosestActor.tmp stubClient vec3_origin
        ((poolOf (soldierAt ⟨1000000, 0, 0⟩) 0).LEs 0) = 1000000 :=
      tmp_soldierAt 1000000 1000000 (by norm_num) (by norm_num) (by norm_num)
    rw [t0]
    decide

/-- C27: `LE_GetClosestActor` scans the whole pool and keeps the least value of `tmp`, the
distance from `origin` as `VectorLength` measures it, converted to `int`. It returns the
first entity in use that belongs to the own player and is a living actor, has a value of
`tmp` below 999999, and whose value of `tmp` is the least among all such entities; so with
distances that are not negative no such entity is closer by 1 or more. It returns `NULL`
exactly when no entity in use of the own player that is a living actor has a value of
`tmp` below 999999. -/
theorem C27_closest_actor (env : client_t) (cl : clientBattleScape_t) (cl_pnum : Int)
    (origin : vec3_t) :
    (∀ j, LE_GetClosestActor env cl cl_pnum origin = some j ↔
      (j < cl.numLEs ∧ (cl.LEs j).inuse = true ∧
        ((cl.LEs j).pnum = cl_pnum ∧ LE_IsLivingActor env (cl.LEs j) = true) ∧
        LE_GetClosestActor.tmp env origin (cl.LEs j) < 999999 ∧
        (∀ k, k < cl.numLEs → (cl.LEs k).inuse = true →
          (cl.LEs k).pnum = cl_pnum → LE_IsLivingActor env (cl.LEs k) = true →
          LE_GetClosestActor.tmp env origin (cl.LEs j) ≤
            LE_GetClosestActor.tmp env origin (cl.LEs k)) ∧
        (∀ k, k < j → (cl.LEs k).inuse = true →
          (cl.LEs k).pnum = cl_pnum → LE_IsLivingActor env (cl.LEs k) = true →
          LE_GetClosestActor.tmp env origin (cl.LEs j) <
            LE_GetClosestActor.tmp env origin (cl.LEs k)))) ∧
    (LE_GetClosestActor env cl cl_pnum origin = none ↔
      ∀ k, k < cl.numLEs → (cl.LEs k).inuse = true →
        (cl.LEs k).pnum = cl_pnum → LE_IsLivingActor env (cl.LEs k) = true →
        999999 ≤ LE_GetClosestActor.tmp env origin (cl.LEs k)) ∧
    (∀ le : le_t, LE_GetClosestActor.tmp env origin le =
      truncToInt (env.VectorLength (VectorSubtract origin le.origin))) ∧
    ((∀ v, 0 ≤ env.VectorLength v) →
      ∀ j, LE_GetClosestActor env cl cl_pnum origin = some j →
        ∀ k, k < cl.numLEs → (cl.LEs k).inuse = true →
          (cl.LEs k).pnum = cl_pnum → LE_IsLivingActor env (cl.LEs k) = true →
          env.VectorLength (VectorSubtract origin (cl.LEs j).origin) <
            env.VectorLength (VectorSubtract origin (cl.LEs k).origin) + 1) := by
  have hel : ∀ k, LE_GetClosestActor.eligible env cl cl_pnum k = true ↔
      ((cl.LEs k).pnum = cl_pnum ∧ LE_IsLivingActor env (cl.LEs k) = true) := by
    intro k
    unfold LE_GetClosestActor.eligible
    rw [Bool.and_eq_true, decide_eq_true_iff]
  have hsome : ∀ j, LE_GetClosestActor env cl cl_pnum origin = some j ↔
      (j < cl.numLEs ∧ (cl.LEs j).inuse = true ∧
        ((cl.LEs j).pnum = cl_pnum ∧ LE_IsLivingActor env (cl.LEs j) = true) ∧
        LE_GetClosestActor.tmp env origin (cl.LEs j) < 999999 ∧
        (∀ k, k < cl.numLEs → (cl.LEs k).inuse = true →
          (cl.LEs k).pnum = cl_pnum → LE_IsLivingActor env (cl.LEs k) = true →
          LE_GetClosestActor.tmp env origin (cl.LEs j) ≤
            LE_GetClosestActor.tmp env origin (cl.LEs k)) ∧
        (∀ k, k < j → (cl.LEs k).inuse = true →
          (cl.LEs k).pnum = cl_pnum → LE_IsLivingActor env (cl.LEs k) = true →
          LE_GetClosestActor.tmp env origin (cl.LEs j) <
            LE_GetClosestActor.tmp env origin (cl.LEs k))) := by
    intro j
    rw [LE_GetClosestActor_some]
    constructor
    · rintro ⟨h1, h2, h3, h4, h5, h6⟩
      exact ⟨h1, h2, (hel j).mp h3, h4,
        fun k hk hu hp hl => h5 k hk hu ((hel k).mpr ⟨hp, hl⟩),
        fun k hk hu hp hl => h6 k hk hu ((hel k).mpr ⟨hp, hl⟩)⟩
    · rintro ⟨h1, h2, h3, h4, h5, h6⟩
      exact ⟨h1, h2, (hel j).mpr h3, h4,
        fun k hk hu he => h5 k hk hu ((hel k).mp he).1 ((hel k).mp he).2,
        fun k hk hu he => h6 k hk hu ((hel k).mp he).1 ((hel k).mp he).2⟩
  refine ⟨hsome, ?_, fun _ => rfl, ?_⟩
  · rw [LE_GetClosestActor_none]
    constructor
    · intro h k hk hu hp hl
      exact h k hk hu ((hel k).mpr ⟨hp, hl⟩)
    · intro h k hk hu he
      exact h k hk hu ((hel k).mp he).1 ((hel k).mp he).2
  · intro hpos j hj k hk hu hp hl
    obtain ⟨-, -, -, -, hmin, -⟩ := (hsome j).mp hj
    have hle := hmin k hk hu hp hl
    unfold LE_GetClosestActor.tmp truncToInt at hle
    rw [if_pos (hpos _), if_pos (hpos _)] at hle
    have h1 := Int.lt_floor_add_one (env.VectorLength (VectorSubtract origin (cl.LEs j).origin))
    have h2 := Int.floor_le (env.VectorLength (VectorSubtract origin (cl.LEs k).origin))
    have h3 : ((⌊env.VectorLength (VectorSubtract origin (cl.LEs j).origin)⌋ : Int) : ℚ) ≤
        ((⌊env.VectorLength (VectorSubtract origin (cl.LEs k).origin)⌋ : Int) : ℚ) := by
      exact_mod_cast hle
    linarith

/-- Witness of C27: in the pool of two actors at the distances 19/10 and 6/5, both with
the value 1 of `tmp`, the result is the first of them, the actor of slot 0. -/
theorem C27_closest_actor_witness :
    LE_GetClosestActor stubClient poolClosest 0 vec3_origin = some 0 ∧
    (0 < poolClosest.numLEs ∧ (poolClosest.LEs 0).inuse = true ∧
      ((poolClosest.LEs 0).pnum = 0 ∧ LE_IsLivingActor stubClient (poolClosest.LEs 0) = true) ∧
      LE_GetClosestActor.tmp stubClient vec3_origin (poolClosest.LEs 0) < 999999) :=
  ⟨LE_GetClosestActor_poolClosest,
    (((C27_closest_actor stubClient poolClosest 0 vec3_origin).1 0).mp
      LE_GetClosestActor_poolClosest).1,
    (((C27_closest_actor stubClient poolClosest 0 vec3_origin).1 0).mp
      LE_GetClosestActor_poolClosest).2.1,
    (((C27_closest_actor stubClient poolClosest 0 vec3_origin).1 0).mp
      LE_GetClosestActor_poolClosest).2.2.1,
    (((C27_closest_actor stubClient poolClosest 0 vec3_origin).1 0).mp
      LE_GetClosestActor_poolClosest).2.2.2.1⟩

/-! ## The scheduler (C21) -/

theorem LE_ExecuteThink_eq
    (call : think_t → clientBattleScape_t → Nat →
      Except String (clientBattleScape_t × List effect_t))
    (cl : clientBattleScape_t) (j : Nat) :
    LE_ExecuteThink call cl j =
      if (cl.LEs j).inuse = true then
        match (cl.LEs j).think with
        | some think => call think cl j
        | none => .ok (cl, [])
      else .ok (cl, []) := rfl

/-- A think function that changes only the record of its own entity makes
`LE_ExecuteThink` do so. -/
theorem LE_ExecuteThink_local
    (call : think_t → clientBattleScape_t → Nat →
      Except String (clientBattleScape_t × List effect_t))
    (hloc : ∀ t c j c' fx, call t c j = .ok (c', fx) →
      c'.numLEs = c.numLEs ∧ ∀ k, k ≠ j → c'.LEs k = c.LEs k)
    (c c' : clientBattleScape_t) (j : Nat) (fx : List effect_t)
    (h : LE_ExecuteThink call c j = .ok (c', fx)) :
    c'.numLEs = c.numLEs ∧ ∀ k, k ≠ j → c'.LEs k = c.LEs k := by
  rw [LE_ExecuteThink_eq] at h
  by_cases hu : (c.LEs j).inuse = true
  · rw [if_pos hu] at h
    cases ht : (c.LEs j).think with
    | none =>
      rw [ht] at h
      simp only [Except.ok.injEq, Prod.mk.injEq] at h
      rw [← h.1]
      exact ⟨rfl, fun _ _ => rfl⟩
    | some t =>
      rw [ht] at h
      exact hloc t c j c' fx h
  · rw [if_neg hu] at h
    simp only [Except.ok.injEq, Prod.mk.injEq] at h
    rw [← h.1]
    exact ⟨rfl, fun _ _ => rfl⟩

theorem foldl_pass_error (env : client_t)
    (call : think_t → clientBattleScape_t → Nat →
      Except String (clientBattleScape_t × List effect_t))
    (frametime : ℚ) (msg : String) (l : List Nat) :
    l.foldl (LE_Think.pass env call frametime) (.error msg) = .error msg := by
  induction l with
  | nil => rfl
  | cons x l ih => exact ih

/-- The requests made before a sequence of passes precede those of the passes. -/
theorem foldl_pass_prefix (env : client_t)
    (call : think_t → clientBattleScape_t → Nat →
      Except String (clientBattleScape_t × List effect_t))
    (frametime : ℚ) (l : List Nat) :
    ∀ (c : clientBattleScape_t) (fx0 : List effect_t),
      l.foldl (LE_Think.pass env call frametime) (.ok (c, fx0)) =
        match l.foldl (LE_Think.pass env call frametime) (.ok (c, [])) with
        | .error msg => .error msg
        | .ok (c', fx) => .ok (c', fx0 ++ fx) := by
  induction l with
  | nil =>
    intro c fx0
    simp
  | cons x l ih =>
    intro c fx0
    simp only [List.foldl_cons, LE_Think.pass]
    cases hx : LE_ExecuteThink call c x with
    | error msg => simp only [foldl_pass_error]
    | ok r =>
      obtain ⟨c1, fx1⟩ := r
      simp only [List.nil_append]
      rw [ih _ (fx0 ++ fx1), ih _ fx1]
      cases l.foldl (LE_Think.pass env call frametime)
          (.ok (setLE c1 x (LE_Think.anim env frametime (c1.LEs x)), [])) with
      | error msg => rfl
      | ok r2 =>
        obtain ⟨c2, fx2⟩ := r2
        simp only [List.append_assoc]

/-- With think functions that keep the length of the pool, the loop of `LE_Think` behind
the cursor `le` returns when it is given more passes than slots remain, and it makes the
passes for the remaining slots in their order. -/
theorem LE_Think_loop_fold (env : client_t)
    (call : think_t → clientBattleScape_t → Nat →
      Except String (clientBattleScape_t × List effect_t))
    (hloc : ∀ t c j c' fx, call t c j = .ok (c', fx) →
      c'.numLEs = c.numLEs ∧ ∀ k, k ≠ j → c'.LEs k = c.LEs k)
    (frametime : ℚ) (fuel : Nat) :
    ∀ (c : clientBattleScape_t) (le : Option Nat),
      c.numLEs - cursorStart le < fuel →
      LE_Think.loop env call frametime fuel c le =
        some ((List.range' (cursorStart le) (c.numLEs - cursorStart le)).foldl
          (LE_Think.pass env call frametime) (.ok (c, []))) := by
  induction fuel with
  | zero =>
    intro c le h
    exact absurd h (Nat.not_lt_zero _)
  | succ fuel ih =>
    intro c le h
    rw [LE_Think.loop, LE_GetNext_eq]
    by_cases hlt : cursorStart le < c.numLEs
    · rw [if_pos hlt]
      simp only
      have hn : c.numLEs - cursorStart le = (c.numLEs - (cursorStart le + 1)) + 1 := by omega
      rw [hn, List.range'_succ, List.foldl_cons]
      simp only [LE_Think.pass]
      cases hx : LE_ExecuteThink call c (cursorStart le) with
      | error msg => simp only [foldl_pass_error]
      | ok r =>
        obtain ⟨c1, fx1⟩ := r
        simp only [List.nil_append]
        obtain ⟨hnum, -⟩ := LE_ExecuteThink_local call hloc c c1 _ fx1 hx
        have hrec := ih (setLE c1 (cursorStart le)
          (LE_Think.anim env frametime (c1.LEs (cursorStart le)))) (some (cursorStart le))
          (by
            show c1.numLEs - (cursorStart le + 1) < fuel
            rw [hnum]
            omega)
        have hnum2 : (setLE c1 (cursorStart le)
            (LE_Think.anim env frametime (c1.LEs (cursorStart le)))).numLEs = c.numLEs := hnum
        rw [hnum2] at hrec
        simp only [cursorStart_some] at hrec
        rw [hrec, foldl_pass_prefix env call frametime _ _ fx1]
        generalize (List.range' (cursorStart le + 1) (c.numLEs - (cursorStart le + 1))).foldl
            (LE_Think.pass env call frametime)
            (.ok (setLE c1 (cursorStart le)
              (LE_Think.anim env frametime (c1.LEs (cursorStart le))), [])) = R
        cases R with
        | error msg => rfl
        | ok r2 => rfl
    · rw [if_neg hlt]
      have hn : c.numLEs - cursorStart le = 0 := by omega
      rw [hn]
      rfl

theorem LE_Think_slots_succ (env : client_t)
    (call : think_t → clientBattleScape_t → Nat →
      Except String (clientBattleScape_t × List effect_t))
    (frametime : ℚ) (cl : clientBattleScape_t) (n : Nat) :
    LE_Think.slots env call frametime cl (n + 1) =
      LE_Think.pass env call frametime (LE_Think.slots env call frametime cl n) n := by
  unfold LE_Think.slots
  rw [List.range_succ, List.foldl_append]
  rfl

/-- The passes for the slots below `n` keep the length of the pool and the records of the
slots from `n` on, when every think function changes only the record of its own entity. -/
theorem LE_Think_slots_keep (env : client_t)
    (call : think_t → clientBattleScape_t → Nat →
      Except String (clientBattleScape_t × List effect_t))
    (hloc : ∀ t c j c' fx, call t c j = .ok (c', fx) →
      c'.numLEs = c.numLEs ∧ ∀ k, k ≠ j → c'.LEs k = c.LEs k)
    (frametime : ℚ) (cl : clientBattleScape_t) (n : Nat) :
    ∀ c fx, LE_Think.slots env call frametime cl n = .ok (c, fx) →
      c.numLEs = cl.numLEs ∧ ∀ k, n ≤ k → c.LEs k = cl.LEs k := by
  induction n with
  | zero =>
    intro c fx h
    have h0 : LE_Think.slots env call frametime cl 0 = .ok (cl, []) := rfl
    rw [h0] at h
    simp only [Except.ok.injEq, Prod.mk.injEq] at h
    rw [← h.1]
    exact ⟨rfl, fun _ _ => rfl⟩
  | succ n ih =>
    intro c fx h
    rw [LE_Think_slots_succ] at h
    cases hp : LE_Think.slots env call frametime cl n with
    | error msg =>
      rw [hp] at h
      cases h
    | ok r =>
      obtain ⟨c0, fx0⟩ := r
      rw [hp] at h
      simp only [LE_Think.pass] at h
      obtain ⟨i1, i2⟩ := ih c0 fx0 hp
      cases hx : LE_ExecuteThink call c0 n with
      | error msg =>
        rw [hx] at h
        cases h
      | ok r1 =>
        obtain ⟨c1, fx1⟩ := r1
        rw [hx] at h
        simp only [Except.ok.injEq, Prod.mk.injEq] at h
        obtain ⟨l1, l2⟩ := LE_ExecuteThink_local call hloc c0 c1 n fx1 hx
        rw [← h.1]
        refine ⟨by show c1.numLEs = cl.numLEs; rw [l1, i1], fun k hk => ?_⟩
        have hkn : k ≠ n := by omega
        rw [setLE_other _ _ _ _ hkn, l2 k hkn]
        exact i2 k (by omega)

/-- A pass that returns was made on the state a sequence of passes returned, and it leaves
the records of the other slots to its think function. -/
theorem LE_Think_slots_step (env : client_t)
    (call : think_t → clientBattleScape_t → Nat →
      Except String (clientBattleScape_t × List effect_t))
    (frametime : ℚ) (cl : clientBattleScape_t) (n : Nat) (c' : clientBattleScape_t)
    (fx' : List effect_t) (h : LE_Think.slots env call frametime cl (n + 1) = .ok (c', fx')) :
    ∃ c fx c1 fx1, LE_Think.slots env call frametime cl n = .ok (c, fx) ∧
      LE_ExecuteThink call c n = .ok (c1, fx1) ∧
      c' = setLE c1 n (LE_Think.anim env frametime (c1.LEs n)) ∧ fx' = fx ++ fx1 := by
  rw [LE_Think_slots_succ] at h
  cases hp : LE_Think.slots env call frametime cl n with
  | error msg =>
    rw [hp] at h
    cases h
  | ok r =>
    obtain ⟨c0, fx0⟩ := r
    rw [hp] at h
    simp only [LE_Think.pass] at h
    cases hx : LE_ExecuteThink call c0 n with
    | error msg =>
      rw [hx] at h
      cases h
    | ok r1 =>
      obtain ⟨c1, fx1⟩ := r1
      rw [hx] at h
      simp only [Except.ok.injEq, Prod.mk.injEq] at h
      exact ⟨c0, fx0, c1, fx1, rfl, hx, h.1.symm, h.2.symm⟩

/-- After the passes for the slots below `n`, the record of a slot `j < n` is the one its
own pass left: the record after `LE_ExecuteThink`, with the animation step made. -/
theorem LE_Think_slots_final (env : client_t)
    (call : think_t → clientBattleScape_t → Nat →
      Except String (clientBattleScape_t × List effect_t))
    (hloc : ∀ t c j c' fx, call t c j = .ok (c', fx) →
      c'.numLEs = c.numLEs ∧ ∀ k, k ≠ j → c'.LEs k = c.LEs k)
    (frametime : ℚ) (cl : clientBattleScape_t) (n : Nat) :
    ∀ c' fx', LE_Think.slots env call frametime cl n = .ok (c', fx') →
      ∀ j, j < n → ∃ c fx c1 fx1,
        LE_Think.slots env call frametime cl j = .ok (c, fx) ∧
        LE_ExecuteThink call c j = .ok (c1, fx1) ∧
        c'.LEs j = LE_Think.anim env frametime (c1.LEs j) := by
  induction n with
  | zero =>
    intro c' fx' _ j hj
    exact absurd hj (Nat.not_lt_zero j)
  | succ n ih =>
    intro c' fx' h j hj
    obtain ⟨c, fx, c1, fx1, hs, hx, hc, -⟩ := LE_Think_slots_step env call frametime cl n c' fx' h
    by_cases hjn : j = n
    · subst hjn
      refine ⟨c, fx, c1, fx1, hs, hx, ?_⟩
      rw [hc, setLE_same]
    · obtain ⟨d, gx, d1, gx1, hd, hdx, hdj⟩ := ih c fx hs j (by omega)
      refine ⟨d, gx, d1, gx1, hd, hdx, ?_⟩
      rw [hc, setLE_other _ _ _ _ hjn,
        (LE_ExecuteThink_local call hloc c c1 n fx1 hx).2 j hjn]
      exact hdj

/-- C21: while the client state is not `ca_active`, `LE_Think` returns with no think
function called and the pool as it is. While it is `ca_active`, with think functions that
change only the record of their own entity, `LE_Think` returns and makes one pass for
every slot below `numLEs`, in the order of the slots: the pass for slot `j` calls the think
function of the entity once when the entity is in use and has one, and calls nothing
otherwise; then it advances the animation state of the entity by
`cls.frametime * 1000` ms, whether or not a think function ran, also for an invisible
entity and for one that is not in use. For an entity that is not in use
`LE_ExecuteThink` never calls a think function. -/
theorem C21_scheduler (env : client_t)
    (call : think_t → clientBattleScape_t → Nat →
      Except String (clientBattleScape_t × List effect_t))
    (hloc : ∀ t c j c' fx, call t c j = .ok (c', fx) →
      c'.numLEs = c.numLEs ∧ ∀ k, k ≠ j → c'.LEs k = c.LEs k)
    (cls_state : Int) (frametime : ℚ) (fuel : Nat) (cl : clientBattleScape_t) :
    (cls_state ≠ env.ca_active →
      LE_Think env call cls_state frametime fuel cl = some (.ok (cl, []))) ∧
    (cls_state = env.ca_active → cl.numLEs < fuel →
      LE_Think env call cls_state frametime fuel cl =
        some (LE_Think.slots env call frametime cl cl.numLEs)) ∧
    (∀ j c fx, LE_Think.slots env call frametime cl j = .ok (c, fx) →
      c.LEs j = cl.LEs j ∧
      LE_Think.slots env call frametime cl (j + 1) =
        match (if (cl.LEs j).inuse = true then
            match (cl.LEs j).think with
            | some think => call think c j
            | none => .ok (c, [])
          else .ok (c, [])) with
        | .error msg => .error msg
        | .ok (c1, fx1) =>
          .ok (setLE c1 j (LE_Think.anim env frametime (c1.LEs j)), fx ++ fx1)) ∧
    (∀ c j, (c.LEs j).inuse = false → LE_ExecuteThink call c j = .ok (c, [])) ∧
    (∀ c' fx', LE_Think.slots env call frametime cl cl.numLEs = .ok (c', fx') →
      ∀ j, j < cl.numLEs → ∃ c fx c1 fx1,
        LE_Think.slots env call frametime cl j = .ok (c, fx) ∧
        LE_ExecuteThink call c j = .ok (c1, fx1) ∧
        ((cl.LEs j).inuse = false ∨ (cl.LEs j).think = none → c1 = c ∧ fx1 = []) ∧
        (c'.LEs j).as_ =
          env.R_AnimRun (c1.LEs j).as_ (c1.LEs j).model1 (truncToInt (frametime * 1000)) ∧
        c'.LEs j = { c1.LEs j with as_ := (c'.LEs j).as_ }) := by
  have hkeep : ∀ j c fx, LE_Think.slots env call frametime cl j = .ok (c, fx) →
      c.LEs j = cl.LEs j := fun j c fx h =>
    (LE_Think_slots_keep env call hloc frametime cl j c fx h).2 j (le_refl j)
  refine ⟨fun h => ?_, fun h hfuel => ?_, fun j c fx h => ⟨hkeep j c fx h, ?_⟩,
    fun c j hu => ?_, fun c' fx' h j hj => ?_⟩
  · unfold LE_Think
    rw [if_pos h]
  · unfold LE_Think
    rw [if_neg (not_not.mpr h),
      LE_Think_loop_fold env call hloc frametime fuel cl none (by
        show cl.numLEs - 0 < fuel
        omega)]
    show some ((List.range' 0 (cl.numLEs - 0)).foldl _ _) = _
    rw [Nat.sub_zero, ← List.range_eq_range']
    rfl
  · rw [LE_Think_slots_succ, h, ← hkeep j c fx h]
    rfl
  · rw [LE_ExecuteThink_eq, hu]
    rfl
  · obtain ⟨c, fx, c1, fx1, hs, hx, hc⟩ :=
      LE_Think_slots_final env call hloc frametime cl cl.numLEs c' fx' h j hj
    refine ⟨c, fx, c1, fx1, hs, hx, fun hnone => ?_, by rw [hc]; rfl, by rw [hc]; rfl⟩
    have hcj := hkeep j c fx hs
    rw [LE_ExecuteThink_eq, hcj] at hx
    rcases hnone with hu | ht
    · rw [hu] at hx
      simp only [Bool.false_eq_true, if_false, Except.ok.injEq, Prod.mk.injEq] at hx
      exact ⟨hx.1.symm, hx.2.symm⟩
    · rw [ht] at hx
      by_cases hu : (cl.LEs j).inuse = true
      · rw [if_pos hu] at hx
        simp only [Except.ok.injEq, Prod.mk.injEq] at hx
        exact ⟨hx.1.symm, hx.2.symm⟩
      · rw [if_neg hu] at hx
        simp only [Except.ok.injEq, Prod.mk.injEq] at hx
        exact ⟨hx.1.symm, hx.2.symm⟩

/-- Function `LET_BrushModel` changes only the record of its own entity. -/
theorem LET_BrushModel_local (env : client_t) (c : clientBattleScape_t) (j : Nat)
    (c' : clientBattleScape_t) (fx : List effect_t)
    (h : LET_BrushModel env c j = .ok (c', fx)) :
    c'.numLEs = c.numLEs ∧ ∀ k, k ≠ j → c'.LEs k = c.LEs k := by
  by_cases ht : c.time - (c.LEs j).thinkDelay < (c.LEs j).speed.getD 0 0
  · rw [LET_BrushModel_throttled env c j ht] at h
    simp only [Except.ok.injEq, Prod.mk.injEq] at h
    rw [← h.1]
    exact ⟨rfl, fun k hk => setLE_other _ _ _ _ hk⟩
  · by_cases hty : (c.LEs j).type = env.ET_ROTATING
    · rw [LET_BrushModel_rotating env c j ht hty] at h
      simp only [Except.ok.injEq, Prod.mk.injEq] at h
      rw [← h.1]
      exact ⟨rfl, fun k hk => setLE_other _ _ _ _ hk⟩
    · rw [LET_BrushModel_other env c j ht hty] at h
      simp only [Except.ok.injEq, Prod.mk.injEq] at h
      rw [← h.1]
      exact ⟨rfl, fun _ _ => rfl⟩

theorem LE_Think_anim_stub (le : le_t) :
    (LE_Think.anim stubClient (1 / 50) le).as_ = le.as_ + 20 := by
  have h : truncToInt ((1 / 50 : ℚ) * 1000) = 20 :=
    truncToInt_floor _ 20 (by norm_num) (by norm_num) (by norm_num)
  show le.as_ + (truncToInt ((1 / 50 : ℚ) * 1000)).toNat = le.as_ + 20
  rw [h]
  rfl

/-- The frame of the sample pool of three slots: the rotor of slot 0 turns from 300 to 40
degrees, the stale rotor of the free slot 1 stays at 300 degrees, and nothing is
requested. -/
theorem LE_Think_poolThink :
    ∃ c', LE_Think.slots stubClient (fun _ => LET_BrushModel stubClient) (1 / 50) poolThink 3 =
        .ok (c', []) ∧
      (c'.LEs 0).angles = ⟨0, 40, 0⟩ ∧ (c'.LEs 1).angles = ⟨0, 300, 0⟩ ∧
      (c'.LEs 1).inuse = false ∧ (c'.LEs 2).invis = true ∧
      (c'.LEs 0).as_ = 20 ∧ (c'.LEs 1).as_ = 20 ∧ (c'.LEs 2).as_ = 20 := by
  have e0 : LE_ExecuteThink (fun _ => LET_BrushModel stubClient) poolThink 0 =
      .ok (setLE poolThink 0 { rotor with angles := ⟨0, 40, 0⟩ }, []) := by
    rw [LE_ExecuteThink_eq, if_pos (by decide)]
    show LET_BrushModel stubClient poolThink 0 = _
    rw [LET_BrushModel_rotating stubClient poolThink 0 (by decide) (by decide)]
    simp only [Except.ok.injEq, Prod.mk.injEq, and_true]
    congr 1
    simp [poolThink, rotor, le_zero, vec3_t.get, vec3_t.set]
    norm_num
  have s1 : LE_Think.slots stubClient (fun _ => LET_BrushModel stubClient) (1 / 50)
      poolThink 1 = .ok (setLE (setLE poolThink 0 { rotor with angles := ⟨0, 40, 0⟩ }) 0
        (LE_Think.anim stubClient (1 / 50) { rotor with angles := ⟨0, 40, 0⟩ }), []) := by
    rw [LE_Think_slots_succ]
    show LE_Think.pass _ _ _ (.ok (poolThink, [])) 0 = _
    simp only [LE_Think.pass, e0, setLE_same, List.append_nil]
  have s2 : LE_Think.slots stubClient (fun _ => LET_BrushModel stubClient) (1 / 50)
      poolThink 2 = .ok (setLE (setLE (setLE poolThink 0 { rotor with angles := ⟨0, 40, 0⟩ }) 0
        (LE_Think.anim stubClient (1 / 50) { rotor with angles := ⟨0, 40, 0⟩ })) 1
        (LE_Think.anim stubClient (1 / 50) { rotor with inuse := false }), []) := by
    rw [LE_Think_slots_succ, s1]
    rfl
  have s3 : LE_Think.slots stubClient (fun _ => LET_BrushModel stubClient) (1 / 50)
      poolThink 3 = .ok (setLE (setLE (setLE (setLE poolThink 0
        { rotor with angles := ⟨0, 40, 0⟩ }) 0
        (LE_Think.anim stubClient (1 / 50) { rotor with angles := ⟨0, 40, 0⟩ })) 1
        (LE_Think.anim stubClient (1 / 50) { rotor with inuse := false })) 2
        (LE_Think.anim stubClient (1 / 50) { le_zero with inuse := true, invis := true }),
        []) := by
    rw [LE_Think_slots_succ, s2]
    rfl
  refine ⟨_, s3, rfl, rfl, rfl, rfl, ?_, ?_, ?_⟩
  · exact LE_Think_anim_stub _
  · exact LE_Think_anim_stub _
  · exact LE_Think_anim_stub _

/-- Witness of C21: with `LET_BrushModel` behind every think pointer, in the client state
`ca_active` and with four passes for the pool of three slots, `LE_Think` returns after one
pass for each of the slots 0, 1 and 2; in another client state it returns the pool as it
is. -/
theorem C21_scheduler_witness :
    LE_Think stubClient (fun _ => LET_BrushModel stubClient) 0 (1 / 50) 4 poolThink =
      some (.ok (poolThink, [])) ∧
    LE_Think stubClient (fun _ => LET_BrushModel stubClient) 6 (1 / 50) 4 poolThink =
      some (LE_Think.slots stubClient (fun _ => LET_BrushModel stubClient) (1 / 50)
        poolThink poolThink.numLEs) :=
  ⟨(C21_scheduler stubClient (fun _ => LET_BrushModel stubClient)
      (fun _ c j c' fx h => LET_BrushModel_local stubClient c j c' fx h)
      0 (1 / 50) 4 poolThink).1 (by decide),
   (C21_scheduler stubClient (fun _ => LET_BrushModel stubClient)
      (fun _ c j c' fx h => LET_BrushModel_local stubClient c j c' fx h)
      6 (1 / 50) 4 poolThink).2.1 (by decide) (by decide)⟩

/-! ## A projectile whose particle does not spawn (C23) -/

/-- What a call of `LE_Add` that returns leaves: the fresh record in the returned slot, a
slot that was free or is the new last one, and every other slot as it was. -/
theorem LE_Add_ok (MAX_EDICTS : Nat) (ACTOR_SIZE_NORMAL : Int)
    (cl cl1 : clientBattleScape_t) (entnum : Int) (r : Option Nat)
    (h : LE_Add MAX_EDICTS ACTOR_SIZE_NORMAL cl entnum = .ok (cl1, r)) :
    ∃ i, r = some i ∧ cl1.LEs i = freshLE ACTOR_SIZE_NORMAL entnum ∧
      (∀ k, k ≠ i → cl1.LEs k = cl.LEs k) ∧ cl1.time = cl.time ∧
      ((i < cl.numLEs ∧ (cl.LEs i).inuse = false ∧ cl1.numLEs = cl.numLEs) ∨
        (i = cl.numLEs ∧ cl1.numLEs = cl.numLEs + 1)) := by
  rcases LE_Add_cases MAX_EDICTS ACTOR_SIZE_NORMAL cl entnum with
    ⟨i, hi, hfree, -, he⟩ | ⟨-, -, he⟩ | ⟨-, -, he⟩
  · rw [he] at h
    simp only [Except.ok.injEq, Prod.mk.injEq] at h
    obtain ⟨h1, h2⟩ := h
    subst h1 h2
    exact ⟨i, rfl, setLE_same _ _ _, fun k hk => setLE_other _ _ _ _ hk, rfl,
      Or.inl ⟨hi, hfree, rfl⟩⟩
  · rw [he] at h
    simp only [Except.ok.injEq, Prod.mk.injEq] at h
    obtain ⟨h1, h2⟩ := h
    subst h1 h2
    exact ⟨cl.numLEs, rfl, setLE_same _ _ _, fun k hk => setLE_other _ _ _ _ hk, rfl,
      Or.inr ⟨rfl, rfl⟩⟩
  · rw [he] at h
    cases h

/-- Function `LE_Add` returns when the pool has a free slot or room to grow. -/
theorem LE_Add_room (MAX_EDICTS : Nat) (ACTOR_SIZE_NORMAL : Int)
    (cl : clientBattleScape_t) (entnum : Int)
    (hroom : (∃ k, k < cl.numLEs ∧ (cl.LEs k).inuse = false) ∨ cl.numLEs < MAX_EDICTS) :
    ∃ cl1 i, LE_Add MAX_EDICTS ACTOR_SIZE_NORMAL cl entnum = .ok (cl1, some i) := by
  rcases LE_Add_cases MAX_EDICTS ACTOR_SIZE_NORMAL cl entnum with
    ⟨i, -, -, -, he⟩ | ⟨-, -, he⟩ | ⟨hall, hge, -⟩
  · exact ⟨_, _, he⟩
  · exact ⟨_, _, he⟩
  · rcases hroom with ⟨k, hk, hf⟩ | hlt
    · have := hall k hk
      rw [hf] at this
      cases this
    · omega

/-- A slot taken by `LE_Add` and given up again leaves the entities in use as they
were. -/
theorem LE_Add_given_up (MAX_EDICTS : Nat) (ACTOR_SIZE_NORMAL : Int)
    (cl cl1 : clientBattleScape_t) (entnum : Int) (i : Nat) (le : le_t)
    (h : LE_Add MAX_EDICTS ACTOR_SIZE_NORMAL cl entnum = .ok (cl1, some i))
    (hle : le.inuse = false) :
    ∀ k, ((k < (setLE cl1 i le).numLEs ∧ ((setLE cl1 i le).LEs k).inuse = true) ↔
        (k < cl.numLEs ∧ (cl.LEs k).inuse = true)) ∧
      ((cl.LEs k).inuse = true → k < cl.numLEs → (setLE cl1 i le).LEs k = cl.LEs k) := by
  obtain ⟨i', hi', -, hother, -, hslot⟩ := LE_Add_ok _ _ _ _ _ _ h
  have hii : i = i' := Option.some.inj hi'
  subst hii
  intro k
  have hnum : (setLE cl1 i le).numLEs = cl1.numLEs := rfl
  by_cases hki : k = i
  · subst hki
    rw [setLE_same, hle]
    refine ⟨⟨fun hk => absurd hk.2 (by decide), fun hk => ?_⟩, fun hu hk => ?_⟩
    · rcases hslot with ⟨-, hfree, -⟩ | ⟨hlast, -⟩
      · rw [hfree] at hk
        exact absurd hk.2 (by decide)
      · omega
    · rcases hslot with ⟨-, hfree, -⟩ | ⟨hlast, -⟩
      · rw [hfree] at hu
        exact absurd hu (by decide)
      · omega
  · rw [setLE_other _ _ _ _ hki, hother k hki, hnum]
    refine ⟨?_, fun _ _ => rfl⟩
    rcases hslot with ⟨-, -, hn⟩ | ⟨hlast, hn⟩
    · rw [hn]
    · rw [hn]
      constructor
      · rintro ⟨h1, h2⟩
        exact ⟨by omega, h2⟩
      · rintro ⟨h1, h2⟩
        exact ⟨by omega, h2⟩

theorem LE_AddProjectile_failed (env : client_t) (MAX_EDICTS : Nat)
    (cl cl1 : clientBattleScape_t) (i : Nat) (fd : fireDef_t) (flags : Nat)
    (muzzle impact : vec3_t) (normal : Nat) (leVictim : Option Nat)
    (hadd : LE_Add MAX_EDICTS env.ACTOR_SIZE_NORMAL cl 0 = .ok (cl1, some i))
    (hspawn : env.CL_ParticleSpawn fd.projectile muzzle none none = none) :
    LE_AddProjectile env MAX_EDICTS cl fd flags muzzle impact normal leVictim =
      .ok (setLE cl1 i { cl1.LEs i with invis := decide (env.cl_leshowinvis = 0),
                                        ptl := none, inuse := false },
        [effect_t.CL_ParticleSpawn fd.projectile muzzle]) := by
  unfold LE_AddProjectile
  rw [hadd]
  dsimp only
  rw [hspawn]

theorem LE_AddGrenade_failed (env : client_t) (MAX_EDICTS : Nat)
    (cl cl1 : clientBattleScape_t) (i : Nat) (fd : fireDef_t) (flags : Nat)
    (muzzle v0 : vec3_t) (dt : Int) (leVictim : Option Nat)
    (hadd : LE_Add MAX_EDICTS env.ACTOR_SIZE_NORMAL cl 0 = .ok (cl1, some i))
    (hspawn : env.CL_ParticleSpawn fd.projectile muzzle (some v0)
      (some ⟨0, 0, -env.GRAVITY⟩) = none) :
    LE_AddGrenade env MAX_EDICTS cl fd flags muzzle v0 dt leVictim =
      .ok (setLE cl1 i { cl1.LEs i with invis := decide (env.cl_leshowinvis = 0),
                                        ptl := none, inuse := false },
        [effect_t.CL_ParticleSpawn fd.projectile muzzle]) := by
  unfold LE_AddGrenade
  rw [hadd]
  dsimp only
  rw [hspawn]

/-- C23: when the pool has a free slot or room to grow, so that `LE_Add` returns, and the
particle of the projectile does not spawn (`CL_ParticleSpawn` returns `NULL`), the calls
`LE_AddProjectile` and `LE_AddGrenade` return without an error; the request for that
particle is the only request they make (no sound, no impact particle, no body hit); and
the slot they took has no think function, no particle and `inuse = false`, so that the
entities in use and their records are the same as before the call. -/
theorem C23_failed_spawn (env : client_t) (MAX_EDICTS : Nat) (cl : clientBattleScape_t)
    (fd : fireDef_t) (flags : Nat) (muzzle impact v0 : vec3_t) (normal : Nat) (dt : Int)
    (leVictim : Option Nat)
    (hroom : (∃ k, k < cl.numLEs ∧ (cl.LEs k).inuse = false) ∨ cl.numLEs < MAX_EDICTS) :
    (env.CL_ParticleSpawn fd.projectile muzzle none none = none →
      ∃ cl' i, LE_AddProjectile env MAX_EDICTS cl fd flags muzzle impact normal leVictim =
          .ok (cl', [effect_t.CL_ParticleSpawn fd.projectile muzzle]) ∧
        (cl'.LEs i).inuse = false ∧ (cl'.LEs i).think = none ∧ (cl'.LEs i).ptl = none ∧
        (∃ cl1, LE_Add MAX_EDICTS env.ACTOR_SIZE_NORMAL cl 0 = .ok (cl1, some i)) ∧
        ∀ k, ((k < cl'.numLEs ∧ (cl'.LEs k).inuse = true) ↔
            (k < cl.numLEs ∧ (cl.LEs k).inuse = true)) ∧
          ((cl.LEs k).inuse = true → k < cl.numLEs → cl'.LEs k = cl.LEs k)) ∧
    (env.CL_ParticleSpawn fd.projectile muzzle (some v0) (some ⟨0, 0, -env.GRAVITY⟩) = none →
      ∃ cl' i, LE_AddGrenade env MAX_EDICTS cl fd flags muzzle v0 dt leVictim =
          .ok (cl', [effect_t.CL_ParticleSpawn fd.projectile muzzle]) ∧
        (cl'.LEs i).inuse = false ∧ (cl'.LEs i).think = none ∧ (cl'.LEs i).ptl = none ∧
        (∃ cl1, LE_Add MAX_EDICTS env.ACTOR_SIZE_NORMAL cl 0 = .ok (cl1, some i)) ∧
        ∀ k, ((k < cl'.numLEs ∧ (cl'.LEs k).inuse = true) ↔
            (k < cl.numLEs ∧ (cl.LEs k).inuse = true)) ∧
          ((cl.LEs k).inuse = true → k < cl.numLEs → cl'.LEs k = cl.LEs k)) := by
  obtain ⟨cl1, i, hadd⟩ := LE_Add_room MAX_EDICTS env.ACTOR_SIZE_NORMAL cl 0 hroom
  obtain ⟨i', hi', hfresh, -, -, -⟩ := LE_Add_ok _ _ _ _ _ _ hadd
  have hii : i = i' := Option.some.inj hi'
  subst hii
  have hthink : (cl1.LEs i).think = none := by
    rw [hfresh]
    rfl
  constructor
  · intro hspawn
    refine ⟨_, i, LE_AddProjectile_failed env MAX_EDICTS cl cl1 i fd flags muzzle impact
      normal leVictim hadd hspawn, ?_, ?_, ?_, ⟨cl1, hadd⟩,
      LE_Add_given_up _ _ cl cl1 0 i _ hadd rfl⟩
    · rw [setLE_same]
    · rw [setLE_same]
      exact hthink
    · rw [setLE_same]
  · intro hspawn
    refine ⟨_, i, LE_AddGrenade_failed env MAX_EDICTS cl cl1 i fd flags muzzle v0 dt
      leVictim hadd hspawn, ?_, ?_, ?_, ⟨cl1, hadd⟩,
      LE_Add_given_up _ _ cl cl1 0 i _ hadd rfl⟩
    · rw [setLE_same]
    · rw [setLE_same]
      exact hthink
    · rw [setLE_same]

/-- Witness of C23: a shot without a projectile particle into the pool with the free slot
1; the sample client spawns no particle without a name. -/
theorem C23_failed_spawn_witness :
    ((∃ k, k < poolFree.numLEs ∧ (poolFree.LEs k).inuse = false) ∨ poolFree.numLEs < 4) ∧
    stubClient.CL_ParticleSpawn blankShot.projectile vec3_origin none none = none ∧
    ∃ cl' i, LE_AddProjectile stubClient 4 poolFree blankShot 2 vec3_origin ⟨100, 0, 0⟩ 0
        (some 0) = .ok (cl', [effect_t.CL_ParticleSpawn blankShot.projectile vec3_origin]) ∧
      (cl'.LEs i).inuse = false ∧ (cl'.LEs i).think = none ∧ (cl'.LEs i).ptl = none ∧
      (∃ cl1, LE_Add 4 stubClient.ACTOR_SIZE_NORMAL poolFree 0 = .ok (cl1, some i)) ∧
      ∀ k, ((k < cl'.numLEs ∧ (cl'.LEs k).inuse = true) ↔
          (k < poolFree.numLEs ∧ (poolFree.LEs k).inuse = true)) ∧
        ((poolFree.LEs k).inuse = true → k < poolFree.numLEs →
          cl'.LEs k = poolFree.LEs k) :=
  ⟨Or.inr (by decide), rfl,
    (C23_failed_spawn stubClient 4 poolFree blankShot 2 vec3_origin ⟨100, 0, 0⟩ vec3_origin
      0 0 (some 0) (Or.inr (by decide))).1 rfl⟩

/-! ## Projectiles of infinite speed (C22) -/

theorem LE_AddProjectile_hitscan (env : client_t) (MAX_EDICTS : Nat)
    (cl cl1 : clientBattleScape_t) (i : Nat) (fd : fireDef_t) (flags : Nat)
    (muzzle impact : vec3_t) (normal : Nat) (leVictim : Option Nat) (ptl : ptl_t)
    (hadd : LE_Add MAX_EDICTS env.ACTOR_SIZE_NORMAL cl 0 = .ok (cl1, some i))
    (hspawn : env.CL_ParticleSpawn fd.projectile muzzle none none = some ptl)
    (hspeed : fd.speed = 0) :
    LE_AddProjectile env MAX_EDICTS cl fd flags muzzle impact normal leVictim =
      .ok (setLE cl1 i (LE_AddProjectile.instant env (cl1.LEs i) fd muzzle impact normal ptl),
        effect_t.CL_ParticleSpawn fd.projectile muzzle ::
          LE_AddProjectile.hitscan env
            (setLE cl1 i (LE_AddProjectile.instant env (cl1.LEs i) fd muzzle impact normal ptl))
            (LE_AddProjectile.instant env (cl1.LEs i) fd muzzle impact normal ptl)
            fd flags impact leVictim) := by
  unfold LE_AddProjectile
  rw [hadd]
  dsimp only
  rw [hspawn]
  dsimp only
  rw [if_pos hspeed]
  rfl

theorem flags_body (flags a b : Nat) (h : flags &&& b ≠ 0) : flags &&& (a ||| b) ≠ 0 := by
  intro h0
  apply h
  apply Nat.eq_of_testBit_eq
  intro k
  have := congrArg (fun n => n.testBit k) h0
  simp only [Nat.testBit_and, Nat.testBit_or, Nat.zero_testBit] at this ⊢
  cases hx : flags.testBit k <;> cases hb : b.testBit k <;> simp_all

/-- The requests for a projectile of infinite speed with the flag `SF_BODY`. -/
theorem hitscan_body (env : client_t) (cl : clientBattleScape_t) (le : le_t) (fd : fireDef_t)
    (flags : Nat) (impact : vec3_t) (leVictim : Option Nat)
    (hflags : flags &&& env.SF_BODY ≠ 0) :
    LE_AddProjectile.hitscan env cl le fd flags impact leVictim =
      (if fd.hitBodySound ≠ "" then [effect_t.S_PlaySample le.origin fd.hitBodySound]
        else []) ++
      (if fd.hitBody ≠ "" then [effect_t.CL_ParticleSpawn fd.hitBody impact] else []) ++
      (match leVictim with
        | some victim =>
          (if fd.dmgtype ≠ env.damStunGas then LE_ActorBodyHit cl victim impact le.dir
            else []) ++
          [effect_t.CL_ActorPlaySound victim env.SND_HURT]
        | none => []) := by
  unfold LE_AddProjectile.hitscan
  rw [if_pos (Or.inl (flags_body flags env.SF_IMPACT env.SF_BODY hflags)), if_pos hflags]

/-- The requests for a projectile of infinite speed without the flag `SF_BODY`: the sound
and the particle of the impact at most. -/
theorem hitscan_no_body (env : client_t) (cl : clientBattleScape_t) (le : le_t)
    (fd : fireDef_t) (flags : Nat) (impact : vec3_t) (leVictim : Option Nat)
    (hflags : flags &&& env.SF_BODY = 0) :
    LE_AddProjectile.hitscan env cl le fd flags impact leVictim =
      if flags &&& (env.SF_IMPACT ||| env.SF_BODY) ≠ 0 ∨ (fd.splrad ≠ 0 ∧ fd.bounce = 0) then
        (if fd.impactSound ≠ "" then [effect_t.S_PlaySample le.origin fd.impactSound]
          else []) ++
        (if fd.impact ≠ "" then [effect_t.CL_ParticleSpawn fd.impact impact] else [])
      else [] := by
  unfold LE_AddProjectile.hitscan
  rw [if_neg (not_not.mpr hflags)]

theorem bodyHits_LE_ActorBodyHit (cl : clientBattleScape_t) (victim : Nat) (impact : vec3_t)
    (normal : Nat) : bodyHits (LE_ActorBodyHit cl victim impact normal) = 1 := by
  unfold LE_ActorBodyHit bodyHits
  cases (cl.LEs victim).hitParticle with
  | none => rfl
  | some particle =>
    by_cases hp : particle = ""
    · simp [hp, effect_t.isBodyHit]
    · simp [hp, effect_t.isBodyHit]

theorem LE_Add_poolFree_zero :
    LE_Add 4 stubClient.ACTOR_SIZE_NORMAL poolFree 0 =
      .ok (setLE poolFree 1 (freshLE 1 0), some 1) := by
  simp [LE_Add, LE_Add.scan, LE_GetNext, LE_Add.init, poolFree, usedLE, freshLE, stubClient]

/-- C22, counterexample: a projectile of infinite speed fired from (0, 0, 0) to
(100, 0, 0) with the flag `SF_BODY`, a particle and a sound for the hit body and a victim,
but with the damage type stun gas, makes no call of `LE_ActorBodyHit`; and the same shot
of the rifle without any flag requests nothing but the particle of the projectile. -/
theorem C22_counterexample :
    (∃ cl', LE_AddProjectile stubClient 4 poolFree stunShot 2 vec3_origin ⟨100, 0, 0⟩ 0
        (some 0) =
      .ok (cl', [effect_t.CL_ParticleSpawn "bullet" vec3_origin,
        effect_t.S_PlaySample vec3_origin "hit",
        effect_t.CL_ParticleSpawn "blood" ⟨100, 0, 0⟩,
        effect_t.CL_ActorPlaySound 0 3])) ∧
    (stunShot.speed = 0 ∧ stunShot.hitBody ≠ "" ∧ stunShot.hitBodySound ≠ "" ∧
      2 &&& stubClient.SF_BODY ≠ 0) ∧
    (∃ cl', LE_AddProjectile stubClient 4 poolFree rifleShot 0 vec3_origin ⟨100, 0, 0⟩ 0
        (some 0) = .ok (cl', [effect_t.CL_ParticleSpawn "bullet" vec3_origin])) := by
  have h1 := LE_AddProjectile_hitscan stubClient 4 poolFree _ 1 stunShot 2 vec3_origin
    ⟨100, 0, 0⟩ 0 (some 0) bulletPtl LE_Add_poolFree_zero rfl rfl
  rw [hitscan_body _ _ _ _ _ _ _ (by decide)] at h1
  have h2 := LE_AddProjectile_hitscan stubClient 4 poolFree _ 1 rifleShot 0 vec3_origin
    ⟨100, 0, 0⟩ 0 (some 0) bulletPtl LE_Add_poolFree_zero rfl rfl
  rw [hitscan_no_body _ _ _ _ _ _ _ (by decide),
    if_neg (by simp [rifleShot, stubClient])] at h2
  exact ⟨⟨_, h1⟩, ⟨rfl, by decide, by decide, by decide⟩, ⟨_, h2⟩⟩

/-- C22: a call of `LE_AddProjectile` for which `LE_Add` returns a slot, with a fire
definition of the speed 0 and a projectile particle that spawns, returns with the
projectile entity `inuse = false` and without a think function. With the flag `SF_BODY`,
a particle and a sound for the hit body and a victim it requests, after the particle of
the projectile: the sound of the hit body (at the origin of the new entity, the zero
vector), the particle of the hit body at the impact, one call of `LE_ActorBodyHit` for the
victim unless the damage type is stun gas, and the hurt sound of the victim. Without the
flag `SF_BODY` it makes no call of `LE_ActorBodyHit` and requests no hurt sound. -/
theorem C22_hitscan (env : client_t) (MAX_EDICTS : Nat) (cl cl1 : clientBattleScape_t)
    (i : Nat) (fd : fireDef_t) (flags : Nat) (muzzle impact : vec3_t) (normal : Nat)
    (leVictim : Option Nat) (ptl : ptl_t)
    (hadd : LE_Add MAX_EDICTS env.ACTOR_SIZE_NORMAL cl 0 = .ok (cl1, some i))
    (hspawn : env.CL_ParticleSpawn fd.projectile muzzle none none = some ptl)
    (hspeed : fd.speed = 0) :
    ∃ cl' le', le' = LE_AddProjectile.instant env (cl1.LEs i) fd muzzle impact normal ptl ∧
      cl' = setLE cl1 i le' ∧
      LE_AddProjectile env MAX_EDICTS cl fd flags muzzle impact normal leVictim =
        .ok (cl', effect_t.CL_ParticleSpawn fd.projectile muzzle ::
          LE_AddProjectile.hitscan env cl' le' fd flags impact leVictim) ∧
      cl'.LEs i = le' ∧ le'.inuse = false ∧ le'.think = none ∧
      le'.origin = vec3_origin ∧ le'.dir = normal ∧
      (∀ victim, flags &&& env.SF_BODY ≠ 0 → fd.hitBody ≠ "" → fd.hitBodySound ≠ "" →
        leVictim = some victim →
        LE_AddProjectile.hitscan env cl' le' fd flags impact leVictim =
          [effect_t.S_PlaySample vec3_origin fd.hitBodySound,
            effect_t.CL_ParticleSpawn fd.hitBody impact] ++
          (if fd.dmgtype ≠ env.damStunGas then LE_ActorBodyHit cl' victim impact normal
            else []) ++
          [effect_t.CL_ActorPlaySound victim env.SND_HURT] ∧
        bodyHits (LE_AddProjectile.hitscan env cl' le' fd flags impact leVictim) =
          (if fd.dmgtype ≠ env.damStunGas then 1 else 0)) ∧
      (flags &&& env.SF_BODY = 0 →
        bodyHits (LE_AddProjectile.hitscan env cl' le' fd flags impact leVictim) = 0 ∧
        ∀ v t, effect_t.CL_ActorPlaySound v t ∉
          LE_AddProjectile.hitscan env cl' le' fd flags impact leVictim) := by
  obtain ⟨i', hi', hfresh, -, -, -⟩ := LE_Add_ok _ _ _ _ _ _ hadd
  have hii : i = i' := Option.some.inj hi'
  subst hii
  have horigin : (LE_AddProjectile.instant env (cl1.LEs i) fd muzzle impact normal ptl).origin =
      vec3_origin := by
    show (cl1.LEs i).origin = vec3_origin
    rw [hfresh]
    rfl
  have hthink : (LE_AddProjectile.instant env (cl1.LEs i) fd muzzle impact normal ptl).think =
      none := by
    show (cl1.LEs i).think = none
    rw [hfresh]
    rfl
  refine ⟨_, _, rfl, rfl, LE_AddProjectile_hitscan env MAX_EDICTS cl cl1 i fd flags muzzle
    impact normal leVictim ptl hadd hspawn hspeed, setLE_same _ _ _, rfl, hthink, horigin,
    rfl, fun victim hflags hbody hsound hvictim => ?_, fun hflags => ?_⟩
  · have heq : LE_AddProjectile.hitscan env
        (setLE cl1 i (LE_AddProjectile.instant env (cl1.LEs i) fd muzzle impact normal ptl))
        (LE_AddProjectile.instant env (cl1.LEs i) fd muzzle impact normal ptl)
        fd flags impact leVictim =
        [effect_t.S_PlaySample vec3_origin fd.hitBodySound,
          effect_t.CL_ParticleSpawn fd.hitBody impact] ++
        (if fd.dmgtype ≠ env.damStunGas then
          LE_ActorBodyHit (setLE cl1 i
            (LE_AddProjectile.instant env (cl1.LEs i) fd muzzle impact normal ptl))
            victim impact normal
          else []) ++
        [effect_t.CL_ActorPlaySound victim env.SND_HURT] := by
      rw [hitscan_body _ _ _ _ _ _ _ hflags, if_pos hsound, if_pos hbody, hvictim, horigin]
      simp only [List.append_assoc, List.singleton_append, List.cons_append, List.nil_append]
      rfl
    refine ⟨heq, ?_⟩
    rw [heq]
    by_cases hd : fd.dmgtype ≠ env.damStunGas
    · rw [if_pos hd, if_pos hd]
      have h1 := bodyHits_LE_ActorBodyHit (setLE cl1 i
        (LE_AddProjectile.instant env (cl1.LEs i) fd muzzle impact normal ptl))
        victim impact normal
      unfold bodyHits at h1 ⊢
      simp only [List.countP_append, List.countP_cons, List.countP_nil, h1,
        effect_t.isBodyHit]
      simp
    · rw [if_neg hd, if_neg hd]
      simp [bodyHits, effect_t.isBodyHit]
  · rw [hitscan_no_body _ _ _ _ _ _ _ hflags]
    constructor
    · unfold bodyHits
      split_ifs <;> simp [effect_t.isBodyHit]
    · intro v t
      split_ifs <;> simp

/-- Witness of C22: the rifle shot from (0, 0, 0) to (100, 0, 0) with the flag `SF_BODY` at
the actor of slot 0, into the pool with the free slot 1. -/
theorem C22_hitscan_witness :
    ∃ cl', LE_AddProjectile stubClient 4 poolFree rifleShot 2 vec3_origin ⟨100, 0, 0⟩ 0
        (some 0) =
      .ok (cl', [effect_t.CL_ParticleSpawn "bullet" vec3_origin,
        effect_t.S_PlaySample vec3_origin "hit",
        effect_t.CL_ParticleSpawn "blood" ⟨100, 0, 0⟩,
        effect_t.LE_ActorBodyHit 0 ⟨100, 0, 0⟩ 0,
        effect_t.CL_ActorPlaySound 0 3]) ∧
      (cl'.LEs 1).inuse = false ∧ (cl'.LEs 1).think = none := by
  obtain ⟨cl', le', hle, hcl, hcall, hslot, hu, ht, -, -, hbody, -⟩ :=
    C22_hitscan stubClient 4 poolFree (setLE poolFree 1 (freshLE 1 0)) 1 rifleShot 2
      vec3_origin ⟨100, 0, 0⟩ 0 (some 0) bulletPtl LE_Add_poolFree_zero rfl rfl
  refine ⟨cl', ?_, by rw [hslot]; exact hu, by rw [hslot]; exact ht⟩
  rw [hcall, (hbody 0 (by decide) (by decide) (by decide) rfl).1, hcl]
  rfl

/-! ## The end of a projectile (C24) -/

theorem LET_Projectile_outside (env : client_t) (cl : clientBattleScape_t) (i : Nat)
    (p : ptl_t) (ht : cl.time < (cl.LEs i).endTime) (hp : (cl.LEs i).ptl = some p)
    (hout : env.CL_OutsideMap p.s (env.UNIT_SIZE * 10) = true) :
    LET_Projectile env cl i =
      .ok (setLE cl i { cl.LEs i with endTime := cl.time, inuse := false },
        [effect_t.CL_ParticleFree (some p)]) := by
  unfold LET_Projectile
  dsimp only
  rw [if_neg (not_le.mpr ht), hp]
  dsimp only
  rw [if_pos hout]

theorem LET_Projectile_inside (env : client_t) (cl : clientBattleScape_t) (i : Nat)
    (p : ptl_t) (ht : cl.time < (cl.LEs i).endTime) (hp : (cl.LEs i).ptl = some p)
    (hin : env.CL_OutsideMap p.s (env.UNIT_SIZE * 10) = false) :
    LET_Projectile env cl i = .ok (cl, []) := by
  unfold LET_Projectile
  dsimp only
  rw [if_neg (not_le.mpr ht), hp]
  dsimp only
  rw [if_neg (by rw [hin]; decide)]

theorem LET_Projectile_end (env : client_t) (cl : clientBattleScape_t) (i : Nat)
    (ht : (cl.LEs i).endTime ≤ cl.time) :
    LET_Projectile env cl i =
      match LET_Projectile.visual env { cl.LEs i with inuse := false } with
      | .error msg => .error msg
      | .ok (le1, impact, fx1) =>
        match LET_Projectile.sound le1 impact with
        | .error msg => .error msg
        | .ok fx2 =>
          match LET_Projectile.body env (setLE cl i le1) le1 impact with
          | .error msg => .error msg
          | .ok fx3 =>
            .ok (setLE cl i le1,
              effect_t.CL_ParticleFree (cl.LEs i).ptl :: (fx1 ++ fx2 ++ fx3)) := by
  unfold LET_Projectile
  dsimp only
  rw [if_pos ht]

/-- The part of `LET_Projectile` for `ref1`, for a projectile with a particle: with the
reference set the impact particle is requested at the place of the projectile particle,
which is the impact location; else nothing is requested and the impact location is the
origin of the entity. The record stays out of use. -/
theorem LET_Projectile_visual (env : client_t) (le : le_t) (p : ptl_t)
    (hu : le.inuse = false) (hp : le.ptl = some p)
    (hspawn : ∀ name, refSet le.ref1 = some name →
      env.CL_ParticleSpawn name p.s (some (env.bytedirs le.dir)) none ≠ none) :
    ∃ le1, LET_Projectile.visual env le =
        .ok (le1, (match refSet le.ref1 with
            | some _ => p.s
            | none => le.origin),
          (match refSet le.ref1 with
            | some name => [effect_t.CL_ParticleSpawn name p.s]
            | none => [])) ∧
      le1.inuse = false ∧ le1.ref2 = le.ref2 ∧ le1.ref3 = le.ref3 ∧ le1.fd = le.fd ∧
      le1.dir = le.dir := by
  unfold LET_Projectile.visual
  cases hr : le.ref1 with
  | none => exact ⟨le, rfl, hu, rfl, rfl, rfl, rfl⟩
  | some name =>
    by_cases hn : name = ""
    · subst hn
      exact ⟨le, rfl, hu, rfl, rfl, rfl, rfl⟩
    · have hset : refSet (some name) = some name := by
        unfold refSet
        simp [hn]
      simp only [hn, ne_eq, not_false_eq_true, if_true, hp, hset]
      cases hq : env.CL_ParticleSpawn name p.s (some (env.bytedirs le.dir)) none with
      | none =>
        rw [hr] at hspawn
        exact absurd hq (hspawn name hset)
      | some q => exact ⟨_, rfl, hu, rfl, rfl, rfl, rfl⟩

theorem LET_Projectile_sound (le : le_t) (impact : vec3_t) (fd : fireDef_t)
    (hfd : le.fd = some fd) :
    LET_Projectile.sound le impact =
      .ok (match refSet le.ref2 with
        | some name => [effect_t.S_PlaySample impact name]
        | none => []) := by
  unfold LET_Projectile.sound
  cases hr : le.ref2 with
  | none => rfl
  | some name =>
    by_cases hn : name = ""
    · subst hn
      rfl
    · have hset : refSet (some name) = some name := by
        unfold refSet
        simp [hn]
      simp only [hn, ne_eq, not_false_eq_true, if_true, hfd, hset]

theorem LET_Projectile_body (env : client_t) (cl : clientBattleScape_t) (le : le_t)
    (impact : vec3_t) (fd : fireDef_t) (hfd : le.fd = some fd) :
    LET_Projectile.body env cl le impact =
      .ok (match le.ref3 with
        | some victim =>
          (if fd.dmgtype ≠ env.damStunGas then LE_ActorBodyHit cl victim impact le.dir
            else []) ++
          [effect_t.CL_ActorPlaySound victim env.SND_HURT]
        | none => []) := by
  unfold LET_Projectile.body
  cases hr : le.ref3 with
  | none => rfl
  | some victim => simp only [hfd]

/-- Frames for an entity that is not in use do nothing. -/
theorem frames_unused
    (call : think_t → clientBattleScape_t → Nat →
      Except String (clientBattleScape_t × List effect_t))
    (i : Nat) (times : List Int) :
    ∀ cl : clientBattleScape_t, (cl.LEs i).inuse = false →
      ∃ cl', LE_ExecuteThink.frames call cl i times = .ok (cl', []) ∧ cl'.LEs = cl.LEs := by
  induction times with
  | nil => exact fun cl _ => ⟨cl, rfl, rfl⟩
  | cons t ts ih =>
    intro cl hu
    have hexec : LE_ExecuteThink call { cl with time := t } i =
        .ok ({ cl with time := t }, []) := by
      rw [LE_ExecuteThink_eq]
      have ht : (({ cl with time := t } : clientBattleScape_t).LEs i).inuse = false := hu
      rw [ht]
      rfl
    obtain ⟨cl', h1, h2⟩ := ih { cl with time := t } hu
    refine ⟨cl', ?_, h2⟩
    rw [frames_cons, hexec]
    simp only
    rw [h1]
    rfl

theorem poolShell_outside :
    stubClient.CL_OutsideMap (⟨5000, 0, 0⟩ : vec3_t) (stubClient.UNIT_SIZE * 10) = true := by
  show decide ((4096 : ℚ) < |(5000 : ℚ)|) = true
  rw [decide_eq_true_iff, abs_of_nonneg (by norm_num)]
  norm_num

/-- C24, counterexample: the sample projectile at the client time 400, before its end time
1000, with its particle outside the map. `LET_Projectile` frees the particle, sets the end
time to the client time and `inuse = false`, and requests neither the impact particle
"explosion" nor the sound "boom" nor anything for the victim. -/
theorem C24_counterexample :
    LET_Projectile stubClient (poolShell 400) 0 =
      .ok (setLE (poolShell 400) 0 { shell with endTime := 400, inuse := false },
        [effect_t.CL_ParticleFree shell.ptl]) ∧
    ((poolShell 400).LEs 0).ref1 = some "explosion" ∧
    ((poolShell 400).LEs 0).ref2 = some "boom" ∧ ((poolShell 400).LEs 0).ref3 = some 1 ∧
    (poolShell 400).time < ((poolShell 400).LEs 0).endTime :=
  ⟨LET_Projectile_outside stubClient (poolShell 400) 0 { bulletPtl with s := ⟨5000, 0, 0⟩ }
    (by decide) rfl poolShell_outside, rfl, rfl, rfl, by decide⟩

/-- C24: for a projectile with its particle and its fire definition, `LET_Projectile`
resolves the impact only at `cl.time >= endTime`: it frees the particle, sets
`inuse = false` and requests the impact particle `ref1` at the place of the projectile
particle, the sound `ref2` at the impact location and, for a victim `ref3`, one call of
`LE_ActorBodyHit` unless the damage type is stun gas and the hurt sound, each when set.
Before the end time a projectile outside the map is only given up: the particle is freed,
the end time becomes the client time and `inuse = false`, with no impact request; and a
projectile inside the map is left as it is, with no request. Once `inuse = false`,
`LE_ExecuteThink` runs no think function for the entity in any later frame, so the impact
is resolved at most once. -/
theorem C24_projectile_resolution (env : client_t) (cl : clientBattleScape_t) (i : Nat)
    (p : ptl_t) (fd : fireDef_t)
    (hp : (cl.LEs i).ptl = some p) (hfd : (cl.LEs i).fd = some fd) :
    ((cl.LEs i).endTime ≤ cl.time →
      (∀ name, refSet (cl.LEs i).ref1 = some name →
        env.CL_ParticleSpawn name p.s (some (env.bytedirs (cl.LEs i).dir)) none ≠ none) →
      ∃ cl' impact,
        impact = (match refSet (cl.LEs i).ref1 with
          | some _ => p.s
          | none => (cl.LEs i).origin) ∧
        LET_Projectile env cl i =
          .ok (cl', effect_t.CL_ParticleFree (some p) ::
            ((match refSet (cl.LEs i).ref1 with
                | some name => [effect_t.CL_ParticleSpawn name p.s]
                | none => []) ++
              (match refSet (cl.LEs i).ref2 with
                | some name => [effect_t.S_PlaySample impact name]
                | none => []) ++
              (match (cl.LEs i).ref3 with
                | some victim =>
                  (if fd.dmgtype ≠ env.damStunGas then
                    LE_ActorBodyHit cl' victim impact (cl.LEs i).dir
                    else []) ++
                  [effect_t.CL_ActorPlaySound victim env.SND_HURT]
                | none => []))) ∧
        (cl'.LEs i).inuse = false ∧ ∀ k, k ≠ i → cl'.LEs k = cl.LEs k) ∧
    (cl.time < (cl.LEs i).endTime → env.CL_OutsideMap p.s (env.UNIT_SIZE * 10) = true →
      ∃ cl', LET_Projectile env cl i = .ok (cl', [effect_t.CL_ParticleFree (some p)]) ∧
        (cl'.LEs i).inuse = false ∧ (cl'.LEs i).endTime = cl.time ∧
        ∀ k, k ≠ i → cl'.LEs k = cl.LEs k) ∧
    (cl.time < (cl.LEs i).endTime → env.CL_OutsideMap p.s (env.UNIT_SIZE * 10) = false →
      LET_Projectile env cl i = .ok (cl, [])) ∧
    (∀ (call : think_t → clientBattleScape_t → Nat →
        Except String (clientBattleScape_t × List effect_t))
      (c : clientBattleScape_t) (times : List Int), (c.LEs i).inuse = false →
      LE_ExecuteThink call c i = .ok (c, []) ∧
      ∃ c', LE_ExecuteThink.frames call c i times = .ok (c', []) ∧ c'.LEs = c.LEs) := by
  refine ⟨fun ht hspawn => ?_, fun ht hout => ?_, fun ht hin => ?_, fun call c times hu => ?_⟩
  · obtain ⟨le1, hv, hu1, h2, h3, h4, h5⟩ :=
      LET_Projectile_visual env { cl.LEs i with inuse := false } p rfl hp
        (fun name h => hspawn name h)
    have hfd1 : le1.fd = some fd := h4.trans hfd
    refine ⟨setLE cl i le1, _, rfl, ?_, ?_, fun k hk => setLE_other _ _ _ _ hk⟩
    · rw [LET_Projectile_end env cl i ht, hv]
      simp only
      rw [LET_Projectile_sound le1 _ fd hfd1, LET_Projectile_body env _ le1 _ fd hfd1]
      simp only
      rw [h2, h3, h5, hp]
    · rw [setLE_same]
      exact hu1
  · refine ⟨_, LET_Projectile_outside env cl i p ht hp hout, ?_, ?_,
      fun k hk => setLE_other _ _ _ _ hk⟩
    · rw [setLE_same]
    · rw [setLE_same]
  · exact LET_Projectile_inside env cl i p ht hp hin
  · refine ⟨?_, frames_unused call i times c hu⟩
    rw [LE_ExecuteThink_eq, hu]
    rfl

/-- Witness of C24: the sample projectile at its end time 1000 requests the particle
"explosion" and the sound "boom" at the place (5000, 0, 0) of its particle, one call of
`LE_ActorBodyHit` for the actor of slot 1 and the hurt sound of that actor. -/
theorem C24_projectile_resolution_witness :
    ∃ cl', LET_Projectile stubClient (poolShell 1000) 0 =
        .ok (cl', [effect_t.CL_ParticleFree shell.ptl,
          effect_t.CL_ParticleSpawn "explosion" ⟨5000, 0, 0⟩,
          effect_t.S_PlaySample ⟨5000, 0, 0⟩ "boom",
          effect_t.LE_ActorBodyHit 1 ⟨5000, 0, 0⟩ 5,
          effect_t.CL_ActorPlaySound 1 3]) ∧
      (cl'.LEs 0).inuse = false := by
  obtain ⟨cl', impact, himpact, hcall, hu, hother⟩ :=
    (C24_projectile_resolution stubClient (poolShell 1000) 0
      { bulletPtl with s := ⟨5000, 0, 0⟩ } rifleShot rfl rfl).1 (by decide)
      (fun name h => by
        have hname : name = "explosion" := (Option.some.inj h).symm
        rw [hname]
        exact fun hnone => Option.noConfusion hnone)
  refine ⟨cl', ?_, hu⟩
  have himp : impact = ⟨5000, 0, 0⟩ := himpact
  have hbody : LE_ActorBodyHit cl' 1 impact 5 =
      [effect_t.LE_ActorBodyHit 1 ⟨5000, 0, 0⟩ 5] := by
    unfold LE_ActorBodyHit
    rw [hother 1 (by decide), himp]
    rfl
  rw [hcall, himp]
  rw [himp] at hbody
  show Except.ok (cl', effect_t.CL_ParticleFree (some { bulletPtl with s := ⟨5000, 0, 0⟩ }) ::
    ([effect_t.CL_ParticleSpawn "explosion" ⟨5000, 0, 0⟩] ++
      [effect_t.S_PlaySample ⟨5000, 0, 0⟩ "boom"] ++
      (LE_ActorBodyHit cl' 1 ⟨5000, 0, 0⟩ 5 ++ [effect_t.CL_ActorPlaySound 1 3]))) = _
  rw [hbody]
  rfl

end UFO
